import Mathlib

/-!
# The byte-code interpreter of `core/vm/vm.go`

A shallow embedding of `Vm.Run` and `Vm.calculateGasAndSize`.

* `big.Int` values held on the stack are natural numbers, costs are integers
  (the memory fee is a difference), the frame's gas is a natural number.
* The interpreter loop is the function `step`; `Run` iterates it with an
  explicit bound on the number of iterations and then applies the deferred
  epilogue of `Run`.
* Code of the repository that `vm.go` calls but that is not among the sources
  (stack, memory, `baseCheck`, `isDynamic`, jump destination analysis, the
  constants of package `params`) is modelled from the specification; each such
  definition says so.  Numeric constants and the `_baseCheck` table are the
  fields of `Params`, over which the theorems quantify.
-/

namespace Vm

/-! ## Words -/

/-- The modulus of word arithmetic, `Pow256` in the source. -/
def Pow256 : Nat := 2 ^ 256

/-- Modelled from the spec: `U256` of common.go is not among the sources;
"All arithmetic results are reduced modulo 2^256". -/
def U256 (x : Int) : Nat := (x % (Pow256 : Int)).toNat

/-- Modelled from the spec: `S256` of common.go is not among the sources;
"Signed operations interpret it as two's-complement". Values below `2^255`
are kept, the others are shifted down by `2^256`. -/
def S256 (x : Int) : Int := if x < 2 ^ 255 then x else x - 2 ^ 256

/-- The conversion `(*big.Int).Uint64()` of a non-negative value: the low 64 bits. -/
def Uint64 (x : Nat) : Nat := x % 2 ^ 64

/-- The conversion `(*big.Int).Int64()` of a non-negative value: the low 64 bits
read as a signed number. -/
def Int64 (x : Nat) : Int :=
  if x % 2 ^ 64 < 2 ^ 63 then ((x % 2 ^ 64 : Nat) : Int) else ((x % 2 ^ 64 : Nat) : Int) - 2 ^ 64

/-- The base-256 digits of `x` put in front of `acc`, most significant first;
`fuel` bounds the number of digits. -/
def bytesAux : (fuel : Nat) → (x : Nat) → (acc : List Nat) → List Nat
  | 0, _, acc => acc
  | fuel + 1, x, acc => if x = 0 then acc else bytesAux fuel (x / 256) (x % 256 :: acc)

/-- The minimal big-endian encoding `x.Bytes()`. -/
def Bytes (x : Nat) : List Nat := bytesAux x x []

/-- Number of bytes of the minimal big-endian encoding, `len(x.Bytes())`. -/
def byteLen (x : Nat) : Nat := (Bytes x).length

/-- Big-endian bytes to a number, `common.Bytes2Big` / `common.BigD`. -/
def Bytes2Big (bs : List Nat) : Nat := bs.foldl (fun acc b => acc * 256 + b) 0

/-- Modelled from the spec: `common.LeftPadBytes` is not among the sources;
pads with zero bytes on the left up to length `l`. -/
def LeftPadBytes (bs : List Nat) (l : Nat) : List Nat :=
  List.replicate (l - bs.length) 0 ++ bs

/-- Modelled from the spec: `common.RightPadBytes` is not among the sources;
pads with zero bytes on the right up to length `l`. -/
def RightPadBytes (bs : List Nat) (l : Nat) : List Nat :=
  bs ++ List.replicate (l - bs.length) 0

/-- The conversion `common.BigToHash`: the low 32 bytes. -/
def BigToHash (x : Nat) : Nat := x % 2 ^ 256

/-- The conversion `common.BigToAddress`: the low 20 bytes. -/
def BigToAddress (x : Nat) : Nat := x % 2 ^ 160

/-- Modelled from the spec: `getData` of common.go is not among the sources;
"out-of-range bytes read as zero". -/
def getData (data : List Nat) (start size : Nat) : List Nat :=
  (List.range size).map (fun i => data.getD (start + i) 0)

/-! ## Opcodes -/

/-- The opcodes dispatched by the `switch` of `Vm.Run`. `PUSH i`, `DUP i`,
`SWAP i` stand for `PUSH(i+1)`, `DUP(i+1)`, `SWAP(i+1)` and `LOG i` for `LOGi`;
`INVALID b` is a byte that is no opcode. -/
inductive OpCode where
  | STOP | ADD | MUL | SUB | DIV | SDIV | MOD | SMOD | ADDMOD | MULMOD | EXP | SIGNEXTEND
  | LT | GT | SLT | SGT | EQ | ISZERO | AND | OR | XOR | NOT | BYTE
  | SHA3
  | ADDRESS | BALANCE | ORIGIN | CALLER | CALLVALUE | CALLDATALOAD | CALLDATASIZE
  | CALLDATACOPY | CODESIZE | CODECOPY | GASPRICE | EXTCODESIZE | EXTCODECOPY
  | BLOCKHASH | COINBASE | TIMESTAMP | NUMBER | DIFFICULTY | GASLIMIT
  | POP | MLOAD | MSTORE | MSTORE8 | SLOAD | SSTORE | JUMP | JUMPI | PC | MSIZE | GAS | JUMPDEST
  | PUSH (i : Fin 32) | DUP (i : Fin 16) | SWAP (i : Fin 16) | LOG (i : Fin 5)
  | CREATE | CALL | CALLCODE | RETURN | SUICIDE
  | INVALID (b : Nat)

open OpCode

/-- Modelled from the spec: the numbering of opcodes.go is not among the sources;
"PUSHn (0x60..0x7F)", "JUMPDEST (opcode 0x5B)" and the scenarios S1 to S5 fix
`00 = STOP`, `01 = ADD`, `55 = SSTORE`, `56 = JUMP`; the other bytes follow the
usual numbering of the instruction set. -/
def byteToOp (b : Nat) : OpCode :=
  if h : 0x60 ≤ b ∧ b ≤ 0x7f then PUSH ⟨b - 0x60, by omega⟩
  else if h : 0x80 ≤ b ∧ b ≤ 0x8f then DUP ⟨b - 0x80, by omega⟩
  else if h : 0x90 ≤ b ∧ b ≤ 0x9f then SWAP ⟨b - 0x90, by omega⟩
  else if h : 0xa0 ≤ b ∧ b ≤ 0xa4 then LOG ⟨b - 0xa0, by omega⟩
  else if b = 0x00 then STOP else if b = 0x01 then ADD else if b = 0x02 then MUL
  else if b = 0x03 then SUB else if b = 0x04 then DIV else if b = 0x05 then SDIV
  else if b = 0x06 then MOD else if b = 0x07 then SMOD else if b = 0x08 then ADDMOD
  else if b = 0x09 then MULMOD else if b = 0x0a then EXP else if b = 0x0b then SIGNEXTEND
  else if b = 0x10 then LT else if b = 0x11 then GT else if b = 0x12 then SLT
  else if b = 0x13 then SGT else if b = 0x14 then EQ else if b = 0x15 then ISZERO
  else if b = 0x16 then AND else if b = 0x17 then OR else if b = 0x18 then XOR
  else if b = 0x19 then NOT else if b = 0x1a then BYTE else if b = 0x20 then SHA3
  else if b = 0x30 then ADDRESS else if b = 0x31 then BALANCE else if b = 0x32 then ORIGIN
  else if b = 0x33 then CALLER else if b = 0x34 then CALLVALUE
  else if b = 0x35 then CALLDATALOAD else if b = 0x36 then CALLDATASIZE
  else if b = 0x37 then CALLDATACOPY else if b = 0x38 then CODESIZE
  else if b = 0x39 then CODECOPY else if b = 0x3a then GASPRICE
  else if b = 0x3b then EXTCODESIZE else if b = 0x3c then EXTCODECOPY
  else if b = 0x40 then BLOCKHASH else if b = 0x41 then COINBASE
  else if b = 0x42 then TIMESTAMP else if b = 0x43 then NUMBER
  else if b = 0x44 then DIFFICULTY else if b = 0x45 then GASLIMIT
  else if b = 0x50 then POP else if b = 0x51 then MLOAD else if b = 0x52 then MSTORE
  else if b = 0x53 then MSTORE8 else if b = 0x54 then SLOAD else if b = 0x55 then SSTORE
  else if b = 0x56 then JUMP else if b = 0x57 then JUMPI else if b = 0x58 then PC
  else if b = 0x59 then MSIZE else if b = 0x5a then GAS else if b = 0x5b then JUMPDEST
  else if b = 0xf0 then CREATE else if b = 0xf1 then CALL else if b = 0xf2 then CALLCODE
  else if b = 0xf3 then RETURN else if b = 0xff then SUICIDE
  else INVALID b

/-- Modelled from the spec: `Context.GetOp` is not among the sources;
"reading at or past the end yields STOP". -/
def GetOp (code : List Nat) (n : Nat) : OpCode :=
  if n < code.length then byteToOp (code.getD n 0) else STOP

/-- Modelled from the spec: `isDynamic` is not among the sources; "An opcode is
dynamic if its gas, memory effect, or control effect depends on runtime stack
contents - JUMP, JUMPI, CALL, CALLCODE, CREATE, SSTORE, SHA3, LOG*, the *COPY
family, SUICIDE, EXP, RETURN. All others are static." -/
def isDynamic : OpCode → Bool
  | JUMP | JUMPI | CALL | CALLCODE | CREATE | SSTORE | SHA3 | LOG _
  | CALLDATACOPY | CODECOPY | EXTCODECOPY | SUICIDE | EXP | RETURN => true
  | _ => false

/-! ## Errors -/

/-- The errors `Run` returns. `Panic` is the error made by the deferred
`recover()` from a Go run-time panic. -/
inductive VmError where
  | OutOfGas
  | StackUnderflow
  | StackOverflow
  | InvalidJump (dest : Nat)
  | InvalidOpcode (op : Nat)
  | Panic
  deriving DecidableEq, Repr

/-! ## Stack -/

/-- The stack of words; the head of the list is the top of the stack, so
`stack.data[stack.len()-k]` is the element of index `k-1`. -/
abbrev stack := List Nat

namespace stack

/-- Modelled from the spec: stack.go is not among the sources; "`require(min)`
fails with StackUnderflow when depth < min". -/
def require (st : stack) (n : Int) : Except VmError Unit :=
  if (st.length : Int) < n then .error .StackUnderflow else .ok ()

/-- Modelled from the spec: `pop() → w`; popping the empty stack indexes the
data slice out of range, a run-time panic. -/
def pop : stack → Except VmError (Nat × stack)
  | [] => .error .Panic
  | x :: st => .ok (x, st)

/-- Modelled from the spec: `push(w)`. The depth limit is checked by `baseCheck`. -/
def push (st : stack) (w : Nat) : stack := w :: st

/-- The read `stack.data[stack.len()-k]` for `k ≥ 1`; out of range it is a
run-time panic. -/
def nth (st : stack) (k : Nat) : Except VmError Nat :=
  match st.get? (k - 1) with
  | some w => .ok w
  | none => .error .Panic

/-- Modelled from the spec: `peek()`, the top of the stack. -/
def peek (st : stack) : Except VmError Nat := st.nth 1

/-- Modelled from the spec: "`dup(n)` pushes a copy of the n-th item from the top". -/
def dup (st : stack) (n : Nat) : Except VmError stack := do
  let w ← st.nth n
  pure (w :: st)

/-- Modelled from the spec: stack.go is not among the sources; "`swap(n)` swaps
top and the (n+1)-th item" is said of the opcode SWAPn. `Run` calls
`stack.swap(n)` with `n := int(op - SWAP1 + 2)` and `calculateGasAndSize`
checks `stack.require(n)` for the same `n`, so the argument counts the items
involved: the top is exchanged with the item at depth `n`. -/
def swap (st : stack) (n : Nat) : Except VmError stack := do
  let top ← st.nth 1
  let w ← st.nth n
  pure ((st.set 0 w).set (n - 1) top)

end stack

/-! ## Memory -/

/-- The byte store of the frame, `Memory.store`. -/
abbrev Memory := List Nat

namespace Memory

/-- Modelled from the spec: `len()`, the length of the store in bytes. -/
def Len (m : Memory) : Nat := m.length

/-- Modelled from the spec: memory.go is not among the sources; "Memory never
shrinks": the store is extended with zero bytes up to `size`, and left as it is
when it is already that long. -/
def Resize (m : Memory) (size : Nat) : Memory :=
  if m.length < size then m ++ List.replicate (size - m.length) 0 else m

/-- Modelled from the spec: "`set(offset, size, data)`"; "writes outside the
current length expand it" and the length stays a whole number of words. Writes
`size` bytes of `data` (padded on the right with zeros) at `offset`. -/
def Set (m : Memory) (offset size : Nat) (value : List Nat) : Memory :=
  if size = 0 then m
  else
    let m1 := Resize m (((offset + size + 31) / 32) * 32)
    m1.take offset ++ (RightPadBytes value size).take size ++ m1.drop (offset + size)

/-- Modelled from the spec: "`get(offset, size) → bytes`"; "Reads beyond a
legitimately grown region observe zero bytes". A negative offset or size (a
word that does not fit `int64`) is a run-time panic. -/
def Get (m : Memory) (offset size : Int) : Except VmError (List Nat) :=
  if offset < 0 ∨ size < 0 then .error .Panic
  else .ok (getData m offset.toNat size.toNat)

/-- Modelled from the spec: `GetPtr` reads like `Get`. -/
def GetPtr (m : Memory) (offset size : Int) : Except VmError (List Nat) := Get m offset size

end Memory

/-! ## Constants of the gas model -/

/-- An entry of the `_baseCheck` table: items popped, static gas, items pushed. -/
structure req where
  stackPop : Nat
  gas : Nat
  stackPush : Nat

/-- The constants of packages `params` and `vm` that `vm.go` uses and the
`_baseCheck` table of gas.go; none of them is among the sources, so they are
parameters. `QuadCoeffDiv` is a non-zero constant. -/
structure Params where
  baseCheckTable : OpCode → Option req
  StackLimit : Nat
  GasFastestStep : Nat
  LogGas : Nat
  LogTopicGas : Nat
  LogDataGas : Nat
  ExpByteGas : Nat
  SstoreSetGas : Nat
  SstoreRefundGas : Nat
  SstoreClearGas : Nat
  SuicideRefundGas : Nat
  Sha3WordGas : Nat
  CopyGas : Nat
  CallNewAccountGas : Nat
  CallValueTransferGas : Nat
  CallStipend : Nat
  CreateDataGas : Nat
  MemoryGas : Nat
  QuadCoeffDiv : Nat

/-- Modelled from the spec: `baseCheck` of gas.go is not among the sources;
"`base_check(op, stack)` verifies minimum stack depth and returns the static
base cost for `op`" and "Overflow at depth == 1024 is StackOverflow". An opcode
without an entry in the table is not checked and costs nothing. -/
def baseCheck (P : Params) (op : OpCode) (st : stack) : Except VmError Int :=
  match P.baseCheckTable op with
  | none => .ok 0
  | some r => do
    st.require r.stackPop
    if r.stackPush > 0 ∧ (st.length : Int) - r.stackPop + r.stackPush > P.StackLimit then
      .error .StackOverflow
    else
      .ok r.gas

/-- Modelled from the spec: `calcMemSize` of common.go is not among the sources;
"memory bounds `[mStart, mStart+size)`": the end of the range, and 0 for an
empty range. -/
def calcMemSize (off l : Nat) : Nat := if l = 0 then 0 else off + l

/-- Modelled from the spec: `toWordSize` of common.go is not among the sources;
"`words(size)`", the number of 32-byte words that hold `size` bytes. -/
def toWordSize (size : Nat) : Nat := (size + 31) / 32

/-! ## Host state -/

/-- A log record made by `state.NewLog`. -/
structure Log where
  address : Nat
  topics : List Nat
  data : List Nat
  number : Nat

/-- The part of the state database and of the environment's log sink that the
interpreter reads and writes. `storage` is the storage of the frame's own
account (`GetState(context.Address(), ·)`), `deleted` its deletion mark. -/
structure StateDB where
  storage : Nat → Nat
  balance : Nat → Nat
  code : Nat → List Nat
  exist : Nat → Bool
  deleted : Bool
  refund : Nat
  logs : List Log

namespace StateDB

/-- The write `statedb.SetState(context.Address(), loc, val)`. -/
def SetState (db : StateDB) (loc val : Nat) : StateDB :=
  { db with storage := fun k => if k = loc then val else db.storage k }

/-- The call `statedb.Refund(gas)`. -/
def Refund (db : StateDB) (gas : Nat) : StateDB :=
  { db with refund := db.refund + gas }

end StateDB

/-! ## Pricing -/

/-- The last block of `calculateGasAndSize` (the memory fee): rounds the
required size up to whole words and, when that exceeds the current memory
length, computes the fee as the difference of the total fees. Returns the new
memory size and the fee. -/
def memoryFee (P : Params) (mem : Memory) (newMemSize : Nat) : Nat × Int :=
  if newMemSize > 0 then
    let newMemSizeWords := toWordSize newMemSize
    let newMemSize := newMemSizeWords * 32
    if newMemSize > mem.Len then
      let oldSize := toWordSize mem.Len
      let pow := oldSize ^ 2
      let linCoef := oldSize * P.MemoryGas
      let quadCoef := pow / P.QuadCoeffDiv
      let oldTotalFee := linCoef + quadCoef
      let pow := newMemSizeWords ^ 2
      let linCoef := newMemSizeWords * P.MemoryGas
      let quadCoef := pow / P.QuadCoeffDiv
      let newTotalFee := linCoef + quadCoef
      let fee : Int := (newTotalFee : Int) - (oldTotalFee : Int)
      (newMemSize, fee)
    else (newMemSize, 0)
  else (newMemSize, 0)

/-- The `switch` of `calculateGasAndSize`: from the static gas of `baseCheck`
to the required memory size, the gas before the memory fee, and the state
database (SSTORE and SUICIDE register refunds here). -/
def opGasAndSize (P : Params) (op : OpCode) (statedb : StateDB) (st : stack) (gas : Int) :
    Except VmError (Nat × Int × StateDB) :=
  match op with
  | SWAP i => do
    st.require ((i : Nat) + 2)
    pure (0, P.GasFastestStep, statedb)
  | DUP i => do
    st.require ((i : Nat) + 1)
    pure (0, P.GasFastestStep, statedb)
  | LOG n => do
    st.require ((n : Nat) + 2)
    let mSize ← st.nth 2
    let mStart ← st.nth 1
    pure (calcMemSize mStart mSize,
      gas + P.LogGas + (n : Nat) * P.LogTopicGas + mSize * P.LogDataGas, statedb)
  | EXP => do
    let e ← st.nth 2
    pure (0, gas + byteLen e * P.ExpByteGas, statedb)
  | SSTORE => do
    st.require 2
    let y ← st.nth 2
    let x ← st.nth 1
    let val := statedb.storage (BigToHash x)
    if val = 0 ∧ BigToHash y ≠ 0 then
      pure (0, P.SstoreSetGas, statedb)
    else if val ≠ 0 ∧ BigToHash y = 0 then
      pure (0, P.SstoreClearGas, statedb.Refund P.SstoreRefundGas)
    else
      pure (0, P.SstoreClearGas, statedb)
  | SUICIDE =>
    if !statedb.deleted then pure (0, gas, statedb.Refund P.SuicideRefundGas)
    else pure (0, gas, statedb)
  | MLOAD => do
    let off ← st.peek
    pure (calcMemSize off 32, gas, statedb)
  | MSTORE8 => do
    let off ← st.peek
    pure (calcMemSize off 1, gas, statedb)
  | MSTORE => do
    let off ← st.peek
    pure (calcMemSize off 32, gas, statedb)
  | RETURN => do
    let off ← st.peek
    let l ← st.nth 2
    pure (calcMemSize off l, gas, statedb)
  | SHA3 => do
    let off ← st.peek
    let l ← st.nth 2
    pure (calcMemSize off l, gas + toWordSize l * P.Sha3WordGas, statedb)
  | CALLDATACOPY => do
    let off ← st.peek
    let l ← st.nth 3
    pure (calcMemSize off l, gas + toWordSize l * P.CopyGas, statedb)
  | CODECOPY => do
    let off ← st.peek
    let l ← st.nth 3
    pure (calcMemSize off l, gas + toWordSize l * P.CopyGas, statedb)
  | EXTCODECOPY => do
    let off ← st.nth 2
    let l ← st.nth 4
    pure (calcMemSize off l, gas + toWordSize l * P.CopyGas, statedb)
  | CREATE => do
    let off ← st.nth 2
    let l ← st.nth 3
    pure (calcMemSize off l, gas, statedb)
  | CALL => do
    let g ← st.nth 1
    let addr ← st.nth 2
    let gas1 : Int := gas + g
    let gas2 : Int := if statedb.exist (BigToAddress addr) = false then gas1 + P.CallNewAccountGas else gas1
    let value ← st.nth 3
    let gas3 : Int := if byteLen value > 0 then gas2 + P.CallValueTransferGas else gas2
    let x := calcMemSize (← st.nth 6) (← st.nth 7)
    let y := calcMemSize (← st.nth 4) (← st.nth 5)
    pure (max x y, gas3, statedb)
  | CALLCODE => do
    let g ← st.nth 1
    let gas1 : Int := gas + g
    let value ← st.nth 3
    let gas3 : Int := if byteLen value > 0 then gas1 + P.CallValueTransferGas else gas1
    let x := calcMemSize (← st.nth 6) (← st.nth 7)
    let y := calcMemSize (← st.nth 4) (← st.nth 5)
    pure (max x y, gas3, statedb)
  | _ => pure (0, gas, statedb)

/-- The function `Vm.calculateGasAndSize`: the new memory size, the cost of the
opcode and the state database after pricing, or the error it returns. -/
def calculateGasAndSize (P : Params) (op : OpCode) (statedb : StateDB) (mem : Memory)
    (st : stack) : Except VmError (Nat × Int × StateDB) := do
  let gas ← baseCheck P op st
  let (newMemSize, gas, statedb) ← opGasAndSize P op statedb st gas
  let (newMemSize, fee) := memoryFee P mem newMemSize
  pure (newMemSize, gas + fee, statedb)

/-! ## Frame, environment and interpreter state -/

/-- A recorded code segment (`segment` in the source): first and last program
counter, the counter that follows, the gas of the run and the stack
requirement. The list `ops` of the source is only appended to and never read
by `Run`; it is left out. -/
structure segment where
  cstart : Nat
  cend : Nat
  next : Nat
  gas : Int
  ssize : Int
  deriving DecidableEq

/-- The segments of one program, `codeSegments` (`map[uint64]*segment`). -/
abbrev codeSegments := Nat → Option segment

/-- A precompiled account: its price for an input length and its function. -/
structure PrecompiledAccount where
  Gas : Nat → Int
  Call : List Nat → List Nat

/-- The frame (`Context`): caller, own address, code, value, gas price and the
precompiled account found for its code address, if any. The remaining gas is
part of `State`. -/
structure Context where
  caller : Nat
  self : Nat
  Code : List Nat
  value : Nat
  Price : Nat
  precompiled : Option PrecompiledAccount

/-- What the host hands back from `Call` and `CallCode`: output, whether it
failed, the state database and the frame's gas after the call. -/
structure CallResult where
  ret : List Nat
  failed : Bool
  statedb : StateDB
  gas : Nat

/-- What the host hands back from `Create`: output, whether it failed, the
address of the new account, the state database and the frame's gas after the
call. -/
structure CreateResult where
  ret : List Nat
  failed : Bool
  addr : Nat
  statedb : StateDB
  gas : Nat

/-- The host (`Environment`): block context, hash function and the nested
calls. `Call` and `CallCode` take the state database, the frame's gas, the
address, the arguments, the gas, the price and the value; `Create` takes the
state database, the frame's gas, the input, the gas, the price and the value.
The host does not touch the segment map of the running program. -/
structure Environment where
  Origin : Nat
  Coinbase : Nat
  Time : Nat
  BlockNumber : Nat
  Difficulty : Nat
  GasLimit : Nat
  GetHash : Nat → Nat
  Sha3 : List Nat → Nat
  Call : StateDB → Nat → Nat → List Nat → Nat → Nat → Nat → CallResult
  CallCode : StateDB → Nat → Nat → List Nat → Nat → Nat → Nat → CallResult
  Create : StateDB → Nat → List Nat → Nat → Nat → Nat → CreateResult

/-- The variables of `Run` that change while the loop runs, the frame's
remaining gas (`context.Gas`), the state database and the segment map of the
program. `csegment` is a pointer into `csegments`: every write through it is
also made to the entry of the map at its `cstart`. -/
structure State where
  pc : Nat
  ppc : Nat
  nopay : Nat
  stack : stack
  mem : Memory
  Gas : Nat
  statedb : StateDB
  csegment : Option segment
  csegments : codeSegments

/-- Modelled from the spec: `Context.UseGas` is not among the sources;
"OutOfGas - gas requested by pricing exceeds remaining". Returns the gas left,
or `none` when the amount exceeds the remaining gas. -/
def UseGas (gas : Nat) (amount : Int) : Option Nat :=
  if (gas : Int) < amount then none else some ((gas : Int) - amount).toNat

/-- The call `context.UseGas(context.Gas)`: the gas left after all the
remaining gas is used. -/
def useAllGas (gas : Nat) : Nat :=
  match UseGas gas gas with
  | some g => g
  | none => gas

/-- The write to a segment through the pointer `csegment`. -/
def State.setSegment (s : State) (seg : segment) : State :=
  { s with
    csegment := some seg
    csegments := fun k => if k = seg.cstart then some seg else s.csegments k }

/-- The stack requirement written when a segment is closed:
`int(math.Abs(math.Min(float64(stack.len()-csegment.ssize), 0)))`. -/
def closeSsize (len : Nat) (ssize : Int) : Int :=
  ((min ((len : Int) - ssize) 0).natAbs : Int)

/-! ## Jump destinations -/

/-- Modelled from the spec: the analysis of analysis.go is not among the
sources; "walk forward; at each PUSHk skip the next k bytes; if the byte is
JUMPDEST (opcode 0x5B) and not inside PUSH data, include it". `pc` is the
offset of the head of `code`, `skip` the number of PUSH data bytes still to
skip. -/
def jumpdests : (code : List Nat) → (pc skip : Nat) → List Nat
  | [], _, _ => []
  | _ :: rest, pc, skip + 1 => jumpdests rest (pc + 1) skip
  | b :: rest, pc, 0 =>
    if 0x60 ≤ b ∧ b ≤ 0x7f then jumpdests rest (pc + 1) (b - 0x5f)
    else if b = 0x5b then pc :: jumpdests rest (pc + 1) 0
    else jumpdests rest (pc + 1) 0

/-- Modelled from the spec: `destinations.has`; "JUMP/JUMPI fail with
InvalidJump if the target word exceeds code length or is not in the index". -/
def has (code : List Nat) (dest : Nat) : Bool :=
  decide (dest < code.length) && (jumpdests code 0 0).contains dest

/-- The closure `jump` of `Run`: moves `pc` to a valid destination, and is an
error otherwise. -/
def jump (code : List Nat) (s : State) (dest : Nat) : Except VmError State :=
  if !has code dest then .error (.InvalidJump dest)
  else .ok { s with pc := Uint64 dest }

/-! ## Execution of one opcode -/

/-- How the `switch` of `Run` is left: to `pc++`, by `continue`, or by
`return ret, nil`. -/
inductive Exec where
  | advance (s : State)
  | jumped (s : State)
  | returned (s : State) (ret : List Nat)

/-- Pops `n` topics for LOG, each converted by `common.BigToHash`. -/
def popTopics : (n : Nat) → stack → Except VmError (List Nat × stack)
  | 0, st => .ok ([], st)
  | n + 1, st => do
    let (t, st) ← st.pop
    let (ts, st) ← popTopics n st
    pure (BigToHash t :: ts, st)

/-- The body of SIGNEXTEND for `back < 31`: the word pushed for operand `num`. -/
def signExtend (back num : Nat) : Nat :=
  let bit := Uint64 (Uint64 back * 8 + 7)
  let mask : Int := ((1 <<< bit : Nat) : Int) - 1
  if num.testBit bit then U256 (Int.lor (num : Int) (-mask - 1))
  else U256 (Int.land (num : Int) mask)

/-- The word pushed by SDIV for the popped operands `x0` (top) and `y0`. -/
def sdiv (x0 y0 : Nat) : Nat :=
  let x := S256 x0
  let y := S256 y0
  if y = 0 then 0
  else
    let n : Int := if x * y < 0 then -1 else 1
    U256 (((x.natAbs / y.natAbs : Nat) : Int) * n)

/-- The word pushed by SMOD for the popped operands `x0` (top) and `y0`. -/
def smod (x0 y0 : Nat) : Nat :=
  let x := S256 x0
  let y := S256 y0
  if y = 0 then 0
  else
    let n : Int := if x < 0 then -1 else 1
    U256 (((x.natAbs % y.natAbs : Nat) : Int) * n)

/-- The `switch op` of `Vm.Run`, for the opcode fetched at `s.pc`, after gas
has been paid and memory resized. An error is either an error return of the
loop (invalid jump, invalid opcode) or `Panic`. -/
def execOp (P : Params) (env : Environment) (ctx : Context) (input : List Nat)
    (s : State) (op : OpCode) : Except VmError Exec :=
  match op with
  | ADD => do
    let (x, st) ← s.stack.pop
    let (y, st) ← st.pop
    pure (.advance { s with stack := st.push (U256 ((x : Int) + y)) })
  | SUB => do
    let (x, st) ← s.stack.pop
    let (y, st) ← st.pop
    pure (.advance { s with stack := st.push (U256 ((x : Int) - y)) })
  | MUL => do
    let (x, st) ← s.stack.pop
    let (y, st) ← st.pop
    pure (.advance { s with stack := st.push (U256 ((x : Int) * y)) })
  | DIV => do
    let (x, st) ← s.stack.pop
    let (y, st) ← st.pop
    let base : Nat := if y ≠ 0 then x / y else 0
    pure (.advance { s with stack := st.push (U256 base) })
  | SDIV => do
    let (x, st) ← s.stack.pop
    let (y, st) ← st.pop
    pure (.advance { s with stack := st.push (sdiv x y) })
  | MOD => do
    let (x, st) ← s.stack.pop
    let (y, st) ← st.pop
    let base : Nat := if y = 0 then 0 else x % y
    pure (.advance { s with stack := st.push (U256 base) })
  | SMOD => do
    let (x, st) ← s.stack.pop
    let (y, st) ← st.pop
    pure (.advance { s with stack := st.push (smod x y) })
  | EXP => do
    let (x, st) ← s.stack.pop
    let (y, st) ← st.pop
    pure (.advance { s with stack := st.push (U256 ((x ^ y % Pow256 : Nat) : Int)) })
  | SIGNEXTEND => do
    let (back, st) ← s.stack.pop
    if back < 31 then
      let (num, st) ← st.pop
      pure (.advance { s with stack := st.push (signExtend back num) })
    else
      pure (.advance { s with stack := st })
  | NOT => do
    let (x, st) ← s.stack.pop
    pure (.advance { s with stack := st.push (U256 (-(x : Int) - 1)) })
  | OpCode.LT => do
    let (x, st) ← s.stack.pop
    let (y, st) ← st.pop
    pure (.advance { s with stack := st.push (if x < y then 1 else 0) })
  | OpCode.GT => do
    let (x, st) ← s.stack.pop
    let (y, st) ← st.pop
    pure (.advance { s with stack := st.push (if x > y then 1 else 0) })
  | SLT => do
    let (x, st) ← s.stack.pop
    let (y, st) ← st.pop
    pure (.advance { s with stack := st.push (if S256 x < S256 (S256 y) then 1 else 0) })
  | SGT => do
    let (x, st) ← s.stack.pop
    let (y, st) ← st.pop
    pure (.advance { s with stack := st.push (if S256 x > S256 y then 1 else 0) })
  | EQ => do
    let (x, st) ← s.stack.pop
    let (y, st) ← st.pop
    pure (.advance { s with stack := st.push (if x = y then 1 else 0) })
  | ISZERO => do
    let (x, st) ← s.stack.pop
    pure (.advance { s with stack := st.push (if x > 0 then 0 else 1) })
  | AND => do
    let (x, st) ← s.stack.pop
    let (y, st) ← st.pop
    pure (.advance { s with stack := st.push (x &&& y) })
  | OR => do
    let (x, st) ← s.stack.pop
    let (y, st) ← st.pop
    pure (.advance { s with stack := st.push (x ||| y) })
  | XOR => do
    let (x, st) ← s.stack.pop
    let (y, st) ← st.pop
    pure (.advance { s with stack := st.push (x ^^^ y) })
  | BYTE => do
    let (th, st) ← s.stack.pop
    let (val, st) ← st.pop
    let base : Nat := if th < 32 then (LeftPadBytes (Bytes val) 32).getD th 0 else 0
    pure (.advance { s with stack := st.push base })
  | ADDMOD => do
    let (x, st) ← s.stack.pop
    let (y, st) ← st.pop
    let (z, st) ← st.pop
    let base : Nat := if z > 0 then U256 (((x + y) % z : Nat) : Int) else 0
    pure (.advance { s with stack := st.push base })
  | MULMOD => do
    let (x, st) ← s.stack.pop
    let (y, st) ← st.pop
    let (z, st) ← st.pop
    let base : Nat := if z > 0 then U256 (((x * y) % z : Nat) : Int) else 0
    pure (.advance { s with stack := st.push base })
  | SHA3 => do
    let (offset, st) ← s.stack.pop
    let (size, st) ← st.pop
    let data ← s.mem.GetPtr (Int64 offset) (Int64 size)
    pure (.advance { s with stack := st.push (env.Sha3 data) })
  | ADDRESS => pure (.advance { s with stack := s.stack.push ctx.self })
  | BALANCE => do
    let (a, st) ← s.stack.pop
    pure (.advance { s with stack := st.push (s.statedb.balance (BigToAddress a)) })
  | ORIGIN => pure (.advance { s with stack := s.stack.push env.Origin })
  | CALLER => pure (.advance { s with stack := s.stack.push ctx.caller })
  | CALLVALUE => pure (.advance { s with stack := s.stack.push ctx.value })
  | CALLDATALOAD => do
    let (off, st) ← s.stack.pop
    pure (.advance { s with stack := st.push (Bytes2Big (getData input off 32)) })
  | CALLDATASIZE => pure (.advance { s with stack := s.stack.push input.length })
  | CALLDATACOPY => do
    let (mOff, st) ← s.stack.pop
    let (cOff, st) ← st.pop
    let (l, st) ← st.pop
    let data := getData input cOff l
    pure (.advance { s with stack := st, mem := s.mem.Set (Uint64 mOff) (Uint64 l) data })
  | CODESIZE => pure (.advance { s with stack := s.stack.push ctx.Code.length })
  | EXTCODESIZE => do
    let (a, st) ← s.stack.pop
    pure (.advance { s with stack := st.push (s.statedb.code (BigToAddress a)).length })
  | CODECOPY => do
    let (mOff, st) ← s.stack.pop
    let (cOff, st) ← st.pop
    let (l, st) ← st.pop
    let codeCopy := getData ctx.Code cOff l
    pure (.advance { s with stack := st, mem := s.mem.Set (Uint64 mOff) (Uint64 l) codeCopy })
  | EXTCODECOPY => do
    let (a, st) ← s.stack.pop
    let (mOff, st) ← st.pop
    let (cOff, st) ← st.pop
    let (l, st) ← st.pop
    let codeCopy := getData (s.statedb.code (BigToAddress a)) cOff l
    pure (.advance { s with stack := st, mem := s.mem.Set (Uint64 mOff) (Uint64 l) codeCopy })
  | GASPRICE => pure (.advance { s with stack := s.stack.push ctx.Price })
  | BLOCKHASH => do
    let (num, st) ← s.stack.pop
    let n : Int := (env.BlockNumber : Int) - 257
    let w : Nat := if (num : Int) > n ∧ num < env.BlockNumber then env.GetHash (Uint64 num) else 0
    pure (.advance { s with stack := st.push w })
  | COINBASE => pure (.advance { s with stack := s.stack.push env.Coinbase })
  | TIMESTAMP => pure (.advance { s with stack := s.stack.push env.Time })
  | NUMBER => pure (.advance { s with stack := s.stack.push (U256 env.BlockNumber) })
  | DIFFICULTY => pure (.advance { s with stack := s.stack.push env.Difficulty })
  | GASLIMIT => pure (.advance { s with stack := s.stack.push env.GasLimit })
  | PUSH i =>
    let size : Nat := (i : Nat) + 1
    let byts := getData ctx.Code (s.pc + 1) size
    pure (.advance { s with stack := s.stack.push (Bytes2Big byts), pc := s.pc + size })
  | POP => do
    let (_, st) ← s.stack.pop
    pure (.advance { s with stack := st })
  | DUP i => do
    let st ← s.stack.dup ((i : Nat) + 1)
    pure (.advance { s with stack := st })
  | SWAP i => do
    let st ← s.stack.swap ((i : Nat) + 2)
    pure (.advance { s with stack := st })
  | LOG n => do
    let (mStart, st) ← s.stack.pop
    let (mSize, st) ← st.pop
    let (topics, st) ← popTopics n st
    let data ← s.mem.Get (Int64 mStart) (Int64 mSize)
    let log : Log := ⟨ctx.self, topics, data, Uint64 env.BlockNumber⟩
    pure (.advance { s with stack := st, statedb := { s.statedb with logs := s.statedb.logs ++ [log] } })
  | MLOAD => do
    let (offset, st) ← s.stack.pop
    let val ← s.mem.GetPtr (Int64 offset) 32
    pure (.advance { s with stack := st.push (Bytes2Big val) })
  | MSTORE => do
    let (mStart, st) ← s.stack.pop
    let (val, st) ← st.pop
    pure (.advance { s with stack := st, mem := s.mem.Set (Uint64 mStart) 32 (LeftPadBytes (Bytes val) 32) })
  | MSTORE8 => do
    let (off, st) ← s.stack.pop
    let (val, st) ← st.pop
    if Int64 off < 0 ∨ Int64 off ≥ s.mem.length then .error .Panic
    else pure (.advance { s with stack := st, mem := s.mem.set (Int64 off).toNat (Int64 val % 256).toNat })
  | SLOAD => do
    let (loc, st) ← s.stack.pop
    pure (.advance { s with stack := st.push (s.statedb.storage (BigToHash loc)) })
  | SSTORE => do
    let (loc, st) ← s.stack.pop
    let (val, st) ← st.pop
    pure (.advance { s with stack := st, statedb := s.statedb.SetState (BigToHash loc) (BigToHash val) })
  | JUMP => do
    let (dest, st) ← s.stack.pop
    let s ← jump ctx.Code { s with stack := st } dest
    pure (.jumped s)
  | JUMPI => do
    let (pos, st) ← s.stack.pop
    let (cond, st) ← st.pop
    if cond ≥ 1 then
      let s ← jump ctx.Code { s with stack := st } pos
      pure (.jumped s)
    else
      pure (.advance { s with stack := st })
  | JUMPDEST => pure (.advance s)
  | PC => pure (.advance { s with stack := s.stack.push s.pc })
  | MSIZE => pure (.advance { s with stack := s.stack.push s.mem.Len })
  | GAS => pure (.advance { s with stack := s.stack.push s.Gas })
  | CREATE => do
    let (value, st) ← s.stack.pop
    let (offset, st) ← st.pop
    let (size, st) ← st.pop
    let inp ← s.mem.Get (Int64 offset) (Int64 size)
    let gas := s.Gas
    let r := env.Create s.statedb 0 inp gas ctx.Price value
    if r.failed then
      pure (.advance { s with stack := st.push 0, Gas := r.gas, statedb := r.statedb })
    else
      let dataGas : Int := (r.ret.length : Int) * P.CreateDataGas
      match UseGas r.gas dataGas with
      | some g =>
        let db := { r.statedb with code := fun a => if a = r.addr then r.ret else r.statedb.code a }
        pure (.advance { s with stack := st.push r.addr, Gas := g, statedb := db })
      | none =>
        pure (.advance { s with stack := st.push r.addr, Gas := r.gas, statedb := r.statedb })
  | CALL => do
    let (gas, st) ← s.stack.pop
    let (addr, st) ← st.pop
    let (value, st) ← st.pop
    let value := U256 value
    let (inOffset, st) ← st.pop
    let (inSize, st) ← st.pop
    let (retOffset, st) ← st.pop
    let (retSize, st) ← st.pop
    let address := BigToAddress addr
    let args ← s.mem.Get (Int64 inOffset) (Int64 inSize)
    let gas := if byteLen value > 0 then gas + P.CallStipend else gas
    let r := env.Call s.statedb s.Gas address args gas ctx.Price value
    if r.failed then
      pure (.advance { s with stack := st.push 0, Gas := r.gas, statedb := r.statedb })
    else
      pure (.advance { s with stack := st.push 1, Gas := r.gas, statedb := r.statedb,
                              mem := s.mem.Set (Uint64 retOffset) (Uint64 retSize) r.ret })
  | CALLCODE => do
    let (gas, st) ← s.stack.pop
    let (addr, st) ← st.pop
    let (value, st) ← st.pop
    let value := U256 value
    let (inOffset, st) ← st.pop
    let (inSize, st) ← st.pop
    let (retOffset, st) ← st.pop
    let (retSize, st) ← st.pop
    let address := BigToAddress addr
    let args ← s.mem.Get (Int64 inOffset) (Int64 inSize)
    let gas := if byteLen value > 0 then gas + P.CallStipend else gas
    let r := env.CallCode s.statedb s.Gas address args gas ctx.Price value
    if r.failed then
      pure (.advance { s with stack := st.push 0, Gas := r.gas, statedb := r.statedb })
    else
      pure (.advance { s with stack := st.push 1, Gas := r.gas, statedb := r.statedb,
                              mem := s.mem.Set (Uint64 retOffset) (Uint64 retSize) r.ret })
  | RETURN => do
    let (offset, st) ← s.stack.pop
    let (size, st) ← st.pop
    let ret ← s.mem.GetPtr (Int64 offset) (Int64 size)
    pure (.returned { s with stack := st } ret)
  | SUICIDE => do
    let (a, st) ← s.stack.pop
    let receiver := BigToAddress a
    let balance := s.statedb.balance ctx.self
    let db : StateDB :=
      { s.statedb with
        exist := fun k => if k = receiver then true else s.statedb.exist k
        balance := fun k => if k = receiver then s.statedb.balance k + balance else s.statedb.balance k
        deleted := true }
    pure (.returned { s with stack := st, statedb := db } [])
  | STOP => pure (.returned s [])
  | INVALID b => .error (.InvalidOpcode b)

/-! ## The interpreter loop -/

/-- The number of `stack.pop()` calls with which the case of the opcode in the
`switch` of `Run` begins (for SIGNEXTEND the second one is made for
`back < 31` only; LOGn pops the range and then `n` topics). In every case
whatever can fail, a pop on an empty stack, a memory access or the closure
`jump`, comes before the first push or write of the case. -/
def pops : OpCode → Nat
  | ADD | SUB | MUL | DIV | SDIV | MOD | SMOD | EXP | SIGNEXTEND => 2
  | OpCode.LT | OpCode.GT | SLT | SGT | EQ | AND | OR | XOR | BYTE => 2
  | SHA3 | MSTORE | MSTORE8 | SSTORE | JUMPI | RETURN => 2
  | NOT | ISZERO | BALANCE | CALLDATALOAD | EXTCODESIZE | BLOCKHASH => 1
  | POP | MLOAD | SLOAD | JUMP | SUICIDE => 1
  | ADDMOD | MULMOD | CALLDATACOPY | CODECOPY | CREATE => 3
  | EXTCODECOPY => 4
  | CALL | CALLCODE => 7
  | LOG n => n + 2
  | _ => 0

/-- The state in which the `switch` is left when the case of the opcode fails,
by an error return or by a panic: the operands popped before the failure are
gone from the stack (a pop fails on the empty stack only, `stack.dup` and
`stack.swap` fail without a pop), and nothing else has changed. -/
def State.popped (s : State) (op : OpCode) : State :=
  { s with stack := s.stack.drop (pops op) }

/-- One iteration of the loop of `Run`: the loop goes on, `Run` returns
`ret, nil`, or `Run` is left with an error (returned, or `Panic`). The state is
the one in which the loop is left. -/
inductive Step where
  | next (s : State)
  | done (s : State) (ret : List Nat)
  | fail (s : State) (e : VmError)

/-- The end of an iteration: `pc++` after the `switch`, the next iteration
after `continue`, or the return of `Run`. -/
def Exec.toStep : Exec → Step
  | .advance s4 => .next { s4 with pc := s4.pc + 1 }
  | .jumped s4 => .next s4
  | .returned s4 ret => .done s4 ret

/-- The segment discipline at the head of the loop (the block guarded by
`!DisableSegmentation`): a dynamic opcode closes the open segment; otherwise,
with no current segment and `pc != 0`, a recorded segment is applied (stack
requirement, gas in one shot) or a new one is opened. -/
def segmentPhase (disable : Bool) (s : State) (op : OpCode) : Except (State × VmError) State :=
  if disable then .ok s
  else if isDynamic op then
    let s1 : State :=
      match s.csegment with
      | some cseg =>
        if cseg.cend = 0 then
          s.setSegment { cseg with cend := s.ppc, next := s.pc,
                                   ssize := closeSsize s.stack.length cseg.ssize }
        else s
      | none => s
    .ok { s1 with csegment := none, nopay := 0 }
  else if s.csegment.isNone ∧ s.pc ≠ 0 then
    match s.csegments s.pc with
    | some seg =>
      let s1 : State := { s with nopay := seg.cend }
      match s.stack.require seg.ssize with
      | .error e => .error (s1, e)
      | .ok _ =>
        match UseGas s.Gas seg.gas with
        | none => .error ({ s1 with Gas := useAllGas s1.Gas }, .OutOfGas)
        | some g => .ok { s1 with Gas := g, csegment := some seg }
    | none =>
      let seg : segment := ⟨s.pc, 0, 0, 0, s.stack.length⟩
      .ok { s.setSegment seg with nopay := 0 }
  else .ok s

/-- The pricing block of the loop, run when `pc > nopay || pc == 0 ||
DisableSegmentation`: computes the cost, adds it to the current segment, pays
it (or uses all gas and fails with out of gas) and resizes the memory. -/
def pricePhase (P : Params) (disable : Bool) (s : State) (op : OpCode) :
    Except (State × VmError) State :=
  if s.pc > s.nopay ∨ s.pc = 0 ∨ disable then
    match calculateGasAndSize P op s.statedb s.mem s.stack with
    | .error e => .error (s, e)
    | .ok (newMemSize, cost, db) =>
      let s1 : State := { s with statedb := db }
      let s2 : State :=
        match s1.csegment with
        | some cseg => s1.setSegment { cseg with gas := cseg.gas + cost }
        | none => s1
      match UseGas s2.Gas cost with
      | none => .error ({ s2 with Gas := useAllGas s2.Gas }, .OutOfGas)
      | some g => .ok { s2 with Gas := g, mem := s2.mem.Resize (Uint64 newMemSize) }
  else .ok s

/-- The body of the `for` loop of `Run`. When the case of the opcode fails, the
loop is left in the state `popped`, with the operands the case had popped gone
from the stack; that is the stack the deferred functions see. -/
def step (P : Params) (env : Environment) (ctx : Context) (input : List Nat) (disable : Bool)
    (s : State) : Step :=
  let op := GetOp ctx.Code s.pc
  match segmentPhase disable s op with
  | .error (s1, e) => .fail s1 e
  | .ok s1 =>
    let s2 : State := { s1 with ppc := s1.pc }
    match pricePhase P disable s2 op with
    | .error (s3, e) => .fail s3 e
    | .ok s3 =>
      match execOp P env ctx input s3 op with
      | .error e => .fail (s3.popped op) e
      | .ok r => r.toStep

/-- The loop of `Run`, cut after `fuel` iterations (`none`). -/
def loop (P : Params) (env : Environment) (ctx : Context) (input : List Nat) (disable : Bool) :
    (fuel : Nat) → State → Option Step
  | 0, _ => none
  | fuel + 1, s =>
    match step P env ctx input disable s with
    | .next s1 => loop P env ctx input disable fuel s1
    | r => some r

/-- The deferred function of `Run` that checks the error: with an error all
gas is used; an open segment (`cend == 0`) is deleted on error and closed
otherwise. `err` is the error variable as the deferred function sees it. -/
def epilogue (disable : Bool) (s : State) (err : Option VmError) : State :=
  let s1 : State := if err.isSome then { s with Gas := useAllGas s.Gas } else s
  if disable then s1
  else
    match s1.csegment with
    | some cseg =>
      if cseg.cend = 0 then
        if err.isSome then
          { s1 with csegments := fun k => if k = cseg.cstart then none else s1.csegments k }
        else
          s1.setSegment { cseg with cend := s1.pc,
                                    ssize := closeSsize s1.stack.length cseg.ssize }
      else s1
    | none => s1

/-- What `Run` returns (output and error) and the state it leaves: remaining
gas, state database, segment map. -/
structure Result where
  ret : List Nat
  err : Option VmError
  state : State

/-- The way out of `Run`: the deferred functions run in reverse order, so
the epilogue sees no error when a panic unwinds (`err` is still nil) and the
`recover` that follows sets the error and an empty output. -/
def finish (disable : Bool) : Step → Result
  | .done s ret => ⟨ret, none, epilogue disable s none⟩
  | .fail s .Panic => ⟨[], some .Panic, epilogue disable s none⟩
  | .fail s e => ⟨[], some e, epilogue disable s (some e)⟩
  | .next s => ⟨[], none, s⟩

/-- The function `Vm.RunPrecompiled`. -/
def RunPrecompiled (p : PrecompiledAccount) (input : List Nat) (s : State) : Step :=
  match UseGas s.Gas (p.Gas input.length) with
  | some g => .done { s with Gas := g } (p.Call input)
  | none => .fail s .OutOfGas

/-- The function `Vm.Run` for a frame with `gas` remaining gas, on the state
database `statedb` and with `cs` the segments recorded for the code; `fuel`
bounds the number of iterations of the loop (`none` when it is exceeded). -/
def Run (P : Params) (env : Environment) (ctx : Context) (input : List Nat) (disable : Bool)
    (fuel : Nat) (gas : Nat) (statedb : StateDB) (cs : codeSegments) : Option Result :=
  let s0 : State := ⟨0, 0, 0, [], [], gas, statedb, none, cs⟩
  match ctx.precompiled with
  | some p => some (finish disable (RunPrecompiled p input s0))
  | none =>
    if ctx.Code.length = 0 then some (finish disable (.done s0 []))
    else (loop P env ctx input disable fuel s0).map (finish disable)

/-! ## A concrete set of constants -/

/-- Modelled from the spec: the `_baseCheck` table of gas.go is not among the
sources. Scenario S1 fixes PUSH = 3, ADD = 3 and STOP = 0; the other entries
are the step costs of the instruction set at the time of the source (quick 2,
fastest 3, fast 5, mid 8, slow 10, ext 20). -/
def baseCheckTable : OpCode → Option req
  | ADD | OpCode.LT | OpCode.GT | SLT | SGT | EQ | SUB | AND | OR | XOR | BYTE => some ⟨2, 3, 1⟩
  | ISZERO | NOT | CALLDATALOAD | MLOAD => some ⟨1, 3, 1⟩
  | CALLDATACOPY => some ⟨3, 3, 1⟩
  | MSTORE | MSTORE8 => some ⟨2, 3, 0⟩
  | CODECOPY => some ⟨3, 3, 0⟩
  | MUL | DIV | SDIV | MOD | SMOD | SIGNEXTEND => some ⟨2, 5, 1⟩
  | ADDMOD | MULMOD => some ⟨3, 8, 1⟩
  | JUMP => some ⟨1, 8, 0⟩
  | JUMPI => some ⟨2, 10, 0⟩
  | EXP => some ⟨2, 10, 1⟩
  | ADDRESS | ORIGIN | CALLER | CALLVALUE | CODESIZE | GASPRICE | COINBASE | TIMESTAMP
  | NUMBER | CALLDATASIZE | DIFFICULTY | GASLIMIT | PC | MSIZE | GAS => some ⟨0, 2, 1⟩
  | POP => some ⟨1, 2, 0⟩
  | BLOCKHASH | BALANCE | EXTCODESIZE => some ⟨1, 20, 1⟩
  | EXTCODECOPY => some ⟨4, 20, 0⟩
  | SLOAD => some ⟨1, 50, 1⟩
  | SSTORE => some ⟨2, 0, 0⟩
  | SHA3 => some ⟨2, 30, 1⟩
  | CREATE => some ⟨3, 32000, 1⟩
  | CALL | CALLCODE => some ⟨7, 40, 1⟩
  | JUMPDEST => some ⟨0, 1, 0⟩
  | SUICIDE => some ⟨1, 0, 0⟩
  | RETURN => some ⟨2, 0, 0⟩
  | PUSH _ => some ⟨0, 3, 1⟩
  | DUP _ => some ⟨0, 0, 1⟩
  | _ => none

/-- Modelled from the spec: the constants of package `params` are not among
the sources; the values are those of the protocol at the time of the source
(stack limit 1024 as in "depth ≤ 1024", `QuadCoeffDiv = 512`, `MemoryGas = 3`). -/
def params : Params where
  baseCheckTable := baseCheckTable
  StackLimit := 1024
  GasFastestStep := 3
  LogGas := 375
  LogTopicGas := 375
  LogDataGas := 8
  ExpByteGas := 10
  SstoreSetGas := 20000
  SstoreRefundGas := 15000
  SstoreClearGas := 5000
  SuicideRefundGas := 24000
  Sha3WordGas := 6
  CopyGas := 3
  CallNewAccountGas := 25000
  CallValueTransferGas := 9000
  CallStipend := 2300
  CreateDataGas := 200
  MemoryGas := 3
  QuadCoeffDiv := 512

/-- A state database with empty storage, no balances, no code and no accounts. -/
def emptyDB : StateDB := ⟨fun _ => 0, fun _ => 0, fun _ => [], fun _ => false, false, 0, []⟩

/-- A host whose nested calls and creations fail and give no gas back. -/
def idleEnv : Environment where
  Origin := 0
  Coinbase := 0
  Time := 0
  BlockNumber := 0
  Difficulty := 0
  GasLimit := 0
  GetHash := fun _ => 0
  Sha3 := fun _ => 0
  Call := fun db g _ _ _ _ _ => ⟨[], true, db, g⟩
  CallCode := fun db g _ _ _ _ _ => ⟨[], true, db, g⟩
  Create := fun db g _ _ _ _ => ⟨[], true, 0, db, g⟩

/-- A host whose nested calls succeed and return their arguments, leaving the
frame's gas as it is, and whose creations succeed at address 1 with their
input as output and give the gas they were handed back to the frame. -/
def echoEnv : Environment where
  Origin := 0
  Coinbase := 0
  Time := 0
  BlockNumber := 0
  Difficulty := 0
  GasLimit := 0
  GetHash := fun _ => 0
  Sha3 := fun _ => 0
  Call := fun db g _ args _ _ _ => ⟨args, false, db, g⟩
  CallCode := fun db g _ args _ _ _ => ⟨args, false, db, g⟩
  Create := fun db _ inp gas _ _ => ⟨inp, false, 1, db, gas⟩

/-- A host at block 300 whose hash of block `n` is `n + 1000`; nested calls
and creations fail. -/
def blockEnv : Environment :=
  { idleEnv with BlockNumber := 300, GetHash := fun n => n + 1000 }

/-- A frame for `code` with no precompiled account, addresses and value 0. -/
def frame (code : List Nat) : Context := ⟨0, 0, code, 0, 0, none⟩

/-- The empty segment map. -/
def noSegments : codeSegments := fun _ => none

end Vm

namespace Vm
open OpCode

/-! ## Observing a run -/

/-- The state in which `Run` enters the loop. -/
def initState (gas : Nat) (statedb : StateDB) (cs : codeSegments) : State :=
  ⟨0, 0, 0, [], [], gas, statedb, none, cs⟩

/-- The state an `Exec` carries. -/
def Exec.state : Exec → State
  | .advance s => s
  | .jumped s => s
  | .returned s _ => s

/-- The state a `Step` carries. -/
def Step.state : Step → State
  | .next s => s
  | .done s _ => s
  | .fail s _ => s

/-- What an observer of one iteration of the loop records: the program
counter, the opcode fetched there, the stack depth before the opcode and the
cost `calculateGasAndSize` computes for it in that state (0 when it returns an
error). -/
structure Priced where
  pc : Nat
  op : OpCode
  depth : Nat
  cost : Int

/-- The record of the iteration that starts in state `s`. -/
def pricedAt (P : Params) (ctx : Context) (s : State) : Priced :=
  let op := GetOp ctx.Code s.pc
  ⟨s.pc, op, s.stack.length,
    match calculateGasAndSize P op s.statedb s.mem s.stack with
    | .ok (_, cost, _) => cost
    | .error _ => 0⟩

/-- The records of the iterations of the loop started in `s`, in order. -/
def trace (P : Params) (env : Environment) (ctx : Context) (input : List Nat) (disable : Bool) :
    (fuel : Nat) → State → List Priced
  | 0, _ => []
  | fuel + 1, s =>
    pricedAt P ctx s ::
      match step P env ctx input disable s with
      | .next s1 => trace P env ctx input disable fuel s1
      | _ => []

/-- The opcodes `Run` executes, with their costs: none for a precompiled
account or empty code, the iterations of the loop otherwise. -/
def executed (P : Params) (env : Environment) (ctx : Context) (input : List Nat) (disable : Bool)
    (fuel : Nat) (gas : Nat) (statedb : StateDB) (cs : codeSegments) : List Priced :=
  match ctx.precompiled with
  | some _ => []
  | none =>
    if ctx.Code.length = 0 then []
    else trace P env ctx input disable fuel (initState gas statedb cs)

/-- Whether the opcode is CREATE. -/
def isCreate : OpCode → Bool
  | CREATE => true
  | _ => false

/-- The sum of the costs of a list of records. -/
def totalCost (t : List Priced) : Int := (t.map (fun x => x.cost)).sum

/-! ## The fee formula of the specification -/

/-- The total memory fee for `n` words as the specification writes it:
`C(n) = n · memoryGas + (n² / quadCoeffDiv)`. -/
def totalFee (P : Params) (n : Nat) : Int := ((n * P.MemoryGas + n ^ 2 / P.QuadCoeffDiv : Nat) : Int)

/-! ## Instruction boundaries -/

/-- Number of immediate bytes that follow the byte `b`: `n` for PUSHn, else 0. -/
def pushBytes (b : Nat) : Nat := if 0x60 ≤ b ∧ b ≤ 0x7f then b - 0x5f else 0

/-- The offset of the instruction that follows the instruction at offset `p`. -/
def nextOp (code : List Nat) (p : Nat) : Nat := p + 1 + pushBytes (code.getD p 0)

/-- The offset of the `n`-th instruction when the code is read from `k`. -/
def opStartFrom (code : List Nat) (k : Nat) : Nat → Nat
  | 0 => k
  | n + 1 => nextOp code (opStartFrom code k n)

/-- The offset `t` lies inside the immediate bytes of a PUSH when the code is
read from offset 0: strictly between two consecutive instructions. -/
def inPushData (code : List Nat) (t : Nat) : Prop :=
  ∃ n, opStartFrom code 0 n < t ∧ t < opStartFrom code 0 (n + 1)

/-! ## Immediate bytes -/

/-- The number of immediate bytes of an opcode: `size = op - PUSH1 + 1` for a
PUSH, none for the others. -/
def immediate : OpCode → Nat
  | PUSH i => (i : Nat) + 1
  | _ => 0

/-! ## Programs used in the examples -/

/-- The program `JUMPDEST; GAS; PUSH1 0; SSTORE; STOP`: stores the remaining
gas in slot 0. -/
def gasProgram : List Nat := [0x5b, 0x5a, 0x60, 0x00, 0x55, 0x00]

/-- The program `PUSH1 1; PUSH1 0; CALLDATALOAD; MSTORE; STOP`: stores 1 in
memory at the offset given by the first word of the input. -/
def mstoreProgram : List Nat := [0x60, 1, 0x60, 0, 0x35, 0x52, 0x00]

/-- An input whose first word is 32. -/
def word32 : List Nat := List.replicate 31 0 ++ [32]

/-- The program `PUSH1 0; CALLDATALOAD; PUSH2 1034; JUMPI; PC (1023 times);
PUSH2 1034; JUMP; JUMPDEST; PUSH1 0; PUSH1 0; STOP`, whose last block starts at
offset 1034: it is reached with an empty stack when the first word of the
input is not zero, and with 1023 items otherwise. -/
def deepProgram : List Nat :=
  [0x60, 0, 0x35, 0x61, 0x04, 0x0a, 0x57] ++ List.replicate 1023 0x58 ++
    [0x61, 0x04, 0x0a, 0x56, 0x5b, 0x60, 0, 0x60, 0, 0]

/-- Six times `PUSH1 0`, `PUSH1 100`, CALL, STOP: a CALL with gas word 100 to
the account 0 with value 0 and empty ranges. -/
def callProgram : List Nat :=
  [0x60, 0, 0x60, 0, 0x60, 0, 0x60, 0, 0x60, 0, 0x60, 0, 0x60, 100, 0xf1, 0x00]

/-- The program `PUSH1 1; PUSH1 0; MSTORE8; STOP`: it writes the byte 1 at
offset 0 of the memory. -/
def mstore8Program : List Nat := [0x60, 1, 0x60, 0, 0x53, 0x00]

/-- The program `PUSH1 0; CALLDATALOAD; PUSH1 11; JUMPI; PUSH1 7; PUSH1 11;
JUMP; JUMPDEST; POP; PUSH1 0; STOP`. Its last block starts at offset 11: it is
reached with the stack `[7]` when the first word of the input is zero and with
an empty stack otherwise. -/
def underflowProgram : List Nat :=
  [0x60, 0, 0x35, 0x60, 11, 0x57, 0x60, 7, 0x60, 11, 0x56, 0x5b, 0x50, 0x60, 0, 0x00]

/-! ## The stack requirement of the specification -/

/-- The opcodes of the code from offset `pc` up to offset `cend`, one per
instruction; `fuel` bounds their number. -/
def opsBetween (code : List Nat) : (fuel : Nat) → (pc cend : Nat) → List OpCode
  | 0, _, _ => []
  | fuel + 1, pc, cend =>
    if pc ≤ cend then GetOp code pc :: opsBetween code fuel (nextOp code pc) cend else []

/-- The number of items an opcode needs on the stack and the number it leaves
in their place: those of the `_baseCheck` table, and for SWAPn and DUPn the
depths that `calculateGasAndSize` requires. -/
def stackUse (P : Params) : OpCode → Nat × Nat
  | SWAP i => ((i : Nat) + 2, (i : Nat) + 2)
  | DUP i => ((i : Nat) + 1, (i : Nat) + 2)
  | op =>
    match P.baseCheckTable op with
    | some r => (r.stackPop, r.stackPush)
    | none => (0, 0)

/-- The stack requirement of a run of opcodes in the words of the
specification: "the maximum observed underflow below the entry depth while
walking the run", "i.e. minimum items the caller must have on the stack".
`rel` is the depth relative to the entry depth, `need` the largest underflow
seen so far. -/
def specStackNeed (P : Params) : List OpCode → (rel need : Int) → Int
  | [], _, need => need
  | op :: ops, rel, need =>
    specStackNeed P ops (rel - (stackUse P op).1 + (stackUse P op).2)
      (max need ((stackUse P op).1 - rel))

/-- The program `PUSH1 1; PUSH8 0xffffffffffffffff; MSTORE8; STOP`: a write of
one byte at offset `2^64 - 1`. -/
def wrapProgram : List Nat :=
  [0x60, 1, 0x67, 0xff, 0xff, 0xff, 0xff, 0xff, 0xff, 0xff, 0xff, 0x53, 0x00]

/-! ## The segment map while the loop runs -/

/-- The state of the segment bookkeeping at the head of the loop: an entry of
the map with `cend = 0` is the current segment, stored at its `cstart`; while
the current segment is unclosed neither `pc` nor `ppc` is 0; with segmentation
disabled there is no current segment. -/
def SegInv (d : Bool) (s : State) : Prop :=
  (∀ k seg, s.csegments k = some seg → seg.cend = 0 → s.csegment = some seg ∧ seg.cstart = k) ∧
  (∀ cseg, s.csegment = some cseg → cseg.cend = 0 → s.pc ≠ 0 ∧ s.ppc ≠ 0) ∧
  (d = true → s.csegment = none)

/-- The program `PUSH1 0; PUSH1 0; ADD; ADD; STOP`: the second ADD finds one
item on the stack. -/
def shortStackProgram : List Nat := [0x60, 0, 0x60, 0, 0x01, 0x01, 0x00]

/-- The program `PUSH1 1; PUSH1 0; MSTORE; PUSH1 1; PUSH2 992; MSTORE; STOP`:
a store at offset 0 and then a store at offset 992 (word index 31). -/
def expandProgram : List Nat :=
  [0x60, 1, 0x60, 0, 0x52, 0x60, 1, 0x61, 0x03, 0xe0, 0x52, 0x00]

/-- Whether the opcode calls the host: CALL, CALLCODE or CREATE. -/
def isHostCall : OpCode → Bool
  | CALL | CALLCODE | CREATE => true
  | _ => false

/-- The gas recorded in the segments is not negative: in every entry of the
map and in the current segment. -/
def SegGasInv (s : State) : Prop :=
  (∀ k seg, s.csegments k = some seg → 0 ≤ seg.gas) ∧
  (∀ cseg, s.csegment = some cseg → 0 ≤ cseg.gas)

/-- The program `PUSH1 0; PUSH1 0; PUSH1 0; CREATE; STOP`: a creation with
value 0 and empty input. -/
def createProgram : List Nat := [0x60, 0, 0x60, 0, 0x60, 0, 0xf0, 0x00]

/-- A host whose creations succeed at address 1 with the output `[7, 7]` and
give back half of the gas they were handed plus the gas they find in the frame;
nested calls fail. -/
def halfEnv : Environment :=
  { idleEnv with Create := fun db g _ gas _ _ => ⟨[7, 7], false, 1, db, g + gas / 2⟩ }

/-- The program `PUSH1 1; PUSH9 2^64; MSTORE; STOP`: a store of the word 1 at
the offset `2^64`. -/
def wrapStoreProgram : List Nat :=
  [0x60, 1, 0x68, 1, 0, 0, 0, 0, 0, 0, 0, 0, 0x52, 0x00]

/-- The program `PUSH1 7; PUSH1 3; MSTORE; PUSH1 3; MLOAD; STOP`: a store of
the word 7 at offset 3 and a load from there. -/
def roundTripProgram : List Nat := [0x60, 7, 0x60, 3, 0x52, 0x60, 3, 0x51, 0x00]

/-- The part of an iteration of the loop that follows the segment discipline:
the pricing block and the `switch`, for the state `s2` in which `ppc` is set. -/
def priceAndExec (P : Params) (env : Environment) (ctx : Context) (input : List Nat)
    (disable : Bool) (s2 : State) (op : OpCode) : Step :=
  match pricePhase P disable s2 op with
  | .error (s3, e) => .fail s3 e
  | .ok s3 =>
    match execOp P env ctx input s3 op with
    | .error e => .fail (s3.popped op) e
    | .ok r => r.toStep

/-- The segment `S` covers a straight run of the code: it starts at an offset
other than 0, it ends at the `m`-th instruction after its start, the
instructions from the start to the end are not dynamic and the instruction
after the end is dynamic. -/
def Straight (code : List Nat) (S : segment) (m : Nat) : Prop :=
  S.cstart ≠ 0 ∧ S.cend = opStartFrom code S.cstart m ∧
  (∀ k, k ≤ m → isDynamic (GetOp code (opStartFrom code S.cstart k)) = false) ∧
  isDynamic (GetOp code (opStartFrom code S.cstart (m + 1))) = true

/-- The closed segment `S` is kept in a state in which the loop is left: it is
the entry of the map at its `cstart`, every entry of the map is stored at its
own `cstart`, and the current segment, if there is one, is `S` itself or a
segment with another `cstart`. -/
def KeptEnd (S : segment) (t : State) : Prop :=
  t.csegments S.cstart = some S ∧
  (∀ k seg, t.csegments k = some seg → seg.cstart = k) ∧
  (t.csegment = none ∨ (∃ cseg, t.csegment = some cseg ∧ cseg.cstart ≠ S.cstart) ∨
    t.csegment = some S)

/-- The closed segment `S` is kept at the head of the loop: as `KeptEnd`, and
while `S` is the current segment `nopay` is `S.cend` and the program counter is
at one of the instructions that follow the start of `S`, up to the one after
its end. -/
def Kept (code : List Nat) (S : segment) (m : Nat) (t : State) : Prop :=
  t.csegments S.cstart = some S ∧
  (∀ k seg, t.csegments k = some seg → seg.cstart = k) ∧
  (t.csegment = none ∨ (∃ cseg, t.csegment = some cseg ∧ cseg.cstart ≠ S.cstart) ∨
    (t.csegment = some S ∧ t.nopay = S.cend ∧
      ∃ k, 1 ≤ k ∧ k ≤ m + 1 ∧ t.pc = opStartFrom code S.cstart k))

/-- The program `PUSH1 0; CALLDATALOAD; PUSH1 11; JUMPI; PUSH1 7; PUSH1 11;
JUMP; JUMPDEST; DUP1; STOP`. Its last block starts at offset 11: it is reached
with the stack `[7]` when the first word of the input is zero and with an empty
stack otherwise. -/
def dupProgram : List Nat :=
  [0x60, 0, 0x35, 0x60, 11, 0x57, 0x60, 7, 0x60, 11, 0x56, 0x5b, 0x80, 0x00]

/-- The state after `n` iterations of the loop that all go on, if there is one. -/
def steps (P : Params) (env : Environment) (ctx : Context) (input : List Nat) (disable : Bool) :
    (n : Nat) → State → Option State
  | 0, s => some s
  | n + 1, s =>
    match step P env ctx input disable s with
    | .next s1 => steps P env ctx input disable n s1
    | _ => none

/-- The list `[base + n - 1, ..., base + 1, base]`. -/
def descending (base : Nat) : Nat → List Nat
  | 0 => []
  | n + 1 => (base + n) :: descending base n

/-- The segment map left by the run of `deepProgram` on the input `01`. -/
def deepCache : codeSegments :=
  match Run params idleEnv (frame deepProgram) [1] false 10 100000 emptyDB noSegments with
  | some r => r.state.csegments
  | none => noSegments

/-- The state of the second run of `deepProgram` (empty input, segment map
`deepCache`, gas 100000) after its first five iterations, that is after the
first opcode PC. -/
def deepStart : State :=
  (steps params idleEnv (frame deepProgram) [] false 5 (initState 100000 emptyDB deepCache)).getD
    (initState 0 emptyDB noSegments)

/-- The state of that run after the opcode PC at offset `7 + i`. -/
def deepState (i : Nat) : State :=
  ⟨8 + i, 7 + i, 0, descending 7 (i + 1), [], 99979 - 2 * i, deepStart.statedb,
    some ⟨7, 0, 0, 2 + 2 * (i : Int), 0⟩,
    fun k => if k = 7 then some ⟨7, 0, 0, 2 + 2 * (i : Int), 0⟩ else deepStart.csegments k⟩

/-- The state of the run of `deepProgram` without segmentation (empty input,
gas 100000) after its first five iterations. -/
def flatStart : State :=
  (steps params idleEnv (frame deepProgram) [] true 5 (initState 100000 emptyDB deepCache)).getD
    (initState 0 emptyDB noSegments)

/-- The state of that run after the opcode PC at offset `7 + i`. -/
def flatState (i : Nat) : State :=
  ⟨8 + i, 7 + i, 0, descending 7 (i + 1), [], 99979 - 2 * i, flatStart.statedb,
    flatStart.csegment, flatStart.csegments⟩

end Vm

/-!
# The method signature of `accounts/abi/method.go`

A shallow embedding of `NewMethod`. The type `Type` of type.go is not among
the sources: it is a parameter `T` together with its method `String()`
(`typeString`); the hash `crypto.Keccak256` is a parameter as well.
-/

namespace abi

/-- An argument of a method (`Argument`): its name, its type (the field `Type`
of the source) and whether it is indexed. -/
structure Argument (T : Type) where
  Name : String
  Ty : T
  Indexed : Bool

/-- The arguments of a method (`Arguments`). -/
abbrev Arguments (T : Type) := List (Argument T)

/-- The structure `Method`. -/
structure Method (T : Type) where
  Name : String
  RawName : String
  StateMutability : String
  Constant : Bool
  Payable : Bool
  IsFallback : Bool
  IsReceive : Bool
  Inputs : Arguments T
  Outputs : Arguments T
  str : String
  Sig : String
  ID : List Nat

/-- The function `strings.Join`. -/
def Join (elems : List String) (sep : String) : String := sep.intercalate elems

/-- The function `NewMethod`; `%v` prints a string as it is and a type through
its method `String()`. -/
def NewMethod {T : Type} (typeString : T → String) (Keccak256 : String → List Nat)
    (name rawName mutability : String) (isConst isPayable isFallback isReceive : Bool)
    (inputs outputs : Arguments T) : Method T :=
  let inputNames := inputs.map fun input => typeString input.Ty ++ " " ++ input.Name
  let types := inputs.map fun input => typeString input.Ty
  let outputNames := outputs.map fun output =>
    if output.Name.length > 0 then typeString output.Ty ++ " " ++ output.Name
    else typeString output.Ty
  let state := if mutability = "nonpayable" then "" else mutability
  let state := if state ≠ "" then state ++ " " else state
  let identity :=
    if isFallback then "fallback" else if isReceive then "receive" else "function " ++ rawName
  let str := identity ++ "(" ++ Join inputNames ", " ++ ") " ++ state ++ "returns("
    ++ Join outputNames ", " ++ ")"
  let sig := rawName ++ "(" ++ Join types "," ++ ")"
  let id := (Keccak256 sig).take 4
  { Name := name
    RawName := rawName
    StateMutability := mutability
    Constant := isConst
    Payable := isPayable
    IsFallback := isFallback
    IsReceive := isReceive
    Inputs := inputs
    Outputs := outputs
    str := str
    Sig := sig
    ID := id }

/-- The inputs of `function foo(uint32 a, int b)`, with the types given by
their canonical strings. -/
def fooInputs : Arguments String := [⟨"a", "uint32", false⟩, ⟨"b", "int256", false⟩]

end abi

/-! # Theorems -/

namespace Vm

/-! ## Results on the epilogue and on error returns -/

theorem useAllGas_eq (g : Nat) : useAllGas g = 0 := by
  simp [useAllGas, UseGas]

theorem epilogue_gas_of_err (d : Bool) (s : State) (e : VmError) :
    (epilogue d s (some e)).Gas = 0 := by
  unfold epilogue
  cases d <;> simp [useAllGas_eq]
  split
  · split <;> simp
  · simp

theorem finish_err_gas (d : Bool) (st : Step) (e : VmError)
    (h : (finish d st).err = some e) (hp : e ≠ .Panic) :
    (finish d st).state.Gas = 0 ∧ (finish d st).ret = [] := by
  cases st with
  | next s => simp [finish] at h
  | done s ret => simp [finish] at h
  | fail s e1 =>
    cases e1 <;> simp_all [finish, epilogue_gas_of_err]

/-- C1: whenever `Run` returns an error that is an error return of the loop
(out of gas, stack underflow or overflow, invalid jump, invalid opcode, a
failed segment pre-check; that is, any error but a recovered panic), the
frame's remaining gas is 0 and the output is empty. -/
theorem run_error_consumes_all_gas (P : Params) (env : Environment) (ctx : Context)
    (input : List Nat) (disable : Bool) (fuel gas : Nat) (statedb : StateDB) (cs : codeSegments)
    (r : Result) (e : VmError)
    (hrun : Run P env ctx input disable fuel gas statedb cs = some r)
    (herr : r.err = some e) (hloop : e ≠ .Panic) :
    r.state.Gas = 0 ∧ r.ret = [] := by
  unfold Run at hrun
  simp only at hrun
  split at hrun
  · cases hrun
    exact finish_err_gas _ _ e herr hloop
  · split at hrun
    · cases hrun
      exact finish_err_gas _ _ e herr hloop
    · rw [Option.map_eq_some'] at hrun
      obtain ⟨st, _, hst⟩ := hrun
      subst hst
      exact finish_err_gas _ _ e herr hloop

/-- Witness for C1: `60 05 56 00 00 00` with gas 100 fails with an invalid jump
and leaves no gas and no output. -/
theorem run_error_consumes_all_gas_witness :
    ∃ r, Run params idleEnv (frame [0x60, 5, 0x56, 0, 0, 0]) [] false 10 100 emptyDB noSegments
        = some r ∧ r.err = some (.InvalidJump 5) ∧ r.state.Gas = 0 ∧ r.ret = [] :=
  ⟨_, rfl, rfl,
    run_error_consumes_all_gas params idleEnv (frame [0x60, 5, 0x56, 0, 0, 0]) [] false 10 100
      emptyDB noSegments _ (.InvalidJump 5) rfl rfl (by decide)⟩

end Vm

namespace Vm

theorem bind_ok_iff {ε α β : Type} (x : Except ε α) (f : α → Except ε β) (b : β) :
    (x >>= f) = .ok b ↔ ∃ a, x = .ok a ∧ f a = .ok b := by
  cases x <;> simp [bind, Except.bind]

theorem pure_ok_iff {ε α : Type} (a b : α) :
    (pure a : Except ε α) = .ok b ↔ a = b := by
  simp [pure, Except.pure]

theorem jump_ok (code : List Nat) (s s1 : State) (d : Nat) (h : jump code s d = .ok s1) :
    s1 = { s with pc := Uint64 d } ∧ has code d = true := by
  unfold jump at h
  split at h
  · cases h
  · simp_all

set_option maxHeartbeats 1000000 in
theorem execOp_gas (P : Params) (env : Environment) (ctx : Context) (input : List Nat)
    (hcall : ∀ db g a args gs p v, (env.Call db g a args gs p v).gas = g)
    (hcallcode : ∀ db g a args gs p v, (env.CallCode db g a args gs p v).gas = g)
    (s : State) (op : OpCode) (r : Exec) (hc : isCreate op = false)
    (h : execOp P env ctx input s op = .ok r) : r.state.Gas = s.Gas := by
  revert h
  cases op <;> simp only [execOp, bind_ok_iff, pure_ok_iff, forall_exists_index, and_imp]
  case CREATE => simp [isCreate] at hc
  case JUMP =>
    intro x _ s1 hj hr
    subst hr
    simp [Exec.state, (jump_ok _ _ _ _ hj).1]
  all_goals try (intros; subst_vars; rfl)
  all_goals intros
  all_goals rename_i h
  all_goals try simp only [jump] at h
  all_goals repeat' split at h
  all_goals try simp only [bind_ok_iff, pure_ok_iff, forall_exists_index, and_imp, reduceCtorEq,
    false_and, exists_false, Except.ok.injEq] at h
  all_goals try (obtain ⟨_, _, h⟩ := h)
  all_goals (subst_vars; simp [Exec.state, hcall, hcallcode])

theorem UseGas_some (g : Nat) (c : Int) (g1 : Nat) (h : UseGas g c = some g1) :
    (g : Int) - g1 = c := by
  unfold UseGas at h
  split at h
  · cases h
  · cases h
    omega

theorem segmentPhase_disabled (s : State) (op : OpCode) : segmentPhase true s op = .ok s := by
  simp [segmentPhase]

theorem step_inv (P : Params) (env : Environment) (ctx : Context) (input : List Nat)
    (d : Bool) (s : State) (hok : ∀ s1 e, step P env ctx input d s ≠ .fail s1 e) :
    ∃ s1 s3 r, segmentPhase d s (GetOp ctx.Code s.pc) = .ok s1 ∧
      pricePhase P d { s1 with ppc := s1.pc } (GetOp ctx.Code s.pc) = .ok s3 ∧
      execOp P env ctx input s3 (GetOp ctx.Code s.pc) = .ok r ∧
      step P env ctx input d s = r.toStep := by
  unfold step at hok ⊢
  simp only at hok ⊢
  cases h1 : segmentPhase d s (GetOp ctx.Code s.pc) with
  | error v => rw [h1] at hok; exact absurd rfl (hok _ _)
  | ok s1 =>
    rw [h1] at hok
    simp only at hok ⊢
    cases h2 : pricePhase P d { s1 with ppc := s1.pc } (GetOp ctx.Code s.pc) with
    | error v => rw [h2] at hok; exact absurd rfl (hok _ _)
    | ok s3 =>
      rw [h2] at hok
      simp only at hok ⊢
      cases h3 : execOp P env ctx input s3 (GetOp ctx.Code s.pc) with
      | error v => rw [h3] at hok; exact absurd rfl (hok _ _)
      | ok r => exact ⟨s1, s3, r, rfl, h2, h3, rfl⟩

theorem pricePhase_priced (P : Params) (d : Bool) (s s3 : State) (op : OpCode)
    (hp : s.pc > s.nopay ∨ s.pc = 0 ∨ d = true) (h : pricePhase P d s op = .ok s3) :
    ∃ nm cost db, calculateGasAndSize P op s.statedb s.mem s.stack = .ok (nm, cost, db) ∧
      UseGas s.Gas cost = some s3.Gas ∧ s3.mem = s.mem.Resize (Uint64 nm) ∧
      s3.stack = s.stack ∧ s3.pc = s.pc ∧ s3.statedb = db ∧ s3.nopay = s.nopay ∧
      s3.ppc = s.ppc := by
  unfold pricePhase at h
  rw [if_pos hp] at h
  cases hc : calculateGasAndSize P op s.statedb s.mem s.stack with
  | error e => rw [hc] at h; cases h
  | ok v =>
    obtain ⟨nm, cost, db⟩ := v
    rw [hc] at h
    refine ⟨nm, cost, db, rfl, ?_⟩
    cases hs : s.csegment with
    | none =>
      simp only [hs] at h
      cases hu : UseGas s.Gas cost with
      | none => rw [hu] at h; cases h
      | some g => rw [hu] at h; cases h; simp
    | some cseg =>
      simp only [hs, State.setSegment] at h
      cases hu : UseGas s.Gas cost with
      | none => rw [hu] at h; cases h
      | some g => rw [hu] at h; cases h; simp

theorem toStep_state (r : Exec) : r.toStep.state.Gas = r.state.Gas := by
  cases r <;> rfl

theorem step_gas_disabled (P : Params) (env : Environment) (ctx : Context) (input : List Nat)
    (hcall : ∀ db g a args gs p v, (env.Call db g a args gs p v).gas = g)
    (hcallcode : ∀ db g a args gs p v, (env.CallCode db g a args gs p v).gas = g)
    (s : State) (hc : isCreate (pricedAt P ctx s).op = false)
    (hok : ∀ s1 e, step P env ctx input true s ≠ .fail s1 e) :
    (s.Gas : Int) - (step P env ctx input true s).state.Gas = (pricedAt P ctx s).cost := by
  obtain ⟨s1, s3, r, h1, h2, h3, h4⟩ := step_inv P env ctx input true s hok
  rw [segmentPhase_disabled] at h1
  cases h1
  obtain ⟨nm, cost, db, hcalc, hu, -, -, -, -, -, -⟩ :=
    pricePhase_priced P true _ s3 _ (Or.inr (Or.inr rfl)) h2
  have hg := execOp_gas P env ctx input hcall hcallcode s3 _ r hc h3
  have hu2 := UseGas_some _ _ _ hu
  simp only [pricedAt] at hcalc ⊢
  rw [h4, toStep_state, hg, hcalc]
  exact hu2

theorem loop_gas_disabled (P : Params) (env : Environment) (ctx : Context) (input : List Nat)
    (hcall : ∀ db g a args gs p v, (env.Call db g a args gs p v).gas = g)
    (hcallcode : ∀ db g a args gs p v, (env.CallCode db g a args gs p v).gas = g)
    (fuel : Nat) : ∀ (s s1 : State) (ret : List Nat),
    loop P env ctx input true fuel s = some (.done s1 ret) →
    (∀ x ∈ trace P env ctx input true fuel s, isCreate x.op = false) →
    (s.Gas : Int) - s1.Gas = totalCost (trace P env ctx input true fuel s) := by
  induction fuel with
  | zero => intro s s1 ret h; simp [loop] at h
  | succ n ih =>
    intro s s1 ret h hc
    simp only [loop] at h
    simp only [trace, List.mem_cons, forall_eq_or_imp] at hc
    obtain ⟨hc0, hc1⟩ := hc
    simp only [trace, totalCost, List.map_cons, List.sum_cons]
    cases hst : step P env ctx input true s with
    | next s2 =>
      rw [hst] at h hc1
      simp only at h hc1
      have h1 := step_gas_disabled P env ctx input hcall hcallcode s hc0 (by rw [hst]; simp)
      rw [hst] at h1
      have h2 := ih s2 s1 ret h hc1
      simp only [Step.state, totalCost] at h1 h2 ⊢
      omega
    | done s2 ret2 =>
      rw [hst] at h
      simp only [Option.some.injEq, Step.done.injEq] at h
      obtain ⟨rfl, rfl⟩ := h
      have h1 := step_gas_disabled P env ctx input hcall hcallcode s hc0 (by rw [hst]; simp)
      rw [hst] at h1
      simp only [Step.state] at h1
      simp [h1]
    | fail s2 e =>
      rw [hst] at h
      simp at h

theorem finish_disabled_ok (st : Step) (h : (finish true st).err = none) :
    (∃ s ret, st = .done s ret ∧ finish true st = ⟨ret, none, s⟩) ∨
    (∃ s, st = .next s) := by
  cases st with
  | next s => exact Or.inr ⟨s, rfl⟩
  | done s ret => exact Or.inl ⟨s, ret, rfl, by simp [finish, epilogue]⟩
  | fail s e => cases e <;> simp [finish] at h

theorem loop_not_next (P : Params) (env : Environment) (ctx : Context) (input : List Nat)
    (d : Bool) (fuel : Nat) : ∀ (s s1 : State),
    loop P env ctx input d fuel s ≠ some (.next s1) := by
  induction fuel with
  | zero => intro s s1; simp [loop]
  | succ n ih =>
    intro s s1
    simp only [loop]
    cases hst : step P env ctx input d s with
    | next s2 => exact ih s2 s1
    | done s2 ret => simp
    | fail s2 e => simp

/-- C2 (as amended): for a frame that is not a precompiled account, run
with segmentation disabled, whose run ends without error, executes no CREATE
and in which the host leaves the frame's gas as it is, the initial gas minus
the final gas is the sum of the costs `calculateGasAndSize` computed for the
executed opcodes; and `60 03 60 04 01 00` started with gas 100 ends with empty
output, no error and 91 gas left. -/
theorem gas_conservation (P : Params) (env : Environment) (ctx : Context) (input : List Nat)
    (fuel gas : Nat) (statedb : StateDB) (cs : codeSegments) (r : Result)
    (hpre : ctx.precompiled = none)
    (hcall : ∀ db g a args gs p v, (env.Call db g a args gs p v).gas = g)
    (hcallcode : ∀ db g a args gs p v, (env.CallCode db g a args gs p v).gas = g)
    (hrun : Run P env ctx input true fuel gas statedb cs = some r)
    (hok : r.err = none)
    (hcreate : ∀ x ∈ executed P env ctx input true fuel gas statedb cs, isCreate x.op = false) :
    (gas : Int) - r.state.Gas = totalCost (executed P env ctx input true fuel gas statedb cs) ∧
    (Run params idleEnv (frame [0x60, 3, 0x60, 4, 1, 0]) [] true 10 100 emptyDB noSegments).map
      (fun r => (r.ret, r.err, r.state.Gas)) = some ([], none, 91) := by
  refine ⟨?_, by rfl⟩
  unfold Run at hrun
  unfold executed at hcreate ⊢
  simp only [hpre] at hrun hcreate ⊢
  split at hrun
  · rename_i hlen
    cases hrun
    simp [hlen, finish, epilogue, totalCost]
  · rename_i hlen
    simp only [hlen, if_false] at hcreate ⊢
    rw [Option.map_eq_some'] at hrun
    obtain ⟨st, hloop, hst⟩ := hrun
    subst hst
    rcases finish_disabled_ok st hok with ⟨s1, ret, rfl, hf⟩ | ⟨s1, rfl⟩
    · rw [hf]
      exact loop_gas_disabled P env ctx input hcall hcallcode fuel _ s1 ret hloop hcreate
    · exact absurd hloop (loop_not_next P env ctx input true fuel _ s1)

/-- Witness for C2: the run of `60 03 60 04 01 00` with gas 100 uses 9 gas, the
sum of the four costs. -/
theorem gas_conservation_witness :
    totalCost (executed params idleEnv (frame [0x60, 3, 0x60, 4, 1, 0]) [] true 10 100
      emptyDB noSegments) = 9 ∧
    ((100 : Int) - 91 = totalCost (executed params idleEnv (frame [0x60, 3, 0x60, 4, 1, 0]) []
        true 10 100 emptyDB noSegments) ∧
      (Run params idleEnv (frame [0x60, 3, 0x60, 4, 1, 0]) [] true 10 100 emptyDB noSegments).map
        (fun r => (r.ret, r.err, r.state.Gas)) = some ([], none, 91)) :=
  ⟨by decide,
    gas_conservation params idleEnv (frame [0x60, 3, 0x60, 4, 1, 0]) [] 10 100 emptyDB
      noSegments ⟨[], none, ⟨5, 5, 0, [7], [], 91, emptyDB, none, noSegments⟩⟩ rfl
      (fun _ _ _ _ _ _ _ => rfl) (fun _ _ _ _ _ _ _ => rfl) rfl rfl (by decide)⟩

/-- C2, counterexample: for a precompiled account that charges 5 gas the run
ends without error with 95 of 100 gas left although no opcode was executed, so
the gas used is not the sum of the costs of the executed opcodes. -/
theorem gas_conservation_fails_for_precompiled :
    ¬ (∀ (P : Params) (env : Environment) (ctx : Context) (input : List Nat)
        (fuel gas : Nat) (statedb : StateDB) (cs : codeSegments) (r : Result),
        (∀ db g a args gs p v, (env.Call db g a args gs p v).gas = g) →
        (∀ db g a args gs p v, (env.CallCode db g a args gs p v).gas = g) →
        Run P env ctx input true fuel gas statedb cs = some r →
        r.err = none →
        (∀ x ∈ executed P env ctx input true fuel gas statedb cs, isCreate x.op = false) →
        (gas : Int) - r.state.Gas
          = totalCost (executed P env ctx input true fuel gas statedb cs)) := by
  intro h
  have := h params idleEnv ⟨0, 0, [], 0, 0, some ⟨fun _ => 5, fun x => x⟩⟩ [] 10 100 emptyDB
    noSegments ⟨[], none, ⟨0, 0, 0, [], [], 95, emptyDB, none, noSegments⟩⟩
    (fun _ _ _ _ _ _ _ => rfl) (fun _ _ _ _ _ _ _ => rfl) rfl rfl (by simp [executed])
  simp [executed, totalCost] at this

/-! ## Runs that use a recorded segment -/

/-- C3 (failing input): `JUMPDEST; GAS; PUSH1 0; SSTORE; STOP` with gas 100000
on empty storage. A first run with segmentation records the segment at pc 1
(gas 5). With that segment map, the run with segmentation stores 99994 in slot
0 (the segment's gas is paid before GAS reads the remaining gas), the run
without segmentation stores 99997; both end without error. -/
theorem segmentation_changes_stored_gas :
    ∃ r1 r2 r3,
      Run params idleEnv (frame gasProgram) [] false 10 100000 emptyDB noSegments = some r1 ∧
      Run params idleEnv (frame gasProgram) [] false 10 100000 emptyDB r1.state.csegments
        = some r2 ∧
      Run params idleEnv (frame gasProgram) [] true 10 100000 emptyDB r1.state.csegments
        = some r3 ∧
      r2.err = none ∧ r3.err = none ∧
      r2.state.statedb.storage 0 = 99994 ∧ r3.state.statedb.storage 0 = 99997 :=
  ⟨_, _, _, rfl, rfl, rfl, rfl, rfl, rfl, rfl⟩

/-- C4 (failing input): `PUSH1 1; PUSH1 0; CALLDATALOAD; MSTORE; STOP`. The run
with empty input records the closed segment at pc 2 with `cend = 6`,
`ssize = 1` and `gas = 12`. The run whose input word is 32 reaches pc 2 with
stack depth 1 and opcode-by-opcode pricing computes 3, 3, 9 and 0 for the
opcodes at pc 2, 4, 5 and 6: 15 in all, not 12. When the segment is applied
the run is charged 12 for them (99985 gas left instead of 99982). -/
theorem segment_gas_differs_from_opcode_costs :
    ∃ r1 S r2 r3,
      Run params idleEnv (frame mstoreProgram) [] false 10 100000 emptyDB noSegments = some r1 ∧
      r1.state.csegments 2 = some S ∧ S.cstart = 2 ∧ S.cend = 6 ∧ S.ssize = 1 ∧ S.gas = 12 ∧
      (trace params idleEnv (frame mstoreProgram) word32 true 10
          (initState 100000 emptyDB noSegments)).map (fun x => (x.pc, x.depth, x.cost))
        = [(0, 0, 3), (2, 1, 3), (4, 2, 3), (5, 2, 9), (6, 0, 0)] ∧
      totalCost ((trace params idleEnv (frame mstoreProgram) word32 true 10
          (initState 100000 emptyDB noSegments)).filter (fun x => 2 ≤ x.pc && x.pc ≤ 6)) = 15 ∧
      Run params idleEnv (frame mstoreProgram) word32 true 10 100000 emptyDB noSegments
        = some r2 ∧ r2.err = none ∧ r2.state.Gas = 99982 ∧
      Run params idleEnv (frame mstoreProgram) word32 false 10 100000 emptyDB r1.state.csegments
        = some r3 ∧ r3.err = none ∧ r3.state.Gas = 99985 :=
  ⟨_, _, _, _, rfl, rfl, rfl, rfl, rfl, rfl, by decide, by decide, rfl, rfl, rfl, rfl, rfl, rfl⟩

end Vm

namespace Vm
open OpCode

theorem Resize_length (m : Memory) (n : Nat) : m.length ≤ (Memory.Resize m n).length := by
  unfold Memory.Resize
  split <;> simp

theorem Resize_zero (m : Memory) : Memory.Resize m 0 = m := by
  simp [Memory.Resize]

theorem Resize_length_ge (m : Memory) (n : Nat) : n ≤ (Memory.Resize m n).length := by
  unfold Memory.Resize
  split
  · simp; omega
  · omega

theorem Set_length (m : Memory) (o sz : Nat) (v : List Nat) :
    m.length ≤ (Memory.Set m o sz v).length := by
  unfold Memory.Set
  split
  · exact le_rfl
  · simp only [List.length_append, List.length_take, List.length_drop, RightPadBytes,
      List.length_replicate]
    have h1 := Resize_length m ((o + sz + 31) / 32 * 32)
    have h2 := Resize_length_ge m ((o + sz + 31) / 32 * 32)
    omega

set_option maxHeartbeats 1000000 in
theorem execOp_mem (P : Params) (env : Environment) (ctx : Context) (input : List Nat)
    (s : State) (op : OpCode) (r : Exec)
    (h : execOp P env ctx input s op = .ok r) : s.mem.length ≤ r.state.mem.length := by
  revert h
  cases op <;> simp only [execOp, bind_ok_iff, pure_ok_iff, forall_exists_index, and_imp]
  case JUMP =>
    intro x _ s1 hj hr
    subst hr
    simp [Exec.state, (jump_ok _ _ _ _ hj).1]
  all_goals try (intros; subst_vars; exact le_rfl)
  all_goals intros
  all_goals rename_i h
  all_goals try simp only [jump] at h
  all_goals repeat' split at h
  all_goals try simp only [bind_ok_iff, pure_ok_iff, forall_exists_index, and_imp, reduceCtorEq,
    false_and, exists_false, Except.ok.injEq] at h
  all_goals try (obtain ⟨_, _, h⟩ := h)
  all_goals (subst_vars; simp [Exec.state, Set_length])

theorem segmentPhase_mem (d : Bool) (s : State) (op : OpCode) :
    match segmentPhase d s op with
    | .ok s1 => s1.mem = s.mem
    | .error (s1, _) => s1.mem = s.mem := by
  cases d
  · cases hdyn : isDynamic op
    · cases hcs : s.csegment
      · by_cases hpc : s.pc = 0
        · simp [segmentPhase, hdyn, hcs, hpc]
        · cases hseg : s.csegments s.pc with
          | none => simp [segmentPhase, hdyn, hcs, hpc, hseg, State.setSegment]
          | some seg =>
            cases hreq : s.stack.require seg.ssize with
            | error e => simp [segmentPhase, hdyn, hcs, hpc, hseg, hreq]
            | ok u =>
              cases hu : UseGas s.Gas seg.gas <;>
                simp [segmentPhase, hdyn, hcs, hpc, hseg, hreq, hu]
      · simp [segmentPhase, hdyn, hcs]
    · cases hcs : s.csegment with
      | none => simp [segmentPhase, hdyn, hcs]
      | some cseg =>
        by_cases hce : cseg.cend = 0 <;> simp [segmentPhase, hdyn, hcs, hce, State.setSegment]
  · simp [segmentPhase]

theorem pricePhase_mem (P : Params) (d : Bool) (s : State) (op : OpCode) :
    match pricePhase P d s op with
    | .ok s3 => s.mem.length ≤ s3.mem.length
    | .error (s3, _) => s3.mem = s.mem := by
  by_cases hp : s.pc > s.nopay ∨ s.pc = 0 ∨ d = true
  · cases hc : calculateGasAndSize P op s.statedb s.mem s.stack with
    | error e => simp [pricePhase, hp, hc]
    | ok v =>
      obtain ⟨nm, cost, db⟩ := v
      cases hcs : s.csegment <;> cases hu : UseGas s.Gas cost <;>
        simp [pricePhase, hp, hc, hcs, hu, State.setSegment, Resize_length]
  · simp [pricePhase, hp]

theorem toStep_mem (r : Exec) : r.toStep.state.mem = r.state.mem := by
  cases r <;> rfl

theorem memoryFee_words (P : Params) (mem : Memory) (n : Nat) : 32 ∣ (memoryFee P mem n).1 := by
  unfold memoryFee
  split
  · simp only
    split <;> exact Dvd.intro_left _ rfl
  · have : n = 0 := by omega
    subst this
    exact dvd_zero 32

theorem calculateGasAndSize_words (P : Params) (op : OpCode) (db : StateDB) (mem : Memory)
    (st : stack) (nm : Nat) (c : Int) (db1 : StateDB)
    (h : calculateGasAndSize P op db mem st = .ok (nm, c, db1)) : 32 ∣ nm := by
  unfold calculateGasAndSize at h
  simp only [bind_ok_iff, pure_ok_iff] at h
  obtain ⟨g, -, ⟨n1, g1, db2⟩, -, h⟩ := h
  simp only [Prod.mk.injEq] at h
  rw [← h.1]
  exact memoryFee_words P mem n1

/-- C6: in every iteration of the loop, however it ends, the memory is at
least as long afterwards as before. The pricing block resizes the memory to
the size computed by `calculateGasAndSize`, which is a whole number of words;
`Resize` never shortens the memory, and resizing to 0 leaves it as it is. -/
theorem memory_never_shrinks (P : Params) (env : Environment) (ctx : Context)
    (input : List Nat) (d : Bool) (s : State) :
    s.mem.length ≤ (step P env ctx input d s).state.mem.length ∧
    (∀ s3 op, (s.pc > s.nopay ∨ s.pc = 0 ∨ d = true) → pricePhase P d s op = .ok s3 →
      ∃ nm c db, calculateGasAndSize P op s.statedb s.mem s.stack = .ok (nm, c, db) ∧
        32 ∣ nm ∧ s3.mem = s.mem.Resize (Uint64 nm)) ∧
    (∀ (m : Memory) (n : Nat), m.length ≤ (m.Resize n).length) ∧
    (∀ m : Memory, m.Resize 0 = m) := by
  refine ⟨?_, ?_, Resize_length, Resize_zero⟩
  · unfold step
    simp only
    have h1 := segmentPhase_mem d s (GetOp ctx.Code s.pc)
    cases hs : segmentPhase d s (GetOp ctx.Code s.pc) with
    | error v =>
      obtain ⟨s1, e⟩ := v
      rw [hs] at h1
      simp only [Step.state] at h1 ⊢
      rw [h1]
    | ok s1 =>
      rw [hs] at h1
      simp only at h1 ⊢
      have h2 := pricePhase_mem P d { s1 with ppc := s1.pc } (GetOp ctx.Code s.pc)
      cases hp : pricePhase P d { s1 with ppc := s1.pc } (GetOp ctx.Code s.pc) with
      | error v =>
        obtain ⟨s3, e⟩ := v
        rw [hp] at h2
        simp only [Step.state] at h2 ⊢
        rw [h2, h1]
      | ok s3 =>
        rw [hp] at h2
        simp only at h2 ⊢
        cases he : execOp P env ctx input s3 (GetOp ctx.Code s.pc) with
        | error e =>
          simp only [Step.state]
          rw [← h1]
          exact h2
        | ok r =>
          simp only
          rw [toStep_mem]
          have h3 := execOp_mem P env ctx input s3 _ r he
          rw [← h1]
          exact le_trans h2 h3
  · intro s3 op hp h
    obtain ⟨nm, c, db, hc, -, hm, -⟩ := pricePhase_priced P d s s3 op hp h
    exact ⟨nm, c, db, hc, calculateGasAndSize_words P op _ _ _ nm c db hc, hm⟩

end Vm

namespace Vm
open OpCode

/-! ## Jump destinations -/

theorem opStartFrom_lt_succ (code : List Nat) (k n : Nat) :
    opStartFrom code k n < opStartFrom code k (n + 1) := by
  simp only [opStartFrom, nextOp]
  omega

theorem opStartFrom_strictMono (code : List Nat) (k : Nat) :
    StrictMono (opStartFrom code k) :=
  strictMono_nat_of_lt_succ (opStartFrom_lt_succ code k)

theorem opStartFrom_ge (code : List Nat) (k n : Nat) : k + n ≤ opStartFrom code k n := by
  induction n with
  | zero => simp [opStartFrom]
  | succ n ih => have := opStartFrom_lt_succ code k n; omega

/-- An offset at or after `k` is an instruction start or strictly between two. -/
theorem start_or_between (code : List Nat) (k t : Nat) (hk : k ≤ t) :
    (∃ n, opStartFrom code k n = t) ∨
    (∃ n, opStartFrom code k n < t ∧ t < opStartFrom code k (n + 1)) := by
  have hex : ∃ n, t < opStartFrom code k n := ⟨t + 1, by have := opStartFrom_ge code k (t + 1); omega⟩
  classical
  let m := Nat.find hex
  have hm : t < opStartFrom code k m := Nat.find_spec hex
  have hm0 : m ≠ 0 := by
    intro h0
    rw [h0] at hm
    simp [opStartFrom] at hm
    omega
  obtain ⟨j, hj⟩ := Nat.exists_eq_succ_of_ne_zero hm0
  have hj2 : ¬ t < opStartFrom code k j := Nat.find_min hex (by omega)
  rw [hj] at hm
  rcases Nat.lt_or_ge (opStartFrom code k j) t with h | h
  · exact Or.inr ⟨j, h, hm⟩
  · exact Or.inl ⟨j, by omega⟩

theorem start_not_between (code : List Nat) (k n m : Nat) :
    ¬ (opStartFrom code k m < opStartFrom code k n ∧
        opStartFrom code k n < opStartFrom code k (m + 1)) := by
  intro ⟨h1, h2⟩
  have a := (opStartFrom_strictMono code k).lt_iff_lt.mp h1
  have b := (opStartFrom_strictMono code k).lt_iff_lt.mp h2
  omega

theorem isStart_iff_not_inPushData (code : List Nat) (t : Nat) :
    (∃ n, opStartFrom code 0 n = t) ↔ ¬ inPushData code t := by
  constructor
  · rintro ⟨n, rfl⟩ ⟨m, hm⟩
    exact start_not_between code 0 n m hm
  · intro h
    rcases start_or_between code 0 t (Nat.zero_le t) with h1 | h1
    · exact h1
    · exact absurd h1 h

theorem opStartFrom_cons_succ (b : Nat) (rest : List Nat) (k n : Nat) :
    opStartFrom (b :: rest) (k + 1) n = opStartFrom rest k n + 1 := by
  induction n with
  | zero => rfl
  | succ n ih =>
    simp only [opStartFrom, nextOp, ih, List.getD_cons_succ]
    omega

theorem opStartFrom_zero_succ (code : List Nat) (n : Nat) :
    opStartFrom code 0 (n + 1) = opStartFrom code (nextOp code 0) n := by
  induction n with
  | zero => rfl
  | succ n ih => rw [opStartFrom, ih]; rfl

theorem mem_jumpdests (l : List Nat) : ∀ (pc skip t : Nat),
    t ∈ jumpdests l pc skip ↔
      ∃ i, i < l.length ∧ t = pc + i ∧ l.getD i 0 = 0x5b ∧ ∃ n, opStartFrom l skip n = i := by
  induction l with
  | nil => intro pc skip t; simp [jumpdests]
  | cons b rest ih =>
    intro pc skip t
    have shift : ∀ k, (∃ i, i < rest.length ∧ t = pc + 1 + i ∧ rest.getD i 0 = 0x5b ∧
          ∃ n, opStartFrom rest k n = i) ↔
        (∃ i, i < (b :: rest).length ∧ t = pc + i ∧ (b :: rest).getD i 0 = 0x5b ∧
          ∃ n, opStartFrom (b :: rest) (k + 1) n = i) := by
      intro k
      constructor
      · rintro ⟨i, h1, h2, h3, n, h4⟩
        refine ⟨i + 1, by simp; omega, by omega, by simpa using h3, n, ?_⟩
        rw [opStartFrom_cons_succ, h4]
      · rintro ⟨i, h1, h2, h3, n, h4⟩
        have hi : 1 ≤ i := by
          have := opStartFrom_ge (b :: rest) (k + 1) n
          omega
        obtain ⟨j, rfl⟩ : ∃ j, i = j + 1 := ⟨i - 1, by omega⟩
        rw [opStartFrom_cons_succ] at h4
        exact ⟨j, by simp at h1; omega, by omega, by simpa using h3, n, by omega⟩
    cases skip with
    | succ k =>
      simp only [jumpdests]
      rw [ih, shift]
    | zero =>
      have unfold0 : ∀ i, (∃ n, opStartFrom (b :: rest) 0 n = i) ↔
          (i = 0 ∨ ∃ n, opStartFrom (b :: rest) (pushBytes b + 1) n = i) := by
        intro i
        constructor
        · rintro ⟨n, hn⟩
          cases n with
          | zero => left; simpa [opStartFrom] using hn.symm
          | succ n =>
            right
            rw [opStartFrom_zero_succ] at hn
            refine ⟨n, ?_⟩
            rw [← hn]
            simp [nextOp, Nat.add_comm]
        · rintro (rfl | ⟨n, hn⟩)
          · exact ⟨0, rfl⟩
          · refine ⟨n + 1, ?_⟩
            rw [opStartFrom_zero_succ, ← hn]
            simp [nextOp, Nat.add_comm]
      simp only [jumpdests]
      by_cases hpush : 0x60 ≤ b ∧ b ≤ 0x7f
      · rw [if_pos hpush, ih, shift]
        have hpb : pushBytes b = b - 0x5f := by simp [pushBytes, hpush]
        constructor
        · rintro ⟨i, h1, h2, h3, h4⟩
          exact ⟨i, h1, h2, h3, (unfold0 i).mpr (Or.inr (by rw [hpb]; exact h4))⟩
        · rintro ⟨i, h1, h2, h3, h4⟩
          rcases (unfold0 i).mp h4 with rfl | h5
          · simp at h3; omega
          · exact ⟨i, h1, h2, h3, by rw [← hpb]; exact h5⟩
      · rw [if_neg hpush]
        have hpb : pushBytes b = 0 := by simp [pushBytes, hpush]
        by_cases h5b : b = 0x5b
        · rw [if_pos h5b, List.mem_cons, ih, shift]
          constructor
          · rintro (rfl | ⟨i, h1, h2, h3, h4⟩)
            · exact ⟨0, by simp, rfl, by simpa using h5b, 0, rfl⟩
            · exact ⟨i, h1, h2, h3, (unfold0 i).mpr (Or.inr (by rw [hpb]; exact h4))⟩
          · rintro ⟨i, h1, h2, h3, h4⟩
            rcases (unfold0 i).mp h4 with rfl | h5
            · left; simpa using h2
            · right; exact ⟨i, h1, h2, h3, by rw [hpb] at h5; exact h5⟩
        · rw [if_neg h5b, ih, shift]
          constructor
          · rintro ⟨i, h1, h2, h3, h4⟩
            exact ⟨i, h1, h2, h3, (unfold0 i).mpr (Or.inr (by rw [hpb]; exact h4))⟩
          · rintro ⟨i, h1, h2, h3, h4⟩
            rcases (unfold0 i).mp h4 with rfl | h5
            · simp at h3; exact absurd h3 h5b
            · exact ⟨i, h1, h2, h3, by rw [hpb] at h5; exact h5⟩

theorem has_iff (code : List Nat) (t : Nat) :
    has code t = true ↔ t < code.length ∧ code.getD t 0 = 0x5b ∧ ¬ inPushData code t := by
  unfold has
  have hc : (jumpdests code 0 0).contains t = true ↔ t ∈ jumpdests code 0 0 := by
    simp [List.contains_iff_exists_mem_beq]
  rw [Bool.and_eq_true, decide_eq_true_iff, hc, mem_jumpdests,
    ← isStart_iff_not_inPushData]
  constructor
  · rintro ⟨h0, i, h1, h2, h3, h4⟩
    simp only [Nat.zero_add] at h2
    subst h2
    exact ⟨h0, h3, h4⟩
  · rintro ⟨h0, h3, h4⟩
    exact ⟨h0, t, h0, by simp, h3, h4⟩

theorem loop_of_step_fail (P : Params) (env : Environment) (ctx : Context) (input : List Nat)
    (d : Bool) (s s3 : State) (e : VmError) (fuel : Nat)
    (h : step P env ctx input d s = .fail s3 e) :
    loop P env ctx input d (fuel + 1) s = some (.fail s3 e) := by
  simp [loop, h]

/-- C7: for the opcode JUMP with target word `t` on top of the stack (after
the segment discipline and pricing of the iteration succeeded), the loop goes
on with `pc = t` exactly when `t < len(code)`, `code[t]` is 0x5B and `t` is not
inside the immediate bytes of a PUSH; otherwise the loop is left with an
invalid-jump error, and `Run` returns that error with empty output and no gas.
`60 05 56 00 00 00` fails with an invalid jump, `60 04 56 00 5B 00` ends
without error at pc 5. -/
theorem jump_destination (P : Params) (env : Environment) (ctx : Context) (input : List Nat)
    (d : Bool) (s s1 s3 : State) (t : Nat) (rest : stack)
    (hlen : ctx.Code.length ≤ 2 ^ 64)
    (hop : GetOp ctx.Code s.pc = JUMP)
    (hseg : segmentPhase d s JUMP = .ok s1)
    (hprice : pricePhase P d { s1 with ppc := s1.pc } JUMP = .ok s3)
    (hst : s3.stack = t :: rest) :
    ((t < ctx.Code.length ∧ ctx.Code.getD t 0 = 0x5b ∧ ¬ inPushData ctx.Code t) →
      step P env ctx input d s = .next { s3 with stack := rest, pc := t }) ∧
    (¬ (t < ctx.Code.length ∧ ctx.Code.getD t 0 = 0x5b ∧ ¬ inPushData ctx.Code t) →
      step P env ctx input d s = .fail { s3 with stack := rest } (.InvalidJump t) ∧
      (∀ fuel, loop P env ctx input d (fuel + 1) s = some (.fail { s3 with stack := rest } (.InvalidJump t))) ∧
      (finish d (.fail { s3 with stack := rest } (.InvalidJump t))).err = some (.InvalidJump t) ∧
      (finish d (.fail { s3 with stack := rest } (.InvalidJump t))).ret = [] ∧
      (finish d (.fail { s3 with stack := rest } (.InvalidJump t))).state.Gas = 0) ∧
    (∀ d, (Run params idleEnv (frame [0x60, 5, 0x56, 0, 0, 0]) [] d 10 100 emptyDB noSegments).map
      (fun r => (r.ret, r.err, r.state.Gas)) = some ([], some (.InvalidJump 5), 0)) ∧
    (∀ d, (Run params idleEnv (frame [0x60, 4, 0x56, 0, 0x5b, 0]) [] d 10 100 emptyDB noSegments).map
      (fun r => (r.ret, r.err, r.state.pc)) = some ([], none, 5)) := by
  have hstep : step P env ctx input d s =
      match execOp P env ctx input s3 JUMP with
      | .error e => .fail (s3.popped JUMP) e
      | .ok r => r.toStep := by
    simp only [step, hop, hseg, hprice]
  have hpop : s3.popped JUMP = { s3 with stack := rest } := by
    simp [State.popped, pops, hst]
  have hexec : execOp P env ctx input s3 JUMP =
      if has ctx.Code t = true then .ok (.jumped { s3 with stack := rest, pc := Uint64 t })
      else .error (.InvalidJump t) := by
    cases hh : has ctx.Code t <;>
      simp [execOp, hst, stack.pop, jump, bind, Except.bind, pure, Except.pure, hh]
  refine ⟨?_, ?_, ?_, ?_⟩
  · intro hv
    have hh := (has_iff ctx.Code t).mpr hv
    have ht : Uint64 t = t := by
      unfold Uint64
      exact Nat.mod_eq_of_lt (by omega)
    rw [hstep, hexec, if_pos hh, ht]
    rfl
  · intro hv
    have hh : ¬ has ctx.Code t = true := fun h => hv ((has_iff ctx.Code t).mp h)
    have hs : step P env ctx input d s = .fail { s3 with stack := rest } (.InvalidJump t) := by
      rw [hstep, hexec, if_neg hh, hpop]
    refine ⟨hs, fun fuel => loop_of_step_fail P env ctx input d s _ _ fuel hs, rfl, rfl, ?_⟩
    exact epilogue_gas_of_err d _ _
  · intro d; cases d <;> rfl
  · intro d; cases d <;> rfl

/-- Witness for C7: in `60 04 56 00 5B 00` the JUMP at pc 2 with target 4 moves
the program counter to 4. -/
theorem jump_destination_witness :
    step params idleEnv (frame [0x60, 4, 0x56, 0, 0x5b, 0]) [] true
        ⟨2, 0, 0, [4], [], 97, emptyDB, none, noSegments⟩
      = .next ⟨4, 2, 0, [], [], 89, emptyDB, none, noSegments⟩ :=
  (jump_destination params idleEnv (frame [0x60, 4, 0x56, 0, 0x5b, 0]) [] true
    ⟨2, 0, 0, [4], [], 97, emptyDB, none, noSegments⟩
    ⟨2, 0, 0, [4], [], 97, emptyDB, none, noSegments⟩
    ⟨2, 2, 0, [4], [], 89, emptyDB, none, noSegments⟩ 4 [] (by decide) rfl rfl rfl rfl).1
    ((has_iff _ _).mp (by decide))

end Vm

namespace Vm
open OpCode

/-! ## SSTORE -/

theorem memoryFee_zero (P : Params) (mem : Memory) : memoryFee P mem 0 = (0, 0) := by
  simp [memoryFee]

/-- C8: for SSTORE on slot `x` with current value `old = storage x` and new
value `y` (words below 2^256), when the static check passes, the cost is
exactly `SstoreSetGas` if `old = 0` and `y ≠ 0` and exactly `SstoreClearGas`
otherwise; pricing adds `SstoreRefundGas` to the refund counter exactly when
`old ≠ 0` and `y = 0`; no memory is required; and after the opcode executes the
slot holds `y`. Scenarios S2 and S3 are evaluated with the constants `params`. -/
theorem sstore_cost_and_effect (P : Params) (env : Environment) (ctx : Context)
    (input : List Nat) (db : StateDB) (mem : Memory) (x y : Nat) (rest : stack) (g0 : Int)
    (hx : x < 2 ^ 256) (hy : y < 2 ^ 256)
    (hbase : baseCheck P SSTORE (x :: y :: rest) = .ok g0) :
    (∃ db1, calculateGasAndSize P SSTORE db mem (x :: y :: rest) =
        .ok (0, if db.storage x = 0 ∧ y ≠ 0 then (P.SstoreSetGas : Int) else P.SstoreClearGas, db1) ∧
      db1.refund = db.refund + (if db.storage x ≠ 0 ∧ y = 0 then P.SstoreRefundGas else 0) ∧
      db1.storage = db.storage) ∧
    (∀ s : State, s.stack = x :: y :: rest →
      ∃ s1, execOp P env ctx input s SSTORE = .ok (.advance s1) ∧
        s1.statedb.storage x = y ∧ (∀ k, k ≠ x → s1.statedb.storage k = s.statedb.storage k) ∧
        s1.stack = rest) ∧
    (Run params idleEnv (frame [0x60, 0x2a, 0x60, 0, 0x55, 0]) [] true 10 100000 emptyDB
        noSegments).map
      (fun r => (r.err, r.state.statedb.storage 0, r.state.statedb.refund, 100000 - r.state.Gas))
      = some (none, 0x2a, 0, 3 + 3 + 20000 + 0) ∧
    (Run params idleEnv (frame [0x60, 0, 0x60, 0, 0x55, 0]) [] true 10 100000
        (emptyDB.SetState 0 0x2a) noSegments).map
      (fun r => (r.err, r.state.statedb.storage 0, r.state.statedb.refund, 100000 - r.state.Gas))
      = some (none, 0, 15000, 3 + 3 + 5000 + 0) := by
  have hbx : BigToHash x = x := Nat.mod_eq_of_lt hx
  have hby : BigToHash y = y := Nat.mod_eq_of_lt hy
  have hreq : stack.require (x :: y :: rest) 2 = .ok () := by
    simp only [stack.require, List.length_cons]
    rw [if_neg (by push_cast; omega)]
  have hop : opGasAndSize P SSTORE db (x :: y :: rest) g0 =
      .ok (0, if db.storage x = 0 ∧ y ≠ 0 then (P.SstoreSetGas : Int) else P.SstoreClearGas,
        if db.storage x ≠ 0 ∧ y = 0 then db.Refund P.SstoreRefundGas else db) := by
    simp only [opGasAndSize, hreq, stack.nth, bind, Except.bind, pure, Except.pure, hbx, hby,
      List.get?_cons_succ, List.get?_cons_zero, Nat.sub_self, Nat.add_one_sub_one]
    by_cases h1 : db.storage x = 0 ∧ y ≠ 0
    · have h2 : ¬ (db.storage x ≠ 0 ∧ y = 0) := by tauto
      rw [if_pos h1, if_pos h1, if_neg h2]
    · by_cases h2 : db.storage x ≠ 0 ∧ y = 0
      · rw [if_neg h1, if_pos h2, if_neg h1, if_pos h2]
      · rw [if_neg h1, if_neg h2, if_neg h1, if_neg h2]
  have hcalc : calculateGasAndSize P SSTORE db mem (x :: y :: rest) =
      .ok (0, if db.storage x = 0 ∧ y ≠ 0 then (P.SstoreSetGas : Int) else P.SstoreClearGas,
        if db.storage x ≠ 0 ∧ y = 0 then db.Refund P.SstoreRefundGas else db) := by
    simp only [calculateGasAndSize, hbase, hop, bind, Except.bind, pure, Except.pure,
      memoryFee_zero, add_zero]
  refine ⟨?_, ?_, by rfl, by rfl⟩
  · refine ⟨_, hcalc, ?_, ?_⟩
    · split <;> simp [StateDB.Refund]
    · split <;> simp [StateDB.Refund]
  · intro s hs
    refine ⟨{ s with stack := rest, statedb := s.statedb.SetState x y }, ?_, ?_, ?_, rfl⟩
    · simp [execOp, hs, stack.pop, bind, Except.bind, pure, Except.pure, hbx, hby]
    · simp [StateDB.SetState]
    · intro k hk
      simp [StateDB.SetState, hk]

/-- Witness for C8: storing 42 in the empty slot 0 costs `SstoreSetGas` and
registers no refund. -/
theorem sstore_cost_and_effect_witness :
    ∃ db1, calculateGasAndSize params SSTORE emptyDB [] [0, 42] = .ok (0, 20000, db1) ∧
      db1.refund = 0 ∧ db1.storage = emptyDB.storage := by
  have h := (sstore_cost_and_effect params idleEnv (frame []) [] emptyDB [] 0 42 [] 0
    (by norm_num) (by norm_num) rfl).1
  simpa [params, emptyDB] using h

end Vm

namespace Vm
open OpCode

/-! ## Memory fee -/

theorem toWordSize_eq_ceil (s : Nat) : toWordSize s = ⌈(s : ℚ) / 32⌉₊ := by
  unfold toWordSize
  rcases Nat.eq_zero_or_pos s with h | h
  · subst h; simp
  · symm
    rw [Nat.ceil_eq_iff (by omega)]
    have h1 : 32 * ((s + 31) / 32 - 1) < s := by omega
    have h2 : s ≤ 32 * ((s + 31) / 32) := by omega
    constructor
    · rw [lt_div_iff₀ (by norm_num)]
      have : (((s + 31) / 32 - 1 : ℕ) : ℚ) * 32 = ((32 * ((s + 31) / 32 - 1) : ℕ) : ℚ) := by
        push_cast; ring
      rw [this]
      exact_mod_cast h1
    · rw [div_le_iff₀ (by norm_num)]
      have : (((s + 31) / 32 : ℕ) : ℚ) * 32 = ((32 * ((s + 31) / 32) : ℕ) : ℚ) := by
        push_cast; ring
      rw [this]
      exact_mod_cast h2

/-- C9: when the opcode requires `s > 0` bytes of memory, with
`new = ceil(s/32)` and `old = ceil(len(memory)/32)`, `calculateGasAndSize`
returns the size `32 * new` and the gas of the opcode plus `C(new) - C(old)`
when `32 * new` exceeds the current memory length, and plus nothing
otherwise, where `C(n) = n * MemoryGas + floor(n^2 / QuadCoeffDiv)`. -/
theorem memory_expansion_fee (P : Params) (op : OpCode) (db : StateDB) (mem : Memory)
    (st : stack) (g0 : Int) (s : Nat) (g : Int) (db1 : StateDB)
    (hs : 0 < s)
    (hbase : baseCheck P op st = .ok g0)
    (hop : opGasAndSize P op db st g0 = .ok (s, g, db1)) :
    calculateGasAndSize P op db mem st =
      .ok (32 * ⌈(s : ℚ) / 32⌉₊,
        g + (if 32 * ⌈(s : ℚ) / 32⌉₊ > mem.Len then
              totalFee P ⌈(s : ℚ) / 32⌉₊ - totalFee P ⌈(mem.Len : ℚ) / 32⌉₊
            else 0),
        db1) := by
  rw [← toWordSize_eq_ceil, ← toWordSize_eq_ceil]
  simp only [calculateGasAndSize, hbase, hop, bind, Except.bind, pure, Except.pure, memoryFee,
    gt_iff_lt, hs, if_true, totalFee]
  by_cases h : mem.Len < toWordSize s * 32
  · have h2 : mem.Len < 32 * toWordSize s := by omega
    simp only [h, h2, if_true, Nat.mul_comm 32]
  · have h2 : ¬ mem.Len < 32 * toWordSize s := by omega
    simp only [h, h2, if_false, Nat.mul_comm 32]

/-- Witness for C9: MSTORE at offset 0 on empty memory requires 32 bytes; the
size returned is 32 and the cost is the static 3 plus `C(1) - C(0) = 3`. -/
theorem memory_expansion_fee_witness :
    calculateGasAndSize params MSTORE emptyDB [] [0, 1] = .ok (32, 6, emptyDB) := by
  have h := memory_expansion_fee params MSTORE emptyDB [] [0, 1] 3 32 3 emptyDB (by norm_num)
    rfl rfl
  have e1 : ⌈((32 : ℕ) : ℚ) / 32⌉₊ = 1 := by norm_num
  have e2 : ⌈((Memory.Len ([] : Memory) : ℕ) : ℚ) / 32⌉₊ = 0 := by simp [Memory.Len]
  rw [e1, e2] at h
  rw [h]
  simp [totalFee, params, Memory.Len]

end Vm

namespace Vm
open OpCode

/-! ## EXP -/

theorem bytesAux_eq_digits (fuel : Nat) : ∀ (x : Nat) (acc : List Nat), x ≤ fuel →
    bytesAux fuel x acc = (Nat.digits 256 x).reverse ++ acc := by
  induction fuel with
  | zero =>
    intro x acc h
    have : x = 0 := by omega
    subst this
    simp [bytesAux]
  | succ n ih =>
    intro x acc h
    unfold bytesAux
    by_cases hx : x = 0
    · subst hx; simp
    · have hdiv : x / 256 ≤ n := by omega
      rw [if_neg hx, ih (x / 256) _ hdiv]
      rw [Nat.digits_def' (by norm_num : 1 < 256) (Nat.pos_of_ne_zero hx)]
      simp

theorem Bytes_eq_digits (x : Nat) : Bytes x = (Nat.digits 256 x).reverse := by
  unfold Bytes
  rw [bytesAux_eq_digits x x [] (le_refl x)]
  simp

theorem byteLen_eq_clog (b : Nat) : byteLen b = Nat.clog 256 (b + 1) := by
  unfold byteLen
  rw [Bytes_eq_digits, List.length_reverse]
  rcases Nat.eq_zero_or_pos b with h | h
  · subst h; simp
  · rw [Nat.digits_len 256 b (by norm_num) (by omega)]
    apply le_antisymm
    · have h1 : b + 1 ≤ 256 ^ Nat.clog 256 (b + 1) := Nat.le_pow_clog (by norm_num) _
      have h2 : b < 256 ^ Nat.clog 256 (b + 1) := by omega
      have := (Nat.lt_pow_iff_log_lt (by norm_num : 1 < 256) (by omega : b ≠ 0)).mp h2
      omega
    · rw [← Nat.le_pow_iff_clog_le (by norm_num : 1 < 256)]
      have := (Nat.lt_pow_iff_log_lt (by norm_num : 1 < 256) (by omega : b ≠ 0)
        (x := Nat.log 256 b + 1)).mpr (by omega)
      omega

theorem baseCheck_length (P : Params) (op : OpCode) (st st1 : stack)
    (h : st.length = st1.length) : baseCheck P op st = baseCheck P op st1 := by
  simp only [baseCheck, stack.require, h]

/-- C10: for EXP with base `a` on top of the stack and exponent `b` below it,
when the static check passes with static cost `g0`, the cost is `g0` plus
`ExpByteGas` times the number of bytes of the minimal big-endian encoding of
`b`, no memory is required, and the result is the same for every base. The
number of bytes is `ceil(log256(b+1))`: 0 for 0, 1 for 255, 2 for 256. -/
theorem exp_cost (P : Params) (db : StateDB) (mem : Memory) (a b : Nat) (rest : stack)
    (g0 : Int) (hbase : baseCheck P EXP (a :: b :: rest) = .ok g0) :
    calculateGasAndSize P EXP db mem (a :: b :: rest) =
      .ok (0, g0 + (P.ExpByteGas : Int) * (Bytes b).length, db) ∧
    (Bytes b).length = Nat.clog 256 (b + 1) ∧
    (Bytes 0).length = 0 ∧ (Bytes 255).length = 1 ∧ (Bytes 256).length = 2 ∧
    (∀ a1, calculateGasAndSize P EXP db mem (a1 :: b :: rest) =
      calculateGasAndSize P EXP db mem (a :: b :: rest)) := by
  have hlen : ∀ x, (Bytes x).length = byteLen x := fun _ => rfl
  have hcalc : ∀ a1, calculateGasAndSize P EXP db mem (a1 :: b :: rest) =
      .ok (0, g0 + (P.ExpByteGas : Int) * (Bytes b).length, db) := by
    intro a1
    have hb : baseCheck P EXP (a1 :: b :: rest) = .ok g0 := by
      rw [← hbase]; exact baseCheck_length P EXP _ _ rfl
    simp only [calculateGasAndSize, hb, opGasAndSize, stack.nth, bind, Except.bind, pure,
      Except.pure, memoryFee_zero, add_zero, hlen, List.get?_cons_succ, List.get?_cons_zero,
      Nat.add_one_sub_one]
    rw [mul_comm]
  refine ⟨hcalc a, ?_, ?_, ?_, ?_, ?_⟩
  · rw [hlen, byteLen_eq_clog]
  · rfl
  · rfl
  · rfl
  · intro a1
    rw [hcalc a1, hcalc a]

/-- Witness for C10: with the constants `params`, EXP with exponent 256 costs
the static 10 plus 10 for each of the 2 bytes of the exponent. -/
theorem exp_cost_witness :
    calculateGasAndSize params EXP emptyDB [] [7, 256] = .ok (0, 10 + 10 * 2, emptyDB) := by
  have h := (exp_cost params emptyDB [] 7 256 [] 10 rfl).1
  have e : (Bytes 256).length = 2 := rfl
  rw [h, e]
  rfl

end Vm

namespace Vm
open OpCode

/-! ## A recorded segment entered with a deep stack -/

theorem loop_steps (P : Params) (env : Environment) (ctx : Context) (input : List Nat)
    (d : Bool) (n : Nat) : ∀ (s s1 : State) (fuel : Nat),
    steps P env ctx input d n s = some s1 →
    loop P env ctx input d (n + fuel) s = loop P env ctx input d fuel s1 := by
  induction n with
  | zero => intro s s1 fuel h; simp [steps] at h; subst h; simp
  | succ n ih =>
    intro s s1 fuel h
    rw [Nat.add_right_comm, loop]
    simp only [steps] at h
    cases hst : step P env ctx input d s with
    | next s2 => rw [hst] at h; exact ih s2 s1 fuel h
    | done s2 r => rw [hst] at h; cases h
    | fail s2 e => rw [hst] at h; cases h

theorem steps_add (P : Params) (env : Environment) (ctx : Context) (input : List Nat)
    (d : Bool) (n : Nat) : ∀ (m : Nat) (s s1 s2 : State),
    steps P env ctx input d n s = some s1 → steps P env ctx input d m s1 = some s2 →
    steps P env ctx input d (n + m) s = some s2 := by
  induction n with
  | zero => intro m s s1 s2 h1 h2; simp [steps] at h1; subst h1; simpa using h2
  | succ n ih =>
    intro m s s1 s2 h1 h2
    rw [Nat.add_right_comm]
    simp only [steps] at h1 ⊢
    cases hst : step P env ctx input d s with
    | next s3 => rw [hst] at h1; exact ih m s3 s1 s2 h1 h2
    | done s3 r => rw [hst] at h1; cases h1
    | fail s3 e => rw [hst] at h1; cases h1

theorem getD_middle (A B : List Nat) (n x j : Nat) (h : j < n) :
    (A ++ List.replicate n x ++ B).getD (A.length + j) 0 = x := by
  rw [List.getD_eq_getElem?_getD, List.append_assoc, List.getElem?_append_right (by omega)]
  rw [List.getElem?_append_left (by simp; omega)]
  simp [List.getElem?_replicate, h]

theorem length_middle (A B : List Nat) (n x : Nat) :
    (A ++ List.replicate n x ++ B).length = A.length + n + B.length := by
  simp only [List.length_append, List.length_replicate]

theorem deepProgram_length : deepProgram.length = 1040 := by
  unfold deepProgram
  rw [length_middle]
  rfl

theorem deepProgram_pc (i : Nat) (h : i ≤ 1021) : GetOp deepProgram (8 + i) = PC := by
  have hget : deepProgram.getD (8 + i) 0 = 0x58 := by
    have := getD_middle [0x60, 0, 0x35, 0x61, 0x04, 0x0a, 0x57]
      [0x61, 0x04, 0x0a, 0x56, 0x5b, 0x60, 0, 0x60, 0, 0] 1023 0x58 (1 + i) (by omega)
    have e : [0x60, 0, 0x35, 0x61, 0x04, 0x0a, 0x57].length + (1 + i) = 8 + i := by
      simp only [List.length_cons, List.length_nil]; omega
    rw [e] at this
    exact this
  unfold GetOp
  rw [if_pos (by rw [deepProgram_length]; omega), hget]
  rfl

theorem step_PC_in_open_segment (env : Environment) (code : List Nat) (input : List Nat)
    (s : State) (seg : segment)
    (hop : GetOp code s.pc = PC) (hpc : s.pc ≠ 0) (hnp : s.nopay = 0)
    (hcs : s.csegment = some seg) (hlen : s.stack.length + 1 ≤ 1024) (hgas : 2 ≤ s.Gas)
    (hmem : s.mem = []) :
    step params env (frame code) input false s =
      .next { pc := s.pc + 1, ppc := s.pc, nopay := 0, stack := s.pc :: s.stack, mem := [],
              Gas := s.Gas - 2, statedb := s.statedb,
              csegment := some { seg with gas := seg.gas + 2 },
              csegments := fun k =>
                if k = seg.cstart then some { seg with gas := seg.gas + 2 } else s.csegments k } := by
  have hseg : segmentPhase false s PC = .ok s := by
    simp [segmentPhase, isDynamic, hcs]
  have hcalc : calculateGasAndSize params PC s.statedb s.mem s.stack = .ok (0, 2, s.statedb) := by
    have ht : params.baseCheckTable PC = some ⟨0, 2, 1⟩ := rfl
    have hlim : params.StackLimit = 1024 := rfl
    have hb : baseCheck params PC s.stack = .ok 2 := by
      simp only [baseCheck, ht, stack.require, hlim, bind, Except.bind]
      rw [if_neg (by omega)]
      simp only []
      rw [if_neg (by omega)]
      rfl
    have ho : opGasAndSize params PC s.statedb s.stack 2 = .ok (0, 2, s.statedb) := rfl
    simp only [calculateGasAndSize, hb, ho, memoryFee_zero, bind, Except.bind, pure,
      Except.pure, add_zero]
  have huse : UseGas s.Gas 2 = some (s.Gas - 2) := by
    unfold UseGas
    rw [if_neg (by omega)]
    congr 1
    omega
  have hprice : pricePhase params false { s with ppc := s.pc } PC =
      .ok { pc := s.pc, ppc := s.pc, nopay := 0, stack := s.stack, mem := [],
            Gas := s.Gas - 2, statedb := s.statedb,
            csegment := some { seg with gas := seg.gas + 2 },
            csegments := fun k =>
              if k = seg.cstart then some { seg with gas := seg.gas + 2 } else s.csegments k } := by
    have hp : 0 < s.pc := by omega
    rw [hmem] at hcalc
    simp [pricePhase, hp, hcalc, hcs, State.setSegment, huse, hmem, hnp, Memory.Resize, Uint64]
  simp only [step, frame, hop, hseg, hprice, execOp, stack.push, pure, Except.pure, Exec.toStep]

theorem deepState_step (i : Nat) (h : i ≤ 1021) :
    step params idleEnv (frame deepProgram) [] false (deepState i) = .next (deepState (i + 1)) := by
  have hlen : ∀ n, (descending 7 n).length = n := by
    intro n; induction n with
    | zero => rfl
    | succ n ih => simp [descending, ih]
  rw [step_PC_in_open_segment idleEnv deepProgram [] (deepState i) ⟨7, 0, 0, 2 + 2 * (i : Int), 0⟩
    (deepProgram_pc i h) (by simp [deepState]) rfl rfl
    (by simp only [deepState, hlen]; omega) (by simp only [deepState]; omega) rfl]
  simp only [deepState, Step.next.injEq, State.mk.injEq, descending, true_and]
  have hg : (2 : Int) + 2 * (i : Int) + 2 = 2 + 2 * ((i + 1 : Nat) : Int) := by push_cast; ring
  refine ⟨by omega, by omega, ?_, by omega, ?_, ?_⟩
  · have : 8 + i = 7 + (i + 1) := by omega
    rw [this]
  · rw [hg]
  · funext k
    by_cases hk : k = 7
    · simp only [hk, if_true, hg]
    · simp only [hk, if_false]

theorem deepState_steps (n : Nat) (h : n ≤ 1022) :
    steps params idleEnv (frame deepProgram) [] false n (deepState 0) = some (deepState n) := by
  induction n with
  | zero => rfl
  | succ n ih =>
    have h1 := ih (by omega)
    have h2 : steps params idleEnv (frame deepProgram) [] false 1 (deepState n)
        = some (deepState (n + 1)) := by
      simp only [steps, deepState_step n (by omega)]
    exact steps_add _ _ _ _ _ n 1 _ _ _ h1 h2

theorem deepStart_facts :
    (steps params idleEnv (frame deepProgram) [] false 5
      (initState 100000 emptyDB deepCache)).isSome = true ∧
    deepStart.pc = 8 ∧ deepStart.ppc = 7 ∧ deepStart.nopay = 0 ∧ deepStart.stack = [7] ∧
    deepStart.mem = [] ∧ deepStart.Gas = 99979 ∧ deepStart.csegment = some ⟨7, 0, 0, 2, 0⟩ ∧
    deepStart.csegments 7 = some ⟨7, 0, 0, 2, 0⟩ := by
  decide!

theorem deepStart_eq : deepStart = deepState 0 := by
  obtain ⟨-, h1, h2, h3, h4, h5, h6, h7, h8⟩ := deepStart_facts
  unfold deepState
  cases hs : deepStart with
  | mk pc ppc nopay stack mem Gas statedb csegment csegments =>
    rw [hs] at h1 h2 h3 h4 h5 h6 h7 h8
    simp only at h1 h2 h3 h4 h5 h6 h7 h8
    subst h1 h2 h3 h4 h5 h6 h7
    simp only [State.mk.injEq, true_and]
    refine ⟨rfl, by simp, ?_⟩
    funext k
    by_cases hk : k = 7
    · subst hk; simp [h8]
    · simp [hk]

set_option maxRecDepth 100000 in
theorem step_PC_disabled (env : Environment) (code : List Nat) (input : List Nat)
    (s : State)
    (hop : GetOp code s.pc = PC) (hcs : s.csegment = none) (hlen : s.stack.length + 1 ≤ 1024)
    (hgas : 2 ≤ s.Gas) (hmem : s.mem = []) :
    step params env (frame code) input true s =
      .next { s with pc := s.pc + 1, ppc := s.pc, stack := s.pc :: s.stack, mem := [],
                     Gas := s.Gas - 2 } := by
  have hcalc : calculateGasAndSize params PC s.statedb s.mem s.stack = .ok (0, 2, s.statedb) := by
    have ht : params.baseCheckTable PC = some ⟨0, 2, 1⟩ := rfl
    have hlim : params.StackLimit = 1024 := rfl
    have hb : baseCheck params PC s.stack = .ok 2 := by
      simp only [baseCheck, ht, stack.require, hlim, bind, Except.bind]
      rw [if_neg (by omega)]
      simp only []
      rw [if_neg (by omega)]
      rfl
    have ho : opGasAndSize params PC s.statedb s.stack 2 = .ok (0, 2, s.statedb) := rfl
    simp only [calculateGasAndSize, hb, ho, memoryFee_zero, bind, Except.bind, pure,
      Except.pure, add_zero]
  have huse : UseGas s.Gas 2 = some (s.Gas - 2) := by
    unfold UseGas
    rw [if_neg (by omega)]
    congr 1
    omega
  have hprice : pricePhase params true { s with ppc := s.pc } PC =
      .ok { s with ppc := s.pc, mem := [], Gas := s.Gas - 2 } := by
    rw [hmem] at hcalc
    simp [pricePhase, hcalc, hcs, huse, hmem, Memory.Resize, Uint64]
  simp only [step, frame, hop, segmentPhase_disabled, hprice, execOp, stack.push, pure,
    Except.pure, Exec.toStep]

set_option maxRecDepth 100000 in
theorem flatStart_facts :
    (steps params idleEnv (frame deepProgram) [] true 5
      (initState 100000 emptyDB deepCache)).isSome = true ∧
    flatStart.pc = 8 ∧ flatStart.ppc = 7 ∧ flatStart.nopay = 0 ∧ flatStart.stack = [7] ∧
    flatStart.mem = [] ∧ flatStart.Gas = 99979 ∧ flatStart.csegment = none := by
  decide!

set_option maxRecDepth 100000 in
theorem flatStart_eq : flatStart = flatState 0 := by
  obtain ⟨-, h1, h2, h3, h4, h5, h6, -⟩ := flatStart_facts
  unfold flatState
  cases hs : flatStart with
  | mk pc ppc nopay stack mem Gas statedb csegment csegments =>
    rw [hs] at h1 h2 h3 h4 h5 h6
    simp only at h1 h2 h3 h4 h5 h6
    subst h1 h2 h3 h4 h5 h6
    rfl

set_option maxRecDepth 100000 in
theorem flatState_step (i : Nat) (h : i ≤ 1021) :
    step params idleEnv (frame deepProgram) [] true (flatState i) = .next (flatState (i + 1)) := by
  have hlen : ∀ n, (descending 7 n).length = n := by
    intro n; induction n with
    | zero => rfl
    | succ n ih => simp [descending, ih]
  rw [step_PC_disabled idleEnv deepProgram [] (flatState i) (deepProgram_pc i h)
    flatStart_facts.2.2.2.2.2.2.2
    (by simp only [flatState, hlen]; omega) (by simp only [flatState]; omega) rfl]
  simp only [flatState, Step.next.injEq, State.mk.injEq, descending, true_and, and_true]
  refine ⟨by omega, by omega, ?_, by omega⟩
  have : 8 + i = 7 + (i + 1) := by omega
  rw [this]

set_option maxRecDepth 100000 in
theorem flatState_steps (n : Nat) (h : n ≤ 1022) :
    steps params idleEnv (frame deepProgram) [] true n (flatState 0) = some (flatState n) := by
  induction n with
  | zero => rfl
  | succ n ih =>
    have h1 := ih (by omega)
    have h2 : steps params idleEnv (frame deepProgram) [] true 1 (flatState n)
        = some (flatState (n + 1)) := by
      simp only [steps, flatState_step n (by omega)]
    exact steps_add _ _ _ _ _ n 1 _ _ _ h1 h2

set_option maxRecDepth 100000 in
theorem flat_run_overflows :
    (Run params idleEnv (frame deepProgram) [] true 1040 100000 emptyDB deepCache).map
      (fun r => r.err) = some (some .StackOverflow) := by
  have h5 : steps params idleEnv (frame deepProgram) [] true 5
      (initState 100000 emptyDB deepCache) = some flatStart := by
    have := flatStart_facts.1
    rw [Option.isSome_iff_exists] at this
    obtain ⟨s, hs⟩ := this
    simp only [flatStart, hs, Option.getD_some]
  have h1027 : steps params idleEnv (frame deepProgram) [] true (5 + 1022)
      (initState 100000 emptyDB deepCache) = some (flatState 1022) := by
    refine steps_add _ _ _ _ _ 5 1022 _ _ _ h5 ?_
    rw [flatStart_eq]
    exact flatState_steps 1022 (le_refl _)
  have hloop := loop_steps params idleEnv (frame deepProgram) [] true (5 + 1022) _ _ 13 h1027
  have hfin : (loop params idleEnv (frame deepProgram) [] true 13 (flatState 1022)).map
      (fun st => (finish true st).err) = some (some .StackOverflow) := by decide!
  have hrun : Run params idleEnv (frame deepProgram) [] true 1040 100000 emptyDB deepCache =
      (loop params idleEnv (frame deepProgram) [] true 13 (flatState 1022)).map
        (finish true) := by
    rw [← hloop]
    simp only [Run, frame, deepProgram_length]
    rfl
  rw [hrun, Option.map_map]
  exact hfin

set_option maxRecDepth 100000 in
/-- C5 (failing input): the program `deepProgram`. A first run, with an input
whose first word is not zero, ends without error and records the segment
`JUMPDEST; PUSH1 0; PUSH1 0; STOP` at pc 1034 with `ssize = 0`. With that
segment map, the run with empty input enters the segment with 1023 items on
the stack; the two PUSH1 are not checked, the run ends without error and its
stack holds 1025 items. Without segmentation the same run fails with a stack
overflow. -/
theorem segment_stack_exceeds_limit :
    ∃ r1, Run params idleEnv (frame deepProgram) [1] false 10 100000 emptyDB noSegments = some r1 ∧
      r1.err = none ∧ r1.state.csegments 1034 = some ⟨1034, 1039, 0, 7, 0⟩ ∧
      (∃ r2, Run params idleEnv (frame deepProgram) [] false 1040 100000 emptyDB
          r1.state.csegments = some r2 ∧
        r2.err = none ∧ r2.state.stack.length = 1025) ∧
      (Run params idleEnv (frame deepProgram) [] true 1040 100000 emptyDB r1.state.csegments).map
        (fun r => r.err) = some (some .StackOverflow) := by
  have hA : (Run params idleEnv (frame deepProgram) [1] false 10 100000 emptyDB noSegments).isSome
      = true ∧ deepCache 1034 = some ⟨1034, 1039, 0, 7, 0⟩ ∧
      (Run params idleEnv (frame deepProgram) [1] false 10 100000 emptyDB noSegments).map
        (fun r => r.err) = some none := by decide!
  cases hr : Run params idleEnv (frame deepProgram) [1] false 10 100000 emptyDB noSegments with
  | none => rw [hr] at hA; simp at hA
  | some r1 =>
    have hcache : deepCache = r1.state.csegments := by simp only [deepCache, hr]
    rw [hr] at hA
    refine ⟨r1, rfl, by simpa using hA.2.2, by rw [← hcache]; exact hA.2.1, ?_,
      by rw [← hcache]; exact flat_run_overflows⟩
    rw [← hcache]
    have h5 : steps params idleEnv (frame deepProgram) [] false 5
        (initState 100000 emptyDB deepCache) = some deepStart := by
      have := deepStart_facts.1
      rw [Option.isSome_iff_exists] at this
      obtain ⟨s, hs⟩ := this
      simp only [deepStart, hs, Option.getD_some]
    have h1027 : steps params idleEnv (frame deepProgram) [] false (5 + 1022)
        (initState 100000 emptyDB deepCache) = some (deepState 1022) := by
      refine steps_add _ _ _ _ _ 5 1022 _ _ _ h5 ?_
      rw [deepStart_eq]
      exact deepState_steps 1022 (le_refl _)
    have hloop := loop_steps params idleEnv (frame deepProgram) [] false (5 + 1022) _ _ 13 h1027
    have hfin : (loop params idleEnv (frame deepProgram) [] false 13 (deepState 1022)).map
        (fun st => ((finish false st).err, (finish false st).state.stack.length))
        = some (none, 1025) := by decide!
    have hrun : Run params idleEnv (frame deepProgram) [] false 1040 100000 emptyDB deepCache =
        (loop params idleEnv (frame deepProgram) [] false 13 (deepState 1022)).map
          (finish false) := by
      rw [← hloop]
      simp only [Run, frame, deepProgram_length]
      rfl
    rw [hrun]
    cases hl : loop params idleEnv (frame deepProgram) [] false 13 (deepState 1022) with
    | none => rw [hl] at hfin; simp at hfin
    | some st =>
      rw [hl] at hfin
      simp only [Option.map_some', Option.some.injEq, Prod.mk.injEq] at hfin
      exact ⟨_, rfl, hfin.1, hfin.2⟩

end Vm

namespace Vm
open OpCode

/-- Witness for C6: in `60 01 60 00 52 00` the MSTORE at pc 4 grows the empty
memory to 32 bytes. -/
theorem memory_never_shrinks_witness :
    ([] : Memory).length ≤ (step params idleEnv (frame [0x60, 1, 0x60, 0, 0x52, 0]) [] true
        ⟨4, 2, 0, [0, 1], [], 94, emptyDB, none, noSegments⟩).state.mem.length ∧
    (step params idleEnv (frame [0x60, 1, 0x60, 0, 0x52, 0]) [] true
        ⟨4, 2, 0, [0, 1], [], 94, emptyDB, none, noSegments⟩).state.mem.length = 32 :=
  ⟨(memory_never_shrinks params idleEnv (frame [0x60, 1, 0x60, 0, 0x52, 0]) [] true
      ⟨4, 2, 0, [0, 1], [], 94, emptyDB, none, noSegments⟩).1, by decide⟩

end Vm

namespace Vm
open OpCode

/-! ## Word arithmetic -/

theorem U256_cast (z : Int) : ((U256 z : Nat) : Int) = z % 2 ^ 256 := by
  unfold U256 Pow256
  have h : (0 : Int) ≤ z % ((2 ^ 256 : Nat) : Int) := Int.emod_nonneg _ (by norm_num)
  rw [Int.toNat_of_nonneg h]
  norm_num

theorem U256_lt (z : Int) : U256 z < 2 ^ 256 := by
  have h := U256_cast z
  have h2 : z % 2 ^ 256 < 2 ^ 256 := Int.emod_lt_of_pos _ (by norm_num)
  omega

theorem U256_natCast (n : Nat) : U256 (n : Int) = n % 2 ^ 256 := by
  have h := U256_cast (n : Int)
  have h2 : ((n % 2 ^ 256 : Nat) : Int) = (n : Int) % 2 ^ 256 := by push_cast; rfl
  omega

theorem U256_of_lt (n : Nat) (h : n < 2 ^ 256) : U256 (n : Int) = n := by
  rw [U256_natCast, Nat.mod_eq_of_lt h]

/-- C13: on a stack with `x` on top and `y` below, ADD, SUB and MUL replace
the two operands by `(x + y) mod 2^256`, `(x - y) mod 2^256` (the non-negative
remainder of the integer difference) and `(x * y) mod 2^256`, and each pushed
word is below `2^256`. -/
theorem add_sub_mul_wrap (P : Params) (env : Environment) (ctx : Context) (input : List Nat)
    (s : State) (x y : Nat) (rest : stack) :
    ∃ a b m : Nat,
      execOp P env ctx input { s with stack := x :: y :: rest } ADD
        = .ok (.advance { s with stack := a :: rest }) ∧
      execOp P env ctx input { s with stack := x :: y :: rest } SUB
        = .ok (.advance { s with stack := b :: rest }) ∧
      execOp P env ctx input { s with stack := x :: y :: rest } MUL
        = .ok (.advance { s with stack := m :: rest }) ∧
      a = (x + y) % 2 ^ 256 ∧ (b : Int) = ((x : Int) - (y : Int)) % 2 ^ 256 ∧
      m = (x * y) % 2 ^ 256 ∧ a < 2 ^ 256 ∧ b < 2 ^ 256 ∧ m < 2 ^ 256 := by
  refine ⟨U256 ((x : Int) + y), U256 ((x : Int) - y), U256 ((x : Int) * y), rfl, rfl, rfl,
    ?_, U256_cast _, ?_, U256_lt _, U256_lt _, U256_lt _⟩
  · exact_mod_cast U256_natCast (x + y)
  · exact_mod_cast U256_natCast (x * y)

end Vm

namespace Vm
open OpCode

theorem S256_zero : S256 0 = 0 := by
  simp [S256]

/-- C14: with divisor 0, DIV, MOD, SDIV and SMOD replace the operands by 0 and
return no error; for a word `x` and a divisor `y` other than 0, DIV pushes the
quotient `x / y` rounded down and MOD pushes the remainder `x % y`. -/
theorem division_by_zero_and_div_mod (P : Params) (env : Environment) (ctx : Context)
    (input : List Nat) (s : State) (x y : Nat) (rest : stack) (hx : x < 2 ^ 256) :
    execOp P env ctx input { s with stack := x :: 0 :: rest } DIV
      = .ok (.advance { s with stack := 0 :: rest }) ∧
    execOp P env ctx input { s with stack := x :: 0 :: rest } MOD
      = .ok (.advance { s with stack := 0 :: rest }) ∧
    execOp P env ctx input { s with stack := x :: 0 :: rest } SDIV
      = .ok (.advance { s with stack := 0 :: rest }) ∧
    execOp P env ctx input { s with stack := x :: 0 :: rest } SMOD
      = .ok (.advance { s with stack := 0 :: rest }) ∧
    (y ≠ 0 →
      execOp P env ctx input { s with stack := x :: y :: rest } DIV
        = .ok (.advance { s with stack := x / y :: rest }) ∧
      execOp P env ctx input { s with stack := x :: y :: rest } MOD
        = .ok (.advance { s with stack := x % y :: rest })) := by
  have hsd : sdiv x 0 = 0 := by simp [sdiv, S256_zero]
  have hsm : smod x 0 = 0 := by simp [smod, S256_zero]
  refine ⟨rfl, rfl, ?_, ?_, fun hy => ⟨?_, ?_⟩⟩
  · show Except.ok (Exec.advance { s with stack := sdiv x 0 :: rest }) = _
    rw [hsd]
  · show Except.ok (Exec.advance { s with stack := smod x 0 :: rest }) = _
    rw [hsm]
  · show Except.ok (Exec.advance
      { s with stack := U256 ((if y ≠ 0 then x / y else 0 : Nat) : Int) :: rest }) = _
    rw [if_pos hy, U256_of_lt _ (lt_of_le_of_lt (Nat.div_le_self x y) hx)]
  · show Except.ok (Exec.advance
      { s with stack := U256 ((if y = 0 then 0 else x % y : Nat) : Int) :: rest }) = _
    rw [if_neg hy, U256_of_lt _ (lt_of_le_of_lt (Nat.mod_le x y) hx)]

/-- Witness for C14: 7 divided by 2 gives 3 and remainder 1, and by 0 gives 0. -/
theorem division_by_zero_and_div_mod_witness :
    execOp params idleEnv (frame []) [] { initState 10 emptyDB noSegments with stack := [7, 0] } DIV
      = .ok (.advance { initState 10 emptyDB noSegments with stack := [0] }) ∧
    execOp params idleEnv (frame []) [] { initState 10 emptyDB noSegments with stack := [7, 0] } MOD
      = .ok (.advance { initState 10 emptyDB noSegments with stack := [0] }) ∧
    execOp params idleEnv (frame []) [] { initState 10 emptyDB noSegments with stack := [7, 0] } SDIV
      = .ok (.advance { initState 10 emptyDB noSegments with stack := [0] }) ∧
    execOp params idleEnv (frame []) [] { initState 10 emptyDB noSegments with stack := [7, 0] } SMOD
      = .ok (.advance { initState 10 emptyDB noSegments with stack := [0] }) ∧
    ((2 : Nat) ≠ 0 →
      execOp params idleEnv (frame []) [] { initState 10 emptyDB noSegments with stack := [7, 2] }
        DIV = .ok (.advance { initState 10 emptyDB noSegments with stack := [7 / 2] }) ∧
      execOp params idleEnv (frame []) [] { initState 10 emptyDB noSegments with stack := [7, 2] }
        MOD = .ok (.advance { initState 10 emptyDB noSegments with stack := [7 % 2] })) :=
  division_by_zero_and_div_mod params idleEnv (frame []) [] (initState 10 emptyDB noSegments)
    7 2 [] (by norm_num)

/-- C16: on a stack with `x` on top, then `y`, then a word `z`, ADDMOD pushes 0
when `z = 0` and otherwise the remainder of the sum `x + y` of natural numbers
(not reduced modulo `2^256`) by `z`; MULMOD pushes 0 when `z = 0` and otherwise
the remainder of the product `x * y` of natural numbers by `z`. -/
theorem addmod_mulmod_full_width (P : Params) (env : Environment) (ctx : Context)
    (input : List Nat) (s : State) (x y z : Nat) (rest : stack) (hz : z < 2 ^ 256) :
    execOp P env ctx input { s with stack := x :: y :: z :: rest } ADDMOD
      = .ok (.advance { s with stack := (if z = 0 then 0 else (x + y) % z) :: rest }) ∧
    execOp P env ctx input { s with stack := x :: y :: z :: rest } MULMOD
      = .ok (.advance { s with stack := (if z = 0 then 0 else (x * y) % z) :: rest }) := by
  constructor
  · show Except.ok (Exec.advance
      { s with stack := (if z > 0 then U256 (((x + y) % z : Nat) : Int) else 0) :: rest }) = _
    by_cases h : z = 0
    · simp [h]
    · have hpos : z > 0 := Nat.pos_of_ne_zero h
      rw [if_pos hpos, if_neg h, U256_of_lt _ (lt_trans (Nat.mod_lt _ hpos) hz)]
  · show Except.ok (Exec.advance
      { s with stack := (if z > 0 then U256 (((x * y) % z : Nat) : Int) else 0) :: rest }) = _
    by_cases h : z = 0
    · simp [h]
    · have hpos : z > 0 := Nat.pos_of_ne_zero h
      rw [if_pos hpos, if_neg h, U256_of_lt _ (lt_trans (Nat.mod_lt _ hpos) hz)]

/-- Witness for C16: with `x = 2^256 - 1`, `y = 1` and `z = 3` ADDMOD pushes
`2^256 mod 3 = 1` (the wrapped sum would give 0), and with `x = y = 2^255`,
`z = 3` MULMOD pushes `2^510 mod 3 = 1` (the wrapped product would give 0). -/
theorem addmod_mulmod_full_width_witness :
    (execOp params idleEnv (frame []) []
        { initState 10 emptyDB noSegments with stack := [2 ^ 256 - 1, 1, 3] } ADDMOD
      = .ok (.advance { initState 10 emptyDB noSegments with
          stack := [if 3 = 0 then 0 else (2 ^ 256 - 1 + 1) % 3] }) ∧
    execOp params idleEnv (frame []) []
        { initState 10 emptyDB noSegments with stack := [2 ^ 256 - 1, 1, 3] } MULMOD
      = .ok (.advance { initState 10 emptyDB noSegments with
          stack := [if 3 = 0 then 0 else ((2 ^ 256 - 1) * 1) % 3] })) ∧
    (2 ^ 256 - 1 + 1) % 3 = 1 ∧ ((2 ^ 256 - 1 + 1) % 2 ^ 256) % 3 = 0 :=
  ⟨addmod_mulmod_full_width params idleEnv (frame []) [] (initState 10 emptyDB noSegments)
    (2 ^ 256 - 1) 1 3 [] (by norm_num), by norm_num, by norm_num⟩

/-- The signed reading of a word that is already signed: converting twice is
converting once. -/
theorem S256_S256 (y : Nat) (hy : y < 2 ^ 256) : S256 (S256 y) = S256 y := by
  unfold S256
  split_ifs <;> omega

/-- C17: on a stack with `x` on top and `y` below, LT, GT and EQ push 1 when
`x < y`, `x > y`, `x = y` as natural numbers and 0 otherwise; SLT and SGT push
1 when the relation holds between the two's-complement values `S256 x` and
`S256 y` and 0 otherwise; ISZERO pushes 1 when its operand is 0 and 0
otherwise. -/
theorem comparisons (P : Params) (env : Environment) (ctx : Context)
    (input : List Nat) (s : State) (x y : Nat) (rest : stack) (hy : y < 2 ^ 256) :
    execOp P env ctx input { s with stack := x :: y :: rest } OpCode.LT
      = .ok (.advance { s with stack := (if x < y then 1 else 0) :: rest }) ∧
    execOp P env ctx input { s with stack := x :: y :: rest } OpCode.GT
      = .ok (.advance { s with stack := (if x > y then 1 else 0) :: rest }) ∧
    execOp P env ctx input { s with stack := x :: y :: rest } EQ
      = .ok (.advance { s with stack := (if x = y then 1 else 0) :: rest }) ∧
    execOp P env ctx input { s with stack := x :: y :: rest } SLT
      = .ok (.advance { s with stack := (if S256 x < S256 y then 1 else 0) :: rest }) ∧
    execOp P env ctx input { s with stack := x :: y :: rest } SGT
      = .ok (.advance { s with stack := (if S256 x > S256 y then 1 else 0) :: rest }) ∧
    execOp P env ctx input { s with stack := x :: rest } ISZERO
      = .ok (.advance { s with stack := (if x = 0 then 1 else 0) :: rest }) := by
  refine ⟨rfl, rfl, rfl, ?_, rfl, ?_⟩
  · show Except.ok (Exec.advance
      { s with stack := (if S256 x < S256 (S256 y) then 1 else 0) :: rest }) = _
    rw [S256_S256 y hy]
  · show Except.ok (Exec.advance { s with stack := (if x > 0 then 0 else 1) :: rest }) = _
    by_cases h : x = 0
    · simp [h]
    · have hpos : x > 0 := Nat.pos_of_ne_zero h
      rw [if_pos hpos, if_neg h]

end Vm

namespace Vm
open OpCode

/-- Witness for C17: with `x = 2^256 - 1` (the signed value -1) and `y = 1`,
LT pushes 0 and SLT pushes 1, GT pushes 1 and SGT pushes 0. -/
theorem comparisons_witness :
    (execOp params idleEnv (frame []) []
        { initState 10 emptyDB noSegments with stack := [2 ^ 256 - 1, 1] } OpCode.LT
      = .ok (.advance { initState 10 emptyDB noSegments with
          stack := [if 2 ^ 256 - 1 < 1 then 1 else 0] }) ∧
    execOp params idleEnv (frame []) []
        { initState 10 emptyDB noSegments with stack := [2 ^ 256 - 1, 1] } OpCode.GT
      = .ok (.advance { initState 10 emptyDB noSegments with
          stack := [if 2 ^ 256 - 1 > 1 then 1 else 0] }) ∧
    execOp params idleEnv (frame []) []
        { initState 10 emptyDB noSegments with stack := [2 ^ 256 - 1, 1] } EQ
      = .ok (.advance { initState 10 emptyDB noSegments with
          stack := [if 2 ^ 256 - 1 = 1 then 1 else 0] }) ∧
    execOp params idleEnv (frame []) []
        { initState 10 emptyDB noSegments with stack := [2 ^ 256 - 1, 1] } SLT
      = .ok (.advance { initState 10 emptyDB noSegments with
          stack := [if S256 ((2 ^ 256 - 1 : Nat) : Int) < S256 ((1 : Nat) : Int) then 1 else 0] }) ∧
    execOp params idleEnv (frame []) []
        { initState 10 emptyDB noSegments with stack := [2 ^ 256 - 1, 1] } SGT
      = .ok (.advance { initState 10 emptyDB noSegments with
          stack := [if S256 ((2 ^ 256 - 1 : Nat) : Int) > S256 ((1 : Nat) : Int) then 1 else 0] }) ∧
    execOp params idleEnv (frame []) []
        { initState 10 emptyDB noSegments with stack := [2 ^ 256 - 1] } ISZERO
      = .ok (.advance { initState 10 emptyDB noSegments with
          stack := [if 2 ^ 256 - 1 = 0 then 1 else 0] })) ∧
    S256 ((2 ^ 256 - 1 : Nat) : Int) = -1 ∧ S256 ((1 : Nat) : Int) = 1 :=
  ⟨comparisons params idleEnv (frame []) [] (initState 10 emptyDB noSegments)
    (2 ^ 256 - 1) 1 [] (by norm_num), by norm_num [S256], by norm_num [S256]⟩

/-! ## Signed division -/

theorem S256_U256 (v : Int) (h1 : -2 ^ 255 ≤ v) (h2 : v < 2 ^ 255) : S256 (U256 v) = v := by
  have h := U256_cast v
  unfold S256
  split_ifs <;> omega

theorem S256_range (b : Nat) (hb : b < 2 ^ 256) : -2 ^ 255 ≤ S256 b ∧ S256 b < 2 ^ 255 := by
  unfold S256
  split_ifs <;> omega

theorem S256_ne_zero (b : Nat) (hb : b < 2 ^ 256) (h0 : b ≠ 0) : S256 b ≠ 0 := by
  unfold S256
  split_ifs <;> omega

theorem S256_emod (b : Nat) (hb : b < 2 ^ 256) : S256 b % 2 ^ 256 = b := by
  have hb1 : ((b : Int)) % 2 ^ 256 = b := Int.emod_eq_of_lt (by omega) (by exact_mod_cast hb)
  unfold S256
  split_ifs
  · exact hb1
  · rw [Int.sub_emod, Int.emod_self, sub_zero, Int.emod_emod_of_dvd _ (dvd_refl _), hb1]

/-- Truncated division and remainder, as SDIV and SMOD compute them from the
absolute values, recombine to the dividend. -/
theorem signed_div_mod (x y : Int) (hy : y ≠ 0) :
    ((x.natAbs / y.natAbs : Nat) : Int) * (if x * y < 0 then -1 else 1) * y
      + ((x.natAbs % y.natAbs : Nat) : Int) * (if x < 0 then -1 else 1) = x := by
  have hdm : ((x.natAbs / y.natAbs : Nat) : Int) * (y.natAbs : Int)
      + ((x.natAbs % y.natAbs : Nat) : Int) = (x.natAbs : Int) := by
    have h2 := congrArg (Nat.cast : Nat → Int) (Nat.div_add_mod x.natAbs y.natAbs)
    simp only [Nat.cast_add, Nat.cast_mul] at h2
    linarith
  rcases lt_trichotomy x 0 with hx | hx | hx
  · rcases lt_or_gt_of_ne hy with hy1 | hy1
    · have hxy : ¬ x * y < 0 := not_lt.mpr (le_of_lt (mul_pos_of_neg_of_neg hx hy1))
      rw [if_neg hxy, if_pos hx]
      have ex : (x.natAbs : Int) = -x := by omega
      have ey : (y.natAbs : Int) = -y := by omega
      rw [ex, ey] at hdm
      linarith
    · have hxy : x * y < 0 := mul_neg_of_neg_of_pos hx hy1
      rw [if_pos hxy, if_pos hx]
      have ex : (x.natAbs : Int) = -x := by omega
      have ey : (y.natAbs : Int) = y := by omega
      rw [ex, ey] at hdm
      linarith
  · subst hx
    simp
  · rcases lt_or_gt_of_ne hy with hy1 | hy1
    · have hxy : x * y < 0 := mul_neg_of_pos_of_neg hx hy1
      rw [if_pos hxy, if_neg (not_lt.mpr (le_of_lt hx))]
      have ex : (x.natAbs : Int) = x := by omega
      have ey : (y.natAbs : Int) = -y := by omega
      rw [ex, ey] at hdm
      linarith
    · have hxy : ¬ x * y < 0 := not_lt.mpr (le_of_lt (mul_pos hx hy1))
      rw [if_neg hxy, if_neg (not_lt.mpr (le_of_lt hx))]
      have ex : (x.natAbs : Int) = x := by omega
      have ey : (y.natAbs : Int) = y := by omega
      rw [ex, ey] at hdm
      linarith

theorem sdiv_cast (a b : Nat) (hy : S256 b ≠ 0) :
    ((sdiv a b : Nat) : Int) = (((S256 a).natAbs / (S256 b).natAbs : Nat) : Int)
      * (if S256 a * S256 b < 0 then -1 else 1) % 2 ^ 256 := by
  unfold sdiv
  simp only [hy, if_false]
  exact U256_cast _

theorem smod_cast (a b : Nat) (hy : S256 b ≠ 0) :
    ((smod a b : Nat) : Int) = (((S256 a).natAbs % (S256 b).natAbs : Nat) : Int)
      * (if S256 a < 0 then -1 else 1) % 2 ^ 256 := by
  unfold smod
  simp only [hy, if_false]
  exact U256_cast _

theorem word_modEq_S256 (b : Nat) (hb : b < 2 ^ 256) : (b : Int) ≡ S256 b [ZMOD 2 ^ 256] := by
  unfold Int.ModEq
  rw [S256_emod b hb]
  exact Int.emod_eq_of_lt (by omega) (by exact_mod_cast hb)

theorem sdiv_smod_int (a b : Nat) (ha : a < 2 ^ 256) (hb : b < 2 ^ 256) (hb0 : b ≠ 0) :
    ((sdiv a b : Int) * b + smod a b) % 2 ^ 256 = a := by
  have hy := S256_ne_zero b hb hb0
  have e1 : (sdiv a b : Int) ≡ (((S256 a).natAbs / (S256 b).natAbs : Nat) : Int)
      * (if S256 a * S256 b < 0 then -1 else 1) [ZMOD 2 ^ 256] := by
    rw [sdiv_cast a b hy]; exact Int.mod_modEq _ _
  have e2 : (smod a b : Int) ≡ (((S256 a).natAbs % (S256 b).natAbs : Nat) : Int)
      * (if S256 a < 0 then -1 else 1) [ZMOD 2 ^ 256] := by
    rw [smod_cast a b hy]; exact Int.mod_modEq _ _
  have e4 := (e1.mul (word_modEq_S256 b hb)).add e2
  unfold Int.ModEq at e4
  rw [e4, signed_div_mod (S256 a) (S256 b) hy, S256_emod a ha]

theorem sdiv_smod_nat (a b : Nat) (ha : a < 2 ^ 256) (hb : b < 2 ^ 256) (hb0 : b ≠ 0) :
    (sdiv a b * b + smod a b) % 2 ^ 256 = a := by
  have h3 : (((sdiv a b * b + smod a b) % 2 ^ 256 : Nat) : Int) = (a : Int) := by
    rw [← sdiv_smod_int a b ha hb hb0, Int.natCast_mod, Nat.cast_add, Nat.cast_mul,
      Nat.cast_pow, Nat.cast_ofNat]
  exact_mod_cast h3

/-- C11: for words `a` (top of the stack) and `b` with `b` not 0, SDIV pushes
a word `q` and SMOD a word `r` with `(q * b + r) mod 2^256 = a`. -/
theorem sdiv_smod_recombine (P : Params) (env : Environment) (ctx : Context)
    (input : List Nat) (s : State) (a b : Nat) (rest : stack)
    (ha : a < 2 ^ 256) (hb : b < 2 ^ 256) (hb0 : b ≠ 0) :
    ∃ q r : Nat,
      execOp P env ctx input { s with stack := a :: b :: rest } SDIV
        = .ok (.advance { s with stack := q :: rest }) ∧
      execOp P env ctx input { s with stack := a :: b :: rest } SMOD
        = .ok (.advance { s with stack := r :: rest }) ∧
      (q * b + r) % 2 ^ 256 = a :=
  ⟨sdiv a b, smod a b, rfl, rfl, sdiv_smod_nat a b ha hb hb0⟩

end Vm

namespace Vm
open OpCode

theorem S256_min : S256 ((2 ^ 255 : Nat) : Int) = -2 ^ 255 := by
  norm_num [S256]

theorem S256_minus_one : S256 ((2 ^ 256 - 1 : Nat) : Int) = -1 := by
  norm_num [S256]

set_option maxRecDepth 100000 in
theorem sdiv_overflow : sdiv (2 ^ 255) (2 ^ 256 - 1) = 2 ^ 255 := by
  unfold sdiv
  simp only [S256_min, S256_minus_one]
  norm_num [U256, Pow256]
  rfl

set_option maxRecDepth 100000 in
theorem smod_overflow : smod (2 ^ 255) (2 ^ 256 - 1) = 0 := by
  unfold smod
  simp only [S256_min, S256_minus_one]
  norm_num [U256, Pow256]

theorem S256_minus_seven : S256 ((2 ^ 256 - 7 : Nat) : Int) = -7 := by
  norm_num [S256]

theorem S256_three : S256 ((3 : Nat) : Int) = 3 := by
  norm_num [S256]

set_option maxRecDepth 100000 in
theorem smod_minus_seven_three : smod (2 ^ 256 - 7) 3 = 2 ^ 256 - 1 := by
  unfold smod
  simp only [S256_minus_seven, S256_three]
  norm_num [U256, Pow256]
  rfl

/-- Witness for C11: the overflow case `a = 2^255` (the signed value `-2^255`)
and `b = 2^256 - 1` (the signed value -1), where SDIV pushes `2^255` and SMOD
pushes 0. -/
theorem sdiv_smod_recombine_witness :
    (∃ q r : Nat,
      execOp params idleEnv (frame []) []
          { initState 10 emptyDB noSegments with stack := [2 ^ 255, 2 ^ 256 - 1] } SDIV
        = .ok (.advance { initState 10 emptyDB noSegments with stack := [q] }) ∧
      execOp params idleEnv (frame []) []
          { initState 10 emptyDB noSegments with stack := [2 ^ 255, 2 ^ 256 - 1] } SMOD
        = .ok (.advance { initState 10 emptyDB noSegments with stack := [r] }) ∧
      (q * (2 ^ 256 - 1) + r) % 2 ^ 256 = 2 ^ 255) ∧
    sdiv (2 ^ 255) (2 ^ 256 - 1) = 2 ^ 255 ∧ smod (2 ^ 255) (2 ^ 256 - 1) = 0 :=
  ⟨sdiv_smod_recombine params idleEnv (frame []) [] (initState 10 emptyDB noSegments)
    (2 ^ 255) (2 ^ 256 - 1) [] (by norm_num) (by norm_num) (by norm_num),
    sdiv_overflow, smod_overflow⟩

theorem natAbs_S256_le (b : Nat) (hb : b < 2 ^ 256) : ((S256 b).natAbs : Int) ≤ 2 ^ 255 := by
  have hrange := S256_range b hb
  omega

theorem S256_smod (a b : Nat) (hb : b < 2 ^ 256) (hb0 : b ≠ 0) :
    S256 (smod a b) = (((S256 a).natAbs % (S256 b).natAbs : Nat) : Int)
      * (if S256 a < 0 then -1 else 1) := by
  have hy := S256_ne_zero b hb hb0
  have hlt : (S256 a).natAbs % (S256 b).natAbs < (S256 b).natAbs :=
    Nat.mod_lt _ (Int.natAbs_pos.mpr hy)
  have hY := natAbs_S256_le b hb
  have hm : (((S256 a).natAbs % (S256 b).natAbs : Nat) : Int) < 2 ^ 255 := by omega
  unfold smod
  simp only [hy, if_false]
  apply S256_U256
  · split_ifs <;> omega
  · split_ifs <;> omega

theorem smod_sign (a b : Nat) (hb : b < 2 ^ 256) (hb0 : b ≠ 0) :
    (S256 (smod a b)).natAbs = (S256 a).natAbs % (S256 b).natAbs ∧
    (S256 a < 0 → S256 (smod a b) ≤ 0) ∧ (0 ≤ S256 a → 0 ≤ S256 (smod a b)) := by
  rw [S256_smod a b hb hb0]
  by_cases hx : S256 a < 0
  · simp only [if_pos hx]
    refine ⟨by omega, fun _ => by omega, fun h => by omega⟩
  · simp only [if_neg hx]
    refine ⟨by omega, fun h => by omega, fun _ => by omega⟩

/-- C12: for a word `b` other than 0, the word SMOD pushes for operands `a`
(top) and `b`, read as a two's-complement number, has the absolute value
`|a| mod |b|` of the signed operands; it is at most 0 when `a` is negative and
at least 0 otherwise. -/
theorem smod_sign_follows_dividend (P : Params) (env : Environment) (ctx : Context)
    (input : List Nat) (s : State) (a b : Nat) (rest : stack)
    (hb : b < 2 ^ 256) (hb0 : b ≠ 0) :
    ∃ r : Nat,
      execOp P env ctx input { s with stack := a :: b :: rest } SMOD
        = .ok (.advance { s with stack := r :: rest }) ∧
      (S256 r).natAbs = (S256 a).natAbs % (S256 b).natAbs ∧
      (S256 a < 0 → S256 r ≤ 0) ∧ (0 ≤ S256 a → 0 ≤ S256 r) :=
  ⟨smod a b, rfl, smod_sign a b hb hb0⟩

/-- Witness for C12: `a = 2^256 - 7` (the signed value -7) and `b = 3` give the
word `2^256 - 1`, the signed value -1. -/
theorem smod_sign_follows_dividend_witness :
    (∃ r : Nat,
      execOp params idleEnv (frame []) []
          { initState 10 emptyDB noSegments with stack := [2 ^ 256 - 7, 3] } SMOD
        = .ok (.advance { initState 10 emptyDB noSegments with stack := [r] }) ∧
      (S256 r).natAbs = (S256 ((2 ^ 256 - 7 : Nat) : Int)).natAbs % (S256 ((3 : Nat) : Int)).natAbs ∧
      (S256 ((2 ^ 256 - 7 : Nat) : Int) < 0 → S256 r ≤ 0) ∧
      (0 ≤ S256 ((2 ^ 256 - 7 : Nat) : Int) → 0 ≤ S256 r)) ∧
    smod (2 ^ 256 - 7) 3 = 2 ^ 256 - 1 ∧ S256 ((2 ^ 256 - 1 : Nat) : Int) = -1 :=
  ⟨smod_sign_follows_dividend params idleEnv (frame []) [] (initState 10 emptyDB noSegments)
    (2 ^ 256 - 7) 3 [] (by norm_num) (by norm_num),
    smod_minus_seven_three, S256_minus_one⟩

end Vm

namespace Vm
open OpCode

/-! ## SIGNEXTEND -/

theorem Int_negSucc_emod (m : Nat) (n : Nat) (hn : 0 < n) :
    (Int.negSucc m) % (n : Int) = ((n - (m % n + 1) : Nat) : Int) := by
  have h1 : m % n < n := Nat.mod_lt _ hn
  have h2 : Int.negSucc m = -((m : Int) + 1) := by
    rw [Int.negSucc_eq]
  rw [h2]
  have h3 : (m : Int) = (n : Int) * ((m / n : Nat) : Int) + ((m % n : Nat) : Int) := by
    have := Nat.div_add_mod m n
    exact_mod_cast this.symm
  have h4 : -((m : Int) + 1) = ((n - (m % n + 1) : Nat) : Int) + (n : Int) * (-((m / n : Nat) : Int) - 1) := by
    rw [Nat.cast_sub (by omega)]
    simp only [Nat.cast_add, Nat.cast_one]
    linarith
  rw [h4, Int.add_mul_emod_self_left]
  exact Int.emod_eq_of_lt (by omega) (by omega)

/-- Below bit 256 the word `U256 z` has the bits of the integer `z`. -/
theorem testBit_U256 (z : Int) (i : Nat) (hi : i < 256) : (U256 z).testBit i = z.testBit i := by
  unfold U256 Pow256
  cases z with
  | ofNat n =>
    have h : ((Int.ofNat n) % ((2 ^ 256 : Nat) : Int)).toNat = n % 2 ^ 256 := by
      have : (Int.ofNat n) % ((2 ^ 256 : Nat) : Int) = ((n % 2 ^ 256 : Nat) : Int) := by
        simp [Int.ofNat_eq_coe]
      rw [this, Int.toNat_ofNat]
    rw [h, Nat.testBit_mod_two_pow]
    simp [Int.testBit, hi]
  | negSucc m =>
    rw [Int_negSucc_emod m (2 ^ 256) (by norm_num), Int.toNat_ofNat,
      Nat.testBit_two_pow_sub_succ (Nat.mod_lt _ (by norm_num)), Nat.testBit_mod_two_pow]
    simp [Int.testBit, hi]

end Vm

namespace Vm
open OpCode

theorem Int_testBit_natCast (x i : Nat) : Int.testBit (x : Int) i = x.testBit i := rfl

theorem Int_testBit_negSucc (x i : Nat) : Int.testBit (Int.negSucc x) i = !x.testBit i := rfl

/-- The bits of the word SIGNEXTEND pushes for a byte index `k < 31`: below bit
`8k+8` those of the operand, from there on the bit `8k+7` of the operand. -/
theorem signExtend_testBit (k x i : Nat) (hk : k < 31) (hi : i < 256) :
    (signExtend k x).testBit i
      = if i < 8 * k + 8 then x.testBit i else x.testBit (8 * k + 7) := by
  have hb : Uint64 (Uint64 k * 8 + 7) = 8 * k + 7 := by
    unfold Uint64
    omega
  have hmask : ((1 <<< (8 * k + 7) : Nat) : Int) - 1 = ((2 ^ (8 * k + 7) - 1 : Nat) : Int) := by
    rw [Nat.one_shiftLeft, Nat.cast_sub Nat.one_le_two_pow]
    simp
  unfold signExtend
  simp only [hb]
  by_cases hbit : x.testBit (8 * k + 7) = true
  · have hneg : -(((1 <<< (8 * k + 7) : Nat) : Int) - 1) - 1
        = Int.negSucc (2 ^ (8 * k + 7) - 1) := by
      rw [hmask, Int.negSucc_eq]
      ring
    rw [if_pos hbit, testBit_U256 _ _ hi, Int.testBit_lor, hneg, Int_testBit_natCast,
      Int_testBit_negSucc, Nat.testBit_two_pow_sub_one, hbit]
    by_cases h1 : i < 8 * k + 7
    · have h2 : i < 8 * k + 8 := by omega
      simp [h1, h2]
    · by_cases h3 : i = 8 * k + 7
      · subst h3
        simp [hbit]
      · have h2 : ¬ i < 8 * k + 8 := by omega
        simp [h1, h2]
  · have hbit0 : x.testBit (8 * k + 7) = false := by simpa using hbit
    rw [if_neg hbit, testBit_U256 _ _ hi, hmask, Int.testBit_land, Int_testBit_natCast,
      Int_testBit_natCast, Nat.testBit_two_pow_sub_one, hbit0]
    by_cases h1 : i < 8 * k + 7
    · have h2 : i < 8 * k + 8 := by omega
      simp [h1, h2]
    · by_cases h3 : i = 8 * k + 7
      · subst h3
        simp [hbit0]
      · have h2 : ¬ i < 8 * k + 8 := by omega
        simp [h1, h2]

theorem signExtend_lt (k x : Nat) : signExtend k x < 2 ^ 256 := by
  unfold signExtend
  simp only
  split <;> exact U256_lt _

/-- C15: with the byte index `k` on top of the stack and the word `x` below:
for `k < 31` SIGNEXTEND replaces both by a word `w < 2^256` whose bits below
`8k+8` are those of `x` and whose bits from `8k+8` up to 255 all equal bit
`8k+7` of `x`; for `k ≥ 31` it removes `k` and leaves `x` on top. In both
cases the stack has one item less and its top is below `2^256`. -/
theorem signextend_semantics (P : Params) (env : Environment) (ctx : Context)
    (input : List Nat) (s : State) (k x : Nat) (rest : stack) (hx : x < 2 ^ 256) :
    ∃ w : Nat,
      execOp P env ctx input { s with stack := k :: x :: rest } SIGNEXTEND
        = .ok (.advance { s with stack := w :: rest }) ∧
      (w :: rest).length + 1 = (k :: x :: rest).length ∧ w < 2 ^ 256 ∧
      (k < 31 → (∀ i, i < 8 * k + 8 → w.testBit i = x.testBit i) ∧
        (∀ i, 8 * k + 8 ≤ i → i < 256 → w.testBit i = x.testBit (8 * k + 7))) ∧
      (31 ≤ k → w = x) := by
  by_cases hk : k < 31
  · refine ⟨signExtend k x, ?_, rfl, signExtend_lt k x, fun _ => ⟨fun i hi => ?_, fun i h1 h2 => ?_⟩,
      fun h => absurd hk (by omega)⟩
    · show (if k < 31 then
          (Except.ok (Exec.advance { s with stack := signExtend k x :: rest }) : Except VmError Exec)
        else Except.ok (Exec.advance { s with stack := x :: rest })) = _
      rw [if_pos hk]
    · rw [signExtend_testBit k x i hk (by omega), if_pos hi]
    · rw [signExtend_testBit k x i hk h2, if_neg (by omega)]
  · refine ⟨x, ?_, rfl, hx, fun h => absurd h hk, fun _ => rfl⟩
    show (if k < 31 then
        (Except.ok (Exec.advance { s with stack := signExtend k x :: rest }) : Except VmError Exec)
      else Except.ok (Exec.advance { s with stack := x :: rest })) = _
    rw [if_neg hk]

end Vm

namespace Vm
open OpCode

/-! ## Program counter -/

theorem segmentPhase_frame (d : Bool) (s : State) (op : OpCode) :
    match segmentPhase d s op with
    | .ok s1 => s1.stack = s.stack ∧ s1.pc = s.pc ∧ s1.mem = s.mem ∧ s1.statedb = s.statedb
    | .error _ => True := by
  cases d
  · cases hdyn : isDynamic op
    · cases hcs : s.csegment
      · by_cases hpc : s.pc = 0
        · simp [segmentPhase, hdyn, hcs, hpc]
        · cases hseg : s.csegments s.pc with
          | none => simp [segmentPhase, hdyn, hcs, hpc, hseg, State.setSegment]
          | some seg =>
            cases hreq : s.stack.require seg.ssize with
            | error e => simp [segmentPhase, hdyn, hcs, hpc, hseg, hreq]
            | ok u =>
              cases hu : UseGas s.Gas seg.gas <;>
                simp [segmentPhase, hdyn, hcs, hpc, hseg, hreq, hu]
      · simp [segmentPhase, hdyn, hcs]
    · cases hcs : s.csegment with
      | none => simp [segmentPhase, hdyn, hcs]
      | some cseg =>
        by_cases hce : cseg.cend = 0 <;> simp [segmentPhase, hdyn, hcs, hce, State.setSegment]
  · simp [segmentPhase]

theorem pricePhase_frame (P : Params) (d : Bool) (s : State) (op : OpCode) :
    match pricePhase P d s op with
    | .ok s3 => s3.stack = s.stack ∧ s3.pc = s.pc
    | .error _ => True := by
  by_cases hp : s.pc > s.nopay ∨ s.pc = 0 ∨ d = true
  · cases hc : calculateGasAndSize P op s.statedb s.mem s.stack with
    | error e => simp [pricePhase, hp, hc]
    | ok v =>
      obtain ⟨nm, cost, db⟩ := v
      cases hcs : s.csegment <;> cases hu : UseGas s.Gas cost <;>
        simp [pricePhase, hp, hc, hcs, hu, State.setSegment]
  · simp [pricePhase, hp]

set_option maxHeartbeats 1000000 in
theorem execOp_advance_pc (P : Params) (env : Environment) (ctx : Context) (input : List Nat)
    (s s4 : State) (op : OpCode) (h : execOp P env ctx input s op = .ok (.advance s4)) :
    s4.pc = s.pc + immediate op := by
  revert h
  cases op <;> simp only [execOp, bind_ok_iff, pure_ok_iff, forall_exists_index, and_imp]
  all_goals intros
  all_goals rename_i h
  all_goals try simp only [jump] at h
  all_goals repeat' split at h
  all_goals try simp only [bind_ok_iff, pure_ok_iff, forall_exists_index, and_imp, reduceCtorEq,
    false_and, exists_false, Except.ok.injEq, Exec.advance.injEq] at h
  all_goals try (obtain ⟨_, _, h⟩ := h)
  all_goals try simp only [Exec.advance.injEq, reduceCtorEq] at h
  all_goals (subst_vars; simp [immediate])

theorem execOp_jumped (P : Params) (env : Environment) (ctx : Context) (input : List Nat)
    (s s4 : State) (op : OpCode) (h : execOp P env ctx input s op = .ok (.jumped s4)) :
    op = JUMP ∨ (op = JUMPI ∧ ∃ pos cond rest, s.stack = pos :: cond :: rest ∧ cond ≥ 1) := by
  revert h
  cases op <;> simp only [execOp, bind_ok_iff, pure_ok_iff, forall_exists_index, and_imp]
  case JUMP => intros; exact Or.inl trivial
  case JUMPI =>
    intro x hx y hy h
    refine Or.inr ⟨trivial, ?_⟩
    obtain ⟨pos, st⟩ := x
    obtain ⟨cond, st2⟩ := y
    cases hs : s.stack with
    | nil => rw [hs] at hx; simp [stack.pop] at hx
    | cons a t =>
      rw [hs] at hx
      simp only [stack.pop, Except.ok.injEq, Prod.mk.injEq] at hx
      obtain ⟨rfl, rfl⟩ := hx
      cases t with
      | nil => simp [stack.pop] at hy
      | cons b t2 =>
        simp only [stack.pop, Except.ok.injEq, Prod.mk.injEq] at hy
        obtain ⟨rfl, rfl⟩ := hy
        refine ⟨_, _, _, rfl, ?_⟩
        by_contra hc
        simp only [hc, if_false, pure_ok_iff, reduceCtorEq] at h
  all_goals intros
  all_goals rename_i h
  all_goals repeat' split at h
  all_goals try simp only [bind_ok_iff, pure_ok_iff, forall_exists_index, and_imp, reduceCtorEq,
    false_and, exists_false, Except.ok.injEq] at h
  all_goals try (obtain ⟨_, _, h⟩ := h)
  all_goals try simp only [reduceCtorEq] at h

theorem Bytes2Big_append (l : List Nat) (a : Nat) : Bytes2Big (l ++ [a]) = Bytes2Big l * 256 + a := by
  simp [Bytes2Big, List.foldl_append]

/-- The value `Bytes2Big` gives to a byte string is the number whose base-256
digits, most significant first, are the bytes. -/
theorem Bytes2Big_eq_ofDigits (bs : List Nat) : Bytes2Big bs = Nat.ofDigits 256 bs.reverse := by
  induction bs using List.reverseRecOn with
  | nil => rfl
  | append_singleton l a ih =>
    rw [Bytes2Big_append, ih, List.reverse_append, List.reverse_singleton, List.singleton_append,
      Nat.ofDigits_cons]
    ring

end Vm

namespace Vm
open OpCode

/-- An iteration that does not fail executes its opcode on the stack and at
the program counter it started with. -/
theorem step_ok_inv (P : Params) (env : Environment) (ctx : Context) (input : List Nat)
    (d : Bool) (s : State) (hok : ∀ s1 e, step P env ctx input d s ≠ .fail s1 e) :
    ∃ s3 r, s3.stack = s.stack ∧ s3.pc = s.pc ∧
      execOp P env ctx input s3 (GetOp ctx.Code s.pc) = .ok r ∧
      step P env ctx input d s = r.toStep := by
  obtain ⟨s1, s3, r, h1, h2, h3, h4⟩ := step_inv P env ctx input d s hok
  have f1 := segmentPhase_frame d s (GetOp ctx.Code s.pc)
  rw [h1] at f1
  have f2 := pricePhase_frame P d { s1 with ppc := s1.pc } (GetOp ctx.Code s.pc)
  rw [h2] at f2
  simp only at f1 f2
  exact ⟨s3, r, f2.1.trans f1.1, f2.2.trans f1.2.1, h3, h4⟩

/-- C18: the PUSH of `n = i + 1` bytes pushes the number whose base-256 digits,
most significant first, are the `n` bytes of the code after `pc`, bytes past
the end of the code being 0, and moves `pc` by `n`; an iteration of the loop
that goes on to the next one leaves `pc` at `pc + n + 1` after a PUSH of `n`
bytes, and at `pc + 1` after any other opcode that is not JUMP and not a JUMPI
whose condition is not 0. -/
theorem push_and_pc_advance (P : Params) (env : Environment) (ctx : Context)
    (input : List Nat) (d : Bool) (s : State) :
    (∀ i : Fin 32, execOp P env ctx input s (PUSH i) = .ok (.advance { s with
        stack := Nat.ofDigits 256
          (((List.range ((i : Nat) + 1)).map fun j => ctx.Code.getD (s.pc + 1 + j) 0).reverse)
            :: s.stack,
        pc := s.pc + ((i : Nat) + 1) })) ∧
    (∀ s1, step P env ctx input d s = .next s1 →
      (∀ i : Fin 32, GetOp ctx.Code s.pc = PUSH i →
        s1.pc = s.pc + ((i : Nat) + 1) + 1 ∧
        s1.stack = Nat.ofDigits 256
          (((List.range ((i : Nat) + 1)).map fun j => ctx.Code.getD (s.pc + 1 + j) 0).reverse)
            :: s.stack) ∧
      ((∀ i : Fin 32, GetOp ctx.Code s.pc ≠ PUSH i) → GetOp ctx.Code s.pc ≠ JUMP →
        (GetOp ctx.Code s.pc = JUMPI → s.stack.get? 1 = some 0) → s1.pc = s.pc + 1)) := by
  have hpush : ∀ (s : State) (i : Fin 32), execOp P env ctx input s (PUSH i)
      = .ok (.advance { s with
        stack := Nat.ofDigits 256
          (((List.range ((i : Nat) + 1)).map fun j => ctx.Code.getD (s.pc + 1 + j) 0).reverse)
            :: s.stack,
        pc := s.pc + ((i : Nat) + 1) }) := by
    intro s i
    rw [← Bytes2Big_eq_ofDigits]
    rfl
  refine ⟨hpush s, fun s1 hstep => ?_⟩
  obtain ⟨s3, r, hst, hpc, hex, htoStep⟩ :=
    step_ok_inv P env ctx input d s (by rw [hstep]; simp)
  rw [hstep] at htoStep
  constructor
  · intro i hi
    rw [hi, hpush s3 i] at hex
    cases hex
    simp only [Exec.toStep, Step.next.injEq] at htoStep
    subst htoStep
    simp [hst, hpc]
  · intro hnp hnj hji
    cases r with
    | advance s4 =>
      have h := execOp_advance_pc P env ctx input s3 s4 _ hex
      simp only [Exec.toStep, Step.next.injEq] at htoStep
      subst htoStep
      have him : immediate (GetOp ctx.Code s.pc) = 0 := by
        cases hop : GetOp ctx.Code s.pc <;> simp [immediate]
        exact absurd hop (hnp _)
      simp [h, him, hpc]
    | jumped s4 =>
      rcases execOp_jumped P env ctx input s3 s4 _ hex with h | ⟨h, pos, cond, rest, hs, hc⟩
      · exact absurd h hnj
      · have := hji h
        rw [← hst, hs] at this
        simp at this
        omega
    | returned s4 ret => simp [Exec.toStep] at htoStep

/-- Witness for C18: the code `61 01` holds PUSH2 at pc 0 with one of its two
bytes past the end of the code; the first iteration pushes `0x0100 = 256` and
leaves `pc = 3`. -/
theorem push_and_pc_advance_witness :
    step params idleEnv (frame [0x61, 1]) [] false (initState 10 emptyDB noSegments)
      = .next ⟨3, 0, 0, [256], [], 7, emptyDB, none, noSegments⟩ ∧
    GetOp (frame [0x61, 1]).Code (initState 10 emptyDB noSegments).pc = PUSH 1 ∧
    ((3 : Nat) = 0 + (((1 : Fin 32) : Nat) + 1) + 1 ∧
      [256] = Nat.ofDigits 256
        (((List.range (((1 : Fin 32) : Nat) + 1)).map
          fun j => (frame [0x61, 1]).Code.getD (0 + 1 + j) 0).reverse) :: []) :=
  ⟨rfl, rfl,
    ((push_and_pc_advance params idleEnv (frame [0x61, 1]) [] false
      (initState 10 emptyDB noSegments)).2 ⟨3, 0, 0, [256], [], 7, emptyDB, none, noSegments⟩
        rfl).1 1 rfl⟩

end Vm

namespace Vm
open OpCode

/-! ## SWAP and DUP -/

theorem nth_ok (st : stack) (k : Nat) (hk : 1 ≤ k) (h : k ≤ st.length) :
    ∃ w, st.nth k = .ok w ∧ st[k - 1]? = some w := by
  have hlt : k - 1 < st.length := by omega
  refine ⟨st[k - 1], ?_, ?_⟩
  · unfold stack.nth
    rw [List.get?_eq_getElem?, List.getElem?_eq_getElem hlt]
  · exact List.getElem?_eq_getElem hlt

theorem swap_ok (st : stack) (n : Nat) (hn : 2 ≤ n) (h : n ≤ st.length) :
    ∃ st1, st.swap n = .ok st1 ∧ st1.length = st.length ∧
      st1[0]? = st[n - 1]? ∧ st1[n - 1]? = st[0]? ∧
      ∀ j, j ≠ 0 → j ≠ n - 1 → st1[j]? = st[j]? := by
  obtain ⟨top, htop, htop2⟩ := nth_ok st 1 (by omega) (by omega)
  obtain ⟨w, hw, hw2⟩ := nth_ok st n (by omega) h
  refine ⟨(st.set 0 w).set (n - 1) top, ?_, by simp, ?_, ?_, ?_⟩
  · unfold stack.swap
    rw [htop, hw]
    rfl
  · rw [List.getElem?_set_ne (by omega), List.getElem?_set_self (by omega), hw2]
  · rw [List.getElem?_set_self (by simp; omega)]
    exact htop2.symm
  · intro j h0 h1
    rw [List.getElem?_set_ne (by omega), List.getElem?_set_ne (by omega)]

theorem dup_ok (st : stack) (n : Nat) (hn : 1 ≤ n) (h : n ≤ st.length) :
    ∃ w, st[n - 1]? = some w ∧ st.dup n = .ok (w :: st) := by
  obtain ⟨w, hw, hw2⟩ := nth_ok st n hn h
  refine ⟨w, hw2, ?_⟩
  unfold stack.dup
  rw [hw]
  rfl

theorem require_fails (st : stack) (n : Nat) (h : st.length < n) :
    st.require (n : Int) = .error .StackUnderflow := by
  unfold stack.require
  rw [if_pos (by exact_mod_cast h)]

theorem baseCheck_error (P : Params) (op : OpCode) (st : stack) (e : VmError)
    (h : baseCheck P op st = .error e) : e = .StackUnderflow ∨ e = .StackOverflow := by
  unfold baseCheck at h
  split at h
  · cases h
  · rename_i r hr
    unfold stack.require at h
    by_cases h1 : (st.length : Int) < r.stackPop
    · simp only [h1, if_true, bind, Except.bind] at h
      cases h
      exact Or.inl rfl
    · simp only [h1, if_false, bind, Except.bind] at h
      split at h
      · cases h
        exact Or.inr rfl
      · cases h

theorem calc_swap_fails (P : Params) (db : StateDB) (mem : Memory) (st : stack) (i : Fin 16)
    (h : st.length < (i : Nat) + 2) :
    ∃ e, calculateGasAndSize P (SWAP i) db mem st = .error e ∧
      (e = .StackUnderflow ∨ e = .StackOverflow) := by
  cases hb : baseCheck P (SWAP i) st with
  | error e =>
    refine ⟨e, ?_, baseCheck_error P _ st e hb⟩
    unfold calculateGasAndSize
    rw [hb]
    rfl
  | ok g =>
    refine ⟨.StackUnderflow, ?_, Or.inl rfl⟩
    have hr : st.require (((i : Nat) : Int) + 2) = .error .StackUnderflow := by
      unfold stack.require
      rw [if_pos (by omega)]
    have ho : opGasAndSize P (SWAP i) db st g = .error .StackUnderflow := by
      show (st.require (((i : Nat) : Int) + 2) >>= fun _ => _) = _
      rw [hr]
      rfl
    unfold calculateGasAndSize
    rw [hb]
    show (opGasAndSize P (SWAP i) db st g >>= fun _ => _) = _
    rw [ho]
    rfl

theorem calc_dup_fails (P : Params) (db : StateDB) (mem : Memory) (st : stack) (i : Fin 16)
    (h : st.length < (i : Nat) + 1) :
    ∃ e, calculateGasAndSize P (DUP i) db mem st = .error e ∧
      (e = .StackUnderflow ∨ e = .StackOverflow) := by
  cases hb : baseCheck P (DUP i) st with
  | error e =>
    refine ⟨e, ?_, baseCheck_error P _ st e hb⟩
    unfold calculateGasAndSize
    rw [hb]
    rfl
  | ok g =>
    refine ⟨.StackUnderflow, ?_, Or.inl rfl⟩
    have hr : st.require (((i : Nat) : Int) + 1) = .error .StackUnderflow := by
      unfold stack.require
      rw [if_pos (by omega)]
    have ho : opGasAndSize P (DUP i) db st g = .error .StackUnderflow := by
      show (st.require (((i : Nat) : Int) + 1) >>= fun _ => _) = _
      rw [hr]
      rfl
    unfold calculateGasAndSize
    rw [hb]
    show (opGasAndSize P (DUP i) db st g >>= fun _ => _) = _
    rw [ho]
    rfl

/-- The part of C19 that holds of every iteration that prices its opcode, for
`n = i + 1` in 1..16. SWAPn on a stack of depth at least `n + 1` exchanges the
top item with the item `n` places below it (the `(n+1)`-th from the top) and
leaves the depth and every other item as they are; on a stack of depth below
`n + 1` the pricing of SWAPn fails with a stack error. DUPn on a stack of depth
at least `n` pushes a copy of the `n`-th item from the top on the unchanged
stack; on a stack of depth below `n` the pricing of DUPn fails with a stack
error. -/
theorem swap_dup_semantics (P : Params) (env : Environment) (ctx : Context)
    (input : List Nat) (s : State) (i : Fin 16) :
    ((i : Nat) + 2 ≤ s.stack.length →
      ∃ st1 : stack, execOp P env ctx input s (SWAP i) = .ok (.advance { s with stack := st1 }) ∧
        st1.length = s.stack.length ∧
        st1[0]? = s.stack[(i : Nat) + 1]? ∧ st1[(i : Nat) + 1]? = s.stack[0]? ∧
        ∀ j, j ≠ 0 → j ≠ (i : Nat) + 1 → st1[j]? = s.stack[j]?) ∧
    (s.stack.length < (i : Nat) + 2 →
      ∃ e, calculateGasAndSize P (SWAP i) s.statedb s.mem s.stack = .error e ∧
        (e = .StackUnderflow ∨ e = .StackOverflow)) ∧
    ((i : Nat) + 1 ≤ s.stack.length →
      ∃ w, s.stack[(i : Nat)]? = some w ∧
        execOp P env ctx input s (DUP i) = .ok (.advance { s with stack := w :: s.stack })) ∧
    (s.stack.length < (i : Nat) + 1 →
      ∃ e, calculateGasAndSize P (DUP i) s.statedb s.mem s.stack = .error e ∧
        (e = .StackUnderflow ∨ e = .StackOverflow)) := by
  refine ⟨fun h => ?_, calc_swap_fails P _ _ _ i, fun h => ?_, calc_dup_fails P _ _ _ i⟩
  · obtain ⟨st1, h1, h2, h3, h4, h5⟩ := swap_ok s.stack ((i : Nat) + 2) (by omega) h
    refine ⟨st1, ?_, h2, h3, h4, h5⟩
    show (s.stack.swap ((i : Nat) + 2) >>= fun st => _) = _
    rw [h1]
    rfl
  · obtain ⟨w, h1, h2⟩ := dup_ok s.stack ((i : Nat) + 1) (by omega) h
    refine ⟨w, h1, ?_⟩
    show (s.stack.dup ((i : Nat) + 1) >>= fun st => _) = _
    rw [h2]
    rfl

/-- Example for the priced SWAP and DUP: on the stack `[1, 2, 3]` (1 on top)
SWAP2 gives
`[3, 2, 1]` and DUP2 gives `[2, 1, 2, 3]`; on the stack `[1]` the pricing of
SWAP1 and of DUP2 fails with a stack underflow. -/
theorem swap_dup_semantics_witness :
    execOp params idleEnv (frame []) []
        { initState 10 emptyDB noSegments with stack := [1, 2, 3] } (SWAP 1)
      = .ok (.advance { initState 10 emptyDB noSegments with stack := [3, 2, 1] }) ∧
    execOp params idleEnv (frame []) []
        { initState 10 emptyDB noSegments with stack := [1, 2, 3] } (DUP 1)
      = .ok (.advance { initState 10 emptyDB noSegments with stack := [2, 1, 2, 3] }) ∧
    calculateGasAndSize params (SWAP 0) emptyDB [] [1] = .error .StackUnderflow ∧
    calculateGasAndSize params (DUP 1) emptyDB [] [1] = .error .StackUnderflow ∧
    (∃ st1 : stack, execOp params idleEnv (frame []) []
          { initState 10 emptyDB noSegments with stack := [1, 2, 3] } (SWAP 1)
        = .ok (.advance { initState 10 emptyDB noSegments with stack := st1 }) ∧
      st1.length = 3 ∧ st1[0]? = [1, 2, 3][((1 : Fin 16) : Nat) + 1]? ∧
      st1[((1 : Fin 16) : Nat) + 1]? = [1, 2, 3][0]? ∧
      ∀ j, j ≠ 0 → j ≠ ((1 : Fin 16) : Nat) + 1 → st1[j]? = [1, 2, 3][j]?) :=
  ⟨rfl, rfl, rfl, rfl,
    (swap_dup_semantics params idleEnv (frame []) []
      { initState 10 emptyDB noSegments with stack := [1, 2, 3] } 1).1 (by decide)⟩

end Vm

namespace Vm
open OpCode

/-! ## RETURN, SUICIDE and STOP -/

theorem step_of_phases (P : Params) (env : Environment) (ctx : Context) (input : List Nat)
    (d : Bool) (s s1 s3 : State) (r : Exec)
    (h1 : segmentPhase d s (GetOp ctx.Code s.pc) = .ok s1)
    (h2 : pricePhase P d { s1 with ppc := s1.pc } (GetOp ctx.Code s.pc) = .ok s3)
    (h3 : execOp P env ctx input s3 (GetOp ctx.Code s.pc) = .ok r) :
    step P env ctx input d s = r.toStep := by
  unfold step
  simp only [h1, h2, h3]

theorem loop_of_step_done (P : Params) (env : Environment) (ctx : Context) (input : List Nat)
    (d : Bool) (fuel : Nat) (s s1 : State) (ret : List Nat)
    (h : step P env ctx input d s = .done s1 ret) :
    loop P env ctx input d (fuel + 1) s = some (.done s1 ret) := by
  simp only [loop, h]

theorem epilogue_gas_none (d : Bool) (s : State) : (epilogue d s none).Gas = s.Gas := by
  unfold epilogue
  cases d
  · cases hcs : s.csegment with
    | none => simp [hcs]
    | some cseg => by_cases hce : cseg.cend = 0 <;> simp [hcs, hce, State.setSegment]
  · simp

theorem finish_done (d : Bool) (s : State) (ret : List Nat) :
    (finish d (.done s ret)).err = none ∧ (finish d (.done s ret)).ret = ret ∧
    (finish d (.done s ret)).state.Gas = s.Gas :=
  ⟨rfl, rfl, epilogue_gas_none d s⟩

theorem segmentPhase_dynamic_aux (d : Bool) (s : State) (op : OpCode)
    (h : isDynamic op = true) :
    match segmentPhase d s op with
    | .ok s1 => s1.Gas = s.Gas ∧ s1.stack = s.stack ∧ s1.mem = s.mem ∧
        s1.statedb = s.statedb ∧ s1.pc = s.pc ∧ (s1.pc > s1.nopay ∨ s1.pc = 0 ∨ d = true)
    | .error _ => False := by
  cases d
  · cases hcs : s.csegment with
    | none =>
      simp only [segmentPhase, h, hcs, if_true, Bool.false_eq_true, if_false, true_and, or_false]
      omega
    | some cseg =>
      by_cases hce : cseg.cend = 0
      · simp only [segmentPhase, h, hcs, hce, if_true, Bool.false_eq_true, if_false, true_and,
          or_false, State.setSegment]
        omega
      · simp only [segmentPhase, h, hcs, hce, if_true, Bool.false_eq_true, if_false, true_and,
          or_false]
        omega
  · simp [segmentPhase]

/-- A dynamic opcode passes the segment discipline, which charges no gas and
leaves the opcode to be priced. -/
theorem segmentPhase_dynamic (d : Bool) (s : State) (op : OpCode) (h : isDynamic op = true) :
    ∃ s1, segmentPhase d s op = .ok s1 ∧ s1.Gas = s.Gas ∧ s1.stack = s.stack ∧ s1.mem = s.mem ∧
      s1.statedb = s.statedb ∧ s1.pc = s.pc ∧ (s1.pc > s1.nopay ∨ s1.pc = 0 ∨ d = true) := by
  have := segmentPhase_dynamic_aux d s op h
  cases hs : segmentPhase d s op with
  | error v => rw [hs] at this; exact this.elim
  | ok s1 => rw [hs] at this; exact ⟨s1, rfl, this⟩

/-- The pricing block succeeds when `calculateGasAndSize` does and the gas
covers the cost. -/
theorem pricePhase_ok (P : Params) (d : Bool) (s : State) (op : OpCode) (nm : Nat) (cost : Int)
    (db : StateDB) (g : Nat) (hp : s.pc > s.nopay ∨ s.pc = 0 ∨ d = true)
    (hc : calculateGasAndSize P op s.statedb s.mem s.stack = .ok (nm, cost, db))
    (hu : UseGas s.Gas cost = some g) :
    ∃ s3, pricePhase P d s op = .ok s3 ∧ s3.Gas = g ∧ s3.mem = s.mem.Resize (Uint64 nm) ∧
      s3.stack = s.stack ∧ s3.pc = s.pc ∧ s3.statedb = db := by
  cases h : pricePhase P d s op with
  | error v =>
    exfalso
    unfold pricePhase at h
    rw [if_pos hp, hc] at h
    cases hcs : s.csegment with
    | none => simp [hcs, hu] at h
    | some cseg => simp [hcs, hu, State.setSegment] at h
  | ok s3 =>
    obtain ⟨nm1, cost1, db1, hc1, hu1, hm, hst, hpc, hdb, -, -⟩ :=
      pricePhase_priced P d s s3 op hp h
    rw [hc] at hc1
    simp only [Except.ok.injEq, Prod.mk.injEq] at hc1
    obtain ⟨rfl, rfl, rfl⟩ := hc1
    rw [hu] at hu1
    exact ⟨s3, rfl, (Option.some.inj hu1).symm, hm, hst, hpc, hdb⟩

end Vm

namespace Vm
open OpCode

theorem memoryFee_fst_bounds (P : Params) (mem : Memory) (n : Nat) :
    n ≤ (memoryFee P mem n).1 ∧ (memoryFee P mem n).1 ≤ n + 31 := by
  unfold memoryFee toWordSize
  by_cases h : n > 0
  · simp only [h, if_true]
    split <;> (simp only; omega)
  · simp only [h, if_false]
    omega

theorem calc_return_size (P : Params) (db db1 : StateDB) (mem : Memory) (offset size : Nat)
    (rest : stack) (nm : Nat) (cost : Int)
    (h : calculateGasAndSize P RETURN db mem (offset :: size :: rest) = .ok (nm, cost, db1)) :
    calcMemSize offset size ≤ nm ∧ nm ≤ calcMemSize offset size + 31 := by
  unfold calculateGasAndSize at h
  cases hb : baseCheck P RETURN (offset :: size :: rest) with
  | error e => rw [hb] at h; cases h
  | ok g =>
    rw [hb] at h
    have ho : opGasAndSize P RETURN db (offset :: size :: rest) g
        = .ok (calcMemSize offset size, g, db) := rfl
    simp only [bind, Except.bind, ho, pure, Except.pure, Except.ok.injEq, Prod.mk.injEq] at h
    obtain ⟨h1, -, -⟩ := h
    rw [← h1]
    exact memoryFee_fst_bounds P mem _

theorem Int64_of_lt (x : Nat) (h : x < 2 ^ 63) : Int64 x = (x : Int) := by
  unfold Int64
  have h1 : x % 2 ^ 64 = x := Nat.mod_eq_of_lt (by omega)
  rw [h1, if_pos h]

theorem getData_eq_slice (m : List Nat) (off size : Nat) (h : size = 0 ∨ off + size ≤ m.length) :
    getData m off size = (m.drop off).take size := by
  rcases h with h | h
  · subst h
    simp [getData]
  · apply List.ext_getElem
    · simp [getData]
      omega
    · intro i h1 h2
      simp only [getData, List.length_map, List.length_range] at h1
      simp [getData, List.getD_eq_getElem?_getD, List.getElem?_eq_getElem (show off + i < m.length by omega)]

theorem execOp_RETURN (P : Params) (env : Environment) (ctx : Context) (input : List Nat)
    (s : State) (offset size : Nat) (rest : stack) (hs : s.stack = offset :: size :: rest)
    (ho : offset < 2 ^ 63) (hz : size < 2 ^ 63) :
    execOp P env ctx input s RETURN
      = .ok (.returned { s with stack := rest } (getData s.mem offset size)) := by
  have h : s.mem.GetPtr (Int64 offset) (Int64 size) = .ok (getData s.mem offset size) := by
    rw [Int64_of_lt offset ho, Int64_of_lt size hz]
    unfold Memory.GetPtr Memory.Get
    rw [if_neg (by omega)]
    rfl
  show (s.stack.pop >>= fun x => _) = _
  rw [hs]
  show (s.mem.GetPtr (Int64 offset) (Int64 size) >>= fun ret => _) = _
  rw [h]
  rfl

end Vm

namespace Vm
open OpCode

theorem execOp_SUICIDE (P : Params) (env : Environment) (ctx : Context) (input : List Nat)
    (s : State) (a : Nat) (rest : stack) (hs : s.stack = a :: rest) :
    ∃ s4, execOp P env ctx input s SUICIDE = .ok (.returned s4 []) ∧ s4.Gas = s.Gas := by
  refine ⟨{ s with
      stack := rest
      statedb := { s.statedb with
        exist := fun k => if k = BigToAddress a then true else s.statedb.exist k
        balance := fun k =>
          if k = BigToAddress a then s.statedb.balance k + s.statedb.balance ctx.self
          else s.statedb.balance k
        deleted := true } }, ?_, rfl⟩
  show (s.stack.pop >>= fun x => _) = _
  rw [hs]
  rfl

/-- C20: in a state whose opcode is RETURN with `offset` on top of the stack
and `size` below (both fitting a signed 64-bit number), when pricing succeeds
with cost `cost` and the gas covers it, the loop ends with no error, the
output is the `size` bytes at `offset` of the memory resized by pricing, which
covers the range, and the gas left is the gas before minus `cost`. In a state
whose opcode is SUICIDE with a stack that is not empty, when pricing succeeds
and the gas covers the cost, the loop ends with no error, empty output and
the gas before minus the cost. In a state whose opcode is STOP that passes the
segment discipline and the pricing block, the loop ends with no error, empty
output and the gas those two left, which is the gas after the segment
discipline minus the cost of STOP when the opcode is priced and that gas
otherwise. -/
theorem terminal_opcodes (P : Params) (env : Environment) (ctx : Context)
    (input : List Nat) (d : Bool) (fuel : Nat) (s : State) :
    (∀ (offset size : Nat) (rest : stack) (nm : Nat) (cost : Int) (db : StateDB) (g : Nat),
      GetOp ctx.Code s.pc = RETURN → s.stack = offset :: size :: rest →
      offset + size < 2 ^ 63 →
      calculateGasAndSize P RETURN s.statedb s.mem s.stack = .ok (nm, cost, db) →
      UseGas s.Gas cost = some g →
      ∃ s1, loop P env ctx input d (fuel + 1) s
          = some (.done s1 ((s1.mem.drop offset).take size)) ∧
        s1.mem = s.mem.Resize nm ∧ (size ≠ 0 → offset + size ≤ s1.mem.length) ∧
        (finish d (.done s1 ((s1.mem.drop offset).take size))).err = none ∧
        (finish d (.done s1 ((s1.mem.drop offset).take size))).ret
          = (s1.mem.drop offset).take size ∧
        (s.Gas : Int) - (finish d (.done s1 ((s1.mem.drop offset).take size))).state.Gas
          = cost) ∧
    (∀ (a : Nat) (rest : stack) (nm : Nat) (cost : Int) (db : StateDB) (g : Nat),
      GetOp ctx.Code s.pc = SUICIDE → s.stack = a :: rest →
      calculateGasAndSize P SUICIDE s.statedb s.mem s.stack = .ok (nm, cost, db) →
      UseGas s.Gas cost = some g →
      ∃ s1, loop P env ctx input d (fuel + 1) s = some (.done s1 []) ∧
        (finish d (.done s1 [])).err = none ∧ (finish d (.done s1 [])).ret = [] ∧
        (s.Gas : Int) - (finish d (.done s1 [])).state.Gas = cost) ∧
    (∀ s1 s3 : State, GetOp ctx.Code s.pc = STOP → segmentPhase d s STOP = .ok s1 →
      pricePhase P d { s1 with ppc := s1.pc } STOP = .ok s3 →
      loop P env ctx input d (fuel + 1) s = some (.done s3 []) ∧
        (finish d (.done s3 [])).err = none ∧ (finish d (.done s3 [])).ret = [] ∧
        (finish d (.done s3 [])).state.Gas = s3.Gas ∧
        ((s1.pc > s1.nopay ∨ s1.pc = 0 ∨ d = true) →
          ∃ nm cost db, calculateGasAndSize P STOP s1.statedb s1.mem s1.stack
              = .ok (nm, cost, db) ∧ (s1.Gas : Int) - s3.Gas = cost) ∧
        (¬ (s1.pc > s1.nopay ∨ s1.pc = 0 ∨ d = true) → s3.Gas = s1.Gas)) := by
  refine ⟨?_, ?_, ?_⟩
  · intro offset size rest nm cost db g hop hs hfit hc hu
    obtain ⟨s1, h1, hg1, hst1, hm1, hdb1, hpc1, hp1⟩ :=
      segmentPhase_dynamic d s RETURN rfl
    obtain ⟨s3, h2, hg3, hm3, hst3, hpc3, hdb3⟩ :=
      pricePhase_ok P d { s1 with ppc := s1.pc } RETURN nm cost db g hp1
        (by simp only [hdb1, hm1, hst1]; exact hc) (by simp only [hg1]; exact hu)
    simp only at hm3 hst3
    have hs3 : s3.stack = offset :: size :: rest := by rw [hst3, hst1, hs]
    have h3 := execOp_RETURN P env ctx input s3 offset size rest hs3 (by omega) (by omega)
    rw [hs] at hc
    obtain ⟨hnm1, hnm2⟩ := calc_return_size P _ _ _ _ _ _ _ _ hc
    have hnm64 : Uint64 nm = nm := by
      unfold Uint64
      have : calcMemSize offset size ≤ offset + size := by
        unfold calcMemSize
        split <;> omega
      exact Nat.mod_eq_of_lt (by omega)
    have hmem : s3.mem = s.mem.Resize nm := by rw [hm3, hnm64, hm1]
    have hcover : size = 0 ∨ offset + size ≤ s3.mem.length := by
      by_cases hz : size = 0
      · exact Or.inl hz
      · right
        have h4 := Resize_length_ge s.mem nm
        have h5 : calcMemSize offset size = offset + size := by
          unfold calcMemSize
          rw [if_neg hz]
        rw [hmem]
        omega
    rw [getData_eq_slice _ _ _ hcover] at h3
    rw [← hop] at h1 h2 h3
    have hstep := step_of_phases P env ctx input d s s1 s3 _ h1 h2 h3
    simp only [Exec.toStep] at hstep
    refine ⟨{ s3 with stack := rest }, loop_of_step_done P env ctx input d fuel s _ _ hstep,
      hmem, fun hz => ?_, (finish_done d _ _).1, (finish_done d _ _).2.1, ?_⟩
    · rcases hcover with h | h
      · exact absurd h hz
      · exact h
    · rw [(finish_done d _ _).2.2]
      simp only [hg3]
      exact UseGas_some _ _ _ hu
  · intro a rest nm cost db g hop hs hc hu
    obtain ⟨s1, h1, hg1, hst1, hm1, hdb1, hpc1, hp1⟩ :=
      segmentPhase_dynamic d s SUICIDE rfl
    obtain ⟨s3, h2, hg3, hm3, hst3, hpc3, hdb3⟩ :=
      pricePhase_ok P d { s1 with ppc := s1.pc } SUICIDE nm cost db g hp1
        (by simp only [hdb1, hm1, hst1]; exact hc) (by simp only [hg1]; exact hu)
    simp only at hst3
    have hs3 : s3.stack = a :: rest := by rw [hst3, hst1, hs]
    have h3 := execOp_SUICIDE P env ctx input s3 a rest hs3
    obtain ⟨s4, h3, hg4⟩ := h3
    rw [← hop] at h1 h2 h3
    have hstep := step_of_phases P env ctx input d s s1 s3 _ h1 h2 h3
    simp only [Exec.toStep] at hstep
    refine ⟨s4, loop_of_step_done P env ctx input d fuel s _ _ hstep,
      (finish_done d _ _).1, (finish_done d _ _).2.1, ?_⟩
    rw [(finish_done d _ _).2.2, hg4, hg3]
    exact UseGas_some _ _ _ hu
  · intro s1 s3 hop h1 h2
    have h3 : execOp P env ctx input s3 STOP = .ok (.returned s3 []) := rfl
    rw [← hop] at h1 h2 h3
    have hstep := step_of_phases P env ctx input d s s1 s3 _ h1 h2 h3
    simp only [Exec.toStep] at hstep
    rw [hop] at h2
    refine ⟨loop_of_step_done P env ctx input d fuel s _ _ hstep,
      (finish_done d _ _).1, (finish_done d _ _).2.1, (finish_done d _ _).2.2, fun hp => ?_,
      fun hp => ?_⟩
    · obtain ⟨nm, cost, db, hc, hu, -⟩ :=
        pricePhase_priced P d { s1 with ppc := s1.pc } s3 STOP hp h2
      exact ⟨nm, cost, db, hc, UseGas_some _ _ _ hu⟩
    · unfold pricePhase at h2
      rw [if_neg hp] at h2
      cases h2
      rfl

end Vm

namespace Vm
open OpCode

/-- Witness for C20: `PUSH1 2; PUSH1 0; RETURN` started with gas 100. At the
RETURN (gas 94, empty memory) pricing asks for 32 bytes of memory and 3 gas;
the run ends with no error, the output `[0, 0]` and 91 gas, with segmentation
disabled and enabled. -/
theorem terminal_opcodes_witness :
    (∃ s1, loop params idleEnv (frame [0x60, 2, 0x60, 0, 0xf3]) [] true (0 + 1)
          ⟨4, 2, 0, [0, 2], [], 94, emptyDB, none, noSegments⟩
          = some (.done s1 ((s1.mem.drop 0).take 2)) ∧
        s1.mem = Memory.Resize [] 32 ∧ ((2 : Nat) ≠ 0 → 0 + 2 ≤ s1.mem.length) ∧
        (finish true (.done s1 ((s1.mem.drop 0).take 2))).err = none ∧
        (finish true (.done s1 ((s1.mem.drop 0).take 2))).ret = (s1.mem.drop 0).take 2 ∧
        ((94 : Nat) : Int) - (finish true (.done s1 ((s1.mem.drop 0).take 2))).state.Gas = 3) ∧
    (Run params idleEnv (frame [0x60, 2, 0x60, 0, 0xf3]) [] true 10 100 emptyDB noSegments).map
      (fun r => (r.ret, r.err, r.state.Gas)) = some ([0, 0], none, 91) ∧
    (Run params idleEnv (frame [0x60, 2, 0x60, 0, 0xf3]) [] false 10 100 emptyDB noSegments).map
      (fun r => (r.ret, r.err, r.state.Gas)) = some ([0, 0], none, 91) :=
  ⟨(terminal_opcodes params idleEnv (frame [0x60, 2, 0x60, 0, 0xf3]) [] true 0
      ⟨4, 2, 0, [0, 2], [], 94, emptyDB, none, noSegments⟩).1 0 2 [] 32 3 emptyDB 91
        rfl rfl (by norm_num) rfl rfl, rfl, rfl⟩

/-- Witness for C15: for the byte index 0 and the word `0xff` every bit of the
pushed word below 256 is bit 7 of `0xff`, which is set. -/
theorem signextend_semantics_witness :
    ∃ w : Nat,
      execOp params idleEnv (frame []) []
          { initState 10 emptyDB noSegments with stack := [0, 0xff] } SIGNEXTEND
        = .ok (.advance { initState 10 emptyDB noSegments with stack := [w] }) ∧
      ([w] : stack).length + 1 = ([0, 0xff] : stack).length ∧ w < 2 ^ 256 ∧
      ((0 : Nat) < 31 → (∀ i, i < 8 * 0 + 8 → w.testBit i = (0xff : Nat).testBit i) ∧
        (∀ i, 8 * 0 + 8 ≤ i → i < 256 → w.testBit i = (0xff : Nat).testBit (8 * 0 + 7))) ∧
      (31 ≤ (0 : Nat) → w = 0xff) :=
  signextend_semantics params idleEnv (frame []) [] (initState 10 emptyDB noSegments) 0 0xff []
    (by norm_num)

end Vm

namespace Vm
open OpCode

/-! ## The end of the code -/

theorem GetOp_past_end (code : List Nat) (pc : Nat) (h : code.length ≤ pc) :
    GetOp code pc = STOP := by
  unfold GetOp
  rw [if_neg (by omega)]

theorem calc_STOP (P : Params) (db : StateDB) (mem : Memory) (st : stack)
    (hstop : ∀ st, baseCheck P STOP st = .ok 0) :
    calculateGasAndSize P STOP db mem st = .ok (0, 0, db) := by
  have ho : opGasAndSize P STOP db st 0 = .ok (0, 0, db) := rfl
  unfold calculateGasAndSize
  rw [hstop st]
  show (opGasAndSize P STOP db st 0 >>= fun _ => _) = _
  rw [ho]
  show Except.ok (_, _, _) = _
  simp

theorem segmentPhase_STOP_aux (d : Bool) (s : State)
    (hseg : ∀ seg, s.csegments s.pc = some seg →
      seg.ssize ≤ (s.stack.length : Int) ∧ seg.gas ≤ (s.Gas : Int)) :
    match segmentPhase d s STOP with
    | .ok _ => True
    | .error _ => False := by
  cases d
  · cases hcs : s.csegment with
    | some cseg => simp [segmentPhase, isDynamic, hcs]
    | none =>
      by_cases hpc : s.pc = 0
      · simp [segmentPhase, isDynamic, hcs, hpc]
      · cases hm : s.csegments s.pc with
        | none => simp [segmentPhase, isDynamic, hcs, hpc, hm]
        | some seg =>
          obtain ⟨h1, h2⟩ := hseg seg hm
          have hr : s.stack.require seg.ssize = .ok () := by
            unfold stack.require
            rw [if_neg (by omega)]
          have hu : UseGas s.Gas seg.gas = some ((s.Gas : Int) - seg.gas).toNat := by
            unfold UseGas
            rw [if_neg (by omega)]
          simp [segmentPhase, isDynamic, hcs, hpc, hm, hr, hu]
  · simp [segmentPhase]

/-- A STOP passes the segment discipline when the recorded segment it enters,
if any, has its stack requirement and its gas met. -/
theorem segmentPhase_STOP (d : Bool) (s : State)
    (hseg : ∀ seg, s.csegments s.pc = some seg →
      seg.ssize ≤ (s.stack.length : Int) ∧ seg.gas ≤ (s.Gas : Int)) :
    ∃ s1, segmentPhase d s STOP = .ok s1 := by
  have := segmentPhase_STOP_aux d s hseg
  cases h : segmentPhase d s STOP with
  | error v => rw [h] at this; exact this.elim
  | ok s1 => exact ⟨s1, rfl⟩

/-- When the static check of STOP asks for nothing and costs nothing, the pricing
block passes for STOP and leaves gas and state database as they are. -/
theorem pricePhase_STOP (P : Params) (d : Bool) (s : State)
    (hstop : ∀ st, baseCheck P STOP st = .ok 0) :
    ∃ s3, pricePhase P d s STOP = .ok s3 ∧ s3.Gas = s.Gas ∧ s3.statedb = s.statedb := by
  by_cases hp : s.pc > s.nopay ∨ s.pc = 0 ∨ d = true
  · have hu : UseGas s.Gas 0 = some s.Gas := by simp [UseGas]
    obtain ⟨s3, h, hg, -, -, -, hdb⟩ := pricePhase_ok P d s STOP 0 0 s.statedb s.Gas hp
      (calc_STOP P _ _ _ hstop) hu
    exact ⟨s3, h, hg, hdb⟩
  · exact ⟨s, by unfold pricePhase; rw [if_neg hp], rfl, rfl⟩

/-- C21: at a program counter at or past the end of the code the opcode
fetched is STOP. In a state with such a program counter, when the static
check of STOP asks for nothing and costs nothing and the requirement of a
recorded segment entered there is met, the loop ends with empty output and no
error. A frame with empty code and no precompiled account returns at once,
for every bound on the iterations, with empty output, no error, the gas and
the state database it was given and the segment map untouched. -/
theorem stop_past_end_of_code (P : Params) (env : Environment) (ctx : Context)
    (input : List Nat) (d : Bool) (fuel : Nat) :
    (∀ (code : List Nat) (pc : Nat), code.length ≤ pc → GetOp code pc = STOP) ∧
    (∀ s : State, ctx.Code.length ≤ s.pc → (∀ st, baseCheck P STOP st = .ok 0) →
      (∀ seg, s.csegments s.pc = some seg →
        seg.ssize ≤ (s.stack.length : Int) ∧ seg.gas ≤ (s.Gas : Int)) →
      ∃ s3, loop P env ctx input d (fuel + 1) s = some (.done s3 []) ∧
        (finish d (.done s3 [])).ret = [] ∧ (finish d (.done s3 [])).err = none) ∧
    (∀ (gas : Nat) (statedb : StateDB) (cs : codeSegments),
      ctx.Code = [] → ctx.precompiled = none →
      Run P env ctx input d fuel gas statedb cs
        = some ⟨[], none, ⟨0, 0, 0, [], [], gas, statedb, none, cs⟩⟩) := by
  refine ⟨GetOp_past_end, ?_, ?_⟩
  · intro s hpc hstop hseg
    have hop := GetOp_past_end ctx.Code s.pc hpc
    obtain ⟨s1, h1⟩ := segmentPhase_STOP d s hseg
    obtain ⟨s3, h2, -, -⟩ := pricePhase_STOP P d { s1 with ppc := s1.pc } hstop
    have h3 : execOp P env ctx input s3 STOP = .ok (.returned s3 []) := rfl
    rw [← hop] at h1 h2 h3
    have hstep := step_of_phases P env ctx input d s s1 s3 _ h1 h2 h3
    simp only [Exec.toStep] at hstep
    exact ⟨s3, loop_of_step_done P env ctx input d fuel s _ _ hstep,
      (finish_done d _ _).2.1, (finish_done d _ _).1⟩
  · intro gas statedb cs hcode hpre
    unfold Run
    simp only [hpre, hcode, List.length_nil, if_true]
    cases d <;> rfl

/-- Witness for C21: `PUSH1 1` alone. After the PUSH the program counter is 2,
past the end of the code; the run ends with empty output, no error and 97 of
100 gas, with segmentation disabled and enabled. -/
theorem stop_past_end_of_code_witness :
    (∃ s3, loop params idleEnv (frame [0x60, 1]) [] false (0 + 1)
          ⟨2, 0, 0, [1], [], 97, emptyDB, none, noSegments⟩ = some (.done s3 []) ∧
        (finish false (.done s3 [])).ret = [] ∧ (finish false (.done s3 [])).err = none) ∧
    (Run params idleEnv (frame [0x60, 1]) [] true 10 100 emptyDB noSegments).map
      (fun r => (r.ret, r.err, r.state.Gas)) = some ([], none, 97) ∧
    (Run params idleEnv (frame [0x60, 1]) [] false 10 100 emptyDB noSegments).map
      (fun r => (r.ret, r.err, r.state.Gas)) = some ([], none, 97) :=
  ⟨(stop_past_end_of_code params idleEnv (frame [0x60, 1]) [] false 0).2.1
      ⟨2, 0, 0, [1], [], 97, emptyDB, none, noSegments⟩ (by decide) (fun _ => rfl)
      (fun seg h => by simp [noSegments] at h), rfl, rfl⟩

end Vm

namespace Vm
open OpCode

/-! ## Host calls -/

theorem Get_ok (m : Memory) (off size : Nat) (ho : off < 2 ^ 63) (hz : size < 2 ^ 63) :
    m.Get (Int64 off) (Int64 size) = .ok (getData m off size) := by
  rw [Int64_of_lt off ho, Int64_of_lt size hz]
  unfold Memory.Get
  rw [if_neg (by omega)]
  rfl

theorem Resize_getD (m : Memory) (n j : Nat) : (m.Resize n).getD j 0 = m.getD j 0 := by
  unfold Memory.Resize
  split
  · by_cases h : j < m.length
    · simp [List.getD_eq_getElem?_getD, List.getElem?_append_left h]
    · have h1 : m.length ≤ j := by omega
      have hm : m[j]? = none := List.getElem?_eq_none (by omega)
      simp only [List.getD_eq_getElem?_getD, List.getElem?_append_right h1, hm,
        List.getElem?_replicate]
      split <;> simp
  · rfl

/-- The bytes of the memory after `Set`: inside the written range those of the
value (0 past its end), outside the range those before. -/
theorem Set_getD (m : Memory) (o sz : Nat) (v : List Nat) (j : Nat) :
    (m.Set o sz v).getD j 0
      = if o ≤ j ∧ j < o + sz then v.getD (j - o) 0 else m.getD j 0 := by
  unfold Memory.Set
  by_cases hsz : sz = 0
  · subst hsz
    have hn : ¬ (o ≤ j ∧ j < o) := by omega
    simp [hn]
  · simp only [hsz, if_false]
    have hlen := Resize_length_ge m ((o + sz + 31) / 32 * 32)
    have hge : o + sz ≤ (m.Resize ((o + sz + 31) / 32 * 32)).length := by omega
    generalize hm1 : m.Resize ((o + sz + 31) / 32 * 32) = m1 at hge
    have hres : ∀ k, m1.getD k 0 = m.getD k 0 := by
      intro k
      rw [← hm1]
      exact Resize_getD m _ k
    have hpad : ((RightPadBytes v sz).take sz).length = sz := by
      simp [RightPadBytes]
      omega
    by_cases h1 : j < o
    · rw [if_neg (by omega), ← hres j]
      simp only [List.getD_eq_getElem?_getD, List.append_assoc]
      rw [List.getElem?_append_left (by simp; omega), List.getElem?_take_of_lt h1]
    · by_cases h2 : j < o + sz
      · rw [if_pos ⟨by omega, h2⟩]
        simp only [List.getD_eq_getElem?_getD, List.append_assoc]
        rw [List.getElem?_append_right (by simp; omega)]
        have hl : (m1.take o).length = o := by simp; omega
        rw [hl, List.getElem?_append_left (by rw [hpad]; omega),
          List.getElem?_take_of_lt (by omega)]
        unfold RightPadBytes
        by_cases h3 : j - o < v.length
        · rw [List.getElem?_append_left h3]
        · rw [List.getElem?_append_right (by omega), List.getElem?_eq_none (n := j - o) (by omega)]
          simp only [List.getElem?_replicate]
          split <;> simp
      · rw [if_neg (by omega), ← hres j]
        simp only [List.getD_eq_getElem?_getD]
        rw [List.getElem?_append_right (by simp; omega)]
        have hl : (m1.take o ++ (RightPadBytes v sz).take sz).length = o + sz := by
          rw [List.length_append, hpad]
          simp
          omega
        rw [hl, List.getElem?_drop]
        congr 2
        omega

end Vm

namespace Vm
open OpCode

theorem Uint64_of_lt (x : Nat) (h : x < 2 ^ 64) : Uint64 x = x := by
  unfold Uint64
  exact Nat.mod_eq_of_lt h

theorem execOp_CALL (P : Params) (env : Environment) (ctx : Context) (input : List Nat)
    (s : State) (g addr value inOff inSize retOff retSize : Nat) (rest : stack)
    (hs : s.stack = g :: addr :: value :: inOff :: inSize :: retOff :: retSize :: rest)
    (hin : inOff < 2 ^ 63) (hsz : inSize < 2 ^ 63) :
    execOp P env ctx input s CALL =
      if (env.Call s.statedb s.Gas (BigToAddress addr) (getData s.mem inOff inSize)
          (if byteLen (U256 value) > 0 then g + P.CallStipend else g) ctx.Price
          (U256 value)).failed
      then .ok (.advance { s with
        stack := 0 :: rest
        Gas := (env.Call s.statedb s.Gas (BigToAddress addr) (getData s.mem inOff inSize)
          (if byteLen (U256 value) > 0 then g + P.CallStipend else g) ctx.Price
          (U256 value)).gas
        statedb := (env.Call s.statedb s.Gas (BigToAddress addr) (getData s.mem inOff inSize)
          (if byteLen (U256 value) > 0 then g + P.CallStipend else g) ctx.Price
          (U256 value)).statedb })
      else .ok (.advance { s with
        stack := 1 :: rest
        Gas := (env.Call s.statedb s.Gas (BigToAddress addr) (getData s.mem inOff inSize)
          (if byteLen (U256 value) > 0 then g + P.CallStipend else g) ctx.Price
          (U256 value)).gas
        statedb := (env.Call s.statedb s.Gas (BigToAddress addr) (getData s.mem inOff inSize)
          (if byteLen (U256 value) > 0 then g + P.CallStipend else g) ctx.Price
          (U256 value)).statedb
        mem := s.mem.Set (Uint64 retOff) (Uint64 retSize)
          (env.Call s.statedb s.Gas (BigToAddress addr) (getData s.mem inOff inSize)
            (if byteLen (U256 value) > 0 then g + P.CallStipend else g) ctx.Price
            (U256 value)).ret }) := by
  show (s.stack.pop >>= fun x => _) = _
  rw [hs]
  show (s.mem.Get (Int64 inOff) (Int64 inSize) >>= fun args => _) = _
  rw [Get_ok s.mem inOff inSize hin hsz]
  rfl

theorem execOp_CALLCODE (P : Params) (env : Environment) (ctx : Context) (input : List Nat)
    (s : State) (g addr value inOff inSize retOff retSize : Nat) (rest : stack)
    (hs : s.stack = g :: addr :: value :: inOff :: inSize :: retOff :: retSize :: rest)
    (hin : inOff < 2 ^ 63) (hsz : inSize < 2 ^ 63) :
    execOp P env ctx input s CALLCODE =
      if (env.CallCode s.statedb s.Gas (BigToAddress addr) (getData s.mem inOff inSize)
          (if byteLen (U256 value) > 0 then g + P.CallStipend else g) ctx.Price
          (U256 value)).failed
      then .ok (.advance { s with
        stack := 0 :: rest
        Gas := (env.CallCode s.statedb s.Gas (BigToAddress addr) (getData s.mem inOff inSize)
          (if byteLen (U256 value) > 0 then g + P.CallStipend else g) ctx.Price
          (U256 value)).gas
        statedb := (env.CallCode s.statedb s.Gas (BigToAddress addr)
          (getData s.mem inOff inSize)
          (if byteLen (U256 value) > 0 then g + P.CallStipend else g) ctx.Price
          (U256 value)).statedb })
      else .ok (.advance { s with
        stack := 1 :: rest
        Gas := (env.CallCode s.statedb s.Gas (BigToAddress addr) (getData s.mem inOff inSize)
          (if byteLen (U256 value) > 0 then g + P.CallStipend else g) ctx.Price
          (U256 value)).gas
        statedb := (env.CallCode s.statedb s.Gas (BigToAddress addr)
          (getData s.mem inOff inSize)
          (if byteLen (U256 value) > 0 then g + P.CallStipend else g) ctx.Price
          (U256 value)).statedb
        mem := s.mem.Set (Uint64 retOff) (Uint64 retSize)
          (env.CallCode s.statedb s.Gas (BigToAddress addr) (getData s.mem inOff inSize)
            (if byteLen (U256 value) > 0 then g + P.CallStipend else g) ctx.Price
            (U256 value)).ret }) := by
  show (s.stack.pop >>= fun x => _) = _
  rw [hs]
  show (s.mem.Get (Int64 inOff) (Int64 inSize) >>= fun args => _) = _
  rw [Get_ok s.mem inOff inSize hin hsz]
  rfl

theorem execOp_CREATE (P : Params) (env : Environment) (ctx : Context) (input : List Nat)
    (s : State) (value offset size : Nat) (rest : stack)
    (hs : s.stack = value :: offset :: size :: rest)
    (hin : offset < 2 ^ 63) (hsz : size < 2 ^ 63) :
    execOp P env ctx input s CREATE =
      if (env.Create s.statedb 0 (getData s.mem offset size) s.Gas ctx.Price value).failed
      then .ok (.advance { s with
        stack := 0 :: rest
        Gas := (env.Create s.statedb 0 (getData s.mem offset size) s.Gas ctx.Price value).gas
        statedb :=
          (env.Create s.statedb 0 (getData s.mem offset size) s.Gas ctx.Price value).statedb })
      else
        match UseGas (env.Create s.statedb 0 (getData s.mem offset size) s.Gas ctx.Price value).gas
            (((env.Create s.statedb 0 (getData s.mem offset size) s.Gas ctx.Price
              value).ret.length : Int) * P.CreateDataGas) with
        | some g1 => .ok (.advance { s with
            stack :=
              (env.Create s.statedb 0 (getData s.mem offset size) s.Gas ctx.Price value).addr
                :: rest
            Gas := g1
            statedb :=
              { (env.Create s.statedb 0 (getData s.mem offset size) s.Gas ctx.Price
                  value).statedb with
                code := fun a =>
                  if a = (env.Create s.statedb 0 (getData s.mem offset size) s.Gas ctx.Price
                    value).addr
                  then (env.Create s.statedb 0 (getData s.mem offset size) s.Gas ctx.Price
                    value).ret
                  else (env.Create s.statedb 0 (getData s.mem offset size) s.Gas ctx.Price
                    value).statedb.code a } })
        | none => .ok (.advance { s with
            stack :=
              (env.Create s.statedb 0 (getData s.mem offset size) s.Gas ctx.Price value).addr
                :: rest
            Gas := (env.Create s.statedb 0 (getData s.mem offset size) s.Gas ctx.Price
              value).gas
            statedb := (env.Create s.statedb 0 (getData s.mem offset size) s.Gas ctx.Price
              value).statedb }) := by
  show (s.stack.pop >>= fun x => _) = _
  rw [hs]
  show (s.mem.Get (Int64 offset) (Int64 size) >>= fun args => _) = _
  rw [Get_ok s.mem offset size hin hsz]
  rfl

end Vm

namespace Vm
open OpCode

/-- C22: with the seven operands of CALL or CALLCODE on the stack (the input
range fitting a signed 64-bit number, the output range an unsigned one): when
the host's call fails, the opcode pushes 0, leaves the memory as it is and the
loop goes on at `pc + 1`; when it succeeds, the opcode pushes 1, the bytes the
host returned are in memory from `retOffset` on, as far as the output range
reaches, the memory outside the output range is as before, and the loop goes
on at `pc + 1`. With the three operands of CREATE on the stack, when the
host's creation fails the opcode pushes 0, leaves the memory as it is and the
loop goes on at `pc + 1`. -/
theorem host_failure_is_not_fatal (P : Params) (env : Environment) (ctx : Context)
    (input : List Nat) (s : State) :
    (∀ (g addr value inOff inSize retOff retSize : Nat) (rest : stack) (r : CallResult),
      s.stack = g :: addr :: value :: inOff :: inSize :: retOff :: retSize :: rest →
      inOff < 2 ^ 63 → inSize < 2 ^ 63 → retOff < 2 ^ 64 → retSize < 2 ^ 64 →
      r = env.Call s.statedb s.Gas (BigToAddress addr) (getData s.mem inOff inSize)
        (if byteLen (U256 value) > 0 then g + P.CallStipend else g) ctx.Price (U256 value) →
      (r.failed = true → ∃ e, execOp P env ctx input s CALL = .ok e ∧
        e.toStep = .next { s with
          pc := s.pc + 1, stack := 0 :: rest, Gas := r.gas, statedb := r.statedb }) ∧
      (r.failed = false → ∃ e m1, execOp P env ctx input s CALL = .ok e ∧
        e.toStep = .next { s with
          pc := s.pc + 1, stack := 1 :: rest, Gas := r.gas, statedb := r.statedb, mem := m1 } ∧
        (∀ i, i < r.ret.length → i < retSize → m1.getD (retOff + i) 0 = r.ret.getD i 0) ∧
        (∀ j, j < retOff ∨ retOff + retSize ≤ j → m1.getD j 0 = s.mem.getD j 0))) ∧
    (∀ (g addr value inOff inSize retOff retSize : Nat) (rest : stack) (r : CallResult),
      s.stack = g :: addr :: value :: inOff :: inSize :: retOff :: retSize :: rest →
      inOff < 2 ^ 63 → inSize < 2 ^ 63 → retOff < 2 ^ 64 → retSize < 2 ^ 64 →
      r = env.CallCode s.statedb s.Gas (BigToAddress addr) (getData s.mem inOff inSize)
        (if byteLen (U256 value) > 0 then g + P.CallStipend else g) ctx.Price (U256 value) →
      (r.failed = true → ∃ e, execOp P env ctx input s CALLCODE = .ok e ∧
        e.toStep = .next { s with
          pc := s.pc + 1, stack := 0 :: rest, Gas := r.gas, statedb := r.statedb }) ∧
      (r.failed = false → ∃ e m1, execOp P env ctx input s CALLCODE = .ok e ∧
        e.toStep = .next { s with
          pc := s.pc + 1, stack := 1 :: rest, Gas := r.gas, statedb := r.statedb, mem := m1 } ∧
        (∀ i, i < r.ret.length → i < retSize → m1.getD (retOff + i) 0 = r.ret.getD i 0) ∧
        (∀ j, j < retOff ∨ retOff + retSize ≤ j → m1.getD j 0 = s.mem.getD j 0))) ∧
    (∀ (value offset size : Nat) (rest : stack) (r : CreateResult),
      s.stack = value :: offset :: size :: rest → offset < 2 ^ 63 → size < 2 ^ 63 →
      r = env.Create s.statedb 0 (getData s.mem offset size) s.Gas ctx.Price value →
      r.failed = true → ∃ e, execOp P env ctx input s CREATE = .ok e ∧
        e.toStep = .next { s with
          pc := s.pc + 1, stack := 0 :: rest, Gas := r.gas, statedb := r.statedb }) := by
  refine ⟨?_, ?_, ?_⟩
  · intro g addr value inOff inSize retOff retSize rest r hs hin hsz hro hrs hr
    have hex := execOp_CALL P env ctx input s g addr value inOff inSize retOff retSize rest
      hs hin hsz
    rw [← hr] at hex
    constructor
    · intro hf
      rw [if_pos hf] at hex
      exact ⟨_, hex, rfl⟩
    · intro hf
      rw [if_neg (by simp [hf])] at hex
      refine ⟨_, _, hex, rfl, fun i hi1 hi2 => ?_, fun j hj => ?_⟩
      · rw [Uint64_of_lt _ hro, Uint64_of_lt _ hrs, Set_getD, if_pos ⟨by omega, by omega⟩]
        congr 1
        omega
      · rw [Uint64_of_lt _ hro, Uint64_of_lt _ hrs, Set_getD, if_neg (by omega)]
  · intro g addr value inOff inSize retOff retSize rest r hs hin hsz hro hrs hr
    have hex := execOp_CALLCODE P env ctx input s g addr value inOff inSize retOff retSize rest
      hs hin hsz
    rw [← hr] at hex
    constructor
    · intro hf
      rw [if_pos hf] at hex
      exact ⟨_, hex, rfl⟩
    · intro hf
      rw [if_neg (by simp [hf])] at hex
      refine ⟨_, _, hex, rfl, fun i hi1 hi2 => ?_, fun j hj => ?_⟩
      · rw [Uint64_of_lt _ hro, Uint64_of_lt _ hrs, Set_getD, if_pos ⟨by omega, by omega⟩]
        congr 1
        omega
      · rw [Uint64_of_lt _ hro, Uint64_of_lt _ hrs, Set_getD, if_neg (by omega)]
  · intro value offset size rest r hs hin hsz hr hf
    have hex := execOp_CREATE P env ctx input s value offset size rest hs hin hsz
    rw [← hr] at hex
    rw [if_pos hf] at hex
    exact ⟨_, hex, rfl⟩

end Vm

namespace Vm
open OpCode

/-- Witness for C22: a CALL with input range `[0, 2)` and output range
`[4, 6)` on a memory that starts with the bytes 5 and 6. With the host that
fails the opcode pushes 0 and the memory stays; with the host that returns its
arguments the opcode pushes 1 and bytes 4 and 5 of the memory become 5 and 6. -/
theorem host_failure_is_not_fatal_witness :
    (∃ e, execOp params idleEnv (frame []) []
          ⟨7, 7, 0, [0, 0, 0, 0, 2, 4, 2], [5, 6, 0, 0, 0, 0, 0, 0], 50, emptyDB, none, noSegments⟩
          CALL = .ok e ∧
        e.toStep = .next ⟨8, 7, 0, [0], [5, 6, 0, 0, 0, 0, 0, 0], 50, emptyDB, none,
          noSegments⟩) ∧
    (∃ e m1, execOp params echoEnv (frame []) []
          ⟨7, 7, 0, [0, 0, 0, 0, 2, 4, 2], [5, 6, 0, 0, 0, 0, 0, 0], 50, emptyDB, none, noSegments⟩
          CALL = .ok e ∧
        e.toStep = .next ⟨8, 7, 0, [1], m1, 50, emptyDB, none, noSegments⟩ ∧
        (∀ i, i < ([5, 6] : List Nat).length → i < 2 →
          m1.getD (4 + i) 0 = ([5, 6] : List Nat).getD i 0) ∧
        (∀ j, j < 4 ∨ 4 + 2 ≤ j →
          m1.getD j 0 = ([5, 6, 0, 0, 0, 0, 0, 0] : List Nat).getD j 0)) :=
  ⟨((host_failure_is_not_fatal params idleEnv (frame []) []
      ⟨7, 7, 0, [0, 0, 0, 0, 2, 4, 2], [5, 6, 0, 0, 0, 0, 0, 0], 50, emptyDB, none,
        noSegments⟩).1 0 0 0 0 2 4 2 [] ⟨[], true, emptyDB, 50⟩ rfl (by norm_num)
        (by norm_num) (by norm_num) (by norm_num) rfl).1 rfl,
    ((host_failure_is_not_fatal params echoEnv (frame []) []
      ⟨7, 7, 0, [0, 0, 0, 0, 2, 4, 2], [5, 6, 0, 0, 0, 0, 0, 0], 50, emptyDB, none,
        noSegments⟩).1 0 0 0 0 2 4 2 [] ⟨[5, 6], false, emptyDB, 50⟩ rfl (by norm_num)
        (by norm_num) (by norm_num) (by norm_num) rfl).2 rfl⟩

/-- C24: with the three operands of CREATE on the stack, when the host's
creation succeeds with output `ret` and leaves the frame the gas `g`: if
`len(ret) * CreateDataGas ≤ g` the opcode leaves `g - len(ret) * CreateDataGas`
gas and sets the code of the new account to `ret` (the code of every other
account stays); otherwise it leaves the gas `g` and the state database as the
host returned them. In both cases it pushes the address of the new account and
returns no error. -/
theorem create_data_gas (P : Params) (env : Environment) (ctx : Context)
    (input : List Nat) (s : State) (value offset size : Nat) (rest : stack) (r : CreateResult)
    (hs : s.stack = value :: offset :: size :: rest)
    (hin : offset < 2 ^ 63) (hsz : size < 2 ^ 63)
    (hr : r = env.Create s.statedb 0 (getData s.mem offset size) s.Gas ctx.Price value)
    (hok : r.failed = false) :
    ((r.ret.length : Int) * P.CreateDataGas ≤ r.gas →
      ∃ s1, execOp P env ctx input s CREATE = .ok (.advance s1) ∧
        s1.stack = r.addr :: rest ∧
        (s1.Gas : Int) = (r.gas : Int) - (r.ret.length : Int) * P.CreateDataGas ∧
        s1.statedb.code r.addr = r.ret ∧
        (∀ a, a ≠ r.addr → s1.statedb.code a = r.statedb.code a) ∧
        s1.statedb.storage = r.statedb.storage ∧ s1.statedb.balance = r.statedb.balance ∧
        s1.statedb.refund = r.statedb.refund ∧ s1.mem = s.mem ∧ s1.pc = s.pc) ∧
    ((r.gas : Int) < (r.ret.length : Int) * P.CreateDataGas →
      execOp P env ctx input s CREATE = .ok (.advance { s with
        stack := r.addr :: rest, Gas := r.gas, statedb := r.statedb })) := by
  have hex := execOp_CREATE P env ctx input s value offset size rest hs hin hsz
  rw [← hr, if_neg (by simp [hok])] at hex
  constructor
  · intro hle
    have hu : UseGas r.gas ((r.ret.length : Int) * P.CreateDataGas)
        = some ((r.gas : Int) - (r.ret.length : Int) * P.CreateDataGas).toNat := by
      unfold UseGas
      rw [if_neg (by omega)]
    rw [hu] at hex
    refine ⟨_, hex, rfl, ?_, ?_, ?_, rfl, rfl, rfl, rfl, rfl⟩
    · simp only
      omega
    · simp
    · intro a ha
      simp [ha]
  · intro hlt
    have hu : UseGas r.gas ((r.ret.length : Int) * P.CreateDataGas) = none := by
      unfold UseGas
      rw [if_pos hlt]
    rw [hu] at hex
    exact hex

/-- Witness for C24: a CREATE whose input is the two bytes 5 and 6, with the
host that creates the account 1 with its input as output. With 1000 gas the
code costs `2 * 200` gas and is set; with 300 gas the gas stays and the code is
not set. -/
theorem create_data_gas_witness :
    (∃ s1, execOp params echoEnv (frame []) []
          ⟨7, 7, 0, [0, 0, 2], [5, 6, 0, 0, 0, 0, 0, 0], 1000, emptyDB, none, noSegments⟩ CREATE
          = .ok (.advance s1) ∧
        s1.stack = 1 :: [] ∧
        (s1.Gas : Int) = ((1000 : Nat) : Int) - (([5, 6] : List Nat).length : Int) * params.CreateDataGas ∧
        s1.statedb.code 1 = [5, 6] ∧
        (∀ a, a ≠ 1 → s1.statedb.code a = emptyDB.code a) ∧
        s1.statedb.storage = emptyDB.storage ∧ s1.statedb.balance = emptyDB.balance ∧
        s1.statedb.refund = emptyDB.refund ∧
        s1.mem = [5, 6, 0, 0, 0, 0, 0, 0] ∧ s1.pc = 7) ∧
    execOp params echoEnv (frame []) []
        ⟨7, 7, 0, [0, 0, 2], [5, 6, 0, 0, 0, 0, 0, 0], 300, emptyDB, none, noSegments⟩ CREATE
      = .ok (.advance
          ⟨7, 7, 0, [1], [5, 6, 0, 0, 0, 0, 0, 0], 300, emptyDB, none, noSegments⟩) :=
  ⟨(create_data_gas params echoEnv (frame []) []
      ⟨7, 7, 0, [0, 0, 2], [5, 6, 0, 0, 0, 0, 0, 0], 1000, emptyDB, none, noSegments⟩
      0 0 2 [] ⟨[5, 6], false, 1, emptyDB, 1000⟩ rfl (by norm_num) (by norm_num) rfl rfl).1
      (by decide),
    (create_data_gas params echoEnv (frame []) []
      ⟨7, 7, 0, [0, 0, 2], [5, 6, 0, 0, 0, 0, 0, 0], 300, emptyDB, none, noSegments⟩
      0 0 2 [] ⟨[5, 6], false, 1, emptyDB, 300⟩ rfl (by norm_num) (by norm_num) rfl rfl).2
      (by decide)⟩

end Vm

namespace Vm
open OpCode

/-! ## The price of CALL and CALLCODE -/

theorem byteLen_pos_iff (v : Nat) : byteLen v > 0 ↔ v ≠ 0 := by
  rw [byteLen_eq_clog]
  constructor
  · intro h hv
    subst hv
    simp at h
  · intro hv
    exact Nat.clog_pos (by norm_num) (by omega)

theorem opGas_CALL (P : Params) (db : StateDB) (g addr value inOff inSize retOff retSize : Nat)
    (rest : stack) (base : Int) :
    opGasAndSize P CALL db (g :: addr :: value :: inOff :: inSize :: retOff :: retSize :: rest)
        base
      = .ok (max (calcMemSize retOff retSize) (calcMemSize inOff inSize),
          (if byteLen value > 0 then
            (if db.exist (BigToAddress addr) = false then base + g + P.CallNewAccountGas
              else base + g) + P.CallValueTransferGas
          else (if db.exist (BigToAddress addr) = false then base + g + P.CallNewAccountGas
              else base + g)), db) := rfl

theorem opGas_CALLCODE (P : Params) (db : StateDB)
    (g addr value inOff inSize retOff retSize : Nat) (rest : stack) (base : Int) :
    opGasAndSize P CALLCODE db
        (g :: addr :: value :: inOff :: inSize :: retOff :: retSize :: rest) base
      = .ok (max (calcMemSize retOff retSize) (calcMemSize inOff inSize),
          (if byteLen value > 0 then base + g + P.CallValueTransferGas else base + g), db) :=
  rfl

end Vm

namespace Vm
open OpCode

/-- C25: with the operands `gas, addr, value, inOffset, inSize, retOffset,
retSize` on the stack (`gas` on top) and `base` the static cost of
`baseCheck`, the cost of CALL is `base + gas`, plus `CallNewAccountGas` when
`addr` has no state object, plus `CallValueTransferGas` when `value` is not 0,
plus the memory fee for the larger of the two ranges; the cost of CALLCODE is
the same without `CallNewAccountGas`; neither changes the state database. The
opcode hands the host `gas + CallStipend` when `value` is not 0 and `gas`
otherwise. -/
theorem call_cost_and_stipend (P : Params) (env : Environment) (ctx : Context)
    (input : List Nat) (s : State) (g addr value inOff inSize retOff retSize : Nat)
    (rest : stack) (base : Int)
    (hs : s.stack = g :: addr :: value :: inOff :: inSize :: retOff :: retSize :: rest)
    (hv : value < 2 ^ 256) (hin : inOff < 2 ^ 63) (hsz : inSize < 2 ^ 63) :
    (baseCheck P CALL s.stack = .ok base →
      calculateGasAndSize P CALL s.statedb s.mem s.stack
        = .ok ((memoryFee P s.mem
                (max (calcMemSize retOff retSize) (calcMemSize inOff inSize))).1,
            base + g
              + (if s.statedb.exist (BigToAddress addr) = false
                  then (P.CallNewAccountGas : Int) else 0)
              + (if value ≠ 0 then (P.CallValueTransferGas : Int) else 0)
              + (memoryFee P s.mem
                  (max (calcMemSize retOff retSize) (calcMemSize inOff inSize))).2,
            s.statedb)) ∧
    (baseCheck P CALLCODE s.stack = .ok base →
      calculateGasAndSize P CALLCODE s.statedb s.mem s.stack
        = .ok ((memoryFee P s.mem
                (max (calcMemSize retOff retSize) (calcMemSize inOff inSize))).1,
            base + g + (if value ≠ 0 then (P.CallValueTransferGas : Int) else 0)
              + (memoryFee P s.mem
                  (max (calcMemSize retOff retSize) (calcMemSize inOff inSize))).2,
            s.statedb)) ∧
    (∀ r : CallResult,
      r = env.Call s.statedb s.Gas (BigToAddress addr) (getData s.mem inOff inSize)
        (if value ≠ 0 then g + P.CallStipend else g) ctx.Price value →
      execOp P env ctx input s CALL = .ok (.advance (if r.failed = true
        then { s with stack := 0 :: rest, Gas := r.gas, statedb := r.statedb }
        else { s with stack := 1 :: rest, Gas := r.gas, statedb := r.statedb,
                      mem := s.mem.Set (Uint64 retOff) (Uint64 retSize) r.ret }))) ∧
    (∀ r : CallResult,
      r = env.CallCode s.statedb s.Gas (BigToAddress addr) (getData s.mem inOff inSize)
        (if value ≠ 0 then g + P.CallStipend else g) ctx.Price value →
      execOp P env ctx input s CALLCODE = .ok (.advance (if r.failed = true
        then { s with stack := 0 :: rest, Gas := r.gas, statedb := r.statedb }
        else { s with stack := 1 :: rest, Gas := r.gas, statedb := r.statedb,
                      mem := s.mem.Set (Uint64 retOff) (Uint64 retSize) r.ret }))) := by
  have hU : U256 (value : Int) = value := U256_of_lt value hv
  have hbl : 0 < byteLen value ↔ value ≠ 0 := byteLen_pos_iff value
  have hb0 : byteLen 0 = 0 := rfl
  refine ⟨fun hb => ?_, fun hb => ?_, fun r hr => ?_, fun r hr => ?_⟩
  · unfold calculateGasAndSize
    rw [hb, hs]
    simp only [bind, Except.bind, opGas_CALL, pure, Except.pure]
    by_cases he : s.statedb.exist (BigToAddress addr) = false <;>
      by_cases h0 : value = 0 <;> simp [he, h0, hbl, hb0]
  · unfold calculateGasAndSize
    rw [hb, hs]
    simp only [bind, Except.bind, opGas_CALLCODE, pure, Except.pure]
    by_cases h0 : value = 0 <;> simp [h0, hbl, hb0]
  · have hex := execOp_CALL P env ctx input s g addr value inOff inSize retOff retSize rest
      hs hin hsz
    rw [hU] at hex
    have hg : (if byteLen value > 0 then g + P.CallStipend else g)
        = (if value ≠ 0 then g + P.CallStipend else g) := by
      by_cases h0 : value = 0
      · have hbl : ¬ byteLen value > 0 := by rw [byteLen_pos_iff]; simp [h0]
        rw [if_neg hbl, if_neg (by simp [h0])]
      · rw [if_pos ((byteLen_pos_iff value).mpr h0), if_pos h0]
    rw [hg, ← hr] at hex
    rw [hex]
    split <;> rfl
  · have hex := execOp_CALLCODE P env ctx input s g addr value inOff inSize retOff retSize rest
      hs hin hsz
    rw [hU] at hex
    have hg : (if byteLen value > 0 then g + P.CallStipend else g)
        = (if value ≠ 0 then g + P.CallStipend else g) := by
      by_cases h0 : value = 0
      · have hbl : ¬ byteLen value > 0 := by rw [byteLen_pos_iff]; simp [h0]
        rw [if_neg hbl, if_neg (by simp [h0])]
      · rw [if_pos ((byteLen_pos_iff value).mpr h0), if_pos h0]
    rw [hg, ← hr] at hex
    rw [hex]
    split <;> rfl

end Vm

namespace Vm
open OpCode

/-- Witness for C25: a CALL with gas word 100 to the account 9, which has no
state object, with value 1 and empty ranges costs `40 + 100 + 25000 + 9000`,
and the host is handed `100 + 2300` gas. -/
theorem call_cost_and_stipend_witness :
    calculateGasAndSize params CALL emptyDB [] [100, 9, 1, 0, 0, 0, 0]
      = .ok (0, 34140, emptyDB) ∧
    (baseCheck params CALL [100, 9, 1, 0, 0, 0, 0] = .ok 40 →
      calculateGasAndSize params CALL emptyDB [] [100, 9, 1, 0, 0, 0, 0]
        = .ok ((memoryFee params [] (max (calcMemSize 0 0) (calcMemSize 0 0))).1,
            40 + (100 : Nat)
              + (if emptyDB.exist (BigToAddress 9) = false
                  then (params.CallNewAccountGas : Int) else 0)
              + (if (1 : Nat) ≠ 0 then (params.CallValueTransferGas : Int) else 0)
              + (memoryFee params [] (max (calcMemSize 0 0) (calcMemSize 0 0))).2,
            emptyDB)) ∧
    (∀ r : CallResult,
      r = echoEnv.Call emptyDB 50000 (BigToAddress 9) (getData [] 0 0)
        (if (1 : Nat) ≠ 0 then 100 + params.CallStipend else 100) 0 1 →
      execOp params echoEnv (frame []) []
          ⟨7, 7, 0, [100, 9, 1, 0, 0, 0, 0], [], 50000, emptyDB, none, noSegments⟩ CALL
        = .ok (.advance (if r.failed = true
          then ⟨7, 7, 0, [0], [], r.gas, r.statedb, none, noSegments⟩
          else ⟨7, 7, 0, [1], Memory.Set [] (Uint64 0) (Uint64 0) r.ret, r.gas, r.statedb,
            none, noSegments⟩))) :=
  ⟨rfl,
    (call_cost_and_stipend params echoEnv (frame []) []
      ⟨7, 7, 0, [100, 9, 1, 0, 0, 0, 0], [], 50000, emptyDB, none, noSegments⟩
      100 9 1 0 0 0 0 [] 40 rfl (by norm_num) (by norm_num) (by norm_num)).1,
    (call_cost_and_stipend params echoEnv (frame []) []
      ⟨7, 7, 0, [100, 9, 1, 0, 0, 0, 0], [], 50000, emptyDB, none, noSegments⟩
      100 9 1 0 0 0 0 [] 40 rfl (by norm_num) (by norm_num) (by norm_num)).2.2.1⟩

/-! ## BLOCKHASH -/

/-- C26: for a current block number of at most `2^64` and a word `num` on top
of the stack, BLOCKHASH replaces `num` by the host's hash of block `num` when
`current - 256 ≤ num < current` (the difference cut at 0) and by 0 otherwise. -/
theorem blockhash_window (P : Params) (env : Environment) (ctx : Context)
    (input : List Nat) (s : State) (num : Nat) (rest : stack)
    (hcur : env.BlockNumber ≤ 2 ^ 64) :
    execOp P env ctx input { s with stack := num :: rest } BLOCKHASH
      = .ok (.advance { s with
          stack := (if env.BlockNumber - 256 ≤ num ∧ num < env.BlockNumber
            then env.GetHash num else 0) :: rest }) := by
  show Except.ok (Exec.advance { s with
    stack := (if (num : Int) > (env.BlockNumber : Int) - 257 ∧ num < env.BlockNumber
      then env.GetHash (Uint64 num) else 0) :: rest }) = _
  by_cases h : env.BlockNumber - 256 ≤ num ∧ num < env.BlockNumber
  · have h1 : (num : Int) > (env.BlockNumber : Int) - 257 ∧ num < env.BlockNumber :=
      ⟨by omega, h.2⟩
    rw [if_pos h, if_pos h1, Uint64_of_lt num (by omega)]
  · have h1 : ¬ ((num : Int) > (env.BlockNumber : Int) - 257 ∧ num < env.BlockNumber) := by
      intro h2
      exact h ⟨by omega, h2.2⟩
    rw [if_neg h, if_neg h1]

/-- Witness for C26: at block 300, BLOCKHASH of 44 is the host's hash of block
44, and BLOCKHASH of 43 and of 300 is 0. -/
theorem blockhash_window_witness :
    execOp params blockEnv (frame []) []
        { initState 10 emptyDB noSegments with stack := [44] } BLOCKHASH
      = .ok (.advance { initState 10 emptyDB noSegments with stack := [1044] }) ∧
    execOp params blockEnv (frame []) []
        { initState 10 emptyDB noSegments with stack := [43] } BLOCKHASH
      = .ok (.advance { initState 10 emptyDB noSegments with stack := [0] }) ∧
    execOp params blockEnv (frame []) []
        { initState 10 emptyDB noSegments with stack := [300] } BLOCKHASH
      = .ok (.advance { initState 10 emptyDB noSegments with stack := [0] }) ∧
    execOp params blockEnv (frame []) []
        { initState 10 emptyDB noSegments with stack := [44] } BLOCKHASH
      = .ok (.advance { initState 10 emptyDB noSegments with
          stack := [if blockEnv.BlockNumber - 256 ≤ 44 ∧ 44 < blockEnv.BlockNumber
            then blockEnv.GetHash 44 else 0] }) :=
  ⟨rfl, rfl, rfl,
    blockhash_window params blockEnv (frame []) [] (initState 10 emptyDB noSegments) 44 []
      (by decide)⟩

end Vm

namespace Vm
open OpCode

/-! ## A CALL that the frame cannot pay -/

theorem step_of_price_error (P : Params) (env : Environment) (ctx : Context)
    (input : List Nat) (d : Bool) (s s1 s3 : State) (e : VmError)
    (h1 : segmentPhase d s (GetOp ctx.Code s.pc) = .ok s1)
    (h2 : pricePhase P d { s1 with ppc := s1.pc } (GetOp ctx.Code s.pc) = .error (s3, e)) :
    step P env ctx input d s = .fail s3 e := by
  unfold step
  simp only [h1, h2]

theorem loop_of_step_fail_eq (P : Params) (env : Environment) (ctx : Context)
    (input : List Nat) (d : Bool) (fuel : Nat) (s s1 : State) (e : VmError)
    (h : step P env ctx input d s = .fail s1 e) :
    loop P env ctx input d (fuel + 1) s = some (.fail s1 e) := by
  simp only [loop, h]

/-- The pricing block uses all gas and fails with out of gas when the gas does
not cover the cost; the stack and the state database of pricing are kept. -/
theorem pricePhase_oog (P : Params) (d : Bool) (s : State) (op : OpCode) (nm : Nat)
    (cost : Int) (db : StateDB) (hp : s.pc > s.nopay ∨ s.pc = 0 ∨ d = true)
    (hc : calculateGasAndSize P op s.statedb s.mem s.stack = .ok (nm, cost, db))
    (hu : UseGas s.Gas cost = none) :
    ∃ s3, pricePhase P d s op = .error (s3, .OutOfGas) ∧ s3.Gas = 0 ∧ s3.statedb = db ∧
      s3.stack = s.stack ∧ s3.mem = s.mem ∧ s3.pc = s.pc := by
  unfold pricePhase
  rw [if_pos hp, hc]
  cases hcs : s.csegment with
  | none =>
    simp only [hu]
    exact ⟨_, rfl, useAllGas_eq _, rfl, rfl, rfl, rfl⟩
  | some cseg =>
    simp only [State.setSegment, hu]
    exact ⟨_, rfl, useAllGas_eq _, rfl, rfl, rfl, rfl⟩

theorem epilogue_statedb (d : Bool) (s : State) (err : Option VmError) :
    (epilogue d s err).statedb = s.statedb := by
  unfold epilogue
  cases d
  · cases herr : err <;> cases hcs : s.csegment with
    | none => simp [hcs]
    | some cseg => by_cases hce : cseg.cend = 0 <;> simp [hcs, hce, State.setSegment]
  · cases err <;> simp

end Vm

namespace Vm
open OpCode

theorem calc_CALL_statedb (P : Params) (db db1 : StateDB) (mem : Memory)
    (g addr value inOff inSize retOff retSize : Nat) (rest : stack) (nm : Nat) (cost : Int)
    (hc : calculateGasAndSize P CALL db mem
      (g :: addr :: value :: inOff :: inSize :: retOff :: retSize :: rest) = .ok (nm, cost, db1)) :
    db1 = db := by
  unfold calculateGasAndSize at hc
  cases hb : baseCheck P CALL (g :: addr :: value :: inOff :: inSize :: retOff :: retSize :: rest) with
  | error e => rw [hb] at hc; cases hc
  | ok base =>
    rw [hb] at hc
    simp only [bind, Except.bind, opGas_CALL, pure, Except.pure, Except.ok.injEq,
      Prod.mk.injEq] at hc
    exact hc.2.2.symm

/-- C23 (as amended): in a state whose opcode is CALL, with its seven operands
on the stack, when the cost computed for the CALL (which includes the gas word
on top of the stack) exceeds the frame's gas, the loop ends with the error out
of gas: nothing is pushed, the host is not called (the state database and the
memory are those before the CALL), the output is empty and the frame's gas is
0. -/
theorem call_out_of_gas_is_fatal (P : Params) (env : Environment) (ctx : Context)
    (input : List Nat) (d : Bool) (fuel : Nat) (s : State)
    (g addr value inOff inSize retOff retSize : Nat) (rest : stack)
    (nm : Nat) (cost : Int) (db : StateDB)
    (hop : GetOp ctx.Code s.pc = CALL)
    (hs : s.stack = g :: addr :: value :: inOff :: inSize :: retOff :: retSize :: rest)
    (hc : calculateGasAndSize P CALL s.statedb s.mem s.stack = .ok (nm, cost, db))
    (hlt : (s.Gas : Int) < cost) :
    ∃ s1, loop P env ctx input d (fuel + 1) s = some (.fail s1 .OutOfGas) ∧
      s1.stack = s.stack ∧ s1.statedb = s.statedb ∧ s1.mem = s.mem ∧
      (finish d (.fail s1 .OutOfGas)).err = some .OutOfGas ∧
      (finish d (.fail s1 .OutOfGas)).ret = [] ∧
      (finish d (.fail s1 .OutOfGas)).state.Gas = 0 ∧
      (finish d (.fail s1 .OutOfGas)).state.statedb = s.statedb := by
  have hdb : db = s.statedb := by
    rw [hs] at hc
    exact calc_CALL_statedb P _ _ _ _ _ _ _ _ _ _ _ _ _ hc
  subst hdb
  obtain ⟨s1, h1, hg1, hst1, hm1, hdb1, hpc1, hp1⟩ := segmentPhase_dynamic d s CALL rfl
  have hu : UseGas s.Gas cost = none := by
    unfold UseGas
    rw [if_pos hlt]
  obtain ⟨s3, h2, hg3, hdb3, hst3, hm3, hpc3⟩ :=
    pricePhase_oog P d { s1 with ppc := s1.pc } CALL nm cost s.statedb hp1
      (by simp only [hdb1, hm1, hst1]; exact hc) (by simp only [hg1]; exact hu)
  simp only at hst3 hm3
  rw [← hop] at h1 h2
  have hstep := step_of_price_error P env ctx input d s s1 s3 _ h1 h2
  refine ⟨s3, loop_of_step_fail_eq P env ctx input d fuel s s3 _ hstep, hst3.trans hst1, hdb3,
    hm3.trans hm1, rfl, rfl, ?_, ?_⟩
  · exact epilogue_gas_of_err d s3 .OutOfGas
  · show (epilogue d s3 (some .OutOfGas)).statedb = _
    rw [epilogue_statedb, hdb3]

/-- Witness for C23 (as amended): the CALL of `callProgram` with gas word 100
is reached with 79 gas and costs 25140; the run ends out of gas. -/
theorem call_out_of_gas_is_fatal_witness :
    ∃ s1, loop params idleEnv (frame callProgram) [] true (0 + 1)
          ⟨14, 12, 0, [100, 0, 0, 0, 0, 0, 0], [], 79, emptyDB, none, noSegments⟩
          = some (.fail s1 .OutOfGas) ∧
      s1.stack = [100, 0, 0, 0, 0, 0, 0] ∧ s1.statedb = emptyDB ∧ s1.mem = [] ∧
      (finish true (.fail s1 .OutOfGas)).err = some .OutOfGas ∧
      (finish true (.fail s1 .OutOfGas)).ret = [] ∧
      (finish true (.fail s1 .OutOfGas)).state.Gas = 0 ∧
      (finish true (.fail s1 .OutOfGas)).state.statedb = emptyDB :=
  call_out_of_gas_is_fatal params idleEnv (frame callProgram) [] true 0
    ⟨14, 12, 0, [100, 0, 0, 0, 0, 0, 0], [], 79, emptyDB, none, noSegments⟩
    100 0 0 0 0 0 0 [] 0 25140 emptyDB rfl rfl rfl (by decide)

/-- C23, counterexample: `callProgram` started with gas 100 reaches its CALL
after seven iterations with 79 gas; the cost of the CALL is 25140, more than
the gas, and the iteration does not go on with 0 pushed: the run ends with the
error out of gas, empty output and no gas. -/
theorem call_out_of_gas_does_not_continue :
    ¬ (∀ (P : Params) (env : Environment) (ctx : Context) (input : List Nat) (d : Bool)
        (s : State) (nm : Nat) (cost : Int) (db : StateDB),
        GetOp ctx.Code s.pc = CALL →
        calculateGasAndSize P CALL s.statedb s.mem s.stack = .ok (nm, cost, db) →
        (s.Gas : Int) < cost →
        ∃ s1, step P env ctx input d s = .next s1 ∧ s1.stack.head? = some 0) ∧
    (steps params idleEnv (frame callProgram) [] true 7 (initState 100 emptyDB noSegments)).map
      (fun s => (s.pc, s.stack, s.Gas)) = some (14, [100, 0, 0, 0, 0, 0, 0], 79) ∧
    (Run params idleEnv (frame callProgram) [] true 20 100 emptyDB noSegments).map
      (fun r => (r.ret, r.err, r.state.Gas)) = some ([], some .OutOfGas, 0) := by
  refine ⟨fun h => ?_, rfl, rfl⟩
  obtain ⟨s1, hs, -⟩ := h params idleEnv (frame callProgram) [] true
    ⟨14, 12, 0, [100, 0, 0, 0, 0, 0, 0], [], 79, emptyDB, none, noSegments⟩ 0 25140 emptyDB
    rfl rfl (by decide)
  have hf : step params idleEnv (frame callProgram) [] true
      ⟨14, 12, 0, [100, 0, 0, 0, 0, 0, 0], [], 79, emptyDB, none, noSegments⟩
      = .fail ⟨14, 14, 0, [100, 0, 0, 0, 0, 0, 0], [], 0, emptyDB, none, noSegments⟩
        .OutOfGas := rfl
  rw [hf] at hs
  cases hs

end Vm

namespace Vm
open OpCode

/-! ## Pricing and the state database -/

set_option maxHeartbeats 1000000 in
theorem opGasAndSize_other (P : Params) (op : OpCode) (db db1 : StateDB) (st : stack)
    (g c : Int) (n : Nat) (h1 : op ≠ SSTORE) (h2 : op ≠ SUICIDE)
    (h : opGasAndSize P op db st g = .ok (n, c, db1)) : db1 = db := by
  revert h
  cases op <;> simp only [opGasAndSize, bind_ok_iff, pure_ok_iff, forall_exists_index, and_imp,
    Prod.mk.injEq]
  case SSTORE => exact absurd rfl h1
  case SUICIDE => exact absurd rfl h2
  all_goals intros
  all_goals subst_vars
  all_goals rfl

theorem opGasAndSize_SUICIDE (P : Params) (db : StateDB) (st : stack) (g : Int) :
    opGasAndSize P SUICIDE db st g
      = .ok (0, g, if db.deleted = true then db else db.Refund P.SuicideRefundGas) := by
  cases h : db.deleted <;> simp [opGasAndSize, h, pure, Except.pure]

theorem opGasAndSize_SSTORE (P : Params) (db : StateDB) (x y : Nat) (rest : stack) (g : Int) :
    opGasAndSize P SSTORE db (x :: y :: rest) g
      = .ok (0, if db.storage (BigToHash x) = 0 ∧ BigToHash y ≠ 0 then (P.SstoreSetGas : Int)
              else P.SstoreClearGas,
          if db.storage (BigToHash x) ≠ 0 ∧ BigToHash y = 0 then db.Refund P.SstoreRefundGas
          else db) := by
  have hreq : stack.require (x :: y :: rest) 2 = .ok () := by
    simp only [stack.require, List.length_cons]
    rw [if_neg (by push_cast; omega)]
  simp only [opGasAndSize, hreq, stack.nth, bind, Except.bind, pure, Except.pure,
    List.get?_cons_succ, List.get?_cons_zero, Nat.sub_self, Nat.add_one_sub_one]
  by_cases h1 : db.storage (BigToHash x) = 0 ∧ BigToHash y ≠ 0
  · have h2 : ¬ (db.storage (BigToHash x) ≠ 0 ∧ BigToHash y = 0) := by tauto
    rw [if_pos h1, if_pos h1, if_neg h2]
  · by_cases h2 : db.storage (BigToHash x) ≠ 0 ∧ BigToHash y = 0
    · rw [if_neg h1, if_pos h2, if_neg h1, if_pos h2]
    · rw [if_neg h1, if_neg h2, if_neg h1, if_neg h2]

theorem opGasAndSize_SSTORE_short (P : Params) (db db1 : StateDB) (st : stack) (g c : Int)
    (n : Nat) (h : opGasAndSize P SSTORE db st g = .ok (n, c, db1)) :
    ∃ x y rest, st = x :: y :: rest := by
  match st, h with
  | [], h => simp [opGasAndSize, stack.require, bind, Except.bind] at h
  | [_], h => simp [opGasAndSize, stack.require, bind, Except.bind] at h
  | x :: y :: rest, _ => exact ⟨x, y, rest, rfl⟩

/-- What `calculateGasAndSize` returns goes through its `switch`. -/
theorem calc_inv (P : Params) (op : OpCode) (db db1 : StateDB) (mem : Memory) (st : stack)
    (nm : Nat) (cost : Int) (h : calculateGasAndSize P op db mem st = .ok (nm, cost, db1)) :
    ∃ g n c, baseCheck P op st = .ok g ∧ opGasAndSize P op db st g = .ok (n, c, db1) := by
  unfold calculateGasAndSize at h
  cases hb : baseCheck P op st with
  | error e => rw [hb] at h; cases h
  | ok g =>
    rw [hb] at h
    cases ho : opGasAndSize P op db st g with
    | error e =>
      simp only [bind, Except.bind, ho] at h
      cases h
    | ok v =>
      obtain ⟨n, c, db2⟩ := v
      simp only [bind, Except.bind, ho, pure, Except.pure, Except.ok.injEq,
        Prod.mk.injEq] at h
      obtain ⟨-, -, rfl⟩ := h
      exact ⟨g, n, c, rfl, ho⟩

end Vm

namespace Vm
open OpCode

/-- C27 (as amended): `calculateGasAndSize` returns the state database with
the storage, balances, code, accounts, deletion mark and logs it was given; it
may only add to the refund counter. For every opcode but SSTORE and SUICIDE the
state database is returned as it was; for SUICIDE the counter grows by
`SuicideRefundGas` unless the account is marked deleted; for SSTORE with the
slot `x` on top of the stack and the value `y` below it grows by
`SstoreRefundGas` exactly when the slot holds a value other than 0 and `y` is
0. -/
theorem pricing_changes_only_refund (P : Params) (op : OpCode) (db db1 : StateDB)
    (mem : Memory) (st : stack) (nm : Nat) (cost : Int)
    (h : calculateGasAndSize P op db mem st = .ok (nm, cost, db1)) :
    (db1.storage = db.storage ∧ db1.balance = db.balance ∧ db1.code = db.code ∧
      db1.exist = db.exist ∧ db1.deleted = db.deleted ∧ db1.logs = db.logs ∧
      db.refund ≤ db1.refund) ∧
    (op ≠ SSTORE → op ≠ SUICIDE → db1 = db) ∧
    (op = SUICIDE →
      db1.refund = db.refund + (if db.deleted = true then 0 else P.SuicideRefundGas)) ∧
    (op = SSTORE → ∃ x y rest, st = x :: y :: rest ∧
      db1.refund = db.refund +
        (if db.storage (BigToHash x) ≠ 0 ∧ BigToHash y = 0 then P.SstoreRefundGas else 0)) := by
  obtain ⟨g, n, c, -, ho⟩ := calc_inv P op db db1 mem st nm cost h
  have hsui : op = SUICIDE →
      db1 = (if db.deleted = true then db else db.Refund P.SuicideRefundGas) := by
    intro hop
    subst hop
    rw [opGasAndSize_SUICIDE] at ho
    simp only [Except.ok.injEq, Prod.mk.injEq] at ho
    exact ho.2.2.symm
  have hsst : op = SSTORE → ∃ x y rest, st = x :: y :: rest ∧
      db1 = (if db.storage (BigToHash x) ≠ 0 ∧ BigToHash y = 0
        then db.Refund P.SstoreRefundGas else db) := by
    intro hop
    subst hop
    obtain ⟨x, y, rest, rfl⟩ := opGasAndSize_SSTORE_short P db db1 st g c n ho
    rw [opGasAndSize_SSTORE] at ho
    simp only [Except.ok.injEq, Prod.mk.injEq] at ho
    exact ⟨x, y, rest, rfl, ho.2.2.symm⟩
  have hoth : op ≠ SSTORE → op ≠ SUICIDE → db1 = db :=
    fun h1 h2 => opGasAndSize_other P op db db1 st g c n h1 h2 ho
  refine ⟨?_, hoth, ?_, ?_⟩
  · by_cases h1 : op = SSTORE
    · obtain ⟨x, y, rest, -, hdb⟩ := hsst h1
      rw [hdb]
      split <;> simp [StateDB.Refund]
    · by_cases h2 : op = SUICIDE
      · rw [hsui h2]
        split <;> simp [StateDB.Refund]
      · rw [hoth h1 h2]
        simp
  · intro hop
    rw [hsui hop]
    split <;> simp [StateDB.Refund]
  · intro hop
    obtain ⟨x, y, rest, hst, hdb⟩ := hsst hop
    refine ⟨x, y, rest, hst, ?_⟩
    rw [hdb]
    split <;> simp [StateDB.Refund]

/-- Witness for C27 (as amended): pricing the SSTORE of 0 into the slot 0 that
holds 42 returns the state database with 15000 added to the refund counter. -/
theorem pricing_changes_only_refund_witness :
    ∃ db1, calculateGasAndSize params SSTORE (emptyDB.SetState 0 42) [] [0, 0]
        = .ok (0, 5000, db1) ∧
      (db1.storage = (emptyDB.SetState 0 42).storage ∧
        db1.balance = (emptyDB.SetState 0 42).balance ∧
        db1.code = (emptyDB.SetState 0 42).code ∧ db1.exist = (emptyDB.SetState 0 42).exist ∧
        db1.deleted = (emptyDB.SetState 0 42).deleted ∧
        db1.logs = (emptyDB.SetState 0 42).logs ∧
        (emptyDB.SetState 0 42).refund ≤ db1.refund) ∧
      db1.refund = 15000 :=
  ⟨_, rfl,
    (pricing_changes_only_refund params SSTORE (emptyDB.SetState 0 42) _ [] [0, 0] 0 5000
      rfl).1, rfl⟩

/-- C27, counterexample: pricing the SSTORE of 0 into the slot 0 that holds 42
moves the refund counter from 0 to 15000, and pricing a SUICIDE of an account
not marked deleted moves it from 0 to 24000. -/
theorem pricing_mutates_refund :
    ¬ (∀ (P : Params) (op : OpCode) (db db1 : StateDB) (mem : Memory) (st : stack) (nm : Nat)
        (cost : Int), calculateGasAndSize P op db mem st = .ok (nm, cost, db1) →
        db1.storage = db.storage ∧ db1.balance = db.balance ∧ db1.deleted = db.deleted ∧
        db1.refund = db.refund) ∧
    (∃ db1, calculateGasAndSize params SSTORE (emptyDB.SetState 0 42) [] [0, 0]
        = .ok (0, 5000, db1) ∧ (emptyDB.SetState 0 42).refund = 0 ∧ db1.refund = 15000) ∧
    (∃ db1, calculateGasAndSize params SUICIDE emptyDB [] [0] = .ok (0, 0, db1) ∧
      emptyDB.refund = 0 ∧ db1.refund = 24000) := by
  refine ⟨fun h => ?_, ⟨_, rfl, rfl, rfl⟩, ⟨_, rfl, rfl, rfl⟩⟩
  have h1 := (h params SUICIDE emptyDB (emptyDB.Refund 24000) [] [0] 0 0 rfl).2.2.2
  simp [StateDB.Refund, emptyDB] at h1

end Vm

namespace Vm
open OpCode

/-! ## Recovered panics -/

theorem finish_panic_inv (d : Bool) (st : Step) (h : (finish d st).err = some .Panic) :
    ∃ s, st = .fail s .Panic := by
  cases st with
  | next s => simp [finish] at h
  | done s ret => simp [finish] at h
  | fail s e => cases e <;> simp [finish] at h; exact ⟨s, rfl⟩

theorem RunPrecompiled_no_panic (p : PrecompiledAccount) (input : List Nat) (s s1 : State) :
    RunPrecompiled p input s ≠ .fail s1 .Panic := by
  unfold RunPrecompiled
  split <;> simp

/-- C28 (as amended): when `Run` returns the error of a recovered panic, the
loop was left by a panic in some state `s`; the output is empty, and the gas
and the state database `Run` leaves are those of `s`: the gas left when the
panic was raised is not used up. -/
theorem panic_keeps_gas (P : Params) (env : Environment) (ctx : Context)
    (input : List Nat) (d : Bool) (fuel gas : Nat) (statedb : StateDB) (cs : codeSegments)
    (r : Result)
    (hrun : Run P env ctx input d fuel gas statedb cs = some r)
    (herr : r.err = some .Panic) :
    ∃ s, loop P env ctx input d fuel ⟨0, 0, 0, [], [], gas, statedb, none, cs⟩
        = some (.fail s .Panic) ∧
      r.ret = [] ∧ r.state.Gas = s.Gas ∧ r.state.statedb = s.statedb := by
  unfold Run at hrun
  simp only at hrun
  split at hrun
  · rename_i p hp
    cases hrun
    obtain ⟨s, hs⟩ := finish_panic_inv d _ herr
    exact absurd hs (RunPrecompiled_no_panic p input _ s)
  · split at hrun
    · cases hrun
      simp [finish] at herr
    · rw [Option.map_eq_some'] at hrun
      obtain ⟨st, hloop, hst⟩ := hrun
      subst hst
      obtain ⟨s, rfl⟩ := finish_panic_inv d st herr
      exact ⟨s, hloop, rfl, epilogue_gas_none d s, epilogue_statedb d s none⟩

/-- The two runs of `mstore8Program` with gas 100 and segmentation enabled: the
first ends well, the second, given the segments of the first, ends with the
error of a panic and 88 gas. -/
theorem mstore8_second_run :
    ∃ r1 r2,
      Run params idleEnv (frame mstore8Program) [] false 10 100 emptyDB noSegments = some r1 ∧
      r1.err = none ∧
      Run params idleEnv (frame mstore8Program) [] false 10 100 emptyDB r1.state.csegments
        = some r2 ∧
      r2.err = some .Panic ∧ r2.state.Gas = 88 :=
  ⟨_, _, rfl, rfl, rfl, rfl, rfl⟩

/-- Witness for C28 (as amended): `mstore8Program` run twice with gas 100 and
segmentation enabled. The first run records the segment at pc 2; the second
run applies it, so MSTORE8 is not priced, the memory is not resized and the
write at offset 0 is out of range. The second run returns the error of the
panic, empty output, and 88 gas. -/
theorem panic_keeps_gas_witness :
    ∃ r1 r2,
      Run params idleEnv (frame mstore8Program) [] false 10 100 emptyDB noSegments = some r1 ∧
      r1.err = none ∧
      Run params idleEnv (frame mstore8Program) [] false 10 100 emptyDB r1.state.csegments
        = some r2 ∧
      r2.err = some .Panic ∧ r2.state.Gas = 88 ∧
      ∃ s, loop params idleEnv (frame mstore8Program) [] false 10
          ⟨0, 0, 0, [], [], 100, emptyDB, none, r1.state.csegments⟩ = some (.fail s .Panic) ∧
        r2.ret = [] ∧ r2.state.Gas = s.Gas ∧ r2.state.statedb = s.statedb :=
  ⟨_, _, rfl, rfl, rfl, rfl, rfl,
    panic_keeps_gas params idleEnv (frame mstore8Program) [] false 10 100 emptyDB _ _ rfl rfl⟩

/-- C28, counterexample: the second run of `mstore8Program` with segmentation
enabled ends with the error of a recovered panic and 88 of its 100 gas left,
not 0. -/
theorem panic_does_not_consume_gas :
    ¬ (∀ (P : Params) (env : Environment) (ctx : Context) (input : List Nat) (d : Bool)
        (fuel gas : Nat) (statedb : StateDB) (cs : codeSegments) (r : Result),
        Run P env ctx input d fuel gas statedb cs = some r → r.err = some .Panic →
        r.ret = [] ∧ r.state.Gas = 0) ∧
    (∃ r1 r2,
      Run params idleEnv (frame mstore8Program) [] false 10 100 emptyDB noSegments = some r1 ∧
      Run params idleEnv (frame mstore8Program) [] false 10 100 emptyDB r1.state.csegments
        = some r2 ∧
      r2.err = some .Panic ∧ r2.state.Gas = 88) := by
  refine ⟨?_, _, _, rfl, rfl, rfl, rfl⟩
  intro h
  obtain ⟨r1, r2, -, -, h2, he, hg⟩ := mstore8_second_run
  have h1 := (h params idleEnv (frame mstore8Program) [] false 10 100 emptyDB _ r2 h2 he).2
  omega

end Vm

namespace Vm
open OpCode

/-! ## The stack requirement recorded for a segment -/

/-- C29 (failing input): `underflowProgram` run with empty input, gas 100 and
segmentation enabled reaches offset 11 with the stack `[7]` and records there
the segment `JUMPDEST; POP; PUSH1 0; STOP`, closed at offset 15 with
`ssize = 0`, the net decrease of the depth (1 at the entry, 1 at the close).
The first POP of the segment needs one item, and the requirement in the words
of the specification is 1. With the input word 32 the block is reached with
an empty stack: without segmentation the run fails with a stack underflow,
with the recorded segment the check `require(0)` passes and the run ends in a
panic of POP. -/
theorem recorded_ssize_is_net_decrease :
    ∃ r1 S r2 r3,
      Run params idleEnv (frame underflowProgram) [] false 20 100 emptyDB noSegments = some r1 ∧
      r1.err = none ∧
      r1.state.csegments 11 = some S ∧ S.cstart = 11 ∧ S.cend = 15 ∧ S.ssize = 0 ∧
      opsBetween underflowProgram 10 11 15 = [JUMPDEST, POP, PUSH 0, STOP] ∧
      specStackNeed params (opsBetween underflowProgram 10 11 15) 0 0 = 1 ∧
      closeSsize 1 1 = 0 ∧
      Run params idleEnv (frame underflowProgram) word32 true 20 100 emptyDB noSegments
        = some r2 ∧ r2.err = some .StackUnderflow ∧
      Run params idleEnv (frame underflowProgram) word32 false 20 100 emptyDB
        r1.state.csegments = some r3 ∧ r3.err = some .Panic :=
  ⟨_, _, _, _, rfl, rfl, rfl, rfl, rfl, rfl, rfl, by decide, by decide, rfl, rfl, rfl, rfl⟩

end Vm

namespace Vm
open OpCode

/-! ## Unclosed segments -/

theorem SegInv_of_closed (d : Bool) (s : State)
    (hm : ∀ k seg, s.csegments k = some seg → seg.cend ≠ 0)
    (hc : ∀ cseg, s.csegment = some cseg → cseg.cend ≠ 0)
    (hd : d = true → s.csegment = none) : SegInv d s :=
  ⟨fun k seg hk h0 => absurd h0 (hm k seg hk), fun cseg h h0 => absurd h0 (hc cseg h), hd⟩

theorem SegInv_map_closed (d : Bool) (s : State) (h : SegInv d s)
    (hc : ∀ cseg, s.csegment = some cseg → cseg.cend ≠ 0) :
    ∀ k seg, s.csegments k = some seg → seg.cend ≠ 0 := by
  intro k seg hk h0
  exact hc seg (h.1 k seg hk h0).1 h0

theorem SegInv_map_other (d : Bool) (s : State) (h : SegInv d s) (cseg : segment)
    (hc : s.csegment = some cseg) :
    ∀ k seg, k ≠ cseg.cstart → s.csegments k = some seg → seg.cend ≠ 0 := by
  intro k seg hk hs h0
  obtain ⟨h1, h2⟩ := h.1 k seg hs h0
  rw [hc] at h1
  cases h1
  exact hk h2.symm

theorem segmentPhase_SegInv (d : Bool) (s : State) (op : OpCode) (h : SegInv d s) :
    match segmentPhase d s op with
    | .ok s1 => SegInv d { s1 with ppc := s1.pc } ∧
        (d = false → isDynamic op = true → s1.csegment = none)
    | .error (s1, _) => SegInv d s1 ∧ s1.csegment = none := by
  cases d
  · cases hdyn : isDynamic op
    · cases hcs : s.csegment with
      | none =>
        have hcl := SegInv_map_closed false s h (by rw [hcs]; intro c hc; cases hc)
        by_cases hpc : s.pc = 0
        · have hv : segmentPhase false s op = .ok s := by
            simp [segmentPhase, hdyn, hcs, hpc]
          rw [hv]
          exact ⟨SegInv_of_closed _ _ hcl (by intro c hc; rw [hcs] at hc; cases hc)
            (by intro hd; cases hd), by intro _ hd; cases hd⟩
        · cases hseg : s.csegments s.pc with
          | none =>
            have hv : segmentPhase false s op
                = .ok { s.setSegment ⟨s.pc, 0, 0, 0, s.stack.length⟩ with nopay := 0 } := by
              simp [segmentPhase, hdyn, hcs, hpc, hseg]
            rw [hv]
            refine ⟨⟨fun k seg hk hc => ?_, fun cseg hc _ => ⟨hpc, hpc⟩, by intro hd; cases hd⟩,
              by intro _ hd; cases hd⟩
            by_cases hk2 : k = s.pc
            · subst hk2
              simp [State.setSegment] at hk
              subst hk
              exact ⟨rfl, rfl⟩
            · simp [State.setSegment, hk2] at hk
              exact absurd hc (hcl k seg hk)
          | some seg0 =>
            have hne : seg0.cend ≠ 0 := hcl _ _ hseg
            cases hreq : s.stack.require seg0.ssize with
            | error e =>
              have hv : segmentPhase false s op = .error ({ s with nopay := seg0.cend }, e) := by
                simp [segmentPhase, hdyn, hcs, hpc, hseg, hreq]
              rw [hv]
              exact ⟨SegInv_of_closed _ _ hcl (by intro c hc; rw [hcs] at hc; cases hc)
                (by intro hd; cases hd), hcs⟩
            | ok u =>
              cases hu : UseGas s.Gas seg0.gas with
              | none =>
                have hv : segmentPhase false s op
                    = .error ({ s with nopay := seg0.cend, Gas := useAllGas s.Gas },
                        .OutOfGas) := by
                  simp [segmentPhase, hdyn, hcs, hpc, hseg, hreq, hu]
                rw [hv]
                exact ⟨SegInv_of_closed _ _ hcl (by intro c hc; rw [hcs] at hc; cases hc)
                  (by intro hd; cases hd), hcs⟩
              | some g =>
                have hv : segmentPhase false s op
                    = .ok { s with nopay := seg0.cend, Gas := g, csegment := some seg0 } := by
                  simp [segmentPhase, hdyn, hcs, hpc, hseg, hreq, hu]
                rw [hv]
                exact ⟨SegInv_of_closed _ _ hcl (by intro c hc; cases hc; exact hne)
                  (by intro hd; cases hd), by intro _ hd; cases hd⟩
      | some cseg =>
        have hv : segmentPhase false s op = .ok s := by
          simp [segmentPhase, hdyn, hcs]
        rw [hv]
        refine ⟨⟨h.1, fun c hc h0 => ?_, by intro hd; cases hd⟩, by intro _ hd; cases hd⟩
        have := (h.2.1 c hc h0).1
        exact ⟨this, this⟩
    · cases hcs : s.csegment with
      | none =>
        have hcl := SegInv_map_closed false s h (by rw [hcs]; intro c hc; cases hc)
        have hv : segmentPhase false s op = .ok { s with csegment := none, nopay := 0 } := by
          simp [segmentPhase, hdyn, hcs]
        rw [hv]
        exact ⟨SegInv_of_closed _ _ hcl (by intro c hc; cases hc) (by intro hd; cases hd),
          fun _ _ => rfl⟩
      | some cseg =>
        by_cases hce : cseg.cend = 0
        · have hpp := (h.2.1 cseg hcs hce).2
          have hv : segmentPhase false s op
              = .ok { (s.setSegment ⟨cseg.cstart, s.ppc, s.pc, cseg.gas,
                        closeSsize s.stack.length cseg.ssize⟩) with
                      csegment := none, nopay := 0 } := by
            simp [segmentPhase, hdyn, hcs, hce]
          rw [hv]
          refine ⟨SegInv_of_closed _ _ (fun k seg hk => ?_) (by intro c hc; cases hc)
            (by intro hd; cases hd), fun _ _ => rfl⟩
          by_cases hk2 : k = cseg.cstart
          · simp [State.setSegment, hk2] at hk
            rw [← hk]
            exact hpp
          · simp [State.setSegment, hk2] at hk
            exact SegInv_map_other false s h cseg hcs k seg hk2 hk
        · have hcl := SegInv_map_closed false s h
            (by rw [hcs]; intro c hc; cases hc; exact hce)
          have hv : segmentPhase false s op = .ok { s with csegment := none, nopay := 0 } := by
            simp [segmentPhase, hdyn, hcs, hce]
          rw [hv]
          exact ⟨SegInv_of_closed _ _ hcl (by intro c hc; cases hc) (by intro hd; cases hd),
            fun _ _ => rfl⟩
  · have hn := h.2.2 rfl
    have hv : segmentPhase true s op = .ok s := by
      simp [segmentPhase]
    rw [hv]
    refine ⟨⟨h.1, fun c hc => ?_, fun _ => hn⟩, by intro hd; cases hd⟩
    have hc2 : s.csegment = some c := hc
    rw [hn] at hc2
    cases hc2

theorem setSegment_SegInv (d : Bool) (s : State) (cseg : segment) (g : Int) (h : SegInv d s)
    (hc : s.csegment = some cseg) :
    SegInv d (s.setSegment { cseg with gas := g }) := by
  refine ⟨fun k seg hk h0 => ?_, fun c hc2 h0 => ?_, fun hd => ?_⟩
  · by_cases hk2 : k = cseg.cstart
    · simp [State.setSegment, hk2] at hk
      subst hk
      exact ⟨rfl, hk2.symm⟩
    · simp [State.setSegment, hk2] at hk
      exact absurd h0 (SegInv_map_other d s h cseg hc k seg hk2 hk)
  · have hc3 : some ({ cseg with gas := g } : segment) = some c := hc2
    cases hc3
    exact h.2.1 cseg hc h0
  · have := h.2.2 hd
    rw [hc] at this
    cases this

theorem pricePhase_SegInv (P : Params) (d : Bool) (s : State) (op : OpCode) (h : SegInv d s) :
    match pricePhase P d s op with
    | .ok s3 => SegInv d s3 ∧ (s.csegment = none → s3.csegment = none) ∧ s3.pc = s.pc
    | .error (s3, _) => SegInv d s3 ∧ s3.pc = s.pc := by
  by_cases hp : s.pc > s.nopay ∨ s.pc = 0 ∨ d = true
  · cases hcalc : calculateGasAndSize P op s.statedb s.mem s.stack with
    | error e =>
      have hv : pricePhase P d s op = .error (s, e) := by
        simp only [pricePhase, if_pos hp, hcalc]
      rw [hv]
      exact ⟨h, rfl⟩
    | ok r =>
      obtain ⟨newMemSize, cost, db⟩ := r
      have hdb : SegInv d { s with statedb := db } := h
      cases hcs : s.csegment with
      | none =>
        cases hu : UseGas s.Gas cost with
        | none =>
          have hv : pricePhase P d s op
              = .error ({ s with statedb := db, Gas := useAllGas s.Gas }, .OutOfGas) := by
            simp only [pricePhase, if_pos hp, hcalc, hcs, hu]
          rw [hv]
          exact ⟨h, rfl⟩
        | some g =>
          have hv : pricePhase P d s op
              = .ok { s with statedb := db, Gas := g, mem := s.mem.Resize (Uint64 newMemSize) } := by
            simp only [pricePhase, if_pos hp, hcalc, hcs, hu]
          rw [hv]
          exact ⟨h, fun _ => hcs, rfl⟩
      | some cseg =>
        have hi := setSegment_SegInv d { s with statedb := db } cseg (cseg.gas + cost) hdb hcs
        cases hu : UseGas s.Gas cost with
        | none =>
          have hv : pricePhase P d s op
              = .error ({ ({ s with statedb := db } : State).setSegment
                    { cseg with gas := cseg.gas + cost } with Gas := useAllGas s.Gas },
                  .OutOfGas) := by
            simp only [pricePhase, if_pos hp, hcalc, hcs, hu, State.setSegment]
          rw [hv]
          exact ⟨hi, rfl⟩
        | some g =>
          have hv : pricePhase P d s op
              = .ok { ({ s with statedb := db } : State).setSegment
                    { cseg with gas := cseg.gas + cost } with
                  Gas := g, mem := s.mem.Resize (Uint64 newMemSize) } := by
            simp only [pricePhase, if_pos hp, hcalc, hcs, hu, State.setSegment]
          rw [hv]
          exact ⟨hi, (by intro hn; cases hn), rfl⟩
  · have hv : pricePhase P d s op = .ok s := by
      simp only [pricePhase, if_neg hp]
    rw [hv]
    exact ⟨h, fun hn => hn, rfl⟩

set_option maxHeartbeats 1000000 in
theorem execOp_segments (P : Params) (env : Environment) (ctx : Context) (input : List Nat)
    (s : State) (op : OpCode) (r : Exec) (h : execOp P env ctx input s op = .ok r) :
    r.state.csegment = s.csegment ∧ r.state.csegments = s.csegments ∧ r.state.ppc = s.ppc := by
  revert h
  cases op <;> simp only [execOp, bind_ok_iff, pure_ok_iff, forall_exists_index, and_imp]
  case JUMP =>
    intro x _ s1 hj hr
    subst hr
    simp [Exec.state, (jump_ok _ _ _ _ hj).1]
  all_goals try (intros; subst_vars; exact ⟨rfl, rfl, rfl⟩)
  all_goals intros
  all_goals rename_i h
  all_goals try simp only [jump] at h
  all_goals repeat' split at h
  all_goals try simp only [bind_ok_iff, pure_ok_iff, forall_exists_index, and_imp, reduceCtorEq,
    false_and, exists_false, Except.ok.injEq] at h
  all_goals try (obtain ⟨_, _, h⟩ := h)
  all_goals (subst_vars; simp [Exec.state])

set_option maxHeartbeats 1000000 in
theorem execOp_returned_pc (P : Params) (env : Environment) (ctx : Context) (input : List Nat)
    (s s4 : State) (ret : List Nat) (op : OpCode)
    (h : execOp P env ctx input s op = .ok (.returned s4 ret)) : s4.pc = s.pc := by
  revert h
  cases op <;> simp only [execOp, bind_ok_iff, pure_ok_iff, forall_exists_index, and_imp]
  all_goals intros
  all_goals rename_i h
  all_goals try simp only [jump] at h
  all_goals repeat' split at h
  all_goals try simp only [bind_ok_iff, pure_ok_iff, forall_exists_index, and_imp, reduceCtorEq,
    false_and, exists_false, Except.ok.injEq, Exec.returned.injEq] at h
  all_goals try (obtain ⟨_, _, h⟩ := h)
  all_goals try simp only [Exec.returned.injEq, reduceCtorEq] at h
  all_goals (subst_vars; rfl)

theorem SegInv_of_eq (d : Bool) (s t : State) (h : SegInv d s)
    (hc : t.csegment = s.csegment) (hm : t.csegments = s.csegments)
    (hp : ∀ cseg, s.csegment = some cseg → cseg.cend = 0 → t.pc ≠ 0 ∧ t.ppc ≠ 0) :
    SegInv d t := by
  refine ⟨fun k seg hk h0 => ?_, fun c hc2 h0 => ?_, fun hd => ?_⟩
  · rw [hm] at hk
    rw [hc]
    exact h.1 k seg hk h0
  · rw [hc] at hc2
    exact hp c hc2 h0
  · rw [hc]
    exact h.2.2 hd

theorem step_SegInv (P : Params) (env : Environment) (ctx : Context) (input : List Nat)
    (d : Bool) (s : State) (h : SegInv d s) :
    SegInv d (step P env ctx input d s).state := by
  have hseg := segmentPhase_SegInv d s (GetOp ctx.Code s.pc) h
  cases hsp : segmentPhase d s (GetOp ctx.Code s.pc) with
  | error p =>
    obtain ⟨s1, e⟩ := p
    rw [hsp] at hseg
    have hv : step P env ctx input d s = .fail s1 e := by
      simp only [step, hsp]
    rw [hv]
    exact hseg.1
  | ok s1 =>
    rw [hsp] at hseg
    obtain ⟨hi1, hdyn⟩ := hseg
    have hpr := pricePhase_SegInv P d { s1 with ppc := s1.pc } (GetOp ctx.Code s.pc) hi1
    cases hpp : pricePhase P d { s1 with ppc := s1.pc } (GetOp ctx.Code s.pc) with
    | error p =>
      obtain ⟨s3, e⟩ := p
      rw [hpp] at hpr
      have hv : step P env ctx input d s = .fail s3 e := by
        simp only [step, hsp, hpp]
      rw [hv]
      exact hpr.1
    | ok s3 =>
      rw [hpp] at hpr
      obtain ⟨hi3, hnone, hpc3⟩ := hpr
      cases hex : execOp P env ctx input s3 (GetOp ctx.Code s.pc) with
      | error e =>
        have hv : step P env ctx input d s = .fail (s3.popped (GetOp ctx.Code s.pc)) e := by
          simp only [step, hsp, hpp, hex]
        rw [hv]
        exact hi3
      | ok r =>
        have hv : step P env ctx input d s = r.toStep := by
          simp only [step, hsp, hpp, hex]
        rw [hv]
        obtain ⟨e1, e2, e3⟩ := execOp_segments P env ctx input s3 _ r hex
        cases r with
        | advance s4 =>
          refine SegInv_of_eq d s3 _ hi3 e1 e2 (fun c hc h0 => ⟨Nat.succ_ne_zero _, ?_⟩)
          have := (hi3.2.1 c hc h0).2
          show s4.ppc ≠ 0
          have e4 : s4.ppc = s3.ppc := e3
          rw [e4]
          exact this
        | jumped s4 =>
          have hd : isDynamic (GetOp ctx.Code s.pc) = true := by
            rcases execOp_jumped P env ctx input s3 s4 _ hex with h1 | ⟨h1, -⟩ <;> rw [h1] <;> rfl
          have hn3 : s3.csegment = none := by
            cases d
            · exact hnone (hdyn rfl hd)
            · exact hi3.2.2 rfl
          refine SegInv_of_eq d s3 _ hi3 e1 e2 (fun c hc h0 => ?_)
          rw [hn3] at hc
          cases hc
        | returned s4 ret =>
          have e5 := execOp_returned_pc P env ctx input s3 s4 ret _ hex
          refine SegInv_of_eq d s3 _ hi3 e1 e2 (fun c hc h0 => ?_)
          have := hi3.2.1 c hc h0
          have e4 : s4.ppc = s3.ppc := e3
          show s4.pc ≠ 0 ∧ s4.ppc ≠ 0
          rw [e4, e5]
          exact this

theorem loop_SegInv (P : Params) (env : Environment) (ctx : Context) (input : List Nat)
    (d : Bool) (fuel : Nat) : ∀ (s : State) (st : Step), SegInv d s →
    loop P env ctx input d fuel s = some st → SegInv d st.state := by
  induction fuel with
  | zero => intro s st _ h; simp [loop] at h
  | succ n ih =>
    intro s st hi h
    have hs := step_SegInv P env ctx input d s hi
    simp only [loop] at h
    cases hst : step P env ctx input d s with
    | next s2 =>
      rw [hst] at h hs
      exact ih s2 st hs h
    | done s2 ret =>
      rw [hst] at h hs
      simp only [Option.some.injEq] at h
      rw [← h]
      exact hs
    | fail s2 e =>
      rw [hst] at h hs
      simp only [Option.some.injEq] at h
      rw [← h]
      exact hs

theorem epilogue_closed (d : Bool) (s : State) (err : Option VmError) (h : SegInv d s) :
    ∀ k seg, (epilogue d s err).csegments k = some seg → seg.cend ≠ 0 := by
  cases d
  · cases hcs : s.csegment with
    | none =>
      have hcl := SegInv_map_closed false s h (by rw [hcs]; intro c hc; cases hc)
      have hv : (epilogue false s err).csegments = s.csegments := by
        cases err <;> simp [epilogue, hcs]
      rw [hv]
      exact hcl
    | some cseg =>
      by_cases hce : cseg.cend = 0
      · have hne := (h.2.1 cseg hcs hce).1
        have hot := SegInv_map_other false s h cseg hcs
        cases err with
        | none =>
          intro k seg hk
          by_cases hk2 : k = cseg.cstart
          · simp [epilogue, hcs, hce, State.setSegment, hk2] at hk
            rw [← hk]
            exact hne
          · simp [epilogue, hcs, hce, State.setSegment, hk2] at hk
            exact hot k seg hk2 hk
        | some e =>
          intro k seg hk
          by_cases hk2 : k = cseg.cstart
          · simp [epilogue, hcs, hce, hk2] at hk
          · simp [epilogue, hcs, hce, hk2] at hk
            exact hot k seg hk2 hk
      · have hcl := SegInv_map_closed false s h (by rw [hcs]; intro c hc; cases hc; exact hce)
        have hv : (epilogue false s err).csegments = s.csegments := by
          cases err <;> simp [epilogue, hcs, hce]
        rw [hv]
        exact hcl
  · have hn := h.2.2 rfl
    have hcl := SegInv_map_closed true s h (by rw [hn]; intro c hc; cases hc)
    have hv : (epilogue true s err).csegments = s.csegments := by
      cases err <;> simp [epilogue]
    rw [hv]
    exact hcl

theorem finish_closed (d : Bool) (st : Step) (h : SegInv d st.state)
    (hn : ∀ s, st ≠ .next s) :
    ∀ k seg, (finish d st).state.csegments k = some seg → seg.cend ≠ 0 := by
  cases st with
  | next s => exact absurd rfl (hn s)
  | done s ret => exact epilogue_closed d s none h
  | fail s e => cases e <;> exact epilogue_closed d s _ h

theorem SegInv_initial (d : Bool) (statedb : StateDB) (cs : codeSegments)
    (hcs : ∀ k seg, cs k = some seg → seg.cend ≠ 0) (g : Nat) :
    SegInv d ⟨0, 0, 0, [], [], g, statedb, none, cs⟩ :=
  SegInv_of_closed d _ hcs (by intro c hc; cases hc) (fun _ => rfl)

theorem Run_closed (P : Params) (env : Environment) (ctx : Context) (input : List Nat)
    (d : Bool) (fuel gas : Nat) (statedb : StateDB) (cs : codeSegments) (r : Result)
    (hcs : ∀ k seg, cs k = some seg → seg.cend ≠ 0)
    (hrun : Run P env ctx input d fuel gas statedb cs = some r) :
    ∀ k seg, r.state.csegments k = some seg → seg.cend ≠ 0 := by
  have h0 := SegInv_initial d statedb cs hcs
  unfold Run at hrun
  simp only at hrun
  cases hp : ctx.precompiled with
  | some p =>
    rw [hp] at hrun
    simp only [Option.some.injEq] at hrun
    rw [← hrun]
    unfold RunPrecompiled
    cases hu : UseGas gas (p.Gas input.length) with
    | none => exact finish_closed d _ (h0 gas) (by intro s hs; cases hs)
    | some g => exact finish_closed d _ (h0 g) (by intro s hs; cases hs)
  | none =>
    rw [hp] at hrun
    simp only at hrun
    by_cases hl : ctx.Code.length = 0
    · rw [if_pos hl] at hrun
      simp only [Option.some.injEq] at hrun
      rw [← hrun]
      exact finish_closed d _ (h0 gas) (by intro s hs; cases hs)
    · rw [if_neg hl] at hrun
      cases hlo : loop P env ctx input d fuel ⟨0, 0, 0, [], [], gas, statedb, none, cs⟩ with
      | none => rw [hlo] at hrun; cases hrun
      | some st =>
        rw [hlo] at hrun
        simp only [Option.map_some', Option.some.injEq] at hrun
        rw [← hrun]
        exact finish_closed d st (loop_SegInv P env ctx input d fuel _ st (h0 gas) hlo)
          (fun s hs => loop_not_next P env ctx input d fuel _ s (hs ▸ hlo))

theorem Run_of_loop (P : Params) (env : Environment) (ctx : Context) (input : List Nat)
    (d : Bool) (fuel gas : Nat) (statedb : StateDB) (cs : codeSegments) (st : Step)
    (hp : ctx.precompiled = none) (hl : ctx.Code.length ≠ 0)
    (hlo : loop P env ctx input d fuel ⟨0, 0, 0, [], [], gas, statedb, none, cs⟩ = some st) :
    Run P env ctx input d fuel gas statedb cs = some (finish d st) := by
  unfold Run
  simp only [hp, if_neg hl, hlo, Option.map_some']

theorem epilogue_removes (s : State) (e : VmError) (cseg : segment)
    (hc : s.csegment = some cseg) (h0 : cseg.cend = 0) :
    (epilogue false s (some e)).csegments cseg.cstart = none ∧
    ∀ k, k ≠ cseg.cstart → (epilogue false s (some e)).csegments k = s.csegments k := by
  constructor
  · simp [epilogue, hc, h0]
  · intro k hk
    simp [epilogue, hc, h0, hk]

theorem epilogue_closes (s : State) (cseg : segment)
    (hc : s.csegment = some cseg) (h0 : cseg.cend = 0) :
    (epilogue false s none).csegments cseg.cstart
      = some ⟨cseg.cstart, s.pc, cseg.next, cseg.gas, closeSsize s.stack.length cseg.ssize⟩ ∧
    ∀ k, k ≠ cseg.cstart → (epilogue false s none).csegments k = s.csegments k := by
  constructor
  · simp [epilogue, hc, h0, State.setSegment]
  · intro k hk
    simp [epilogue, hc, h0, State.setSegment, hk]

/-- C30: the claim fails for a run that ends with the error of a recovered
panic. The deferred function deletes the unclosed segment when it sees an
error, but while a panic unwinds it runs before the `recover` that sets the
error. `wrapProgram` run with gas `2^110`, empty input and segmentation enabled
opens a segment at offset 2 (stack depth 1) and pays for MSTORE8 at offset 11
(memory size `2^64`, which `Uint64` truncates to 0); MSTORE8 pops its two
operands and the write at index `-1` panics while the segment is unclosed
(`cend = 0`). `Run` returns the error, and the segment is still in the map at
key 2, closed at offset 11 with the stack requirement `|min(0 - 1, 0)| = 1`. -/
theorem panic_keeps_unclosed_segment :
    ¬ (∀ (P : Params) (env : Environment) (ctx : Context) (input : List Nat) (d : Bool)
        (fuel gas : Nat) (statedb : StateDB) (cs : codeSegments) (r : Result) (s : State)
        (e : VmError) (cseg : segment),
        Run P env ctx input d fuel gas statedb cs = some r →
        ctx.precompiled = none → ctx.Code.length ≠ 0 →
        loop P env ctx input d fuel ⟨0, 0, 0, [], [], gas, statedb, none, cs⟩
          = some (.fail s e) →
        d = false → s.csegment = some cseg → cseg.cend = 0 →
        r.state.csegments cseg.cstart = none) ∧
    ∃ r s, Run params idleEnv (frame wrapProgram) [] false 10
        1298074214633706907132624082305024 emptyDB noSegments = some r ∧
      loop params idleEnv (frame wrapProgram) [] false 10
        ⟨0, 0, 0, [], [], 1298074214633706907132624082305024, emptyDB, none, noSegments⟩
        = some (.fail s .Panic) ∧ s.pc = 11 ∧ s.stack = [] ∧
      s.csegment = some ⟨2, 0, 0, 649037107316855182948568951422982, 1⟩ ∧
      r.err = some .Panic ∧
      r.state.csegments 2 = some ⟨2, 11, 0, 649037107316855182948568951422982, 1⟩ := by
  refine ⟨fun h => ?_, _, _, rfl, rfl, rfl, rfl, rfl, rfl, rfl⟩
  have h2 := h params idleEnv (frame wrapProgram) [] false 10
    1298074214633706907132624082305024 emptyDB noSegments _ _ .Panic
    ⟨2, 0, 0, 649037107316855182948568951422982, 1⟩ rfl rfl (by decide) rfl rfl rfl rfl
  cases h2

/-- What holds of C30: a run started with a map that holds no segment with
`cend = 0` leaves a map that holds none, whatever its outcome. When the loop is
left with an error in state `s` while the segment `cseg` the run opened is
unclosed, then for an error other than a recovered panic `Run` returns a map
without the key `cseg.cstart` and with every other entry as in `s`; for a
recovered panic the segment is kept and closed at the program counter of `s`,
and every other entry is as in `s`. -/
theorem error_removes_unclosed_segment (P : Params) (env : Environment) (ctx : Context)
    (input : List Nat) (d : Bool) (fuel gas : Nat) (statedb : StateDB) (cs : codeSegments)
    (r : Result)
    (hcs : ∀ k seg, cs k = some seg → seg.cend ≠ 0)
    (hrun : Run P env ctx input d fuel gas statedb cs = some r) :
    (∀ k seg, r.state.csegments k = some seg → seg.cend ≠ 0) ∧
    (∀ s e cseg, ctx.precompiled = none → ctx.Code.length ≠ 0 →
      loop P env ctx input d fuel ⟨0, 0, 0, [], [], gas, statedb, none, cs⟩ = some (.fail s e) →
      d = false → s.csegment = some cseg → cseg.cend = 0 →
      r.err = some e ∧
      (e ≠ .Panic → r.state.csegments cseg.cstart = none) ∧
      (e = .Panic → r.state.csegments cseg.cstart
        = some ⟨cseg.cstart, s.pc, cseg.next, cseg.gas,
            closeSsize s.stack.length cseg.ssize⟩) ∧
      ∀ k, k ≠ cseg.cstart → r.state.csegments k = s.csegments k) := by
  refine ⟨Run_closed P env ctx input d fuel gas statedb cs r hcs hrun, ?_⟩
  intro s e cseg hp hl hlo hd hc h0
  have hr := Run_of_loop P env ctx input d fuel gas statedb cs _ hp hl hlo
  rw [hrun] at hr
  simp only [Option.some.injEq] at hr
  subst hr
  subst hd
  have h1 := epilogue_closes s cseg hc h0
  cases e
  case Panic => exact ⟨rfl, fun h => absurd rfl h, fun _ => h1.1, h1.2⟩
  all_goals
    exact ⟨rfl, fun _ => (epilogue_removes s _ cseg hc h0).1, (by intro h; cases h),
      (epilogue_removes s _ cseg hc h0).2⟩

/-- Example for the ordinary errors of C30: `shortStackProgram` with gas 100
opens a segment at offset
2 and fails at offset 5 with a stack underflow while it is unclosed; the map
`Run` returns has no entry at key 2, no entry with `cend = 0`, and its other
entries are those of the state in which the loop was left. -/
theorem error_removes_unclosed_segment_witness :
    ∃ r s, Run params idleEnv (frame shortStackProgram) [] false 10 100 emptyDB noSegments
        = some r ∧
      loop params idleEnv (frame shortStackProgram) [] false 10
        ⟨0, 0, 0, [], [], 100, emptyDB, none, noSegments⟩ = some (.fail s .StackUnderflow) ∧
      s.pc = 5 ∧ s.csegment = some ⟨2, 0, 0, 6, 1⟩ ∧ s.csegments 2 = some ⟨2, 0, 0, 6, 1⟩ ∧
      (∀ k seg, r.state.csegments k = some seg → seg.cend ≠ 0) ∧
      r.err = some .StackUnderflow ∧ r.state.csegments 2 = none ∧
      ∀ k, k ≠ 2 → r.state.csegments k = s.csegments k :=
  have h := error_removes_unclosed_segment params idleEnv (frame shortStackProgram) [] false
    10 100 emptyDB noSegments _ (by intro k seg hk; cases hk) rfl
  have h2 := h.2 _ .StackUnderflow ⟨2, 0, 0, 6, 1⟩ rfl (by decide) rfl rfl rfl rfl
  ⟨_, _, rfl, rfl, rfl, rfl, rfl, h.1, h2.1, h2.2.1 (by intro hh; cases hh), h2.2.2.2⟩

end Vm

namespace Vm
open OpCode

/-! ## JUMPI -/

theorem execOp_JUMPI (P : Params) (env : Environment) (ctx : Context) (input : List Nat)
    (s : State) (pos cond : Nat) (rest : stack) (hs : s.stack = pos :: cond :: rest) :
    execOp P env ctx input s JUMPI
      = if cond ≥ 1 then
          (jump ctx.Code { s with stack := rest } pos >>= fun s1 => pure (.jumped s1))
        else pure (.advance { s with stack := rest }) := by
  show (s.stack.pop >>= fun x => _) = _
  rw [hs]
  rfl

theorem execOp_JUMP (P : Params) (env : Environment) (ctx : Context) (input : List Nat)
    (s : State) (pos : Nat) (rest : stack) (hs : s.stack = pos :: rest) :
    execOp P env ctx input s JUMP
      = (jump ctx.Code { s with stack := rest } pos >>= fun s1 => pure (.jumped s1)) := by
  show (s.stack.pop >>= fun x => _) = _
  rw [hs]
  rfl

/-- C37: in an iteration whose opcode is JUMPI, after the segment discipline
and pricing succeeded, with the target `pos` on top of the stack and the
condition `cond` below it: when `cond` is 0 the loop goes on at `pc + 1`
without an error, whatever `pos` is; when `cond` is not 0 the opcode does what
JUMP does on the stack `pos :: rest`, that is, the loop goes on at `pos` when
`pos` is a valid jump destination and is left with an invalid-jump error for
`pos` otherwise. -/
theorem jumpi_semantics (P : Params) (env : Environment) (ctx : Context)
    (input : List Nat) (d : Bool) (s s1 s3 : State) (pos cond : Nat) (rest : stack)
    (hop : GetOp ctx.Code s.pc = JUMPI)
    (hseg : segmentPhase d s JUMPI = .ok s1)
    (hprice : pricePhase P d { s1 with ppc := s1.pc } JUMPI = .ok s3)
    (hst : s3.stack = pos :: cond :: rest) :
    (cond = 0 → step P env ctx input d s = .next { s3 with stack := rest, pc := s3.pc + 1 }) ∧
    (cond ≠ 0 →
      execOp P env ctx input s3 JUMPI
        = execOp P env ctx input { s3 with stack := pos :: rest } JUMP ∧
      (has ctx.Code pos = true →
        step P env ctx input d s = .next { s3 with stack := rest, pc := Uint64 pos } ∧
        execOp P env ctx input { s3 with stack := pos :: rest } JUMP
          = .ok (.jumped { s3 with stack := rest, pc := Uint64 pos })) ∧
      (has ctx.Code pos = false →
        step P env ctx input d s = .fail { s3 with stack := rest } (.InvalidJump pos) ∧
        execOp P env ctx input { s3 with stack := pos :: rest } JUMP
          = .error (.InvalidJump pos))) := by
  have hi := execOp_JUMPI P env ctx input s3 pos cond rest hst
  have hj : execOp P env ctx input { s3 with stack := pos :: rest } JUMP
      = (jump ctx.Code { s3 with stack := rest } pos >>= fun s1 => pure (Exec.jumped s1)) := rfl
  rw [← hop] at hseg hprice
  constructor
  · intro hc
    have hn : ¬ cond ≥ 1 := by omega
    rw [if_neg hn] at hi
    rw [← hop] at hi
    exact step_of_phases P env ctx input d s s1 s3 _ hseg hprice hi
  · intro hc
    have hp : cond ≥ 1 := by omega
    rw [if_pos hp] at hi
    refine ⟨hi.trans hj.symm, fun hh => ?_, fun hh => ?_⟩
    · have hjv : jump ctx.Code { s3 with stack := rest } pos
          = .ok { s3 with stack := rest, pc := Uint64 pos } := by
        simp [jump, hh]
      have hi2 : execOp P env ctx input s3 JUMPI
          = .ok (.jumped { s3 with stack := rest, pc := Uint64 pos }) := by
        rw [hi, hjv]; rfl
      refine ⟨?_, ?_⟩
      · rw [← hop] at hi2
        exact step_of_phases P env ctx input d s s1 s3 _ hseg hprice hi2
      · rw [hj, hjv]; rfl
    · have hjv : jump ctx.Code { s3 with stack := rest } pos = .error (.InvalidJump pos) := by
        simp [jump, hh]
      have hi2 : execOp P env ctx input s3 JUMPI = .error (.InvalidJump pos) := by
        rw [hi, hjv]; rfl
      refine ⟨?_, ?_⟩
      · have hpop : s3.popped JUMPI = { s3 with stack := rest } := by
          simp [State.popped, pops, hst]
        unfold step
        simp only [hseg, hprice]
        rw [hop, hi2, hpop]
      · rw [hj, hjv]; rfl

/-- Witness for C37: in `60 00 60 05 57 00` the JUMPI at pc 4 with target 5,
which is no jump destination, and condition 0 goes on at pc 5. -/
theorem jumpi_semantics_witness :
    step params idleEnv (frame [0x60, 0, 0x60, 5, 0x57, 0]) [] true
        ⟨4, 2, 0, [5, 0], [], 94, emptyDB, none, noSegments⟩
      = .next ⟨5, 4, 0, [], [], 84, emptyDB, none, noSegments⟩ :=
  (jumpi_semantics params idleEnv (frame [0x60, 0, 0x60, 5, 0x57, 0]) [] true
    ⟨4, 2, 0, [5, 0], [], 94, emptyDB, none, noSegments⟩
    ⟨4, 2, 0, [5, 0], [], 94, emptyDB, none, noSegments⟩
    ⟨4, 4, 0, [5, 0], [], 84, emptyDB, none, noSegments⟩ 5 0 [] rfl rfl rfl rfl).1 rfl

end Vm

namespace abi

/-! ## The signature of a method -/

/-- C34: the signature `Sig` of the method `NewMethod` builds is the raw name,
an opening bracket, the strings of the input types joined by `,` and a closing
bracket. It is the same for every internal name, mutability, flag, hash
function and list of outputs, and for every list of inputs with the same types
in the same order, whatever their names. For `foo` with the inputs `uint32 a`
and `int256 b` it is `foo(uint32,int256)`. -/
theorem method_sig {T : Type} (typeString : T → String) (Keccak256 : String → List Nat)
    (name rawName mutability : String) (isConst isPayable isFallback isReceive : Bool)
    (inputs outputs : Arguments T) :
    (NewMethod typeString Keccak256 name rawName mutability isConst isPayable isFallback
        isReceive inputs outputs).Sig
      = rawName ++ "(" ++ ",".intercalate (inputs.map fun a => typeString a.Ty) ++ ")" ∧
    (∀ (Keccak256a : String → List Nat) (name1 mutability1 : String)
        (isConst1 isPayable1 isFallback1 isReceive1 : Bool) (inputs1 outputs1 : Arguments T),
      inputs1.map (fun a => a.Ty) = inputs.map (fun a => a.Ty) →
      (NewMethod typeString Keccak256a name1 rawName mutability1 isConst1 isPayable1 isFallback1
          isReceive1 inputs1 outputs1).Sig
        = (NewMethod typeString Keccak256 name rawName mutability isConst isPayable isFallback
            isReceive inputs outputs).Sig) ∧
    (NewMethod id Keccak256 name "foo" mutability isConst isPayable isFallback isReceive
        fooInputs []).Sig = "foo(uint32,int256)" := by
  refine ⟨rfl, ?_, rfl⟩
  intro K n m c p f r inputs1 outputs1 h
  have h2 : inputs1.map (fun a => typeString a.Ty) = inputs.map (fun a => typeString a.Ty) := by
    have := congrArg (List.map typeString) h
    simpa [List.map_map, Function.comp] using this
  show rawName ++ "(" ++ Join (inputs1.map fun a => typeString a.Ty) "," ++ ")"
    = rawName ++ "(" ++ Join (inputs.map fun a => typeString a.Ty) "," ++ ")"
  rw [h2]

/-- Witness for C34: the method `foo0` with the payable flag, the inputs
`uint32 x` and `int256 y` and one output has the signature of the method `foo`
with the inputs `uint32 a` and `int256 b` and no output, `foo(uint32,int256)`. -/
theorem method_sig_witness :
    (NewMethod id (fun _ => []) "foo0" "foo" "payable" false true false false
        [⟨"x", "uint32", true⟩, ⟨"y", "int256", false⟩] [⟨"", "bool", false⟩]).Sig
      = (NewMethod id (fun _ => [1, 2, 3, 4]) "foo" "foo" "nonpayable" false false false false
          fooInputs []).Sig ∧
    (NewMethod id (fun _ => [1, 2, 3, 4]) "foo" "foo" "nonpayable" false false false false
        fooInputs []).Sig = "foo(uint32,int256)" :=
  ⟨(method_sig id (fun _ => [1, 2, 3, 4]) "foo" "foo" "nonpayable" false false false false
      fooInputs []).2.1 (fun _ => []) "foo0" "payable" false true false false
      [⟨"x", "uint32", true⟩, ⟨"y", "int256", false⟩] [⟨"", "bool", false⟩] rfl,
    (method_sig id (fun _ => [1, 2, 3, 4]) "foo" "foo" "nonpayable" false false false false
      fooInputs []).2.2⟩

end abi

namespace Vm
open OpCode

/-! ## The fee of the second store of scenario S6 -/

theorem memoryFee_second_store (P : Params) (mem : Memory) (hlen : mem.length = 32) :
    memoryFee P mem 1024 = (1024, totalFee P 32 - totalFee P 1) := by
  simp [memoryFee, toWordSize, Memory.Len, hlen, totalFee]

theorem totalFee_delta (P : Params) :
    totalFee P 32 - totalFee P 1
      = ((31 * P.MemoryGas : Nat) : Int)
        + (((32 ^ 2 / P.QuadCoeffDiv : Nat) : Int) - ((1 ^ 2 / P.QuadCoeffDiv : Nat) : Int)) := by
  simp only [totalFee]
  push_cast
  ring

/-- C33 (as amended): with 32 bytes of memory, as after an MSTORE at offset 0
on empty memory, the cost computed for MSTORE at offset 992 is the static cost
of MSTORE plus `C(32) - C(1)`, and the memory asked for is 1024 bytes. The
delta is the linear part `31 * MemoryGas` plus the quadratic part
`32^2 / QuadCoeffDiv - 1^2 / QuadCoeffDiv`. Whenever `MemoryGas` is at least 1
and `QuadCoeffDiv` at least 34 the quadratic part is the smaller one; with the
constants 3 and 512 the delta is 95, of which 93 are linear and 2 quadratic. -/
theorem mstore_expansion_delta (P : Params) (db : StateDB) (mem : Memory) (v : Nat)
    (rest : stack) (base : Int) (hlen : mem.length = 32)
    (hbase : baseCheck P MSTORE (992 :: v :: rest) = .ok base) :
    (∀ data : List Nat,
      ((Memory.Resize [] (Uint64 32)).Set (Uint64 0) 32 data).length = 32) ∧
    calculateGasAndSize P MSTORE db [] (0 :: v :: rest)
      = .ok (32, base + (totalFee P 1 - totalFee P 0), db) ∧
    calculateGasAndSize P MSTORE db mem (992 :: v :: rest)
      = .ok (1024, base + (totalFee P 32 - totalFee P 1), db) ∧
    totalFee P 32 - totalFee P 1
      = ((31 * P.MemoryGas : Nat) : Int)
        + (((32 ^ 2 / P.QuadCoeffDiv : Nat) : Int) - ((1 ^ 2 / P.QuadCoeffDiv : Nat) : Int)) ∧
    (1 ≤ P.MemoryGas → 34 ≤ P.QuadCoeffDiv →
      32 ^ 2 / P.QuadCoeffDiv - 1 ^ 2 / P.QuadCoeffDiv < 31 * P.MemoryGas) ∧
    31 * params.MemoryGas = 93 ∧
    32 ^ 2 / params.QuadCoeffDiv - 1 ^ 2 / params.QuadCoeffDiv = 2 := by
  have hb0 : baseCheck P MSTORE (0 :: v :: rest) = .ok base := by
    rw [← hbase]
    exact baseCheck_length P MSTORE _ _ rfl
  have ho0 : opGasAndSize P MSTORE db (0 :: v :: rest) base = .ok (32, base, db) := rfl
  have ho : opGasAndSize P MSTORE db (992 :: v :: rest) base = .ok (1024, base, db) := rfl
  have hm0 : memoryFee P [] 32 = (32, totalFee P 1 - totalFee P 0) := by
    simp [memoryFee, toWordSize, Memory.Len, totalFee]
  refine ⟨fun data => ?_, ?_, ?_, totalFee_delta P, fun h1 h2 => ?_, rfl, rfl⟩
  · simp [Memory.Set, Memory.Resize, Uint64, RightPadBytes]
    omega
  · simp only [calculateGasAndSize, hb0, bind, Except.bind, ho0, hm0, pure, Except.pure]
  · simp only [calculateGasAndSize, hbase, bind, Except.bind, ho, memoryFee_second_store P mem hlen,
      pure, Except.pure]
  · have h3 : 32 ^ 2 / P.QuadCoeffDiv ≤ 32 ^ 2 / 34 := Nat.div_le_div_left h2 (by decide)
    have h4 : 32 ^ 2 / 34 = 30 := by decide
    have h5 := Nat.sub_le (32 ^ 2 / P.QuadCoeffDiv) (1 ^ 2 / P.QuadCoeffDiv)
    have h6 : 32 ^ 2 / P.QuadCoeffDiv ≤ 30 := h4 ▸ h3
    exact lt_of_le_of_lt (le_trans h5 h6) (by omega)

/-- Witness for C33: in the run of `expandProgram` with the constants `params`
and without segmentation the costs of the opcodes are 3, 3, 6, 3, 3, 98 and 0:
the second MSTORE costs its static 3 plus the delta 95. -/
theorem mstore_expansion_delta_witness :
    (trace params idleEnv (frame expandProgram) [] true 10
        (initState 1000 emptyDB noSegments)).map (fun x => (x.pc, x.cost))
      = [(0, 3), (2, 3), (4, 6), (5, 3), (7, 3), (10, 98), (11, 0)] ∧
    calculateGasAndSize params MSTORE emptyDB (List.replicate 32 0) [992, 1]
      = .ok (1024, 3 + (totalFee params 32 - totalFee params 1), emptyDB) ∧
    totalFee params 32 - totalFee params 1 = 95 :=
  ⟨rfl,
    (mstore_expansion_delta params emptyDB (List.replicate 32 0) 1 [] 3 rfl rfl).2.2.1,
    rfl⟩

/-- C33, counterexample: the quadratic part of the delta is not larger than
the linear part for every choice of the constants; with the constants 3 and
512 the quadratic part is 2 and the linear part 93. -/
theorem quadratic_part_is_smaller :
    ¬ (∀ P : Params,
        31 * P.MemoryGas < 32 ^ 2 / P.QuadCoeffDiv - 1 ^ 2 / P.QuadCoeffDiv) ∧
    31 * params.MemoryGas = 93 ∧
    32 ^ 2 / params.QuadCoeffDiv - 1 ^ 2 / params.QuadCoeffDiv = 2 ∧
    calculateGasAndSize params MSTORE emptyDB (List.replicate 32 0) [992, 1]
      = .ok (1024, 98, emptyDB) :=
  ⟨fun h => absurd (h params) (by decide), rfl, rfl, rfl⟩

end Vm

namespace Vm
open OpCode

/-! ## The cost of the opcodes that are not dynamic -/

theorem calc_inv_full (P : Params) (op : OpCode) (db db1 : StateDB) (mem : Memory) (st : stack)
    (nm : Nat) (cost : Int) (h : calculateGasAndSize P op db mem st = .ok (nm, cost, db1)) :
    ∃ g n c, baseCheck P op st = .ok g ∧ opGasAndSize P op db st g = .ok (n, c, db1) ∧
      nm = (memoryFee P mem n).1 ∧ cost = c + (memoryFee P mem n).2 := by
  unfold calculateGasAndSize at h
  cases hb : baseCheck P op st with
  | error e => rw [hb] at h; cases h
  | ok g =>
    rw [hb] at h
    cases ho : opGasAndSize P op db st g with
    | error e =>
      simp only [bind, Except.bind, ho] at h
      cases h
    | ok v =>
      obtain ⟨n, c, db2⟩ := v
      simp only [bind, Except.bind, ho, pure, Except.pure, Except.ok.injEq,
        Prod.mk.injEq] at h
      obtain ⟨h1, h2, rfl⟩ := h
      exact ⟨g, n, c, rfl, ho, h1.symm, h2.symm⟩

theorem calc_of_parts (P : Params) (op : OpCode) (db db1 : StateDB) (mem : Memory) (st : stack)
    (g c : Int) (n : Nat) (hb : baseCheck P op st = .ok g)
    (ho : opGasAndSize P op db st g = .ok (n, c, db1)) :
    calculateGasAndSize P op db mem st
      = .ok ((memoryFee P mem n).1, c + (memoryFee P mem n).2, db1) := by
  simp only [calculateGasAndSize, hb, bind, Except.bind, ho, pure, Except.pure]

theorem baseCheck_gas_unique (P : Params) (op : OpCode) (st st1 : stack) (g g1 : Int)
    (h : baseCheck P op st = .ok g) (h1 : baseCheck P op st1 = .ok g1) : g = g1 := by
  unfold baseCheck at h h1
  cases ht : P.baseCheckTable op with
  | none =>
    rw [ht] at h h1
    cases h; cases h1; rfl
  | some r =>
    rw [ht] at h h1
    simp only [bind_ok_iff] at h h1
    obtain ⟨_, _, h⟩ := h
    obtain ⟨_, _, h1⟩ := h1
    split at h
    · cases h
    · split at h1
      · cases h1
      · cases h; cases h1; rfl

theorem opGasAndSize_static (P : Params) (op : OpCode) (db db1 db2 db3 : StateDB)
    (st st1 : stack) (g c c1 : Int) (n n1 : Nat)
    (hd : isDynamic op = false) (h1 : op ≠ MLOAD) (h2 : op ≠ MSTORE) (h3 : op ≠ MSTORE8)
    (h : opGasAndSize P op db st g = .ok (n, c, db1))
    (h' : opGasAndSize P op db2 st1 g = .ok (n1, c1, db3)) :
    n = 0 ∧ n1 = 0 ∧ c = c1 := by
  revert h h'
  cases op <;> simp only [opGasAndSize, bind_ok_iff, pure_ok_iff, forall_exists_index, and_imp,
    Prod.mk.injEq]
  case MLOAD => exact absurd rfl h1
  case MSTORE => exact absurd rfl h2
  case MSTORE8 => exact absurd rfl h3
  all_goals try (simp [isDynamic] at hd; done)
  all_goals intros
  all_goals subst_vars
  all_goals exact ⟨rfl, rfl, rfl⟩

/-- C31 (as amended): for an opcode that is not dynamic and is none of MLOAD,
MSTORE and MSTORE8, whenever `calculateGasAndSize` succeeds on two stacks, two
memories and two state databases it returns the same cost, and it asks for no
memory. For MLOAD and MSTORE with the offset `off` on top of the stack the
cost is the static cost plus the memory fee for `off + 32` bytes, and for
MSTORE8 the static cost plus the memory fee for `off + 1` bytes, a fee that
depends on the offset and on the current length of the memory. -/
theorem static_cost_is_function_of_opcode (P : Params) (op : OpCode)
    (db db1 db2 db3 : StateDB) (mem mem1 : Memory) (st st1 : stack) (nm nm1 : Nat)
    (cost cost1 : Int)
    (hd : isDynamic op = false)
    (h : calculateGasAndSize P op db mem st = .ok (nm, cost, db1))
    (h' : calculateGasAndSize P op db2 mem1 st1 = .ok (nm1, cost1, db3)) :
    (op ≠ MLOAD → op ≠ MSTORE → op ≠ MSTORE8 → cost = cost1 ∧ nm = 0 ∧ nm1 = 0) ∧
    (∀ (off : Nat) (rest : stack) (base : Int), baseCheck P MLOAD (off :: rest) = .ok base →
      calculateGasAndSize P MLOAD db mem (off :: rest)
        = .ok ((memoryFee P mem (off + 32)).1, base + (memoryFee P mem (off + 32)).2, db)) ∧
    (∀ (off : Nat) (rest : stack) (base : Int), baseCheck P MSTORE (off :: rest) = .ok base →
      calculateGasAndSize P MSTORE db mem (off :: rest)
        = .ok ((memoryFee P mem (off + 32)).1, base + (memoryFee P mem (off + 32)).2, db)) ∧
    (∀ (off : Nat) (rest : stack) (base : Int), baseCheck P MSTORE8 (off :: rest) = .ok base →
      calculateGasAndSize P MSTORE8 db mem (off :: rest)
        = .ok ((memoryFee P mem (off + 1)).1, base + (memoryFee P mem (off + 1)).2, db)) := by
  refine ⟨fun h1 h2 h3 => ?_, fun off rest base hb => ?_, fun off rest base hb => ?_,
    fun off rest base hb => ?_⟩
  · obtain ⟨g, n, c, hb, ho, hn, hc⟩ := calc_inv_full P op db db1 mem st nm cost h
    obtain ⟨g1, n1, c1, hb1, ho1, hn1, hc1⟩ := calc_inv_full P op db2 db3 mem1 st1 nm1 cost1 h'
    have hg := baseCheck_gas_unique P op st st1 g g1 hb hb1
    subst hg
    obtain ⟨e1, e2, e3⟩ := opGasAndSize_static P op db db1 db2 db3 st st1 g c c1 n n1 hd h1 h2 h3
      ho ho1
    subst e1 e2 e3
    rw [memoryFee_zero] at hn hc hn1 hc1
    exact ⟨by rw [hc, hc1], hn, hn1⟩
  · exact calc_of_parts P MLOAD db db mem (off :: rest) base base (off + 32) hb rfl
  · exact calc_of_parts P MSTORE db db mem (off :: rest) base base (off + 32) hb rfl
  · exact calc_of_parts P MSTORE8 db db mem (off :: rest) base base (off + 1) hb rfl

/-- Witness for C31: ADD costs 3 on the stack `[1, 2]` with empty memory and on
the stack `[5, 6, 7]` with 64 bytes of memory. -/
theorem static_cost_is_function_of_opcode_witness :
    calculateGasAndSize params ADD emptyDB [] [1, 2] = .ok (0, 3, emptyDB) ∧
    calculateGasAndSize params ADD emptyDB (List.replicate 64 0) [5, 6, 7]
      = .ok (0, 3, emptyDB) ∧
    ((3 : Int) = 3 ∧ (0 : Nat) = 0 ∧ (0 : Nat) = 0) :=
  ⟨rfl, rfl,
    (static_cost_is_function_of_opcode params ADD emptyDB emptyDB emptyDB emptyDB []
      (List.replicate 64 0) [1, 2] [5, 6, 7] 0 0 3 3 rfl rfl rfl).1
      (by intro h; cases h) (by intro h; cases h) (by intro h; cases h)⟩

/-- C31, counterexample: MSTORE is not dynamic, and its cost is 6 for the
offset 0 on empty memory, 3 for the offset 0 on a memory of 32 bytes and 9 for
the offset 32 on empty memory; the costs of MLOAD and MSTORE8 differ in the
same way. -/
theorem memory_opcode_cost_is_not_static :
    ¬ (∀ (P : Params) (op : OpCode) (db : StateDB) (mem mem1 : Memory) (st st1 : stack)
        (nm nm1 : Nat) (cost cost1 : Int) (db1 db2 : StateDB),
        isDynamic op = false →
        calculateGasAndSize P op db mem st = .ok (nm, cost, db1) →
        calculateGasAndSize P op db mem1 st1 = .ok (nm1, cost1, db2) → cost = cost1) ∧
    isDynamic MSTORE = false ∧ isDynamic MLOAD = false ∧ isDynamic MSTORE8 = false ∧
    calculateGasAndSize params MSTORE emptyDB [] [0, 1] = .ok (32, 6, emptyDB) ∧
    calculateGasAndSize params MSTORE emptyDB (List.replicate 32 0) [0, 1]
      = .ok (32, 3, emptyDB) ∧
    calculateGasAndSize params MSTORE emptyDB [] [32, 1] = .ok (64, 9, emptyDB) ∧
    calculateGasAndSize params MLOAD emptyDB [] [0] = .ok (32, 6, emptyDB) ∧
    calculateGasAndSize params MLOAD emptyDB (List.replicate 32 0) [0] = .ok (32, 3, emptyDB) ∧
    calculateGasAndSize params MSTORE8 emptyDB [] [0, 1] = .ok (32, 6, emptyDB) ∧
    calculateGasAndSize params MSTORE8 emptyDB (List.replicate 32 0) [0, 1]
      = .ok (32, 3, emptyDB) := by
  refine ⟨fun h => ?_, rfl, rfl, rfl, rfl, rfl, rfl, rfl, rfl, rfl, rfl⟩
  have h1 := h params MSTORE emptyDB [] (List.replicate 32 0) [0, 1] [0, 1] 32 32 6 3
    emptyDB emptyDB rfl rfl rfl
  exact absurd h1 (by decide)

end Vm

namespace Vm
open OpCode

/-! ## Costs are not negative -/

theorem memoryFee_nonneg (P : Params) (mem : Memory) (n : Nat) : 0 ≤ (memoryFee P mem n).2 := by
  unfold memoryFee
  by_cases h0 : n > 0
  · simp only [if_pos h0]
    by_cases h1 : toWordSize n * 32 > mem.Len
    · simp only [if_pos h1]
      have hle : toWordSize mem.Len ≤ toWordSize n := by
        unfold toWordSize at h1 ⊢
        omega
      have h2 : toWordSize mem.Len * P.MemoryGas ≤ toWordSize n * P.MemoryGas :=
        Nat.mul_le_mul_right _ hle
      have h3 : toWordSize mem.Len ^ 2 / P.QuadCoeffDiv ≤ toWordSize n ^ 2 / P.QuadCoeffDiv :=
        Nat.div_le_div_right (Nat.pow_le_pow_left hle 2)
      have h4 : ((toWordSize mem.Len * P.MemoryGas + toWordSize mem.Len ^ 2 / P.QuadCoeffDiv
          : Nat) : Int) ≤ ((toWordSize n * P.MemoryGas + toWordSize n ^ 2 / P.QuadCoeffDiv
          : Nat) : Int) := by
        exact_mod_cast Nat.add_le_add h2 h3
      push_cast at h4 ⊢
      omega
    · simp only [if_neg h1]
      exact le_refl 0
  · simp only [if_neg h0]
    exact le_refl 0

theorem baseCheck_nonneg (P : Params) (op : OpCode) (st : stack) (g : Int)
    (h : baseCheck P op st = .ok g) : 0 ≤ g := by
  unfold baseCheck at h
  cases ht : P.baseCheckTable op with
  | none =>
    rw [ht] at h
    cases h
    exact le_refl 0
  | some r =>
    rw [ht] at h
    simp only [bind_ok_iff] at h
    obtain ⟨_, _, h⟩ := h
    split at h
    · cases h
    · cases h
      exact Int.natCast_nonneg _

theorem opGasAndSize_nonneg (P : Params) (op : OpCode) (db db1 : StateDB) (st : stack)
    (g c : Int) (n : Nat) (hg : 0 ≤ g)
    (h : opGasAndSize P op db st g = .ok (n, c, db1)) : 0 ≤ c := by
  revert h
  cases op <;> simp only [opGasAndSize, bind_ok_iff, pure_ok_iff, forall_exists_index, and_imp,
    Prod.mk.injEq]
  all_goals intros
  all_goals try (rename_i h; repeat' split at h)
  all_goals try simp only [bind_ok_iff, pure_ok_iff, forall_exists_index, and_imp, reduceCtorEq,
    false_and, exists_false, Except.ok.injEq, Prod.mk.injEq] at *
  all_goals subst_vars
  all_goals try positivity
  all_goals omega

theorem calc_nonneg (P : Params) (op : OpCode) (db db1 : StateDB) (mem : Memory) (st : stack)
    (nm : Nat) (cost : Int) (h : calculateGasAndSize P op db mem st = .ok (nm, cost, db1)) :
    0 ≤ cost := by
  obtain ⟨g, n, c, hb, ho, -, hc⟩ := calc_inv_full P op db db1 mem st nm cost h
  have h1 := opGasAndSize_nonneg P op db db1 st g c n (baseCheck_nonneg P op st g hb) ho
  have h2 := memoryFee_nonneg P mem n
  omega

theorem UseGas_le (g g1 : Nat) (c : Int) (hc : 0 ≤ c) (h : UseGas g c = some g1) : g1 ≤ g := by
  have := UseGas_some g c g1 h
  omega

/-! ## The cases of the segment discipline -/

theorem segmentPhase_close (s : State) (op : OpCode) (hd : isDynamic op = true) :
    segmentPhase false s op
      = .ok { (match s.csegment with
          | some cseg =>
            if cseg.cend = 0 then
              s.setSegment ⟨cseg.cstart, s.ppc, s.pc, cseg.gas,
                closeSsize s.stack.length cseg.ssize⟩
            else s
          | none => s) with csegment := none, nopay := 0 } := by
  simp [segmentPhase, hd]

theorem segmentPhase_keep (s : State) (op : OpCode) (hd : isDynamic op = false)
    (h : s.csegment ≠ none ∨ s.pc = 0) : segmentPhase false s op = .ok s := by
  rcases h with h | h
  · cases hc : s.csegment with
    | none => exact absurd hc h
    | some c => simp [segmentPhase, hd, hc]
  · simp [segmentPhase, hd, h]

theorem segmentPhase_open (s : State) (op : OpCode) (hd : isDynamic op = false)
    (hc : s.csegment = none) (hpc : s.pc ≠ 0) (hm : s.csegments s.pc = none) :
    segmentPhase false s op
      = .ok { (s.setSegment ⟨s.pc, 0, 0, 0, s.stack.length⟩) with nopay := 0 } := by
  simp [segmentPhase, hd, hc, hpc, hm]

theorem segmentPhase_replay (s : State) (op : OpCode) (seg : segment)
    (hd : isDynamic op = false) (hc : s.csegment = none) (hpc : s.pc ≠ 0)
    (hm : s.csegments s.pc = some seg) :
    segmentPhase false s op
      = match s.stack.require seg.ssize with
        | .error e => .error ({ s with nopay := seg.cend }, e)
        | .ok _ =>
          match UseGas s.Gas seg.gas with
          | none => .error ({ s with nopay := seg.cend, Gas := useAllGas s.Gas }, .OutOfGas)
          | some g => .ok { s with nopay := seg.cend, Gas := g, csegment := some seg } := by
  simp [segmentPhase, hd, hc, hpc, hm]

theorem segmentPhase_SegGasInv (d : Bool) (s : State) (op : OpCode) (h : SegGasInv s) :
    match segmentPhase d s op with
    | .ok s1 => SegGasInv s1 ∧ s1.Gas ≤ s.Gas
    | .error (s1, _) => SegGasInv s1 ∧ s1.Gas ≤ s.Gas := by
  cases d
  · cases hdyn : isDynamic op
    · cases hcs : s.csegment with
      | none =>
        by_cases hpc : s.pc = 0
        · rw [segmentPhase_keep s op hdyn (Or.inr hpc)]
          exact ⟨h, le_refl _⟩
        · cases hseg : s.csegments s.pc with
          | none =>
            rw [segmentPhase_open s op hdyn hcs hpc hseg]
            refine ⟨⟨fun k seg hk => ?_, fun c hc => ?_⟩, le_refl _⟩
            · by_cases hk2 : k = s.pc
              · simp [State.setSegment, hk2] at hk
                rw [← hk]
              · simp [State.setSegment, hk2] at hk
                exact h.1 k seg hk
            · simp [State.setSegment] at hc
              rw [← hc]
          | some seg0 =>
            have h0 := h.1 _ _ hseg
            rw [segmentPhase_replay s op seg0 hdyn hcs hpc hseg]
            cases hreq : s.stack.require seg0.ssize with
            | error e => exact ⟨h, le_refl _⟩
            | ok u =>
              cases hu : UseGas s.Gas seg0.gas with
              | none =>
                refine ⟨h, ?_⟩
                show useAllGas s.Gas ≤ s.Gas
                rw [useAllGas_eq]
                exact Nat.zero_le _
              | some g =>
                refine ⟨⟨h.1, fun c hc => ?_⟩, UseGas_le _ _ _ h0 hu⟩
                have hc2 : some seg0 = some c := hc
                cases hc2
                exact h0
      | some cseg =>
        rw [segmentPhase_keep s op hdyn (Or.inl (by rw [hcs]; intro hh; cases hh))]
        exact ⟨h, le_refl _⟩
    · rw [segmentPhase_close s op hdyn]
      cases hcs : s.csegment with
      | none =>
        exact ⟨⟨h.1, fun c hc => by cases hc⟩, le_refl _⟩
      | some cseg =>
        have h0 := h.2 cseg hcs
        by_cases hce : cseg.cend = 0
        · simp only [hce, if_true]
          refine ⟨⟨fun k seg hk => ?_, fun c hc => by cases hc⟩, le_refl _⟩
          by_cases hk2 : k = cseg.cstart
          · simp [State.setSegment, hk2] at hk
            rw [← hk]
            exact h0
          · simp [State.setSegment, hk2] at hk
            exact h.1 k seg hk
        · simp only [hce, if_false]
          exact ⟨⟨h.1, fun c hc => by cases hc⟩, le_refl _⟩
  · rw [segmentPhase_disabled]
    exact ⟨h, le_refl _⟩

theorem pricePhase_SegGasInv (P : Params) (d : Bool) (s : State) (op : OpCode)
    (h : SegGasInv s) :
    match pricePhase P d s op with
    | .ok s3 => SegGasInv s3 ∧ s3.Gas ≤ s.Gas
    | .error (s3, _) => SegGasInv s3 ∧ s3.Gas ≤ s.Gas := by
  by_cases hp : s.pc > s.nopay ∨ s.pc = 0 ∨ d = true
  · cases hcalc : calculateGasAndSize P op s.statedb s.mem s.stack with
    | error e =>
      have hv : pricePhase P d s op = .error (s, e) := by
        simp only [pricePhase, if_pos hp, hcalc]
      rw [hv]
      exact ⟨h, le_refl _⟩
    | ok r =>
      obtain ⟨newMemSize, cost, db⟩ := r
      have hcost := calc_nonneg P op s.statedb db s.mem s.stack newMemSize cost hcalc
      cases hcs : s.csegment with
      | none =>
        cases hu : UseGas s.Gas cost with
        | none =>
          have hv : pricePhase P d s op
              = .error ({ s with statedb := db, Gas := useAllGas s.Gas }, .OutOfGas) := by
            simp only [pricePhase, if_pos hp, hcalc, hcs, hu]
          rw [hv]
          refine ⟨h, ?_⟩
          show useAllGas s.Gas ≤ s.Gas
          rw [useAllGas_eq]
          exact Nat.zero_le _
        | some g =>
          have hv : pricePhase P d s op
              = .ok { s with statedb := db, Gas := g, mem := s.mem.Resize (Uint64 newMemSize) } := by
            simp only [pricePhase, if_pos hp, hcalc, hcs, hu]
          rw [hv]
          exact ⟨h, UseGas_le _ _ _ hcost hu⟩
      | some cseg =>
        have h0 := h.2 cseg hcs
        have hi : SegGasInv (({ s with statedb := db } : State).setSegment
            { cseg with gas := cseg.gas + cost }) := by
          refine ⟨fun k seg hk => ?_, fun c hc => ?_⟩
          · by_cases hk2 : k = cseg.cstart
            · simp [State.setSegment, hk2] at hk
              rw [← hk]
              show 0 ≤ cseg.gas + cost
              omega
            · simp [State.setSegment, hk2] at hk
              exact h.1 k seg hk
          · simp [State.setSegment] at hc
            rw [← hc]
            show 0 ≤ cseg.gas + cost
            omega
        cases hu : UseGas s.Gas cost with
        | none =>
          have hv : pricePhase P d s op
              = .error ({ ({ s with statedb := db } : State).setSegment
                    { cseg with gas := cseg.gas + cost } with Gas := useAllGas s.Gas },
                  .OutOfGas) := by
            simp only [pricePhase, if_pos hp, hcalc, hcs, hu, State.setSegment]
          rw [hv]
          refine ⟨hi, ?_⟩
          show useAllGas s.Gas ≤ s.Gas
          rw [useAllGas_eq]
          exact Nat.zero_le _
        | some g =>
          have hv : pricePhase P d s op
              = .ok { ({ s with statedb := db } : State).setSegment
                    { cseg with gas := cseg.gas + cost } with
                  Gas := g, mem := s.mem.Resize (Uint64 newMemSize) } := by
            simp only [pricePhase, if_pos hp, hcalc, hcs, hu, State.setSegment]
          rw [hv]
          exact ⟨hi, UseGas_le _ _ _ hcost hu⟩
  · have hv : pricePhase P d s op = .ok s := by
      simp only [pricePhase, if_neg hp]
    rw [hv]
    exact ⟨h, le_refl _⟩

set_option maxHeartbeats 1000000 in
theorem execOp_gas_nohost (P : Params) (env : Environment) (ctx : Context) (input : List Nat)
    (s : State) (op : OpCode) (r : Exec) (hc : isHostCall op = false)
    (h : execOp P env ctx input s op = .ok r) : r.state.Gas = s.Gas := by
  revert h
  cases op <;> simp only [execOp, bind_ok_iff, pure_ok_iff, forall_exists_index, and_imp]
  case CREATE => simp [isHostCall] at hc
  case CALL => simp [isHostCall] at hc
  case CALLCODE => simp [isHostCall] at hc
  case JUMP =>
    intro x _ s1 hj hr
    subst hr
    simp [Exec.state, (jump_ok _ _ _ _ hj).1]
  all_goals try (intros; subst_vars; rfl)
  all_goals intros
  all_goals rename_i h
  all_goals try simp only [jump] at h
  all_goals repeat' split at h
  all_goals try simp only [bind_ok_iff, pure_ok_iff, forall_exists_index, and_imp, reduceCtorEq,
    false_and, exists_false, Except.ok.injEq] at h
  all_goals try (obtain ⟨_, _, h⟩ := h)
  all_goals (subst_vars; simp [Exec.state])

/-- C32: whenever `calculateGasAndSize` succeeds the cost it returns is not
negative, and neither is the memory fee. In a state whose recorded segments
hold no negative gas, an iteration of the loop leaves such a state, and when
its opcode is none of CALL, CALLCODE and CREATE the frame's gas after the
iteration, however it ends, is at most the gas before it. -/
theorem cost_nonneg_and_gas_decreases (P : Params) (env : Environment) (ctx : Context)
    (input : List Nat) (d : Bool) (s : State) (hinv : SegGasInv s) :
    (∀ (op : OpCode) (db db1 : StateDB) (mem : Memory) (st : stack) (nm : Nat) (cost : Int),
      calculateGasAndSize P op db mem st = .ok (nm, cost, db1) → 0 ≤ cost) ∧
    (∀ (mem : Memory) (n : Nat), 0 ≤ (memoryFee P mem n).2) ∧
    SegGasInv (step P env ctx input d s).state ∧
    (isHostCall (GetOp ctx.Code s.pc) = false →
      (step P env ctx input d s).state.Gas ≤ s.Gas) := by
  refine ⟨fun op db db1 mem st nm cost h => calc_nonneg P op db db1 mem st nm cost h,
    memoryFee_nonneg P, ?_⟩
  have hseg := segmentPhase_SegGasInv d s (GetOp ctx.Code s.pc) hinv
  cases hsp : segmentPhase d s (GetOp ctx.Code s.pc) with
  | error p =>
    obtain ⟨s1, e⟩ := p
    rw [hsp] at hseg
    have hv : step P env ctx input d s = .fail s1 e := by
      simp only [step, hsp]
    rw [hv]
    exact ⟨hseg.1, fun _ => hseg.2⟩
  | ok s1 =>
    rw [hsp] at hseg
    obtain ⟨hi1, hg1⟩ := hseg
    have hi2 : SegGasInv { s1 with ppc := s1.pc } := hi1
    have hpr := pricePhase_SegGasInv P d { s1 with ppc := s1.pc } (GetOp ctx.Code s.pc) hi2
    cases hpp : pricePhase P d { s1 with ppc := s1.pc } (GetOp ctx.Code s.pc) with
    | error p =>
      obtain ⟨s3, e⟩ := p
      rw [hpp] at hpr
      have hv : step P env ctx input d s = .fail s3 e := by
        simp only [step, hsp, hpp]
      rw [hv]
      exact ⟨hpr.1, fun _ => le_trans hpr.2 hg1⟩
    | ok s3 =>
      rw [hpp] at hpr
      obtain ⟨hi3, hg3⟩ := hpr
      have hg3' : s3.Gas ≤ s.Gas := le_trans hg3 hg1
      cases hex : execOp P env ctx input s3 (GetOp ctx.Code s.pc) with
      | error e =>
        have hv : step P env ctx input d s = .fail (s3.popped (GetOp ctx.Code s.pc)) e := by
          simp only [step, hsp, hpp, hex]
        rw [hv]
        exact ⟨hi3, fun _ => hg3'⟩
      | ok r =>
        have hv : step P env ctx input d s = r.toStep := by
          simp only [step, hsp, hpp, hex]
        rw [hv]
        obtain ⟨e1, e2, -⟩ := execOp_segments P env ctx input s3 _ r hex
        have hst : r.toStep.state.csegment = r.state.csegment
            ∧ r.toStep.state.csegments = r.state.csegments := by
          cases r <;> exact ⟨rfl, rfl⟩
        refine ⟨⟨fun k seg hk => ?_, fun c hc => ?_⟩, fun hh => ?_⟩
        · rw [hst.2, e2] at hk
          exact hi3.1 k seg hk
        · rw [hst.1, e1] at hc
          exact hi3.2 c hc
        · rw [toStep_state, execOp_gas_nohost P env ctx input s3 _ r hh hex]
          exact hg3'

/-- Witness for C32: the iteration of `expandProgram` that prices the second
MSTORE (cost 98) takes the gas from 982 to 884. -/
theorem cost_nonneg_and_gas_decreases_witness :
    ∃ s s1, steps params idleEnv (frame expandProgram) [] true 5
        (initState 1000 emptyDB noSegments) = some s ∧
      step params idleEnv (frame expandProgram) [] true s = .next s1 ∧
      s.pc = 10 ∧ s.Gas = 982 ∧ s1.Gas = 884 ∧
      (step params idleEnv (frame expandProgram) [] true s).state.Gas ≤ s.Gas :=
  ⟨_, _, rfl, rfl, rfl, rfl, rfl,
    (cost_nonneg_and_gas_decreases params idleEnv (frame expandProgram) [] true _
      ⟨fun k seg hk => (by cases hk), fun c hc => (by cases hc)⟩).2.2.2 rfl⟩

end Vm

namespace Vm
open OpCode

/-! ## The gas of CREATE -/

/-- C40: in an iteration whose opcode is CREATE, with its three operands on
the stack (the input range fitting a signed 64-bit number), when the cost of
the CREATE is covered by the frame's gas and `g` is the gas left after paying
it: the host's creation is called with the gas `g` and with a frame that holds
no gas, and after the iteration the frame holds the gas the host's call left
in it, less `len(ret) * CreateDataGas` when the creation succeeded and that
gas covers it. -/
theorem create_hands_over_all_gas (P : Params) (env : Environment) (ctx : Context)
    (input : List Nat) (d : Bool) (s : State) (value offset size : Nat) (rest : stack)
    (nm : Nat) (cost : Int) (db : StateDB) (g : Nat) (r : CreateResult)
    (hop : GetOp ctx.Code s.pc = CREATE)
    (hs : s.stack = value :: offset :: size :: rest)
    (hin : offset < 2 ^ 63) (hsz : size < 2 ^ 63)
    (hc : calculateGasAndSize P CREATE s.statedb s.mem s.stack = .ok (nm, cost, db))
    (hg : (g : Int) = (s.Gas : Int) - cost)
    (hr : r = env.Create s.statedb 0 (getData (s.mem.Resize (Uint64 nm)) offset size) g
      ctx.Price value) :
    ∃ s1, step P env ctx input d s = .next s1 ∧
      s1.stack = (if r.failed = true then 0 else r.addr) :: rest ∧
      (s1.Gas : Int) =
        (if r.failed = true then (r.gas : Int)
         else if (r.ret.length : Int) * P.CreateDataGas ≤ r.gas
           then (r.gas : Int) - (r.ret.length : Int) * P.CreateDataGas
           else (r.gas : Int)) := by
  have hdb : db = s.statedb := by
    obtain ⟨g0, n, c, -, ho⟩ := calc_inv P CREATE s.statedb db s.mem s.stack nm cost hc
    exact opGasAndSize_other P CREATE s.statedb db s.stack g0 c n (by intro h; cases h)
      (by intro h; cases h) ho
  subst hdb
  obtain ⟨s1, h1, hg1, hst1, hm1, hdb1, hpc1, hp1⟩ := segmentPhase_dynamic d s CREATE rfl
  have hu : UseGas s.Gas cost = some g := by
    unfold UseGas
    rw [if_neg (by omega), ← hg]
    rfl
  obtain ⟨s3, h2, hg3, hm3, hst3, hpc3, hdb3⟩ :=
    pricePhase_ok P d { s1 with ppc := s1.pc } CREATE nm cost s.statedb g hp1
      (by simp only [hdb1, hm1, hst1]; exact hc) (by simp only [hg1]; exact hu)
  simp only at hm3 hst3 hdb3
  rw [hm1] at hm3
  have hex := execOp_CREATE P env ctx input s3 value offset size rest
    (hst3.trans (hst1.trans hs)) hin hsz
  rw [hdb3, hm3, hg3, ← hr] at hex
  rw [← hop] at h1 h2 hex
  cases hf : r.failed
  · rw [hf] at hex
    simp only [Bool.false_eq_true, if_false] at hex ⊢
    by_cases hle : (r.ret.length : Int) * P.CreateDataGas ≤ r.gas
    · have hu2 : UseGas r.gas ((r.ret.length : Int) * P.CreateDataGas)
          = some ((r.gas : Int) - (r.ret.length : Int) * P.CreateDataGas).toNat := by
        unfold UseGas
        rw [if_neg (by omega)]
      rw [hu2] at hex
      refine ⟨_, step_of_phases P env ctx input d s s1 s3 _ h1 h2 hex, rfl, ?_⟩
      rw [if_pos hle]
      show ((((r.gas : Int) - (r.ret.length : Int) * P.CreateDataGas).toNat : Nat) : Int) = _
      omega
    · have hu2 : UseGas r.gas ((r.ret.length : Int) * P.CreateDataGas) = none := by
        unfold UseGas
        rw [if_pos (by omega)]
      rw [hu2] at hex
      refine ⟨_, step_of_phases P env ctx input d s s1 s3 _ h1 h2 hex, rfl, ?_⟩
      rw [if_neg hle]
  · rw [hf] at hex
    simp only [if_true] at hex ⊢
    exact ⟨_, step_of_phases P env ctx input d s s1 s3 _ h1 h2 hex, rfl, rfl⟩

/-- Witness for C40: `createProgram` started with 40991 gas reaches its CREATE
with 40982 gas; the CREATE costs 32000 with the constants `params`, the host is
handed the 8982 left, gives 4491 back, and the frame keeps 4091 after the 400
gas for the two bytes of code. -/
theorem create_hands_over_all_gas_witness :
    (∃ s1, step params halfEnv (frame createProgram) [] true
          ⟨6, 4, 0, [0, 0, 0], [], 40982, emptyDB, none, noSegments⟩ = .next s1 ∧
        s1.stack = (if (halfEnv.Create emptyDB 0 [] 8982 0 0).failed = true then 0
          else (halfEnv.Create emptyDB 0 [] 8982 0 0).addr) :: [] ∧
        (s1.Gas : Int) =
          (if (halfEnv.Create emptyDB 0 [] 8982 0 0).failed = true
            then ((halfEnv.Create emptyDB 0 [] 8982 0 0).gas : Int)
           else if (((halfEnv.Create emptyDB 0 [] 8982 0 0).ret.length : Int)
                * params.CreateDataGas ≤ (halfEnv.Create emptyDB 0 [] 8982 0 0).gas)
             then ((halfEnv.Create emptyDB 0 [] 8982 0 0).gas : Int)
               - ((halfEnv.Create emptyDB 0 [] 8982 0 0).ret.length : Int)
                 * params.CreateDataGas
             else ((halfEnv.Create emptyDB 0 [] 8982 0 0).gas : Int))) ∧
    steps params halfEnv (frame createProgram) [] true 3 (initState 40991 emptyDB noSegments)
      = some ⟨6, 4, 0, [0, 0, 0], [], 40982, emptyDB, none, noSegments⟩ ∧
    (halfEnv.Create emptyDB 0 [] 8982 0 0).gas = 4491 ∧
    (step params halfEnv (frame createProgram) [] true
      ⟨6, 4, 0, [0, 0, 0], [], 40982, emptyDB, none, noSegments⟩).state.Gas = 4091 :=
  ⟨create_hands_over_all_gas params halfEnv (frame createProgram) [] true
      ⟨6, 4, 0, [0, 0, 0], [], 40982, emptyDB, none, noSegments⟩ 0 0 0 [] 0 32000 emptyDB 8982
      (halfEnv.Create emptyDB 0 [] 8982 0 0) rfl rfl (by norm_num) (by norm_num) rfl rfl rfl,
    rfl, rfl, rfl⟩

end Vm

namespace Vm
open OpCode

/-! ## The memory holds whole words -/

theorem Resize_words (m : Memory) (n : Nat) (hm : 32 ∣ m.length) (hn : 32 ∣ n) :
    32 ∣ (Memory.Resize m n).length := by
  unfold Memory.Resize
  split
  · rw [List.length_append, List.length_replicate]
    have : m.length + (n - m.length) = n := by omega
    rw [this]
    exact hn
  · exact hm

theorem Set_words (m : Memory) (o sz : Nat) (v : List Nat) (hm : 32 ∣ m.length) :
    32 ∣ (Memory.Set m o sz v).length := by
  unfold Memory.Set
  split
  · exact hm
  · have h1 := Resize_words m ((o + sz + 31) / 32 * 32) hm (Dvd.intro_left _ rfl)
    have h2 := Resize_length_ge m ((o + sz + 31) / 32 * 32)
    have h3 : ((List.take o (Memory.Resize m ((o + sz + 31) / 32 * 32))
        ++ List.take sz (RightPadBytes v sz)
        ++ List.drop (o + sz) (Memory.Resize m ((o + sz + 31) / 32 * 32))).length)
        = (Memory.Resize m ((o + sz + 31) / 32 * 32)).length := by
      simp only [List.length_append, List.length_take, List.length_drop, RightPadBytes,
        List.length_replicate]
      omega
    rw [h3]
    exact h1

theorem Uint64_words (n : Nat) (h : 32 ∣ n) : 32 ∣ Uint64 n := by
  unfold Uint64
  have h64 : (32 : Nat) ∣ 2 ^ 64 := ⟨2 ^ 59, by norm_num⟩
  exact (Nat.dvd_mod_iff h64).mpr h

set_option maxHeartbeats 1000000 in
theorem execOp_words (P : Params) (env : Environment) (ctx : Context) (input : List Nat)
    (s : State) (op : OpCode) (r : Exec) (hm : 32 ∣ s.mem.length)
    (h : execOp P env ctx input s op = .ok r) : 32 ∣ r.state.mem.length := by
  revert h
  cases op <;> simp only [execOp, bind_ok_iff, pure_ok_iff, forall_exists_index, and_imp]
  case JUMP =>
    intro x _ s1 hj hr
    subst hr
    simp [Exec.state, (jump_ok _ _ _ _ hj).1, hm]
  all_goals try (intros; subst_vars; exact hm)
  all_goals intros
  all_goals rename_i h
  all_goals try simp only [jump] at h
  all_goals repeat' split at h
  all_goals try simp only [bind_ok_iff, pure_ok_iff, forall_exists_index, and_imp, reduceCtorEq,
    false_and, exists_false, Except.ok.injEq] at h
  all_goals try (obtain ⟨_, _, h⟩ := h)
  all_goals (subst_vars; simp [Exec.state, Set_words, hm])

theorem pricePhase_words (P : Params) (d : Bool) (s : State) (op : OpCode)
    (hm : 32 ∣ s.mem.length) :
    match pricePhase P d s op with
    | .ok s3 => 32 ∣ s3.mem.length
    | .error (s3, _) => 32 ∣ s3.mem.length := by
  have h1 := pricePhase_mem P d s op
  cases hp : pricePhase P d s op with
  | error v =>
    obtain ⟨s3, e⟩ := v
    rw [hp] at h1
    simp only at h1 ⊢
    rw [h1]
    exact hm
  | ok s3 =>
    simp only
    by_cases hc : s.pc > s.nopay ∨ s.pc = 0 ∨ d = true
    · obtain ⟨nm, c, db, hcalc, -, hmem, -⟩ := pricePhase_priced P d s s3 op hc hp
      rw [hmem]
      exact Resize_words _ _ hm
        (Uint64_words nm (calculateGasAndSize_words P op _ _ _ nm c db hcalc))
    · have hv : pricePhase P d s op = .ok s := by
        simp only [pricePhase, if_neg hc]
      rw [hv] at hp
      cases hp
      exact hm

theorem step_words (P : Params) (env : Environment) (ctx : Context) (input : List Nat)
    (d : Bool) (s : State) (hm : 32 ∣ s.mem.length) :
    32 ∣ (step P env ctx input d s).state.mem.length := by
  have h1 := segmentPhase_mem d s (GetOp ctx.Code s.pc)
  cases hsp : segmentPhase d s (GetOp ctx.Code s.pc) with
  | error p =>
    obtain ⟨s1, e⟩ := p
    rw [hsp] at h1
    have hv : step P env ctx input d s = .fail s1 e := by
      simp only [step, hsp]
    rw [hv]
    show 32 ∣ s1.mem.length
    rw [h1]
    exact hm
  | ok s1 =>
    rw [hsp] at h1
    simp only at h1
    have hm1 : 32 ∣ ({ s1 with ppc := s1.pc } : State).mem.length := by
      show 32 ∣ s1.mem.length
      rw [h1]
      exact hm
    have h2 := pricePhase_words P d { s1 with ppc := s1.pc } (GetOp ctx.Code s.pc) hm1
    cases hpp : pricePhase P d { s1 with ppc := s1.pc } (GetOp ctx.Code s.pc) with
    | error p =>
      obtain ⟨s3, e⟩ := p
      rw [hpp] at h2
      have hv : step P env ctx input d s = .fail s3 e := by
        simp only [step, hsp, hpp]
      rw [hv]
      exact h2
    | ok s3 =>
      rw [hpp] at h2
      cases hex : execOp P env ctx input s3 (GetOp ctx.Code s.pc) with
      | error e =>
        have hv : step P env ctx input d s = .fail (s3.popped (GetOp ctx.Code s.pc)) e := by
          simp only [step, hsp, hpp, hex]
        rw [hv]
        exact h2
      | ok r =>
        have hv : step P env ctx input d s = r.toStep := by
          simp only [step, hsp, hpp, hex]
        rw [hv, toStep_mem]
        exact execOp_words P env ctx input s3 _ r h2 hex

theorem steps_words (P : Params) (env : Environment) (ctx : Context) (input : List Nat)
    (d : Bool) (n : Nat) : ∀ (s s1 : State), 32 ∣ s.mem.length →
    steps P env ctx input d n s = some s1 → 32 ∣ s1.mem.length := by
  induction n with
  | zero =>
    intro s s1 hm h
    simp only [steps, Option.some.injEq] at h
    rw [← h]
    exact hm
  | succ n ih =>
    intro s s1 hm h
    have hs := step_words P env ctx input d s hm
    simp only [steps] at h
    cases hst : step P env ctx input d s with
    | next s2 =>
      rw [hst] at h hs
      exact ih s2 s1 hs h
    | done s2 ret => rw [hst] at h; cases h
    | fail s2 e => rw [hst] at h; cases h

theorem loop_words (P : Params) (env : Environment) (ctx : Context) (input : List Nat)
    (d : Bool) (fuel : Nat) : ∀ (s : State) (st : Step), 32 ∣ s.mem.length →
    loop P env ctx input d fuel s = some st → 32 ∣ st.state.mem.length := by
  induction fuel with
  | zero => intro s st _ h; simp [loop] at h
  | succ n ih =>
    intro s st hm h
    have hs := step_words P env ctx input d s hm
    simp only [loop] at h
    cases hst : step P env ctx input d s with
    | next s2 =>
      rw [hst] at h hs
      exact ih s2 st hs h
    | done s2 ret =>
      rw [hst] at h hs
      simp only [Option.some.injEq] at h
      rw [← h]
      exact hs
    | fail s2 e =>
      rw [hst] at h hs
      simp only [Option.some.injEq] at h
      rw [← h]
      exact hs

/-- C38: the memory of a run holds whole words. An iteration of the loop that
starts with a memory length that is a multiple of 32 ends, however it ends,
with such a length; so every state reached from the state in which `Run`
enters the loop, and the state in which the loop is left, has a memory length
that is a multiple of 32. In such a state MSIZE pushes a multiple of 32, and
the size that the pricing block passes to `Resize` is a multiple of 32. -/
theorem memory_length_whole_words (P : Params) (env : Environment) (ctx : Context)
    (input : List Nat) (d : Bool) :
    (∀ s : State, 32 ∣ s.mem.length → 32 ∣ (step P env ctx input d s).state.mem.length) ∧
    (∀ (n gas : Nat) (db : StateDB) (cs : codeSegments) (s : State),
      steps P env ctx input d n (initState gas db cs) = some s → 32 ∣ s.mem.length) ∧
    (∀ (fuel gas : Nat) (db : StateDB) (cs : codeSegments) (st : Step),
      loop P env ctx input d fuel (initState gas db cs) = some st →
      32 ∣ st.state.mem.length) ∧
    (∀ s : State, 32 ∣ s.mem.length →
      ∃ k, execOp P env ctx input s MSIZE = .ok (.advance { s with stack := 32 * k :: s.stack })) ∧
    (∀ (s s3 : State) (op : OpCode), (s.pc > s.nopay ∨ s.pc = 0 ∨ d = true) →
      pricePhase P d s op = .ok s3 →
      ∃ nm c db, calculateGasAndSize P op s.statedb s.mem s.stack = .ok (nm, c, db) ∧
        s3.mem = s.mem.Resize (Uint64 nm) ∧ 32 ∣ Uint64 nm) := by
  refine ⟨step_words P env ctx input d, ?_, ?_, ?_, ?_⟩
  · intro n gas db cs s h
    exact steps_words P env ctx input d n (initState gas db cs) s (dvd_zero 32) h
  · intro fuel gas db cs st h
    exact loop_words P env ctx input d fuel (initState gas db cs) st (dvd_zero 32) h
  · intro s hm
    obtain ⟨k, hk⟩ := hm
    refine ⟨k, ?_⟩
    show Except.ok (Exec.advance { s with stack := s.mem.length :: s.stack }) = _
    rw [hk]
  · intro s s3 op hp h
    obtain ⟨nm, c, db, hc, -, hm, -⟩ := pricePhase_priced P d s s3 op hp h
    exact ⟨nm, c, db, hc, hm, Uint64_words nm (calculateGasAndSize_words P op _ _ _ nm c db hc)⟩

/-- Witness for C38: after the first three opcodes of `expandProgram`, the
last of which is the MSTORE at offset 0, the memory holds 32 bytes. -/
theorem memory_length_whole_words_witness :
    ∃ s, steps params idleEnv (frame expandProgram) [] true 3
        (initState 1000 emptyDB noSegments) = some s ∧ s.pc = 5 ∧ s.mem.length = 32 ∧
      32 ∣ s.mem.length :=
  ⟨_, rfl, rfl, rfl,
    (memory_length_whole_words params idleEnv (frame expandProgram) [] true).2.1 3 1000 emptyDB
      noSegments _ rfl⟩

end Vm

namespace Vm
open OpCode

/-! ## A store followed by a load -/

theorem Bytes_length_le (v : Nat) (h : v < 2 ^ 256) : (Bytes v).length ≤ 32 := by
  have h1 : byteLen v = Nat.clog 256 (v + 1) := byteLen_eq_clog v
  unfold byteLen at h1
  rw [h1]
  have h2 : v + 1 ≤ 256 ^ 32 := by
    have : (256 : Nat) ^ 32 = 2 ^ 256 := by norm_num
    omega
  exact (Nat.le_pow_iff_clog_le (by norm_num)).mp h2

theorem Bytes2Big_zeros (k : Nat) (bs : List Nat) :
    Bytes2Big (List.replicate k 0 ++ bs) = Bytes2Big bs := by
  unfold Bytes2Big
  induction k with
  | zero => rfl
  | succ n ih =>
    rw [List.replicate_succ, List.cons_append, List.foldl_cons]
    exact ih

theorem Bytes2Big_Bytes (v : Nat) : Bytes2Big (Bytes v) = v := by
  rw [Bytes2Big_eq_ofDigits, Bytes_eq_digits, List.reverse_reverse, Nat.ofDigits_digits]

theorem Bytes2Big_LeftPadBytes (v l : Nat) : Bytes2Big (LeftPadBytes (Bytes v) l) = v := by
  unfold LeftPadBytes
  rw [Bytes2Big_zeros, Bytes2Big_Bytes]

theorem LeftPadBytes_length (v : Nat) (h : v < 2 ^ 256) :
    (LeftPadBytes (Bytes v) 32).length = 32 := by
  have := Bytes_length_le v h
  unfold LeftPadBytes
  rw [List.length_append, List.length_replicate]
  omega

theorem getData_of_getD (m : List Nat) (o : Nat) (l : List Nat)
    (h : ∀ i, i < l.length → m.getD (o + i) 0 = l.getD i 0) : getData m o l.length = l := by
  unfold getData
  apply List.ext_getElem
  · simp
  · intro i h1 h2
    simp only [List.getElem_map, List.getElem_range]
    rw [h i h2, List.getD_eq_getElem _ _ h2]

theorem GetPtr_word (m : Memory) (o : Nat) (ho : o < 2 ^ 63) :
    m.GetPtr (Int64 o) 32 = .ok (getData m o 32) := by
  unfold Memory.GetPtr Memory.Get
  rw [Int64_of_lt o ho, if_neg (by omega)]
  rfl

theorem execOp_MSTORE (P : Params) (env : Environment) (ctx : Context) (input : List Nat)
    (s : State) (o v : Nat) (rest : stack) (hs : s.stack = o :: v :: rest) :
    execOp P env ctx input s MSTORE
      = .ok (.advance { s with
          stack := rest, mem := s.mem.Set (Uint64 o) 32 (LeftPadBytes (Bytes v) 32) }) := by
  show (s.stack.pop >>= fun x => _) = _
  rw [hs]
  rfl

theorem execOp_MLOAD (P : Params) (env : Environment) (ctx : Context) (input : List Nat)
    (s : State) (o : Nat) (rest : stack) (hs : s.stack = o :: rest) :
    execOp P env ctx input s MLOAD
      = (s.mem.GetPtr (Int64 o) 32 >>= fun val =>
          pure (.advance { s with stack := Bytes2Big val :: rest })) := by
  show (s.stack.pop >>= fun x => _) = _
  rw [hs]
  rfl

theorem pricePhase_word (P : Params) (s s1 : State) (op : OpCode) (o : Nat) (rest : stack)
    (hop : op = MSTORE ∨ op = MLOAD) (hs : s.stack = o :: rest) (ho : o < 2 ^ 63)
    (hp : pricePhase P true s op = .ok s1) :
    s1.stack = s.stack ∧ o + 32 ≤ s1.mem.length ∧ s.mem.length ≤ s1.mem.length ∧
    ∀ j, s1.mem.getD j 0 = s.mem.getD j 0 := by
  obtain ⟨nm, cost, db, hc, -, hm, hst, -⟩ :=
    pricePhase_priced P true s s1 op (Or.inr (Or.inr rfl)) hp
  obtain ⟨g, n, c, -, hog, hnm, -⟩ := calc_inv_full P op _ _ _ _ _ _ hc
  have hn : n = o + 32 := by
    rw [hs] at hog
    rcases hop with h | h
    · subst h
      have : opGasAndSize P MSTORE s.statedb (o :: rest) g = .ok (o + 32, g, s.statedb) := rfl
      rw [this] at hog
      simp only [Except.ok.injEq, Prod.mk.injEq] at hog
      exact hog.1.symm
    · subst h
      have : opGasAndSize P MLOAD s.statedb (o :: rest) g = .ok (o + 32, g, s.statedb) := rfl
      rw [this] at hog
      simp only [Except.ok.injEq, Prod.mk.injEq] at hog
      exact hog.1.symm
  have hb := memoryFee_fst_bounds P s.mem n
  rw [← hnm, hn] at hb
  have hu : Uint64 nm = nm := Uint64_of_lt nm (by omega)
  rw [hu] at hm
  refine ⟨hst, ?_, ?_, fun j => ?_⟩
  · rw [hm]
    exact le_trans hb.1 (Resize_length_ge _ _)
  · rw [hm]
    exact Resize_length _ _
  · rw [hm, Resize_getD]

/-- C39 (as amended): with segmentation disabled, for an offset `o` below
`2^63` and a word `v`: when the pricing of MSTORE succeeds on the stack
`o :: v :: rest`, the MSTORE leaves a memory that holds the 32 bytes of `v`
(most significant first) at `o`, in which every byte outside `[o, o + 32)` is
as before (a byte past the old end being 0) and which is not shorter; and when
after it the pricing of MLOAD succeeds on that memory and the stack
`o :: rest2`, the MLOAD pushes `v`, and pricing and opcode leave every byte of
the memory as it was. -/
theorem mstore_mload_roundtrip (P : Params) (env : Environment) (ctx : Context)
    (input : List Nat) (s s1 : State) (o v : Nat) (rest : stack)
    (ho : o < 2 ^ 63) (hv : v < 2 ^ 256)
    (hs : s.stack = o :: v :: rest)
    (hp : pricePhase P true s MSTORE = .ok s1) :
    ∃ s2, execOp P env ctx input s1 MSTORE = .ok (.advance s2) ∧ s2.stack = rest ∧
      s.mem.length ≤ s2.mem.length ∧
      (∀ i, i < 32 → s2.mem.getD (o + i) 0 = (LeftPadBytes (Bytes v) 32).getD i 0) ∧
      Bytes2Big (LeftPadBytes (Bytes v) 32) = v ∧
      (∀ j, j < o ∨ o + 32 ≤ j → s2.mem.getD j 0 = s.mem.getD j 0) ∧
      (∀ (t t1 : State) (rest2 : stack), t.mem = s2.mem → t.stack = o :: rest2 →
        pricePhase P true t MLOAD = .ok t1 →
        execOp P env ctx input t1 MLOAD = .ok (.advance { t1 with stack := v :: rest2 }) ∧
        t.mem.length ≤ t1.mem.length ∧ ∀ j, t1.mem.getD j 0 = t.mem.getD j 0) := by
  obtain ⟨hst1, hlen1, hle1, hget1⟩ :=
    pricePhase_word P s s1 MSTORE o (v :: rest) (Or.inl rfl) hs ho hp
  have hex := execOp_MSTORE P env ctx input s1 o v rest (hst1.trans hs)
  rw [Uint64_of_lt o (by omega)] at hex
  have hbytes : ∀ i, i < 32 →
      (s1.mem.Set o 32 (LeftPadBytes (Bytes v) 32)).getD (o + i) 0
        = (LeftPadBytes (Bytes v) 32).getD i 0 := by
    intro i hi
    rw [Set_getD, if_pos ⟨by omega, by omega⟩]
    congr 1
    omega
  refine ⟨_, hex, rfl, le_trans hle1 (Set_length s1.mem o 32 (LeftPadBytes (Bytes v) 32)), hbytes,
    Bytes2Big_LeftPadBytes v 32, fun j hj => ?_, fun t t1 rest2 hmem hst hpt => ?_⟩
  · show (s1.mem.Set o 32 (LeftPadBytes (Bytes v) 32)).getD j 0 = _
    rw [Set_getD, if_neg (by omega), hget1]
  · obtain ⟨hst2, hlen2, hle2, hget2⟩ :=
      pricePhase_word P t t1 MLOAD o rest2 (Or.inr rfl) hst ho hpt
    have hl := LeftPadBytes_length v hv
    have hdata : getData t1.mem o 32 = LeftPadBytes (Bytes v) 32 := by
      have := getData_of_getD t1.mem o (LeftPadBytes (Bytes v) 32) (fun i hi => by
        rw [hget2, hmem]
        exact hbytes i (by omega))
      rw [hl] at this
      exact this
    have hex2 := execOp_MLOAD P env ctx input t1 o rest2 (hst2.trans hst)
    rw [GetPtr_word t1.mem o ho, hdata] at hex2
    refine ⟨?_, hle2, hget2⟩
    rw [hex2]
    show Except.ok (Exec.advance { t1 with
      stack := Bytes2Big (LeftPadBytes (Bytes v) 32) :: rest2 }) = _
    rw [Bytes2Big_LeftPadBytes]

/-- Witness for C39: the MSTORE of `roundTripProgram` (the word 7 at offset 3)
is priced on empty memory and leaves the byte 7 at offset 34; the run of the
program ends with 7 on the stack. -/
theorem mstore_mload_roundtrip_witness :
    (∃ s2, execOp params idleEnv (frame roundTripProgram) []
          ⟨4, 4, 0, [3, 7], List.replicate 64 0, 985, emptyDB, none, noSegments⟩ MSTORE
          = .ok (.advance s2) ∧ s2.stack = [] ∧ s2.mem.getD 34 0 = 7 ∧
        s2.mem.getD 35 0 = 0) ∧
    pricePhase params true ⟨4, 4, 0, [3, 7], [], 994, emptyDB, none, noSegments⟩ MSTORE
      = .ok ⟨4, 4, 0, [3, 7], List.replicate 64 0, 985, emptyDB, none, noSegments⟩ ∧
    (Run params idleEnv (frame roundTripProgram) [] true 10 1000 emptyDB noSegments).map
      (fun r => (r.err, r.state.stack)) = some (none, [7]) :=
  ⟨(mstore_mload_roundtrip params idleEnv (frame roundTripProgram) []
      ⟨4, 4, 0, [3, 7], [], 994, emptyDB, none, noSegments⟩
      ⟨4, 4, 0, [3, 7], List.replicate 64 0, 985, emptyDB, none, noSegments⟩ 3 7 []
      (by norm_num) (by norm_num) rfl rfl).elim
      fun s2 h => ⟨s2, h.1, h.2.1, h.2.2.2.1 31 (by norm_num),
        h.2.2.2.2.2.1 35 (Or.inr (by norm_num))⟩,
    rfl, rfl⟩

theorem execOp_MLOAD_panic (P : Params) (env : Environment) (ctx : Context)
    (input : List Nat) (s : State) (o : Nat) (rest : stack) (hs : s.stack = o :: rest)
    (h1 : 2 ^ 63 ≤ o) (h2 : o < 2 ^ 64) :
    execOp P env ctx input s MLOAD = .error .Panic := by
  rw [execOp_MLOAD P env ctx input s o rest hs]
  have hneg : Int64 o < 0 := by
    unfold Int64
    rw [Nat.mod_eq_of_lt h2, if_neg (by omega)]
    omega
  unfold Memory.GetPtr Memory.Get
  rw [if_pos (Or.inl hneg)]
  rfl

/-- C39, counterexample: offsets are converted with `Uint64` and `Int64`.
`wrapStoreProgram` stores the word 1 at the offset `2^64`; with gas `2^111` and
segmentation disabled the MSTORE is priced for `2^64 + 32` bytes, the memory is
resized to 32 bytes and the word is written to the bytes `[0, 32)`, which lie
outside `[2^64, 2^64 + 32)`. For an offset from `2^63` up to `2^64 - 1` MLOAD
panics. -/
theorem mstore_offset_wraps :
    ¬ (∀ (P : Params) (env : Environment) (ctx : Context) (input : List Nat)
        (s s1 s2 : State) (o v : Nat) (rest : stack),
        s.stack = o :: v :: rest → pricePhase P true s MSTORE = .ok s1 →
        execOp P env ctx input s1 MSTORE = .ok (.advance s2) →
        ∀ j, j < o ∨ o + 32 ≤ j → s2.mem.getD j 0 = s.mem.getD j 0) ∧
    (∃ s r, steps params idleEnv (frame wrapStoreProgram) [] true 2
          (initState 2596148429267413814265248164610048 emptyDB noSegments) = some s ∧
        s.pc = 12 ∧ s.stack = [18446744073709551616, 1] ∧ s.mem = [] ∧
        Run params idleEnv (frame wrapStoreProgram) [] true 10
          2596148429267413814265248164610048 emptyDB noSegments = some r ∧
        r.err = none ∧ r.state.mem = List.replicate 31 0 ++ [1]) ∧
    (∀ (P : Params) (env : Environment) (ctx : Context) (input : List Nat) (s : State)
        (o : Nat) (rest : stack), s.stack = o :: rest → 2 ^ 63 ≤ o → o < 2 ^ 64 →
        execOp P env ctx input s MLOAD = .error .Panic) := by
  refine ⟨fun h => ?_, ⟨_, _, rfl, rfl, rfl, rfl, rfl, rfl, rfl⟩,
    fun P env ctx input s o rest hs h1 h2 => execOp_MLOAD_panic P env ctx input s o rest hs h1 h2⟩
  have hp : pricePhase params true
      ⟨12, 2, 0, [18446744073709551616, 1], [], 2596148429267413814265248164610042, emptyDB,
        none, noSegments⟩ MSTORE
      = .ok ⟨12, 2, 0, [18446744073709551616, 1], List.replicate 32 0,
          1947111321950558629064879399501812, emptyDB, none, noSegments⟩ := rfl
  have h2 := h params idleEnv (frame wrapStoreProgram) [] _ _ _ 18446744073709551616 1 [] rfl hp
    rfl 31 (Or.inl (by norm_num))
  exact absurd h2 (by decide)

end Vm

namespace Vm
open OpCode

/-! ## Applying a recorded segment -/

set_option maxHeartbeats 1000000 in
theorem execOp_nopay (P : Params) (env : Environment) (ctx : Context) (input : List Nat)
    (s : State) (op : OpCode) (r : Exec) (h : execOp P env ctx input s op = .ok r) :
    r.state.nopay = s.nopay := by
  revert h
  cases op <;> simp only [execOp, bind_ok_iff, pure_ok_iff, forall_exists_index, and_imp]
  case JUMP =>
    intro x _ s1 hj hr
    subst hr
    simp [Exec.state, (jump_ok _ _ _ _ hj).1]
  all_goals try (intros; subst_vars; rfl)
  all_goals intros
  all_goals rename_i h
  all_goals try simp only [jump] at h
  all_goals repeat' split at h
  all_goals try simp only [bind_ok_iff, pure_ok_iff, forall_exists_index, and_imp, reduceCtorEq,
    false_and, exists_false, Except.ok.injEq] at h
  all_goals try (obtain ⟨_, _, h⟩ := h)
  all_goals (subst_vars; simp [Exec.state])

theorem unpriced_step (P : Params) (env : Environment) (ctx : Context) (input : List Nat)
    (t : State) (hc : t.csegment ≠ none) (hpc : t.pc ≠ 0) (hn : t.pc ≤ t.nopay)
    (hd : isDynamic (GetOp ctx.Code t.pc) = false) :
    segmentPhase false t (GetOp ctx.Code t.pc) = .ok t ∧
    pricePhase P false { t with ppc := t.pc } (GetOp ctx.Code t.pc)
      = .ok { t with ppc := t.pc } ∧
    step P env ctx input false t
      = (match execOp P env ctx input { t with ppc := t.pc } (GetOp ctx.Code t.pc) with
        | .error e => .fail (State.popped { t with ppc := t.pc } (GetOp ctx.Code t.pc)) e
        | .ok r => r.toStep) := by
  have h1 := segmentPhase_keep t (GetOp ctx.Code t.pc) hd (Or.inl hc)
  have h2 : pricePhase P false { t with ppc := t.pc } (GetOp ctx.Code t.pc)
      = .ok { t with ppc := t.pc } := by
    have hnp : ¬ (t.pc > t.nopay ∨ t.pc = 0 ∨ false = true) := by
      intro h
      rcases h with h | h | h
      · omega
      · exact hpc h
      · cases h
    simp only [pricePhase]
    rw [if_neg hnp]
  refine ⟨h1, h2, ?_⟩
  unfold step
  simp only [h1, h2]

end Vm

namespace Vm
open OpCode

/-! ## The gas recorded for a segment -/

theorem step_eq_priceAndExec (P : Params) (env : Environment) (ctx : Context)
    (input : List Nat) (d : Bool) (s : State) :
    step P env ctx input d s
      = match segmentPhase d s (GetOp ctx.Code s.pc) with
        | .error (s1, e) => .fail s1 e
        | .ok s1 => priceAndExec P env ctx input d { s1 with ppc := s1.pc }
            (GetOp ctx.Code s.pc) := rfl

theorem pricedAt_congr (P : Params) (ctx : Context) (s t : State) (h1 : s.pc = t.pc)
    (h2 : s.stack = t.stack) (h3 : s.mem = t.mem) (h4 : s.statedb = t.statedb) :
    pricedAt P ctx s = pricedAt P ctx t := by
  unfold pricedAt
  rw [h1, h2, h3, h4]

set_option maxHeartbeats 1000000 in
theorem immediate_GetOp (code : List Nat) (p : Nat) :
    immediate (GetOp code p) = pushBytes (code.getD p 0) := by
  unfold GetOp
  by_cases hp : p < code.length
  · rw [if_pos hp]
    unfold byteToOp pushBytes
    by_cases h1 : 0x60 ≤ code.getD p 0 ∧ code.getD p 0 ≤ 0x7f
    · rw [dif_pos h1, if_pos h1]
      simp only [immediate]
      omega
    · rw [dif_neg h1, if_neg h1]
      simp only [apply_dite immediate, apply_ite immediate]
      simp only [immediate, dite_eq_ite, ite_self]
  · rw [if_neg hp]
    have : code.getD p 0 = 0 := by
      rw [List.getD_eq_default]
      omega
    rw [this]
    rfl

theorem priceAndExec_adds (P : Params) (env : Environment) (ctx : Context) (input : List Nat)
    (s2 : State) (cseg : segment) (hcs : s2.csegment = some cseg)
    (hmap : s2.csegments cseg.cstart = some cseg) (hp : s2.pc > s2.nopay) (t1 : State)
    (hout : priceAndExec P env ctx input false s2 (GetOp ctx.Code s2.pc) = .next t1 ∨
      (∃ ret, priceAndExec P env ctx input false s2 (GetOp ctx.Code s2.pc) = .done t1 ret) ∨
      priceAndExec P env ctx input false s2 (GetOp ctx.Code s2.pc) = .fail t1 .Panic) :
    t1.csegment = some { cseg with gas := cseg.gas + (pricedAt P ctx s2).cost } ∧
    t1.csegments cseg.cstart
      = some { cseg with gas := cseg.gas + (pricedAt P ctx s2).cost } ∧
    (∀ k, k ≠ cseg.cstart → t1.csegments k = s2.csegments k) ∧
    t1.nopay = s2.nopay := by
  have hpp : s2.pc > s2.nopay ∨ s2.pc = 0 ∨ false = true := Or.inl hp
  cases hcalc : calculateGasAndSize P (GetOp ctx.Code s2.pc) s2.statedb s2.mem s2.stack with
  | error e =>
    have hcost : (pricedAt P ctx s2).cost = 0 := by
      simp only [pricedAt, hcalc]
    have hv : priceAndExec P env ctx input false s2 (GetOp ctx.Code s2.pc) = .fail s2 e := by
      simp only [priceAndExec, pricePhase, if_pos hpp, hcalc]
    rw [hv] at hout
    have ht : t1 = s2 := by
      rcases hout with h | ⟨ret, h⟩ | h
      · cases h
      · cases h
      · cases h; rfl
    subst ht
    rw [hcost]
    have hz : ({ cseg with gas := cseg.gas + 0 } : segment) = cseg := by
      cases cseg
      simp
    rw [hz]
    exact ⟨hcs, hmap, fun k _ => rfl, rfl⟩
  | ok v =>
    obtain ⟨nm, cost, db⟩ := v
    have hcost : (pricedAt P ctx s2).cost = cost := by
      simp only [pricedAt, hcalc]
    rw [hcost]
    cases hu : UseGas s2.Gas cost with
    | none =>
      have hv : priceAndExec P env ctx input false s2 (GetOp ctx.Code s2.pc)
          = .fail { ({ s2 with statedb := db } : State).setSegment
              { cseg with gas := cseg.gas + cost } with Gas := useAllGas s2.Gas } .OutOfGas := by
        simp only [priceAndExec, pricePhase, if_pos hpp, hcalc, hcs, hu, State.setSegment]
      rw [hv] at hout
      rcases hout with h | ⟨ret, h⟩ | h <;> cases h
    | some g =>
      have hpr : pricePhase P false s2 (GetOp ctx.Code s2.pc)
          = .ok { ({ s2 with statedb := db } : State).setSegment
                { cseg with gas := cseg.gas + cost } with
              Gas := g, mem := s2.mem.Resize (Uint64 nm) } := by
        simp only [pricePhase, if_pos hpp, hcalc, hcs, hu, State.setSegment]
      have hfacts : ∀ s3 : State, s3 = { ({ s2 with statedb := db } : State).setSegment
                { cseg with gas := cseg.gas + cost } with
              Gas := g, mem := s2.mem.Resize (Uint64 nm) } →
          s3.csegment = some { cseg with gas := cseg.gas + cost } ∧
          s3.csegments cseg.cstart = some { cseg with gas := cseg.gas + cost } ∧
          (∀ k, k ≠ cseg.cstart → s3.csegments k = s2.csegments k) ∧ s3.nopay = s2.nopay := by
        intro s3 h3
        subst h3
        refine ⟨rfl, ?_, fun k hk => ?_, rfl⟩
        · simp [State.setSegment]
        · simp [State.setSegment, hk]
      cases hex : execOp P env ctx input
          { ({ s2 with statedb := db } : State).setSegment
                { cseg with gas := cseg.gas + cost } with
              Gas := g, mem := s2.mem.Resize (Uint64 nm) } (GetOp ctx.Code s2.pc) with
      | error e =>
        have hv : priceAndExec P env ctx input false s2 (GetOp ctx.Code s2.pc)
            = .fail (State.popped { ({ s2 with statedb := db } : State).setSegment
                { cseg with gas := cseg.gas + cost } with
              Gas := g, mem := s2.mem.Resize (Uint64 nm) } (GetOp ctx.Code s2.pc)) e := by
          simp only [priceAndExec, hpr, hex]
        rw [hv] at hout
        have ht : t1 = State.popped { ({ s2 with statedb := db } : State).setSegment
                { cseg with gas := cseg.gas + cost } with
              Gas := g, mem := s2.mem.Resize (Uint64 nm) } (GetOp ctx.Code s2.pc) := by
          rcases hout with h | ⟨ret, h⟩ | h
          · cases h
          · cases h
          · cases h; rfl
        rw [ht]
        have hf := hfacts _ rfl
        exact hf
      | ok r =>
        have hv : priceAndExec P env ctx input false s2 (GetOp ctx.Code s2.pc) = r.toStep := by
          simp only [priceAndExec, hpr, hex]
        rw [hv] at hout
        obtain ⟨e1, e2, -⟩ := execOp_segments P env ctx input _ _ r hex
        have e5 := execOp_nopay P env ctx input _ _ r hex
        obtain ⟨f1, f2, f3, f4⟩ := hfacts _ rfl
        have hr : t1.csegment = r.state.csegment ∧ t1.csegments = r.state.csegments ∧
            t1.nopay = r.state.nopay := by
          cases r with
          | advance s4 =>
            rcases hout with h | ⟨ret, h⟩ | h
            · simp only [Exec.toStep, Step.next.injEq] at h
              subst h
              exact ⟨rfl, rfl, rfl⟩
            · cases h
            · cases h
          | jumped s4 =>
            rcases hout with h | ⟨ret, h⟩ | h
            · simp only [Exec.toStep, Step.next.injEq] at h
              subst h
              exact ⟨rfl, rfl, rfl⟩
            · cases h
            · cases h
          | returned s4 ret0 =>
            rcases hout with h | ⟨ret, h⟩ | h
            · cases h
            · simp only [Exec.toStep, Step.done.injEq] at h
              obtain ⟨h, -⟩ := h
              subst h
              exact ⟨rfl, rfl, rfl⟩
            · cases h
        obtain ⟨r1, r2, r3⟩ := hr
        refine ⟨?_, ?_, fun k hk => ?_, ?_⟩
        · rw [r1, e1]; exact f1
        · rw [r2, e2]; exact f2
        · rw [r2, e2]; exact f3 k hk
        · rw [r3, e5]; exact f4

end Vm

namespace Vm
open OpCode

theorem opStartFrom_next (code : List Nat) (p : Nat) (k : Nat) :
    opStartFrom code (nextOp code p) k = opStartFrom code p (k + 1) := by
  induction k with
  | zero => rfl
  | succ k ih =>
    show nextOp code (opStartFrom code (nextOp code p) k) = nextOp code (opStartFrom code p (k + 1))
    rw [ih]

theorem pricePhase_ppc (P : Params) (d : Bool) (s s3 : State) (op : OpCode)
    (h : pricePhase P d s op = .ok s3) : s3.ppc = s.ppc := by
  by_cases hp : s.pc > s.nopay ∨ s.pc = 0 ∨ d = true
  · obtain ⟨nm, cost, db, -, -, -, -, -, -, -, hppc⟩ := pricePhase_priced P d s s3 op hp h
    exact hppc
  · have hv : pricePhase P d s op = .ok s := by
      simp only [pricePhase, if_neg hp]
    rw [hv] at h
    cases h
    rfl

theorem nondynamic_next (P : Params) (env : Environment) (ctx : Context) (input : List Nat)
    (d : Bool) (t t1 : State) (hd : isDynamic (GetOp ctx.Code t.pc) = false)
    (hst : step P env ctx input d t = .next t1) :
    t1.pc = nextOp ctx.Code t.pc ∧ t1.ppc = t.pc := by
  obtain ⟨s1, s3, r, h1, h2, h3, h4⟩ := step_inv P env ctx input d t (by rw [hst]; simp)
  have f1 := segmentPhase_frame d t (GetOp ctx.Code t.pc)
  rw [h1] at f1
  have f2 := pricePhase_frame P d { s1 with ppc := s1.pc } (GetOp ctx.Code t.pc)
  rw [h2] at f2
  simp only at f1 f2
  have f3 := pricePhase_ppc P d _ s3 _ h2
  simp only at f3
  obtain ⟨-, -, e3⟩ := execOp_segments P env ctx input s3 _ r h3
  rw [hst] at h4
  cases r with
  | advance s4 =>
    simp only [Exec.toStep, Step.next.injEq] at h4
    subst h4
    have hpc := execOp_advance_pc P env ctx input s3 s4 _ h3
    refine ⟨?_, ?_⟩
    · show s4.pc + 1 = nextOp ctx.Code t.pc
      rw [hpc, f2.2, f1.2.1, immediate_GetOp]
      unfold nextOp
      omega
    · show s4.ppc = t.pc
      have e3' : s4.ppc = s3.ppc := e3
      rw [e3', f3, f1.2.1]
  | jumped s4 =>
    exfalso
    rcases execOp_jumped P env ctx input _ s4 _ h3 with h | ⟨h, -⟩ <;>
      rw [h] at hd <;> cases hd
  | returned s4 ret => cases h4

theorem open_iter (P : Params) (env : Environment) (ctx : Context) (input : List Nat)
    (t : State) (cseg : segment) (hd : isDynamic (GetOp ctx.Code t.pc) = false)
    (hpc : t.pc ≠ 0)
    (hmode : (t.csegment = none ∧ t.csegments t.pc = none ∧
        cseg = ⟨t.pc, 0, 0, 0, t.stack.length⟩) ∨
      (t.csegment = some cseg ∧ t.csegments cseg.cstart = some cseg ∧ t.nopay = 0))
    (t1 : State)
    (hout : step P env ctx input false t = .next t1 ∨
      (∃ ret, step P env ctx input false t = .done t1 ret) ∨
      step P env ctx input false t = .fail t1 .Panic) :
    t1.csegment = some { cseg with gas := cseg.gas + (pricedAt P ctx t).cost } ∧
    t1.csegments cseg.cstart = some { cseg with gas := cseg.gas + (pricedAt P ctx t).cost } ∧
    (∀ k, k ≠ cseg.cstart → t1.csegments k = t.csegments k) ∧
    t1.nopay = 0 := by
  rw [step_eq_priceAndExec] at hout
  rcases hmode with ⟨hc, hm, hcseg⟩ | ⟨hc, hm, hn⟩
  · subst hcseg
    rw [segmentPhase_open t _ hd hc hpc hm] at hout
    simp only at hout
    have hp : t.pc > 0 := Nat.pos_of_ne_zero hpc
    have h := priceAndExec_adds P env ctx input
      { ({ (t.setSegment ⟨t.pc, 0, 0, 0, t.stack.length⟩) with nopay := 0 } : State) with
        ppc := t.pc } ⟨t.pc, 0, 0, 0, t.stack.length⟩ rfl (by simp [State.setSegment]) hp t1 hout
    obtain ⟨h1, h2, h3, h4⟩ := h
    refine ⟨h1, h2, fun k hk => ?_, h4⟩
    rw [h3 k hk]
    have hk2 : k ≠ t.pc := hk
    simp [State.setSegment, hk2]
  · rw [segmentPhase_keep t _ hd (Or.inl (by rw [hc]; intro h; cases h))] at hout
    simp only at hout
    have hp : t.pc > t.nopay := by rw [hn]; exact Nat.pos_of_ne_zero hpc
    have h := priceAndExec_adds P env ctx input { t with ppc := t.pc } cseg hc hm hp t1 hout
    exact ⟨h.1, h.2.1, h.2.2.1, h.2.2.2.trans hn⟩

theorem open_steps (P : Params) (env : Environment) (ctx : Context) (input : List Nat)
    (n : Nat) : ∀ (t0 t : State) (cseg : segment), t0.csegment = some cseg →
    t0.csegments cseg.cstart = some cseg → t0.nopay = 0 → t0.pc ≠ 0 →
    (∀ k, k < n → isDynamic (GetOp ctx.Code (opStartFrom ctx.Code t0.pc k)) = false) →
    steps P env ctx input false n t0 = some t →
    t.csegment = some { cseg with
      gas := cseg.gas + totalCost (trace P env ctx input false n t0) } ∧
    t.csegments cseg.cstart = t.csegment ∧
    (∀ k, k ≠ cseg.cstart → t.csegments k = t0.csegments k) ∧
    t.nopay = 0 ∧ t.pc ≠ 0 ∧ t.pc = opStartFrom ctx.Code t0.pc n ∧
    (∀ m, n = m + 1 → t.ppc = opStartFrom ctx.Code t0.pc m) ∧
    (trace P env ctx input false n t0).map (fun x => x.pc)
      = (List.range n).map (opStartFrom ctx.Code t0.pc) := by
  induction n with
  | zero =>
    intro t0 t cseg hc hm hn hpc _ hs
    simp only [steps, Option.some.injEq] at hs
    subst hs
    have hz : ({ cseg with gas := cseg.gas + totalCost (trace P env ctx input false 0 t0) }
        : segment) = cseg := by
      cases cseg
      simp [trace, totalCost]
    rw [hz]
    exact ⟨hc, hm.trans hc.symm, fun k _ => rfl, hn, hpc, rfl, fun m hm => by omega, rfl⟩
  | succ n ih =>
    intro t0 t cseg hc hm hn hpc hnd hs
    simp only [steps] at hs
    have hd0 : isDynamic (GetOp ctx.Code t0.pc) = false := hnd 0 (Nat.succ_pos n)
    cases hst : step P env ctx input false t0 with
    | done s2 ret => rw [hst] at hs; cases hs
    | fail s2 e => rw [hst] at hs; cases hs
    | next t1 =>
      rw [hst] at hs
      obtain ⟨a1, a2, a3, a4⟩ := open_iter P env ctx input t0 cseg hd0 hpc
        (Or.inr ⟨hc, hm, hn⟩) t1 (Or.inl hst)
      obtain ⟨b1, b2⟩ := nondynamic_next P env ctx input false t0 t1 hd0 hst
      have hpc1 : t1.pc ≠ 0 := by
        rw [b1]
        unfold nextOp
        omega
      have hnd1 : ∀ k, k < n →
          isDynamic (GetOp ctx.Code (opStartFrom ctx.Code t1.pc k)) = false := by
        intro k hk
        rw [b1, opStartFrom_next]
        exact hnd (k + 1) (by omega)
      obtain ⟨c1, c2, c3, c4, c5, c6, c7, c8⟩ := ih t1 t
        { cseg with gas := cseg.gas + (pricedAt P ctx t0).cost } a1 a2 a4 hpc1 hnd1 hs
      have htr : trace P env ctx input false (n + 1) t0
          = pricedAt P ctx t0 :: trace P env ctx input false n t1 := by
        simp only [trace, hst]
      have htot : totalCost (trace P env ctx input false (n + 1) t0)
          = (pricedAt P ctx t0).cost + totalCost (trace P env ctx input false n t1) := by
        rw [htr]
        simp [totalCost]
      refine ⟨?_, c2, fun k hk => ?_, c4, c5, ?_, fun m hm => ?_, ?_⟩
      · rw [c1, htot]
        simp only [add_assoc]
      · rw [c3 k hk, a3 k hk]
      · rw [c6, b1, opStartFrom_next]
      · cases n with
        | zero =>
          have : m = 0 := by omega
          subst this
          simp only [steps, Option.some.injEq] at hs
          subst hs
          exact b2
        | succ j =>
          have := c7 j rfl
          rw [this, b1, opStartFrom_next]
          congr 1
          omega
      · rw [htr, List.map_cons, c8, List.range_succ_eq_map, List.map_cons, List.map_map]
        congr 1
        apply List.map_congr_left
        intro k _
        simp only [Function.comp]
        rw [b1, opStartFrom_next]

end Vm

namespace Vm
open OpCode

theorem toStep_segments (r : Exec) :
    r.toStep.state.csegment = r.state.csegment ∧
    r.toStep.state.csegments = r.state.csegments := by
  cases r <;> exact ⟨rfl, rfl⟩

theorem segment_gas_self (cseg : segment) : ({ cseg with gas := cseg.gas } : segment) = cseg := by
  cases cseg
  rfl

theorem pricePhase_segs (P : Params) (s : State) (op : OpCode) :
    match pricePhase P false s op with
    | .ok s3 =>
      (s.csegment = none → s3.csegment = none ∧ s3.csegments = s.csegments) ∧
      (∀ cseg, s.csegment = some cseg → ∃ g, s3.csegment = some { cseg with gas := g } ∧
        (s3.csegments = s.csegments ∨ s3.csegments
          = fun k => if k = cseg.cstart then some { cseg with gas := g } else s.csegments k))
    | .error (s3, _) =>
      (s.csegment = none → s3.csegment = none ∧ s3.csegments = s.csegments) ∧
      (∀ cseg, s.csegment = some cseg → ∃ g, s3.csegment = some { cseg with gas := g } ∧
        (s3.csegments = s.csegments ∨ s3.csegments
          = fun k => if k = cseg.cstart then some { cseg with gas := g } else s.csegments k)) := by
  have hself : (s.csegment = none → s.csegment = none ∧ s.csegments = s.csegments) ∧
      (∀ cseg, s.csegment = some cseg → ∃ g, s.csegment = some { cseg with gas := g } ∧
        (s.csegments = s.csegments ∨ s.csegments
          = fun k => if k = cseg.cstart then some { cseg with gas := g } else s.csegments k)) :=
    ⟨fun h => ⟨h, rfl⟩, fun cseg h => ⟨cseg.gas, by rw [segment_gas_self]; exact h, Or.inl rfl⟩⟩
  by_cases hp : s.pc > s.nopay ∨ s.pc = 0 ∨ false = true
  · cases hcalc : calculateGasAndSize P op s.statedb s.mem s.stack with
    | error e =>
      have hv : pricePhase P false s op = .error (s, e) := by
        simp only [pricePhase, if_pos hp, hcalc]
      rw [hv]
      exact hself
    | ok r =>
      obtain ⟨newMemSize, cost, db⟩ := r
      cases hcs : s.csegment with
      | none =>
        cases hu : UseGas s.Gas cost with
        | none =>
          have hv : pricePhase P false s op
              = .error ({ s with statedb := db, Gas := useAllGas s.Gas }, .OutOfGas) := by
            simp only [pricePhase, if_pos hp, hcalc, hcs, hu]
          rw [hv]
          exact ⟨fun _ => ⟨hcs, rfl⟩, fun cseg h => by cases h⟩
        | some g =>
          have hv : pricePhase P false s op
              = .ok { s with statedb := db, Gas := g, mem := s.mem.Resize (Uint64 newMemSize) } := by
            simp only [pricePhase, if_pos hp, hcalc, hcs, hu]
          rw [hv]
          exact ⟨fun _ => ⟨hcs, rfl⟩, fun cseg h => by cases h⟩
      | some cseg =>
        cases hu : UseGas s.Gas cost with
        | none =>
          have hv : pricePhase P false s op
              = .error ({ ({ s with statedb := db } : State).setSegment
                    { cseg with gas := cseg.gas + cost } with Gas := useAllGas s.Gas },
                  .OutOfGas) := by
            simp only [pricePhase, if_pos hp, hcalc, hcs, hu, State.setSegment]
          rw [hv]
          refine ⟨fun h => (by cases h), fun c h => ?_⟩
          cases h
          exact ⟨cseg.gas + cost, rfl, Or.inr rfl⟩
        | some g =>
          have hv : pricePhase P false s op
              = .ok { ({ s with statedb := db } : State).setSegment
                    { cseg with gas := cseg.gas + cost } with
                  Gas := g, mem := s.mem.Resize (Uint64 newMemSize) } := by
            simp only [pricePhase, if_pos hp, hcalc, hcs, hu, State.setSegment]
          rw [hv]
          refine ⟨fun h => (by cases h), fun c h => ?_⟩
          cases h
          exact ⟨cseg.gas + cost, rfl, Or.inr rfl⟩
  · have hv : pricePhase P false s op = .ok s := by
      simp only [pricePhase, if_neg hp]
    rw [hv]
    exact hself

theorem priceAndExec_segs (P : Params) (env : Environment) (ctx : Context) (input : List Nat)
    (s2 : State) (op : OpCode) :
    (s2.csegment = none →
      (priceAndExec P env ctx input false s2 op).state.csegment = none ∧
      (priceAndExec P env ctx input false s2 op).state.csegments = s2.csegments) ∧
    (∀ cseg, s2.csegment = some cseg →
      ∃ g, (priceAndExec P env ctx input false s2 op).state.csegment
          = some { cseg with gas := g } ∧
        ((priceAndExec P env ctx input false s2 op).state.csegments = s2.csegments ∨
         (priceAndExec P env ctx input false s2 op).state.csegments
          = fun k => if k = cseg.cstart then some { cseg with gas := g }
              else s2.csegments k)) := by
  have hpr := pricePhase_segs P s2 op
  cases hpp : pricePhase P false s2 op with
  | error v =>
    obtain ⟨s3, e⟩ := v
    rw [hpp] at hpr
    have hv : priceAndExec P env ctx input false s2 op = .fail s3 e := by
      simp only [priceAndExec, hpp]
    rw [hv]
    exact hpr
  | ok s3 =>
    rw [hpp] at hpr
    cases hex : execOp P env ctx input s3 op with
    | error e =>
      have hv : priceAndExec P env ctx input false s2 op = .fail (s3.popped op) e := by
        simp only [priceAndExec, hpp, hex]
      rw [hv]
      exact hpr
    | ok r =>
      have hv : priceAndExec P env ctx input false s2 op = r.toStep := by
        simp only [priceAndExec, hpp, hex]
      rw [hv]
      obtain ⟨e1, e2, -⟩ := execOp_segments P env ctx input s3 _ r hex
      obtain ⟨t1, t2⟩ := toStep_segments r
      rw [t1, t2, e1, e2]
      exact hpr

theorem close_step (P : Params) (env : Environment) (ctx : Context) (input : List Nat)
    (t : State) (cseg : segment) (hd : isDynamic (GetOp ctx.Code t.pc) = true)
    (hc : t.csegment = some cseg) (h0 : cseg.cend = 0) :
    (step P env ctx input false t).state.csegments cseg.cstart
      = some ⟨cseg.cstart, t.ppc, t.pc, cseg.gas, closeSsize t.stack.length cseg.ssize⟩ ∧
    (step P env ctx input false t).state.csegment = none ∧
    (∀ k, k ≠ cseg.cstart →
      (step P env ctx input false t).state.csegments k = t.csegments k) := by
  rw [step_eq_priceAndExec, segmentPhase_close t _ hd, hc]
  simp only [h0, if_true]
  obtain ⟨h1, h2⟩ := (priceAndExec_segs P env ctx input
    { ({ (t.setSegment ⟨cseg.cstart, t.ppc, t.pc, cseg.gas,
        closeSsize t.stack.length cseg.ssize⟩) with csegment := none, nopay := 0 } : State) with
      ppc := t.pc } (GetOp ctx.Code t.pc)).1 rfl
  refine ⟨?_, h1, fun k hk => ?_⟩
  · exact (congrFun h2 cseg.cstart).trans (by simp [State.setSegment])
  · exact (congrFun h2 k).trans (by simp [State.setSegment, hk])

theorem other_step (P : Params) (env : Environment) (ctx : Context) (input : List Nat)
    (t : State) (hd : isDynamic (GetOp ctx.Code t.pc) = true)
    (hc : t.csegment = none ∨ ∃ cseg, t.csegment = some cseg ∧ cseg.cend ≠ 0) :
    (step P env ctx input false t).state.csegments = t.csegments ∧
    (step P env ctx input false t).state.csegment = none := by
  rw [step_eq_priceAndExec, segmentPhase_close t _ hd]
  have hm : (match t.csegment with
      | some cseg =>
        if cseg.cend = 0 then
          t.setSegment ⟨cseg.cstart, t.ppc, t.pc, cseg.gas,
            closeSsize t.stack.length cseg.ssize⟩
        else t
      | none => t) = t := by
    rcases hc with h | ⟨cseg, h, h0⟩
    · rw [h]
    · rw [h]
      simp only [h0, if_false]
  rw [hm]
  obtain ⟨h1, h2⟩ := (priceAndExec_segs P env ctx input
    { ({ t with csegment := none, nopay := 0 } : State) with ppc := t.pc }
    (GetOp ctx.Code t.pc)).1 rfl
  exact ⟨h2, h1⟩

end Vm

namespace Vm
open OpCode

theorem priceAndExec_unpriced (P : Params) (env : Environment) (ctx : Context)
    (input : List Nat) (s2 : State) (op : OpCode) (hp : s2.pc ≤ s2.nopay) (hpc : s2.pc ≠ 0) :
    (priceAndExec P env ctx input false s2 op).state.csegment = s2.csegment ∧
    (priceAndExec P env ctx input false s2 op).state.csegments = s2.csegments ∧
    (priceAndExec P env ctx input false s2 op).state.nopay = s2.nopay := by
  have hnp : ¬ (s2.pc > s2.nopay ∨ s2.pc = 0 ∨ false = true) := by
    intro h
    rcases h with h | h | h
    · omega
    · exact hpc h
    · cases h
  have hpr : pricePhase P false s2 op = .ok s2 := by
    simp only [pricePhase]
    rw [if_neg hnp]
  cases hex : execOp P env ctx input s2 op with
  | error e =>
    have hv : priceAndExec P env ctx input false s2 op = .fail (s2.popped op) e := by
      simp only [priceAndExec, hpr, hex]
    rw [hv]
    exact ⟨rfl, rfl, rfl⟩
  | ok r =>
    have hv : priceAndExec P env ctx input false s2 op = r.toStep := by
      simp only [priceAndExec, hpr, hex]
    rw [hv]
    obtain ⟨e1, e2, -⟩ := execOp_segments P env ctx input s2 _ r hex
    have e5 := execOp_nopay P env ctx input s2 _ r hex
    obtain ⟨t1, t2⟩ := toStep_segments r
    refine ⟨t1.trans e1, t2.trans e2, ?_⟩
    cases r <;> exact e5

theorem kept_of_other (S : segment) (base : codeSegments) (st : State) (cseg : segment)
    (g : Int) (hb1 : base S.cstart = some S) (hb2 : ∀ k seg, base k = some seg → seg.cstart = k)
    (hne : cseg.cstart ≠ S.cstart)
    (hcs : st.csegment = some { cseg with gas := g })
    (hmap : st.csegments = base ∨ st.csegments
      = fun k => if k = cseg.cstart then some { cseg with gas := g } else base k) :
    st.csegments S.cstart = some S ∧ (∀ k seg, st.csegments k = some seg → seg.cstart = k) ∧
    ∃ c, st.csegment = some c ∧ c.cstart ≠ S.cstart := by
  refine ⟨?_, fun k seg hk => ?_, _, hcs, hne⟩
  · rcases hmap with h | h
    · rw [h]; exact hb1
    · rw [h]
      simp only [if_neg (Ne.symm hne)]
      exact hb1
  · rcases hmap with h | h
    · rw [h] at hk
      exact hb2 k seg hk
    · rw [h] at hk
      by_cases hk2 : k = cseg.cstart
      · simp only [if_pos hk2, Option.some.injEq] at hk
        rw [← hk, hk2]
      · simp only [if_neg hk2] at hk
        exact hb2 k seg hk

theorem Straight_facts (code : List Nat) (S : segment) (m : Nat) (h : Straight code S m) :
    S.cend ≠ 0 ∧ S.cstart ≤ S.cend ∧
    (∀ k, k ≤ m → opStartFrom code S.cstart k ≤ S.cend) ∧
    (∀ k, opStartFrom code S.cstart k ≠ 0) := by
  obtain ⟨h0, hend, -, -⟩ := h
  have hge := opStartFrom_ge code S.cstart
  refine ⟨?_, ?_, fun k hk => ?_, fun k => ?_⟩
  · have := hge m
    omega
  · have := hge m
    omega
  · rw [hend]
    exact (opStartFrom_strictMono code S.cstart).monotone hk
  · have := hge k
    omega

theorem Kept_step (P : Params) (env : Environment) (ctx : Context) (input : List Nat)
    (S : segment) (m : Nat) (t : State) (hS : Straight ctx.Code S m)
    (hk : Kept ctx.Code S m t) :
    KeptEnd S (step P env ctx input false t).state ∧
    ∀ t1, step P env ctx input false t = .next t1 → Kept ctx.Code S m t1 := by
  obtain ⟨hend0, hle, hpath, hpos⟩ := Straight_facts ctx.Code S m hS
  obtain ⟨hc0, hcend, hnd, hdyn⟩ := hS
  obtain ⟨hmap, hkey, hmode⟩ := hk
  -- a state with no current segment and the map of `t`
  have hnone : ∀ st : State, st.csegment = none → st.csegments = t.csegments →
      st.csegments S.cstart = some S ∧ (∀ k seg, st.csegments k = some seg → seg.cstart = k) := by
    intro st _ h2
    rw [h2]
    exact ⟨hmap, hkey⟩
  cases hd : isDynamic (GetOp ctx.Code t.pc)
  · -- the opcode is not dynamic
    rcases hmode with hcs | ⟨cseg, hcs, hne⟩ | ⟨hcs, hn, k, hk1, hk2, hpk⟩
    · by_cases hpc : t.pc = 0
      · have hst : step P env ctx input false t
            = priceAndExec P env ctx input false { t with ppc := t.pc }
                (GetOp ctx.Code t.pc) := by
          rw [step_eq_priceAndExec, segmentPhase_keep t _ hd (Or.inr hpc)]
        obtain ⟨h1, h2⟩ := (priceAndExec_segs P env ctx input { t with ppc := t.pc }
          (GetOp ctx.Code t.pc)).1 hcs
        rw [← hst] at h1 h2
        obtain ⟨a1, a2⟩ := hnone _ h1 h2
        refine ⟨⟨a1, a2, Or.inl h1⟩, fun t1 ht1 => ?_⟩
        rw [ht1] at h1 a1 a2
        exact ⟨a1, a2, Or.inl h1⟩
      · cases hseg : t.csegments t.pc with
        | none =>
          have hpcS : t.pc ≠ S.cstart := by
            intro h
            rw [h, hmap] at hseg
            cases hseg
          have hst : step P env ctx input false t
              = priceAndExec P env ctx input false
                  { ({ (t.setSegment ⟨t.pc, 0, 0, 0, t.stack.length⟩) with nopay := 0 } : State)
                    with ppc := t.pc } (GetOp ctx.Code t.pc) := by
            rw [step_eq_priceAndExec, segmentPhase_open t _ hd hcs hpc hseg]
            rfl
          obtain ⟨g, h1, h2⟩ := (priceAndExec_segs P env ctx input
            { ({ (t.setSegment ⟨t.pc, 0, 0, 0, t.stack.length⟩) with nopay := 0 } : State)
              with ppc := t.pc } (GetOp ctx.Code t.pc)).2 ⟨t.pc, 0, 0, 0, t.stack.length⟩ rfl
          rw [← hst] at h1 h2
          obtain ⟨a1, a2, a3⟩ := kept_of_other S
            (fun k => if k = t.pc then some ⟨t.pc, 0, 0, 0, t.stack.length⟩ else t.csegments k)
            _ ⟨t.pc, 0, 0, 0, t.stack.length⟩ g
            (by simp only [if_neg (Ne.symm hpcS)]; exact hmap)
            (fun k seg hks => by
              by_cases hk2 : k = t.pc
              · simp only [if_pos hk2, Option.some.injEq] at hks
                rw [← hks, hk2]
              · simp only [if_neg hk2] at hks
                exact hkey k seg hks)
            hpcS h1 h2
          refine ⟨⟨a1, a2, Or.inr (Or.inl a3)⟩, fun t1 ht1 => ?_⟩
          rw [ht1] at a1 a2 a3
          exact ⟨a1, a2, Or.inr (Or.inl a3)⟩
        | some seg =>
          have hsegk : seg.cstart = t.pc := hkey _ _ hseg
          have hrep := segmentPhase_replay t (GetOp ctx.Code t.pc) seg hd hcs hpc hseg
          cases hreq : t.stack.require seg.ssize with
          | error e =>
            rw [hreq] at hrep
            have hst : step P env ctx input false t = .fail { t with nopay := seg.cend } e := by
              rw [step_eq_priceAndExec, hrep]
            rw [hst]
            exact ⟨⟨hmap, hkey, Or.inl hcs⟩, fun t1 ht1 => by cases ht1⟩
          | ok u =>
            cases hu : UseGas t.Gas seg.gas with
            | none =>
              rw [hreq, hu] at hrep
              have hst : step P env ctx input false t
                  = .fail { t with nopay := seg.cend, Gas := useAllGas t.Gas } .OutOfGas := by
                rw [step_eq_priceAndExec, hrep]
              rw [hst]
              exact ⟨⟨hmap, hkey, Or.inl hcs⟩, fun t1 ht1 => by cases ht1⟩
            | some g =>
              rw [hreq, hu] at hrep
              simp only at hrep
              have hst : step P env ctx input false t
                  = priceAndExec P env ctx input false
                      { ({ t with nopay := seg.cend, Gas := g, csegment := some seg } : State)
                        with ppc := t.pc } (GetOp ctx.Code t.pc) := by
                rw [step_eq_priceAndExec, hrep]
              by_cases hpcS : t.pc = S.cstart
              · have hsegS : seg = S := by
                  rw [hpcS, hmap] at hseg
                  cases hseg
                  rfl
                subst hsegS
                obtain ⟨h1, h2, h3⟩ := priceAndExec_unpriced P env ctx input
                  { ({ t with nopay := seg.cend, Gas := g, csegment := some seg } : State)
                    with ppc := t.pc } (GetOp ctx.Code t.pc)
                  (by show t.pc ≤ seg.cend; rw [hpcS]; exact hle) hpc
                rw [← hst] at h1 h2 h3
                have b1 : (step P env ctx input false t).state.csegments seg.cstart = some seg := by
                  rw [h2]; exact hmap
                have b2 : ∀ k sg, (step P env ctx input false t).state.csegments k = some sg →
                    sg.cstart = k := by
                  rw [h2]; exact hkey
                refine ⟨⟨b1, b2, Or.inr (Or.inr h1)⟩, fun t1 ht1 => ?_⟩
                rw [ht1] at h1 h3 b1 b2
                obtain ⟨n1, -⟩ := nondynamic_next P env ctx input false t t1 hd ht1
                refine ⟨b1, b2, Or.inr (Or.inr ⟨h1, h3, 1, le_refl 1, by omega, ?_⟩)⟩
                rw [n1, hpcS]
                rfl
              · have hne : seg.cstart ≠ S.cstart := by rw [hsegk]; exact hpcS
                obtain ⟨g1, h1, h2⟩ := (priceAndExec_segs P env ctx input
                  { ({ t with nopay := seg.cend, Gas := g, csegment := some seg } : State)
                    with ppc := t.pc } (GetOp ctx.Code t.pc)).2 seg rfl
                rw [← hst] at h1 h2
                obtain ⟨a1, a2, a3⟩ := kept_of_other S t.csegments _ seg g1 hmap hkey hne h1 h2
                refine ⟨⟨a1, a2, Or.inr (Or.inl a3)⟩, fun t1 ht1 => ?_⟩
                rw [ht1] at a1 a2 a3
                exact ⟨a1, a2, Or.inr (Or.inl a3)⟩
    · have hst : step P env ctx input false t
          = priceAndExec P env ctx input false { t with ppc := t.pc }
              (GetOp ctx.Code t.pc) := by
        rw [step_eq_priceAndExec,
          segmentPhase_keep t _ hd (Or.inl (by rw [hcs]; intro h; cases h))]
      obtain ⟨g1, h1, h2⟩ := (priceAndExec_segs P env ctx input { t with ppc := t.pc }
        (GetOp ctx.Code t.pc)).2 cseg hcs
      rw [← hst] at h1 h2
      obtain ⟨a1, a2, a3⟩ := kept_of_other S t.csegments _ cseg g1 hmap hkey hne h1 h2
      refine ⟨⟨a1, a2, Or.inr (Or.inl a3)⟩, fun t1 ht1 => ?_⟩
      rw [ht1] at a1 a2 a3
      exact ⟨a1, a2, Or.inr (Or.inl a3)⟩
    · have hkm : k ≤ m := by
        by_contra hcon
        have : k = m + 1 := by omega
        rw [this] at hpk
        rw [hpk, hdyn] at hd
        cases hd
      have hst : step P env ctx input false t
          = priceAndExec P env ctx input false { t with ppc := t.pc }
              (GetOp ctx.Code t.pc) := by
        rw [step_eq_priceAndExec,
          segmentPhase_keep t _ hd (Or.inl (by rw [hcs]; intro h; cases h))]
      have hpcle : t.pc ≤ t.nopay := by
        rw [hn, hpk]
        exact hpath k hkm
      have hpc : t.pc ≠ 0 := by
        rw [hpk]
        exact hpos k
      obtain ⟨h1, h2, h3⟩ := priceAndExec_unpriced P env ctx input { t with ppc := t.pc }
        (GetOp ctx.Code t.pc) hpcle hpc
      rw [← hst] at h1 h2 h3
      have b1 : (step P env ctx input false t).state.csegments S.cstart = some S := by
        rw [h2]; exact hmap
      have b2 : ∀ k sg, (step P env ctx input false t).state.csegments k = some sg →
          sg.cstart = k := by
        rw [h2]; exact hkey
      have b3 : (step P env ctx input false t).state.csegment = some S := h1.trans hcs
      refine ⟨⟨b1, b2, Or.inr (Or.inr b3)⟩, fun t1 ht1 => ?_⟩
      rw [ht1] at h3 b1 b2 b3
      obtain ⟨n1, -⟩ := nondynamic_next P env ctx input false t t1 hd ht1
      refine ⟨b1, b2, Or.inr (Or.inr ⟨b3, h3.trans hn, k + 1, by omega, by omega, ?_⟩)⟩
      rw [n1, hpk]
      rfl
  · -- the opcode is dynamic
    have hclosed : (t.csegment = none ∨ ∃ cseg, t.csegment = some cseg ∧ cseg.cend ≠ 0) →
        KeptEnd S (step P env ctx input false t).state ∧
        ∀ t1, step P env ctx input false t = .next t1 → Kept ctx.Code S m t1 := by
      intro hcl
      obtain ⟨h2, h1⟩ := other_step P env ctx input t hd hcl
      obtain ⟨a1, a2⟩ := hnone _ h1 h2
      refine ⟨⟨a1, a2, Or.inl h1⟩, fun t1 ht1 => ?_⟩
      rw [ht1] at h1 a1 a2
      exact ⟨a1, a2, Or.inl h1⟩
    rcases hmode with hcs | ⟨cseg, hcs, hne⟩ | ⟨hcs, -, -⟩
    · exact hclosed (Or.inl hcs)
    · by_cases h0 : cseg.cend = 0
      · obtain ⟨h1, h2, h3⟩ := close_step P env ctx input t cseg hd hcs h0
        have a1 : (step P env ctx input false t).state.csegments S.cstart = some S := by
          rw [h3 _ (Ne.symm hne)]
          exact hmap
        have a2 : ∀ k sg, (step P env ctx input false t).state.csegments k = some sg →
            sg.cstart = k := by
          intro k sg hks
          by_cases hk2 : k = cseg.cstart
          · rw [hk2, h1] at hks
            cases hks
            exact hk2.symm
          · rw [h3 k hk2] at hks
            exact hkey k sg hks
        refine ⟨⟨a1, a2, Or.inl h2⟩, fun t1 ht1 => ?_⟩
        rw [ht1] at h2 a1 a2
        exact ⟨a1, a2, Or.inl h2⟩
      · exact hclosed (Or.inr ⟨cseg, hcs, h0⟩)
    · exact hclosed (Or.inr ⟨S, hcs, hend0⟩)

end Vm

namespace Vm
open OpCode

theorem segmentPhase_error_pc (d : Bool) (s : State) (op : OpCode) :
    match segmentPhase d s op with
    | .ok _ => True
    | .error (s1, _) => s1.pc = s.pc := by
  cases d
  · cases hdyn : isDynamic op
    · cases hcs : s.csegment
      · by_cases hpc : s.pc = 0
        · simp [segmentPhase, hdyn, hcs, hpc]
        · cases hseg : s.csegments s.pc with
          | none => simp [segmentPhase, hdyn, hcs, hpc, hseg, State.setSegment]
          | some seg =>
            cases hreq : s.stack.require seg.ssize with
            | error e => simp [segmentPhase, hdyn, hcs, hpc, hseg, hreq]
            | ok u =>
              cases hu : UseGas s.Gas seg.gas <;>
                simp [segmentPhase, hdyn, hcs, hpc, hseg, hreq, hu]
      · simp [segmentPhase, hdyn, hcs]
    · cases hcs : s.csegment with
      | none => simp [segmentPhase, hdyn, hcs]
      | some cseg =>
        by_cases hce : cseg.cend = 0 <;> simp [segmentPhase, hdyn, hcs, hce, State.setSegment]
  · simp [segmentPhase]

theorem pricePhase_error_pc (P : Params) (d : Bool) (s : State) (op : OpCode) :
    match pricePhase P d s op with
    | .ok _ => True
    | .error (s1, _) => s1.pc = s.pc := by
  by_cases hp : s.pc > s.nopay ∨ s.pc = 0 ∨ d = true
  · cases hc : calculateGasAndSize P op s.statedb s.mem s.stack with
    | error e => simp [pricePhase, hp, hc]
    | ok v =>
      obtain ⟨nm, cost, db⟩ := v
      cases hcs : s.csegment <;> cases hu : UseGas s.Gas cost <;>
        simp [pricePhase, hp, hc, hcs, hu, State.setSegment]
  · simp [pricePhase, hp]

theorem step_end_pc (P : Params) (env : Environment) (ctx : Context) (input : List Nat)
    (d : Bool) (t t1 : State)
    (h : (∃ ret, step P env ctx input d t = .done t1 ret) ∨
      ∃ e, step P env ctx input d t = .fail t1 e) : t1.pc = t.pc := by
  have f1 := segmentPhase_frame d t (GetOp ctx.Code t.pc)
  have g1 := segmentPhase_error_pc d t (GetOp ctx.Code t.pc)
  unfold step at h
  simp only at h
  cases h1 : segmentPhase d t (GetOp ctx.Code t.pc) with
  | error v =>
    obtain ⟨s1, e1⟩ := v
    rw [h1] at h g1
    simp only at h g1
    rcases h with ⟨ret, h⟩ | ⟨e, h⟩
    · cases h
    · cases h
      exact g1
  | ok s1 =>
    rw [h1] at h f1
    simp only at h f1
    have f2 := pricePhase_frame P d { s1 with ppc := s1.pc } (GetOp ctx.Code t.pc)
    have g2 := pricePhase_error_pc P d { s1 with ppc := s1.pc } (GetOp ctx.Code t.pc)
    cases h2 : pricePhase P d { s1 with ppc := s1.pc } (GetOp ctx.Code t.pc) with
    | error v =>
      obtain ⟨s3, e3⟩ := v
      rw [h2] at h g2
      simp only at h g2
      rcases h with ⟨ret, h⟩ | ⟨e, h⟩
      · cases h
      · cases h
        exact g2.trans f1.2.1
    | ok s3 =>
      rw [h2] at h f2
      simp only at h f2
      cases h3 : execOp P env ctx input s3 (GetOp ctx.Code t.pc) with
      | error e =>
        rw [h3] at h
        simp only at h
        rcases h with ⟨ret, h⟩ | ⟨e, h⟩
        · cases h
        · cases h
          exact f2.2.trans f1.2.1
      | ok r =>
        rw [h3] at h
        simp only at h
        cases r with
        | advance s4 => rcases h with ⟨_, h⟩ | ⟨_, h⟩ <;> cases h
        | jumped s4 => rcases h with ⟨_, h⟩ | ⟨_, h⟩ <;> cases h
        | returned s4 ret =>
          rcases h with ⟨_, h⟩ | ⟨_, h⟩
          · cases h
            exact (execOp_returned_pc P env ctx input s3 _ _ _ h3).trans (f2.2.trans f1.2.1)
          · cases h

theorem trace_snoc (P : Params) (env : Environment) (ctx : Context) (input : List Nat)
    (d : Bool) (n : Nat) : ∀ (s t : State), steps P env ctx input d n s = some t →
    trace P env ctx input d (n + 1) s = trace P env ctx input d n s ++ [pricedAt P ctx t] := by
  induction n with
  | zero =>
    intro s t h
    simp only [steps, Option.some.injEq] at h
    subst h
    simp only [trace]
    cases step P env ctx input d s <;> rfl
  | succ n ih =>
    intro s t h
    simp only [steps] at h
    cases hst : step P env ctx input d s with
    | next s1 =>
      rw [hst] at h
      have e1 : trace P env ctx input d (n + 1 + 1) s
          = pricedAt P ctx s :: trace P env ctx input d (n + 1) s1 := by
        simp only [trace, hst]
      have e2 : trace P env ctx input d (n + 1) s
          = pricedAt P ctx s :: trace P env ctx input d n s1 := by
        simp only [trace, hst]
      rw [e1, e2, ih s1 t h]
      rfl
    | done s1 r => rw [hst] at h; cases h
    | fail s1 e => rw [hst] at h; cases h

theorem totalCost_append (a b : List Priced) :
    totalCost (a ++ b) = totalCost a + totalCost b := by
  simp [totalCost, List.map_append, List.sum_append]

theorem Kept_steps (P : Params) (env : Environment) (ctx : Context) (input : List Nat)
    (S : segment) (m : Nat) (hS : Straight ctx.Code S m) (j : Nat) :
    ∀ (u v : State), Kept ctx.Code S m u → steps P env ctx input false j u = some v →
    Kept ctx.Code S m v := by
  induction j with
  | zero =>
    intro u v hk h
    simp only [steps, Option.some.injEq] at h
    subst h
    exact hk
  | succ j ih =>
    intro u v hk h
    simp only [steps] at h
    cases hst : step P env ctx input false u with
    | next u1 =>
      rw [hst] at h
      exact ih u1 v ((Kept_step P env ctx input S m u hS hk).2 u1 hst) h
    | done s1 r => rw [hst] at h; cases h
    | fail s1 e => rw [hst] at h; cases h

theorem Kept_loop (P : Params) (env : Environment) (ctx : Context) (input : List Nat)
    (S : segment) (m : Nat) (hS : Straight ctx.Code S m) (fuel : Nat) :
    ∀ (u : State) (r : Step), Kept ctx.Code S m u → loop P env ctx input false fuel u = some r →
    KeptEnd S r.state := by
  induction fuel with
  | zero =>
    intro u r _ h
    simp only [loop] at h
    cases h
  | succ fuel ih =>
    intro u r hk h
    have hks := Kept_step P env ctx input S m u hS hk
    simp only [loop] at h
    cases hst : step P env ctx input false u with
    | next u1 =>
      rw [hst] at h
      exact ih u1 r (hks.2 u1 hst) h
    | done s1 ret =>
      rw [hst] at h hks
      simp only [Option.some.injEq] at h
      rw [← h]
      exact hks.1
    | fail s1 e =>
      rw [hst] at h hks
      simp only [Option.some.injEq] at h
      rw [← h]
      exact hks.1

theorem epilogue_KeptEnd (S : segment) (s : State) (err : Option VmError)
    (hk : KeptEnd S s) (h0 : S.cend ≠ 0) :
    (epilogue false s err).csegments S.cstart = some S := by
  obtain ⟨hmap, -, hmode⟩ := hk
  rcases hmode with hcs | ⟨cseg, hcs, hne⟩ | hcs
  · cases err <;> simp [epilogue, hcs, hmap]
  · have hne2 : S.cstart ≠ cseg.cstart := Ne.symm hne
    by_cases hce : cseg.cend = 0 <;> cases err <;>
      simp [epilogue, hcs, hmap, hce, hne2, State.setSegment]
  · cases err <;> simp [epilogue, hcs, hmap, h0]

theorem finish_KeptEnd (S : segment) (r : Step) (hk : KeptEnd S r.state) (h0 : S.cend ≠ 0) :
    (finish false r).state.csegments S.cstart = some S := by
  cases r with
  | next s => exact hk.1
  | done s ret => exact epilogue_KeptEnd S s none hk h0
  | fail s e =>
    cases e <;> first
      | exact epilogue_KeptEnd S s none hk h0
      | exact epilogue_KeptEnd S s (some _) hk h0

theorem open_from_start (P : Params) (env : Environment) (ctx : Context) (input : List Nat)
    (n : Nat) (s t : State) (hc : s.csegment = none) (hpc : s.pc ≠ 0)
    (hm : s.csegments s.pc = none)
    (hnd : ∀ k, k < n + 1 → isDynamic (GetOp ctx.Code (opStartFrom ctx.Code s.pc k)) = false)
    (hsteps : steps P env ctx input false (n + 1) s = some t) :
    t.csegment = some ⟨s.pc, 0, 0, totalCost (trace P env ctx input false (n + 1) s),
      s.stack.length⟩ ∧
    t.csegments s.pc = t.csegment ∧
    (∀ k, k ≠ s.pc → t.csegments k = s.csegments k) ∧
    t.nopay = 0 ∧ t.pc ≠ 0 ∧ t.pc = opStartFrom ctx.Code s.pc (n + 1) ∧
    t.ppc = opStartFrom ctx.Code s.pc n ∧
    (trace P env ctx input false (n + 1) s).map (fun x => x.pc)
      = (List.range (n + 1)).map (opStartFrom ctx.Code s.pc) := by
  simp only [steps] at hsteps
  cases hst : step P env ctx input false s with
  | done s1 r => rw [hst] at hsteps; cases hsteps
  | fail s1 e => rw [hst] at hsteps; cases hsteps
  | next s1 =>
    rw [hst] at hsteps
    simp only at hsteps
    have hd0 : isDynamic (GetOp ctx.Code s.pc) = false := hnd 0 (Nat.succ_pos n)
    obtain ⟨a1, a2, a3, a4⟩ := open_iter P env ctx input s ⟨s.pc, 0, 0, 0, s.stack.length⟩
      hd0 hpc (Or.inl ⟨hc, hm, rfl⟩) s1 (Or.inl hst)
    obtain ⟨n1, n2⟩ := nondynamic_next P env ctx input false s s1 hd0 hst
    have hs1pc : s1.pc ≠ 0 := by
      have := opStartFrom_ge ctx.Code s.pc 1
      have e : opStartFrom ctx.Code s.pc 1 = nextOp ctx.Code s.pc := rfl
      omega
    have hnd1 : ∀ k, k < n →
        isDynamic (GetOp ctx.Code (opStartFrom ctx.Code s1.pc k)) = false := by
      intro k hk
      rw [n1, opStartFrom_next]
      exact hnd (k + 1) (by omega)
    obtain ⟨b1, b2, b3, b4, b5, b6, b7, b8⟩ := open_steps P env ctx input n s1 t
      { (⟨s.pc, 0, 0, 0, s.stack.length⟩ : segment) with
        gas := (0 : Int) + (pricedAt P ctx s).cost } a1 a2 a4 hs1pc hnd1 hsteps
    have etr : trace P env ctx input false (n + 1) s
        = pricedAt P ctx s :: trace P env ctx input false n s1 := by
      simp only [trace, hst]
    have ecost : totalCost (trace P env ctx input false (n + 1) s)
        = (0 : Int) + (pricedAt P ctx s).cost + totalCost (trace P env ctx input false n s1) := by
      rw [etr]
      simp [totalCost]
    refine ⟨?_, b2, fun k hk => (b3 k hk).trans (a3 k hk), b4, b5, ?_, ?_, ?_⟩
    · rw [b1, ecost]
    · rw [b6, n1, opStartFrom_next]
    · cases n with
      | zero =>
        simp only [steps, Option.some.injEq] at hsteps
        rw [← hsteps, n2]
        rfl
      | succ m =>
        rw [b7 m rfl, n1, opStartFrom_next]
    · rw [etr, List.map_cons, b8, List.range_succ_eq_map, List.map_cons, List.map_map]
      congr 1
      apply List.map_congr_left
      intro k _
      rw [n1]
      exact opStartFrom_next ctx.Code s.pc k

end Vm

namespace Vm
open OpCode

theorem epilogue_close_open (P : Params) (env : Environment) (ctx : Context)
    (input : List Nat) (t : State) (cseg : segment)
    (hd : isDynamic (GetOp ctx.Code t.pc) = false) (hpc : t.pc ≠ 0)
    (hmode : (t.csegment = none ∧ t.csegments t.pc = none ∧
        cseg = ⟨t.pc, 0, 0, 0, t.stack.length⟩) ∨
      (t.csegment = some cseg ∧ t.csegments cseg.cstart = some cseg ∧ t.nopay = 0))
    (hce : cseg.cend = 0) (r : Step) (hr : step P env ctx input false t = r)
    (hout : (∃ t1 ret, r = .done t1 ret) ∨ ∃ t1, r = .fail t1 .Panic) :
    (finish false r).state.csegments cseg.cstart
      = some ⟨cseg.cstart, t.pc, cseg.next, cseg.gas + (pricedAt P ctx t).cost,
          closeSsize r.state.stack.length cseg.ssize⟩ := by
  have hfin : (finish false r).state = epilogue false r.state none := by
    rcases hout with ⟨t1, ret, h⟩ | ⟨t1, h⟩ <;> rw [h] <;> rfl
  have hout2 : step P env ctx input false t = .next r.state ∨
      (∃ ret, step P env ctx input false t = .done r.state ret) ∨
      step P env ctx input false t = .fail r.state .Panic := by
    rcases hout with ⟨t1, ret, h⟩ | ⟨t1, h⟩
    · exact Or.inr (Or.inl ⟨ret, by rw [hr, h]; rfl⟩)
    · exact Or.inr (Or.inr (by rw [hr, h]; rfl))
  have hpcr : r.state.pc = t.pc := by
    apply step_end_pc P env ctx input false t r.state
    rcases hout with ⟨t1, ret, h⟩ | ⟨t1, h⟩
    · exact Or.inl ⟨ret, by rw [hr, h]; rfl⟩
    · exact Or.inr ⟨_, by rw [hr, h]; rfl⟩
  obtain ⟨a1, -, -, -⟩ := open_iter P env ctx input t cseg hd hpc hmode r.state hout2
  have h := (epilogue_closes r.state
    { cseg with gas := cseg.gas + (pricedAt P ctx t).cost } a1 hce).1
  rw [hfin, hpcr] at *
  exact h

/-- C35: a segment opened in state `s` (no current segment, `pc ≠ 0`, nothing
recorded at `pc`) while the loop runs `n` opcodes that are not dynamic and
reaches `t`. The opcodes priced on the way are those at the `n` consecutive
instruction offsets from `s.pc`. If the opcode at `t` is dynamic it closes the
segment: the entry at key `s.pc` is `S` with `cstart = s.pc`, `cend` the offset
of the last of the `n` opcodes, and `gas` the sum of the costs
`calculateGasAndSize` returned for exactly these `n` opcodes; when every entry
of the map of `s` is stored under its `cstart`, the entry is still `S` in every
later state of the run and in the map `Run` leaves, so nothing else is added.
If the opcode at `t` is not dynamic and the run ends there (return, or a
recovered panic), the deferred function closes the segment with `cend = t.pc`
and `gas` the sum of the costs of the `n + 1` opcodes; the stack depth it reads
is the one the opcode left, after a panic the depth left by the pops made
before it. -/
theorem segment_gas_is_sum_of_costs (P : Params) (env : Environment) (ctx : Context)
    (input : List Nat) (s t : State) (n : Nat)
    (hc : s.csegment = none) (hpc : s.pc ≠ 0) (hm : s.csegments s.pc = none)
    (hnd : ∀ k, k < n → isDynamic (GetOp ctx.Code (opStartFrom ctx.Code s.pc k)) = false)
    (hsteps : steps P env ctx input false n s = some t) :
    (trace P env ctx input false n s).map (fun x => x.pc)
        = (List.range n).map (opStartFrom ctx.Code s.pc) ∧
    t.pc = opStartFrom ctx.Code s.pc n ∧
    (0 < n → isDynamic (GetOp ctx.Code t.pc) = true →
      t.ppc = opStartFrom ctx.Code s.pc (n - 1) ∧
      ∀ S : segment, S = ⟨s.pc, t.ppc, t.pc, totalCost (trace P env ctx input false n s),
          closeSsize t.stack.length s.stack.length⟩ →
        (step P env ctx input false t).state.csegments s.pc = some S ∧
        ((∀ k seg, s.csegments k = some seg → seg.cstart = k) →
          (∀ j u, steps P env ctx input false (j + 1) t = some u →
            u.csegments s.pc = some S) ∧
          (∀ fuel r, loop P env ctx input false fuel t = some r →
            (finish false r).state.csegments s.pc = some S))) ∧
    (isDynamic (GetOp ctx.Code t.pc) = false → ∀ r, step P env ctx input false t = r →
      ((∃ t1 ret, r = .done t1 ret) ∨ ∃ t1, r = .fail t1 .Panic) →
      (finish false r).state.csegments s.pc
        = some ⟨s.pc, t.pc, 0, totalCost (trace P env ctx input false (n + 1) s),
            closeSsize r.state.stack.length s.stack.length⟩) := by
  have hsnoc := trace_snoc P env ctx input false n s t hsteps
  cases n with
  | zero =>
    simp only [steps, Option.some.injEq] at hsteps
    subst hsteps
    refine ⟨rfl, rfl, fun h => absurd h (lt_irrefl 0), fun hd r hr hout => ?_⟩
    have h := epilogue_close_open P env ctx input s ⟨s.pc, 0, 0, 0, s.stack.length⟩ hd hpc
      (Or.inl ⟨hc, hm, rfl⟩) rfl r hr hout
    rw [hsnoc, totalCost_append]
    simp only [trace, totalCost, List.map_nil, List.sum_nil, List.map_cons, List.sum_cons,
      add_zero]
    exact h
  | succ m =>
    obtain ⟨o1, o2, o3, o4, o5, o6, o7, o8⟩ :=
      open_from_start P env ctx input m s t hc hpc hm hnd hsteps
    refine ⟨o8, o6, fun _ hd => ⟨o7, ?_⟩, fun hd r hr hout => ?_⟩
    · intro S hS
      obtain ⟨c1, c2, c3⟩ := close_step P env ctx input t _ hd o1 rfl
      have c1S : (step P env ctx input false t).state.csegments s.pc = some S := by
        rw [hS]
        exact c1
      refine ⟨c1S, fun hkey => ?_⟩
      have hstr : Straight ctx.Code S m := by
        refine ⟨?_, ?_, fun k hk => ?_, ?_⟩
        · rw [hS]; exact hpc
        · rw [hS]; exact o7
        · rw [hS]; exact hnd k (by omega)
        · rw [hS]
          show isDynamic (GetOp ctx.Code (opStartFrom ctx.Code s.pc (m + 1))) = true
          rw [← o6]
          exact hd
      have hS1 : S.cstart = s.pc := by rw [hS]
      have hend0 : S.cend ≠ 0 := (Straight_facts ctx.Code S m hstr).1
      have hkey2 : ∀ k seg, (step P env ctx input false t).state.csegments k = some seg →
          seg.cstart = k := by
        intro k seg hks
        by_cases hk2 : k = s.pc
        · rw [hk2, c1S] at hks
          cases hks
          rw [hS1, hk2]
        · rw [c3 k hk2, o3 k hk2] at hks
          exact hkey k seg hks
      have hke : KeptEnd S (step P env ctx input false t).state :=
        ⟨by rw [hS1]; exact c1S, hkey2, Or.inl c2⟩
      have hkn : ∀ u1, step P env ctx input false t = .next u1 → Kept ctx.Code S m u1 := by
        intro u1 hu1
        have c2n := c2
        rw [hu1] at hke c2n
        exact ⟨hke.1, hke.2.1, Or.inl c2n⟩
      constructor
      · intro j u hu
        simp only [steps] at hu
        cases hst : step P env ctx input false t with
        | next u1 =>
          rw [hst] at hu
          have hk := Kept_steps P env ctx input S m hstr j u1 u (hkn u1 hst) hu
          rw [← hS1]
          exact hk.1
        | done s1 ret => rw [hst] at hu; cases hu
        | fail s1 e => rw [hst] at hu; cases hu
      · intro fuel r hr
        rw [← hS1]
        apply finish_KeptEnd S r _ hend0
        cases fuel with
        | zero =>
          simp only [loop] at hr
          cases hr
        | succ fuel =>
          simp only [loop] at hr
          cases hst : step P env ctx input false t with
          | next u1 =>
            rw [hst] at hr
            exact Kept_loop P env ctx input S m hstr fuel u1 r (hkn u1 hst) hr
          | done s1 ret =>
            rw [hst] at hr hke
            simp only [Option.some.injEq] at hr
            rw [← hr]
            exact hke
          | fail s1 e =>
            rw [hst] at hr hke
            simp only [Option.some.injEq] at hr
            rw [← hr]
            exact hke
    · have h := epilogue_close_open P env ctx input t
        ⟨s.pc, 0, 0, totalCost (trace P env ctx input false (m + 1) s), s.stack.length⟩ hd o5
        (Or.inr ⟨o1, o2.trans o1, o4⟩) rfl r hr hout
      rw [hsnoc, totalCost_append]
      have e1 : totalCost [pricedAt P ctx t] = (pricedAt P ctx t).cost := by
        simp [totalCost]
      rw [e1]
      exact h

/-- C35 (example): `gasProgram` (`JUMPDEST; GAS; PUSH1 0; SSTORE; STOP`) from
the state after JUMPDEST: a segment is opened at offset 1, GAS (cost 2) and
PUSH1 (cost 3) are priced, SSTORE at offset 4 closes it. The recorded segment
is `(cstart 1, cend 2, next 4, gas 5, ssize 0)` and stays so until `Run`
returns. `wrapProgram` from the state after its first PUSH1 (gas `2^110 - 3`):
a segment is opened at offset 2 with depth 1, PUSH8 and MSTORE8 are priced,
MSTORE8 at offset 11 pops its two operands and panics, and the segment is
closed at offset 11 with the sum of the two costs and `ssize = 1`. -/
theorem segment_gas_is_sum_of_costs_witness :
    (∃ t, steps params idleEnv (frame gasProgram) [] false 2
        ⟨1, 0, 0, [], [], 99999, emptyDB, none, noSegments⟩ = some t ∧
      t.pc = 4 ∧ t.ppc = 2 ∧
      trace params idleEnv (frame gasProgram) [] false 2
        ⟨1, 0, 0, [], [], 99999, emptyDB, none, noSegments⟩
        = [⟨1, GAS, 0, 2⟩, ⟨2, PUSH 0, 1, 3⟩] ∧
      (∀ fuel r, loop params idleEnv (frame gasProgram) [] false fuel t = some r →
        (finish false r).state.csegments 1 = some ⟨1, 2, 4, 5, 0⟩) ∧
      (Run params idleEnv (frame gasProgram) [] false 10 100000 emptyDB noSegments).map
        (fun r => (r.err, r.state.csegments 1, r.state.csegments 5))
        = some (none, some ⟨1, 2, 4, 5, 0⟩, some ⟨5, 5, 0, 0, 0⟩)) ∧
    (∃ t r, steps params idleEnv (frame wrapProgram) [] false 1
        ⟨2, 0, 0, [1], [], 1298074214633706907132624082305021, emptyDB, none, noSegments⟩
        = some t ∧
      step params idleEnv (frame wrapProgram) [] false t = r ∧
      r = .fail r.state .Panic ∧ t.pc = 11 ∧ t.stack = [18446744073709551615, 1] ∧
      r.state.stack = [] ∧
      totalCost (trace params idleEnv (frame wrapProgram) [] false 2
        ⟨2, 0, 0, [1], [], 1298074214633706907132624082305021, emptyDB, none, noSegments⟩)
        = 649037107316855182948568951422982 ∧
      (finish false r).state.csegments 2
        = some ⟨2, 11, 0, 649037107316855182948568951422982, 1⟩) :=
  ⟨⟨_, rfl, rfl, rfl, rfl,
    ((((segment_gas_is_sum_of_costs params idleEnv (frame gasProgram) []
      ⟨1, 0, 0, [], [], 99999, emptyDB, none, noSegments⟩ _ 2 rfl (by decide) rfl
      (by intro k hk; interval_cases k <;> rfl) rfl).2.2.1 (by decide) rfl).2 _ rfl).2
      (fun k seg h => by cases h)).2,
    rfl⟩,
   ⟨_, _, rfl, rfl, rfl, rfl, rfl, rfl, rfl,
    (segment_gas_is_sum_of_costs params idleEnv (frame wrapProgram) []
      ⟨2, 0, 0, [1], [], 1298074214633706907132624082305021, emptyDB, none, noSegments⟩ _ 1
      rfl (by decide) rfl (by intro k hk; interval_cases k; rfl) rfl).2.2.2 rfl _ rfl
      (Or.inr ⟨_, rfl⟩)⟩⟩

end Vm

namespace Vm
open OpCode

/-! ## DUP and SWAP inside a recorded segment -/

theorem dup_short (st : stack) (n : Nat) (hn : 1 ≤ n) (h : st.length < n) :
    st.dup n = .error .Panic := by
  have hg : st[n - 1]? = none := List.getElem?_eq_none (by omega)
  simp [stack.dup, stack.nth, hg, bind, Except.bind]

theorem swap_short (st : stack) (n : Nat) (hn : 2 ≤ n) (h : st.length < n) :
    st.swap n = .error .Panic := by
  have hg : st[n - 1]? = none := List.getElem?_eq_none (by omega)
  cases h1 : st[0]? with
  | none => simp [stack.swap, stack.nth, h1, bind, Except.bind]
  | some w => simp [stack.swap, stack.nth, h1, hg, bind, Except.bind]

theorem unpriced_panic (P : Params) (env : Environment) (ctx : Context) (input : List Nat)
    (t : State) (hc : t.csegment ≠ none) (hpc : t.pc ≠ 0) (hn : t.pc ≤ t.nopay)
    (hd : isDynamic (GetOp ctx.Code t.pc) = false) (hp : pops (GetOp ctx.Code t.pc) = 0)
    (hex : execOp P env ctx input { t with ppc := t.pc } (GetOp ctx.Code t.pc)
      = .error .Panic) :
    step P env ctx input false t = .fail { t with ppc := t.pc } .Panic ∧
    (finish false (step P env ctx input false t)).err = some .Panic ∧
    (finish false (step P env ctx input false t)).state.Gas = t.Gas := by
  have h3 := (unpriced_step P env ctx input t hc hpc hn hd).2.2
  rw [hex] at h3
  have hpop : State.popped { t with ppc := t.pc } (GetOp ctx.Code t.pc)
      = { t with ppc := t.pc } := by
    simp [State.popped, hp]
  rw [hpop] at h3
  rw [h3]
  exact ⟨rfl, rfl, epilogue_gas_none false _⟩

/-- C19: inside a recorded segment DUPn and SWAPn on a stack that is too
shallow do not fail with a stack error. In a state with a current segment and
`0 < pc ≤ nopay` the opcode is not priced, so `stack.require` is not called:
`stack.dup` or `stack.swap` panics, `Run` returns the error of the recovered
panic and the frame keeps its gas. `dupProgram` run with empty input and 100
gas records the segment `JUMPDEST; DUP1; STOP` at offset 11 with the stack
requirement 0 (depth 1 at the entry, 2 at the close); with the input `01` the
block is entered with an empty stack: with segmentation disabled DUP1 fails
with a stack underflow and no gas is left, with the recorded segment the check
`require(0)` passes, DUP1 panics and 77 gas are left. -/
theorem dup_in_recorded_segment_panics :
    (∀ (P : Params) (env : Environment) (ctx : Context) (input : List Nat) (t : State)
        (i : Fin 16), t.csegment ≠ none → t.pc ≠ 0 → t.pc ≤ t.nopay →
        GetOp ctx.Code t.pc = DUP i → t.stack.length < (i : Nat) + 1 →
        step P env ctx input false t = .fail { t with ppc := t.pc } .Panic ∧
        (finish false (step P env ctx input false t)).err = some .Panic ∧
        (finish false (step P env ctx input false t)).state.Gas = t.Gas) ∧
    (∀ (P : Params) (env : Environment) (ctx : Context) (input : List Nat) (t : State)
        (i : Fin 16), t.csegment ≠ none → t.pc ≠ 0 → t.pc ≤ t.nopay →
        GetOp ctx.Code t.pc = SWAP i → t.stack.length < (i : Nat) + 2 →
        step P env ctx input false t = .fail { t with ppc := t.pc } .Panic ∧
        (finish false (step P env ctx input false t)).err = some .Panic ∧
        (finish false (step P env ctx input false t)).state.Gas = t.Gas) ∧
    ∃ r1 r2 r3,
      Run params idleEnv (frame dupProgram) [] false 20 100 emptyDB noSegments = some r1 ∧
      r1.err = none ∧ r1.state.csegments 11 = some ⟨11, 13, 0, 4, 0⟩ ∧
      Run params idleEnv (frame dupProgram) [1] true 20 100 emptyDB noSegments = some r2 ∧
      r2.err = some .StackUnderflow ∧ r2.state.Gas = 0 ∧
      Run params idleEnv (frame dupProgram) [1] false 20 100 emptyDB r1.state.csegments
        = some r3 ∧
      r3.err = some .Panic ∧ r3.state.Gas = 77 ∧ r3.state.stack = [] := by
  refine ⟨fun P env ctx input t i hc hpc hn hop hlen => ?_,
    fun P env ctx input t i hc hpc hn hop hlen => ?_,
    _, _, _, rfl, rfl, rfl, rfl, rfl, rfl, rfl, rfl, rfl, rfl⟩
  · refine unpriced_panic P env ctx input t hc hpc hn (by rw [hop]; rfl) (by rw [hop]; rfl) ?_
    rw [hop]
    show (stack.dup t.stack ((i : Nat) + 1) >>= fun st => _) = _
    rw [dup_short t.stack _ (by omega) hlen]
    rfl
  · refine unpriced_panic P env ctx input t hc hpc hn (by rw [hop]; rfl) (by rw [hop]; rfl) ?_
    rw [hop]
    show (stack.swap t.stack ((i : Nat) + 2) >>= fun st => _) = _
    rw [swap_short t.stack _ (by omega) hlen]
    rfl

end Vm

namespace Vm
open OpCode

end Vm
